import Mathlib

/-!
# xcc: initializer handling and statement checks of the C parser

A shallow embedding of the parts of `src/cc/parser.c` and `src/cc/var.c` that
deal with initializers (array size fixing, flattening, lowering of local
initializers, constant checks of global initializers) and with `switch`/`case`
bookkeeping, followed by theorems about them.

Conventions of the embedding.
* A C pointer to a node is the node itself; a pointer that the code tests
  against `NULL` is an `Option`, apart from `Initializer *`, whose `NULL` is the
  constructor `Initializer.null`.
* `ssize_t`, `int` and `Fixnum` values are `Int` (signed overflow is undefined
  in C and is not modelled); `size_t` values are `Nat` below `2 ^ 64` and every
  `size_t` operation is reduced modulo `2 ^ 64`.
* The process-wide globals of the parser are fields of `ParseState`; a function
  that can call `parse_error`, `parse_error_nofatal` or fail an `assert` returns
  a `Result`.
* Tokens are kept only where the code inspects them; the text printed to
  `stderr` is the format string of the message.
-/

namespace Xcc

/-! ## Data model -/

/-- Interned identifier. `ident` is a name read from the source text, `label` a
name synthesised by the compiler (`alloc_label`, `alloc_dummy_ident`). -/
inductive Name
  | ident (id : Nat)
  | label (n : Nat)
  deriving DecidableEq, Repr

/-- Width tag of an integer type. -/
inductive FixnumKind
  | FX_CHAR | FX_SHORT | FX_INT | FX_LONG | FX_LLONG | FX_ENUM
  deriving DecidableEq, Repr

/-- Width tag of a floating type. -/
inductive FlonumKind
  | FL_FLOAT | FL_DOUBLE
  deriving DecidableEq, Repr

/-- Kind tag of a type (`type->kind`). -/
inductive TypeKind
  | TY_VOID | TY_FIXNUM | TY_FLONUM | TY_PTR | TY_ARRAY | TY_FUNC | TY_STRUCT
  deriving DecidableEq, Repr

/-- Storage class bit `VS_STATIC`. -/
def VS_STATIC : Nat := 1

/-- Storage class bit `VS_EXTERN`. -/
def VS_EXTERN : Nat := 2

/-- Storage class bit `VS_TYPEDEF`. -/
def VS_TYPEDEF : Nat := 4

/-- The fields of `VarInfo` that the parser reads: name (NULL for an anonymous
member), type and storage bitset. The type is a parameter so that struct
members, which are `VarInfo`s, can occur inside `CType`. -/
structure VarInfoOf (T : Type) where
  name : Option Name
  type : T
  storage : Nat
  label : Option Name := none

/-- The C type `Type`: a tagged variant. An array carries its element type
(`pa.ptrof`) and its length (`pa.length`, `-1` when unsized); a struct carries
the ordered members and the union flag of its `StructInfo`. -/
inductive CType
  | void
  | fixnum (kind : FixnumKind) (is_unsigned : Bool)
  | flonum (kind : FlonumKind)
  | ptr (ptrof : CType)
  | array (ptrof : CType) (length : Int)
  | func (ret : CType) (params : List CType) (vaargs : Bool)
  | struct_ (members : List (VarInfoOf CType)) (is_union : Bool)

/-- A variable or struct member entry. -/
abbrev VarInfo := VarInfoOf CType

/-- The tag `type->kind`. -/
def CType.kind : CType → TypeKind
  | .void => .TY_VOID
  | .fixnum _ _ => .TY_FIXNUM
  | .flonum _ => .TY_FLONUM
  | .ptr _ => .TY_PTR
  | .array _ _ => .TY_ARRAY
  | .func _ _ _ => .TY_FUNC
  | .struct_ _ _ => .TY_STRUCT

/-- The type `char` (`tyChar`). -/
def tyChar : CType := .fixnum .FX_CHAR false

/-- The type `int` (`tyInt`). -/
def tyInt : CType := .fixnum .FX_INT false

/-- The type `size_t` (`tySize`). -/
def tySize : CType := .fixnum .FX_LONG true

/-- The type `bool` (`tyBool`). -/
def tyBool : CType := .fixnum .FX_INT false

/-- Modelled from the spec: `is_char_type` (type.c is not part of the sources):
the type is a `fixnum` of width `char`. -/
def is_char_type : CType → Bool
  | .fixnum .FX_CHAR _ => true
  | _ => false

/-- Modelled from the spec: `ptrof` (type.c is not part of the sources) builds
the pointer type to its argument. -/
def ptrof (t : CType) : CType := .ptr t

/-- Modelled from the spec: `array_to_ptr` (type.c is not part of the sources):
the pointer type an array type decays to. -/
def array_to_ptr : CType → CType
  | .array e _ => .ptr e
  | t => t

/-- A lexical scope: the variable vector (`vars`, possibly NULL) and the parent
scope. `global` is a scope whose `parent` is NULL. -/
inductive Scope
  | global (vars : Option (List VarInfo))
  | nested (parent : Scope) (vars : Option (List VarInfo))

/-- The field `scope->vars`. -/
def Scope.vars : Scope → Option (List VarInfo)
  | .global vs => vs
  | .nested _ vs => vs

/-- The field `scope->parent`. -/
def Scope.parent : Scope → Option Scope
  | .global _ => none
  | .nested p _ => some p

/-- Modelled from the spec: `is_global_scope` (its definition is not part of the
sources): the global scope is the root, the scope without parent. -/
def is_global_scope : Scope → Bool
  | .global _ => true
  | .nested _ _ => false

/-- Kinds of binary expression nodes. -/
inductive BopKind
  | EX_ADD | EX_SUB | EX_MUL | EX_DIV | EX_MOD | EX_BITAND | EX_BITOR | EX_BITXOR
  | EX_LSHIFT | EX_RSHIFT | EX_EQ | EX_NE | EX_LT | EX_LE | EX_GE | EX_GT
  | EX_LOGAND | EX_LOGIOR | EX_ASSIGN | EX_COMMA
  deriving DecidableEq, Repr

/-- Kinds of unary expression nodes. -/
inductive UnaryKind
  | EX_POS | EX_NEG | EX_BITNOT | EX_PREINC | EX_PREDEC | EX_POSTINC | EX_POSTDEC
  | EX_REF | EX_DEREF | EX_CAST | EX_MODIFY
  deriving DecidableEq, Repr

/-- The enumeration `TokenKind`, restricted to the punctuators, the literal
kinds and the identifier. The token of a member access is `TK_DOT` or
`TK_ARROW`. -/
inductive TokenKind
  | TK_EOF | TK_ADD | TK_SUB | TK_MUL | TK_DIV | TK_MOD | TK_AND | TK_OR | TK_HAT
  | TK_LT | TK_GT | TK_NOT | TK_LPAR | TK_RPAR | TK_LBRACE | TK_RBRACE | TK_LBRACKET
  | TK_RBRACKET | TK_ASSIGN | TK_COLON | TK_SEMICOL | TK_COMMA | TK_DOT | TK_QUESTION
  | TK_TILDA | TK_INTLIT | TK_CHARLIT | TK_LONGLIT | TK_LLONGLIT | TK_UINTLIT
  | TK_UCHARLIT | TK_ULONGLIT | TK_ULLONGLIT | TK_STR | TK_IDENT | TK_LSHIFT | TK_RSHIFT
  | TK_EQ | TK_NE | TK_LE | TK_GE | TK_LOGAND | TK_LOGIOR | TK_ARROW
  deriving DecidableEq, Repr

/-- The C type `Expr`: a tagged variant carrying its resolved type.
`str.size` counts the terminating NUL; the token of a member access is NULL for
a node built by the compiler. `other` stands for the remaining kinds
(ternary, function call, compound literal), which the functions below reach
only through a `default:` label. -/
inductive Expr
  | fixnum (type : CType) (fixnum : Int)
  | flonum (type : CType)
  | str (type : CType) (buf : List Nat) (size : Nat)
  | var (type : CType) (name : Name) (scope : Scope)
  | bop (kind : BopKind) (type : CType) (lhs rhs : Expr)
  | unary (kind : UnaryKind) (type : CType) (sub : Expr)
  | member (type : CType) (token : Option TokenKind) (target : Expr) (index : Nat)
  | other (type : CType)

/-- The field `expr->type`. -/
def Expr.type : Expr → CType
  | .fixnum t _ => t
  | .flonum t => t
  | .str t _ _ => t
  | .var t _ _ => t
  | .bop _ t _ _ => t
  | .unary _ t _ => t
  | .member t _ _ _ => t
  | .other t => t

/-- A value of C type `Initializer *`: `null` is the NULL pointer, the other
constructors are the kinds `IK_SINGLE`, `IK_MULTI`, `IK_DOT` and `IK_ARR`. -/
inductive Initializer
  | null
  | single (single : Expr)
  | multi (multi : List Initializer)
  | dot (name : Name) (value : Initializer)
  | arr (index : Expr) (value : Initializer)

/-- The C type `VarDecl`: one declarator of a local declaration. -/
structure VarDecl where
  type : CType
  ident : Name
  init : Initializer
  storage : Nat

/-- The C type `Stmt`, restricted to the kinds built by the functions below. A
`default` label is a case statement whose `case_.value` is NULL; `switch_`
carries the `cases` vector and the `default_` entry collected while its body
was parsed; a `vardecl` without initialising statements has `inits` empty. -/
inductive Stmt
  | expr (e : Expr)
  | block (stmts : List Stmt)
  | for_ (pre cond post : Option Expr) (body : Stmt)
  | case_ (value : Option Expr)
  | other
  | if_ (cond : Expr) (tblock : Stmt) (fblock : Option Stmt)
  | switch_ (value : Expr) (body : Stmt) (cases : List Stmt) (default_ : Option Stmt)
  | while_ (cond : Expr) (body : Stmt)
  | do_while (body : Stmt) (cond : Expr)
  | break_
  | continue_
  | goto_ (label : Name)
  | label (name : Name) (stmt : Stmt)
  | return_ (val : Option Expr)
  | vardecl (decls : List VarDecl) (inits : List Stmt)

/-- The `switch` statement under construction: `switch_.cases` and
`switch_.default_`. -/
structure SwitchInfo where
  cases : List Stmt
  default_ : Option Stmt

/-- The C type `Function`, restricted to the fields the parser writes while the
body is read: the scopes opened inside the function in the order of their
creation (each as it was when created), the label table (NULL until the first
label), the vector of `goto` statements (NULL until the first `goto`) and the
statements of the body (NULL until the body has been read). -/
structure Function where
  name : Name
  type : CType
  scopes : List Scope
  label_table : Option (List Name)
  gotos : Option (List Stmt)
  stmts : Option (List Stmt)

/-- The process-wide state of the parser. `errors` is the list of messages
written to `stderr`, oldest first; `label_count` is the counter behind
`alloc_label`. `curfunc` is the function whose body is being read (NULL at
top level). `typedefs` holds the typedef table of every scope on the chain from
`curscope` to the global scope, the table of `curscope` first. `defined_funcs`
lists the global functions whose `global.func` is set. -/
structure ParseState where
  compile_error_count : Nat
  errors : List String
  curscope : Scope
  curswitch : Option SwitchInfo
  curloopflag : Nat
  label_count : Nat
  gvar_table : List (Name × VarInfo)
  curfunc : Option Function
  typedefs : List (List (Name × CType))
  defined_funcs : List Name

/-- The state of a fresh process: no error, an empty global scope, no open
`switch` or loop, no current function. -/
def init_state : ParseState :=
  { compile_error_count := 0, errors := [], curscope := .global none, curswitch := none,
    curloopflag := 0, label_count := 0, gvar_table := [], curfunc := none,
    typedefs := [[]], defined_funcs := [] }

/-- Outcome of a parser function: normal return with a value and the new state,
`exit(status)` with the state at that moment, or `abort` for a failed `assert`
and for an access through NULL or outside a vector. -/
inductive Result (α : Type)
  | ok (val : α) (st : ParseState)
  | exit (status : Nat) (st : ParseState)
  | abort

/-- The state after a message has been printed and counted. -/
def ParseState.record (st : ParseState) (fmt : String) : ParseState :=
  { st with errors := st.errors ++ [fmt], compile_error_count := st.compile_error_count + 1 }

/-- The constant `MAX_ERROR_COUNT`. -/
def MAX_ERROR_COUNT : Nat := 25

/-- The function `parse_error_nofatal`: print the message, count it, and
`exit(1)` when the count has reached `MAX_ERROR_COUNT`. -/
def parse_error_nofatal (st : ParseState) (fmt : String) : Result Unit :=
  let st1 := { st with errors := st.errors ++ [fmt] }
  let st2 := { st1 with compile_error_count := st1.compile_error_count + 1 }
  if st2.compile_error_count ≥ MAX_ERROR_COUNT then .exit 1 st2 else .ok () st2

/-- The function `parse_error`: count the error, print the message and
`exit(1)`. -/
def parse_error {α : Type} (st : ParseState) (fmt : String) : Result α :=
  let st1 := { st with compile_error_count := st.compile_error_count + 1 }
  let st2 := { st1 with errors := st1.errors ++ [fmt] }
  .exit 1 st2

/-! ## Variables and scopes (var.c, add_var_to_scope) -/

/-- Modelled from the spec: `alloc_label` (lexer.c is not part of the sources)
returns a synthesised name and advances the label counter. -/
def alloc_label (st : ParseState) : Name × ParseState :=
  (.label st.label_count, { st with label_count := st.label_count + 1 })

/-- Modelled from the spec: `alloc_dummy_ident` (lexer.c is not part of the
sources) returns an identifier token whose name is a fresh label. -/
def alloc_dummy_ident (st : ParseState) : Name × ParseState := alloc_label st

/-- The loop of `var_find` with the running index `i`. -/
def var_find_from : List VarInfo → Name → Int → Int
  | [], _, _ => -1
  | info :: rest, name, i =>
    if info.name = some name then i else var_find_from rest name (i + 1)

/-- The function `var_find`: index of the first entry with the name, or -1. -/
def var_find (vars : List VarInfo) (name : Name) : Int := var_find_from vars name 0

/-- Modelled from the spec: `table_get` on the global variable table (table.c
is not part of the sources): the entry stored under the name. -/
def table_get (table : List (Name × VarInfo)) (name : Name) : Option VarInfo :=
  match table with
  | [] => none
  | (k, v) :: rest => if k = name then some v else table_get rest name

/-- Modelled from the spec: `table_put` on the global variable table (table.c
is not part of the sources): replace the entry of the name, or add one. -/
def table_put (table : List (Name × VarInfo)) (name : Name) (v : VarInfo) :
    List (Name × VarInfo) :=
  match table with
  | [] => [(name, v)]
  | (k, w) :: rest => if k = name then (k, v) :: rest else (k, w) :: table_put rest name v

/-- The function `find_global`. -/
def find_global (st : ParseState) (name : Name) : Option VarInfo :=
  table_get st.gvar_table name

/-- The function `define_global`, called with the name already resolved
(`ident->ident` when `name` is NULL). -/
def define_global (type : CType) (flag : Nat) (name : Name) (st : ParseState) :
    Result VarInfo :=
  let fresh : VarInfo := { name := some name, type := type, storage := flag }
  match find_global st name with
  | some varinfo =>
    if varinfo.storage &&& VS_EXTERN = 0 then
      if flag &&& VS_EXTERN = 0 then parse_error st "`%.*s' already defined"
      else .ok varinfo st
    else .ok fresh { st with gvar_table := table_put st.gvar_table name fresh }
  | none => .ok fresh { st with gvar_table := table_put st.gvar_table name fresh }

/-- The function `var_add`: returns the entry (the global one for a static
variable) and the vector after the push. -/
def var_add (vars : List VarInfo) (name : Option Name) (type : CType) (flag : Nat)
    (st : ParseState) : Result (VarInfo × List VarInfo) :=
  match name with
  | none =>
    let info : VarInfo := { name := none, type := type, storage := flag }
    .ok (info, vars ++ [info]) st
  | some nm =>
    if var_find vars nm ≥ 0 then parse_error st "`%.*s' already defined"
    else if flag &&& VS_STATIC ≠ 0 then
      let (label, st1) := alloc_label st
      match define_global type flag label st1 with
      | .ok ginfo st2 =>
        let info : VarInfo := { name := some nm, type := type, storage := flag, label := some label }
        .ok (ginfo, vars ++ [info]) st2
      | .exit c st2 => .exit c st2
      | .abort => .abort
    else
      let info : VarInfo := { name := some nm, type := type, storage := flag }
      .ok (info, vars ++ [info]) st

/-- The scope with its variable vector replaced. -/
def Scope.set_vars : Scope → List VarInfo → Scope
  | .global _, vs => .global (some vs)
  | .nested p _, vs => .nested p (some vs)

/-- The function `scope_add`: returns the entry and the scope after the
addition. -/
def scope_add (scope : Scope) (name : Name) (type : CType) (flag : Nat) (st : ParseState) :
    Result (VarInfo × Scope) :=
  let vars := match scope.vars with
    | some vs => vs
    | none => []
  match var_add vars (some name) type flag st with
  | .ok (info, vars1) st1 => .ok (info, scope.set_vars vars1) st1
  | .exit c st1 => .exit c st1
  | .abort => .abort

/-- The function `add_var_to_scope`: returns the entry and the scope after the
call. -/
def add_var_to_scope (scope : Scope) (name : Name) (type : CType) (storage : Nat)
    (st : ParseState) : Result (VarInfo × Scope) :=
  let found : Option VarInfo :=
    match scope.vars with
    | some vars =>
      let idx := var_find vars name
      if idx ≥ 0 then
        match vars.get? idx.toNat with
        | some varinfo =>
          if ¬ (varinfo.storage &&& VS_EXTERN ≠ 0 ∨ storage &&& VS_EXTERN ≠ 0) then some varinfo
          else none
        | none => none
      else none
    | none => none
  match found with
  | some varinfo =>
    match parse_error_nofatal st "`%.*s' already defined" with
    | .ok _ st1 => .ok (varinfo, scope) st1
    | .exit c st1 => .exit c st1
    | .abort => .abort
  | none => scope_add scope name type storage st

/-- The function `scope_find`: the entry found and the scope stored in
`*pscope`, both NULL when no scope of the chain has the name. -/
def scope_find : Scope → Name → Option VarInfo × Option Scope
  | .global vars, name =>
    match vars with
    | some vs =>
      if var_find vs name ≥ 0 then (vs.get? (var_find vs name).toNat, some (.global vars))
      else (none, none)
    | none => (none, none)
  | .nested parent vars, name =>
    match vars with
    | some vs =>
      if var_find vs name ≥ 0 then
        (vs.get? (var_find vs name).toNat, some (.nested parent vars))
      else scope_find parent name
    | none => scope_find parent name

/-! ## fix_array_size -/

/-- The value of an `ssize_t` after an operation: the result wraps to 64 bits in
two's complement. -/
def wrap_ssize (x : Int) : Int :=
  (x + 2 ^ 63) % 2 ^ 64 - 2 ^ 63

/-- The loop of `fix_array_size` over `init->multi`: returns `max_index`, or
`none` when an element is NULL or the `assert` on a designator fails. The
variable `index` is an `ssize_t`, and `++index` wraps at its greatest value. -/
def fix_array_size_loop : List Initializer → Int → Int → Option Int
  | [], _, max_index => some max_index
  | init_elem :: rest, index, max_index =>
    match init_elem with
    | .null => none
    | .arr (.fixnum _ v) _ =>
      let index := wrap_ssize (v + 1)
      fix_array_size_loop rest index (if max_index < index then index else max_index)
    | .arr _ _ => none
    | _ =>
      let index := wrap_ssize (index + 1)
      fix_array_size_loop rest index (if max_index < index then index else max_index)

/-- The tag test `init->kind == IK_MULTI`. -/
def Initializer.is_multi : Initializer → Bool
  | .multi _ => true
  | _ => false

/-- The test `init->kind == IK_SINGLE && init->single->kind == EX_STR`. -/
def Initializer.is_single_str : Initializer → Bool
  | .single (.str _ _ _) => true
  | _ => false

/-- The field `init->single->str.size` (read only when `is_single_str`). -/
def Initializer.str_size : Initializer → Nat
  | .single (.str _ _ size) => size
  | _ => 0

/-- The vector `init->multi` (read only when `is_multi`). -/
def Initializer.multi_data : Initializer → List Initializer
  | .multi l => l
  | _ => []

/-- The function `fix_array_size`. The two leading `assert`s are the `abort`
cases; `clone_type` followed by the assignment of `pa.length` is the array type
with the new length. -/
def fix_array_size (type : CType) (init : Initializer) (st : ParseState) : Result CType :=
  match init, type with
  | .null, _ => .abort
  | _, .array elem length =>
    let is_str := is_char_type elem && init.is_single_str
    if !is_str && !init.is_multi then .ok type st
    else
      let arr_len := length
      if arr_len = -1 then
        if is_str then .ok (.array elem (init.str_size : Int)) st
        else
          match fix_array_size_loop init.multi_data 0 0 with
          | some max_index => .ok (.array elem max_index) st
          | none => .abort
      else if ¬ (arr_len > 0) then .abort
      else
        let init_len : Int := if is_str then (init.str_size : Int) else (init.multi_data.length : Int)
        if init_len > arr_len ∧ (!is_str ∨ init_len - 1 > arr_len) then
          parse_error st "Initializer more than array size"
        else .ok type st
  | _, _ => .abort

/-! ## Collaborators outside the sources -/

mutual
/-- Modelled from the spec: `same_type` (type.c is not part of the sources) is
structural equality of types. -/
def same_type : CType → CType → Bool
  | .void, .void => true
  | .fixnum k u, .fixnum k2 u2 => decide (k = k2) && decide (u = u2)
  | .flonum k, .flonum k2 => decide (k = k2)
  | .ptr a, .ptr b => same_type a b
  | .array a n, .array b m => same_type a b && decide (n = m)
  | .func r ps v, .func r2 ps2 v2 => same_type r r2 && same_types ps ps2 && decide (v = v2)
  | .struct_ ms u, .struct_ ms2 u2 => same_members ms ms2 && decide (u = u2)
  | _, _ => false
/-- Structural equality of parameter type lists. -/
def same_types : List CType → List CType → Bool
  | [], [] => true
  | a :: as, b :: bs => same_type a b && same_types as bs
  | _, _ => false
/-- Structural equality of member lists. -/
def same_members : List (VarInfoOf CType) → List (VarInfoOf CType) → Bool
  | [], [] => true
  | ⟨n, t, _, _⟩ :: as, ⟨n2, t2, _, _⟩ :: bs =>
    decide (n = n2) && same_type t t2 && same_members as bs
  | _, _ => false
end

/-- Round `n` up to a multiple of `align`. -/
def align_up (n align : Nat) : Nat := if align = 0 then n else (n + align - 1) / align * align

mutual
/-- Modelled from the spec: alignment by type tag (type.c is not part of the
sources): `char` 1, `short` 2, `int`/`enum` 4, `long`/`long long`/pointer 8,
`float` 4, `double` 8, arrays as their element, structs and unions the maximum
over the members. -/
def align_size : CType → Nat
  | .void => 1
  | .fixnum .FX_CHAR _ => 1
  | .fixnum .FX_SHORT _ => 2
  | .fixnum .FX_INT _ => 4
  | .fixnum .FX_ENUM _ => 4
  | .fixnum .FX_LONG _ => 8
  | .fixnum .FX_LLONG _ => 8
  | .flonum .FL_FLOAT => 4
  | .flonum .FL_DOUBLE => 8
  | .ptr _ => 8
  | .array e _ => align_size e
  | .func _ _ _ => 1
  | .struct_ ms _ => members_align ms
/-- Maximum alignment of the members. -/
def members_align : List (VarInfoOf CType) → Nat
  | [] => 1
  | ⟨_, t, _, _⟩ :: rest => max (align_size t) (members_align rest)
end

mutual
/-- Modelled from the spec: size by type tag (type.c is not part of the
sources): arrays are element size times length; struct members are laid out in
order, each at its offset rounded up to its alignment, and the size is rounded
up to the struct alignment; a union has the size of its largest member. -/
def type_size : CType → Nat
  | .void => 1
  | .fixnum .FX_CHAR _ => 1
  | .fixnum .FX_SHORT _ => 2
  | .fixnum .FX_INT _ => 4
  | .fixnum .FX_ENUM _ => 4
  | .fixnum .FX_LONG _ => 8
  | .fixnum .FX_LLONG _ => 8
  | .flonum .FL_FLOAT => 4
  | .flonum .FL_DOUBLE => 8
  | .ptr _ => 8
  | .array e n => type_size e * n.toNat
  | .func _ _ _ => 1
  | .struct_ ms false => align_up (struct_end ms 0) (members_align ms)
  | .struct_ ms true => align_up (union_max ms) (members_align ms)
/-- End offset of a struct whose members start being laid out at `offset`. -/
def struct_end : List (VarInfoOf CType) → Nat → Nat
  | [], offset => offset
  | ⟨_, t, _, _⟩ :: rest, offset => struct_end rest (align_up offset (align_size t) + type_size t)
/-- Size of the largest member. -/
def union_max : List (VarInfoOf CType) → Nat
  | [] => 0
  | ⟨_, t, _, _⟩ :: rest => max (type_size t) (union_max rest)
end

mutual
/-- Modelled from the spec: `search_from_anonymous` (parser_expr.c is not part
of the sources) looks the name up among the members and, through members
without a name that are structs, among theirs; it returns the chain of member
indices leading to the name, outermost first. -/
def search_from_anonymous : CType → Name → Option (List Int)
  | .struct_ ms _, name => search_members ms name 0
  | _, _ => none
/-- The member loop of `search_from_anonymous` with the running index. -/
def search_members : List (VarInfoOf CType) → Name → Int → Option (List Int)
  | [], _, _ => none
  | ⟨some n, _, _, _⟩ :: rest, name, i =>
    if n = name then some [i] else search_members rest name (i + 1)
  | ⟨none, t, _, _⟩ :: rest, name, i =>
    match search_from_anonymous t name with
    | some stack => some (i :: stack)
    | none => search_members rest name (i + 1)
end

/-- Modelled from the spec: `can_cast(dst, src, zero, is_explicit)` (type.c is
not part of the sources): integer conversions are allowed; pointer and integer
convert only when explicit or when the source is a constant zero; pointers
convert when explicit, when the types agree or when one is `void*`; arrays and
functions decay to pointers. -/
def can_cast (dst src : CType) (zero is_explicit : Bool) : Bool :=
  if same_type dst src then true
  else
    match dst, src with
    | .fixnum _ _, .fixnum _ _ => true
    | .fixnum _ _, .flonum _ => true
    | .flonum _, .fixnum _ _ => true
    | .flonum _, .flonum _ => true
    | .fixnum _ _, .ptr _ => is_explicit
    | .ptr _, .fixnum _ _ => is_explicit || zero
    | .ptr .void, .ptr _ => true
    | .ptr _, .ptr .void => true
    | .ptr _, .ptr _ => is_explicit
    | .ptr d, .array e _ => is_explicit || same_type d e
    | .ptr d, .func r ps v => is_explicit || same_type d (.func r ps v)
    | _, _ => false

/-- Modelled from the spec: `is_zero` (parser_expr.c is not part of the
sources): the expression is the literal 0. -/
def is_zero : Expr → Bool
  | .fixnum _ v => decide (v = 0)
  | _ => false

/-- The functions of parser_expr.c that create hidden variables and cast nodes.
Their definitions are not part of the sources, so they are parameters of the
embedding. Every call in parser.c passes `curscope` as the scope, which the
functions here read from and update in the state; `check_cast` returns whether
the cast is allowed and records its error in the state. -/
structure Env where
  str_to_char_array : CType → Initializer → ParseState → Result VarInfo
  str_to_char_array_var : Expr → ParseState → Result Expr
  make_cast : CType → Expr → Bool → ParseState → Result Expr
  check_cast : CType → CType → Bool → Bool → ParseState → Result Bool

/-- Modelled from the spec: `str_to_char_array` (parser_expr.c is not part of
the sources) promotes a string literal to a hidden static char array with a
synthesised name, added to the current scope. -/
def spec_str_to_char_array (type : CType) (_init : Initializer) (st : ParseState) :
    Result VarInfo :=
  match type with
  | .array elem _ =>
    if is_char_type elem then
      let (ident, st1) := alloc_dummy_ident st
      match add_var_to_scope st1.curscope ident type VS_STATIC st1 with
      | .ok (varinfo, scope) st2 => .ok varinfo { st2 with curscope := scope }
      | .exit c st2 => .exit c st2
      | .abort => .abort
    else .abort
  | _ => .abort

/-- Modelled from the spec: `str_to_char_array_var` (parser_expr.c is not part
of the sources) replaces a string literal by a reference to the hidden char
array holding it and leaves every other expression as it is. -/
def spec_str_to_char_array_var (e : Expr) (st : ParseState) : Result Expr :=
  match e with
  | .str t _ _ =>
    match spec_str_to_char_array t (.single e) st with
    | .ok varinfo st1 =>
      .ok (.var t (match varinfo.name with
        | some n => n
        | none => .label 0) st1.curscope) st1
    | .exit c st1 => .exit c st1
    | .abort => .abort
  | _ => .ok e st

/-- Modelled from the spec: `check_cast` (parser_expr.c is not part of the
sources) records a non-fatal error when `can_cast` refuses the conversion. -/
def spec_check_cast (dst src : CType) (zero is_explicit : Bool) (st : ParseState) :
    Result Bool :=
  if can_cast dst src zero is_explicit then .ok true st
  else
    match parse_error_nofatal st "Cannot convert value from type %d to %d" with
    | .ok _ st1 => .ok false st1
    | .exit c st1 => .exit c st1
    | .abort => .abort

/-- Modelled from the spec: `make_cast` (parser_expr.c is not part of the
sources): a cast between identical types is a no-op, a numeric literal is
retyped, and any other allowed conversion is a cast node. -/
def spec_make_cast (type : CType) (sub : Expr) (is_explicit : Bool) (st : ParseState) :
    Result Expr :=
  if same_type type sub.type then .ok sub st
  else
    match sub, type with
    | .fixnum _ v, .fixnum k u => .ok (.fixnum (.fixnum k u) v) st
    | _, _ =>
      match spec_check_cast type sub.type (is_zero sub) is_explicit st with
      | .ok _ st1 => .ok (.unary .EX_CAST type sub) st1
      | .exit c st1 => .exit c st1
      | .abort => .abort

/-- The collaborators as the spec describes them. -/
def spec_env : Env :=
  { str_to_char_array := spec_str_to_char_array
    str_to_char_array_var := spec_str_to_char_array_var
    make_cast := spec_make_cast
    check_cast := spec_check_cast }

/-! ## build_memcpy and init_char_array_by_string -/

/-- Conversion of a `size_t` value to `Fixnum` (a signed 64-bit integer). -/
def size_to_fixnum (n : Nat) : Int :=
  if n % 2 ^ 64 < 2 ^ 63 then ((n % 2 ^ 64 : Nat) : Int) else ((n % 2 ^ 64 : Nat) : Int) - 2 ^ 64

/-- Conversion of a `Fixnum` or `ssize_t` value to `size_t`. -/
def fixnum_to_size (v : Int) : Nat := (v % 2 ^ 64).toNat

/-- One `add_var_to_scope(curscope, alloc_dummy_ident(), type, 0)`: the new
entry, with `curscope` updated in the state. -/
def add_dummy_var (type : CType) (st : ParseState) : Result VarInfo :=
  let (ident, st1) := alloc_dummy_ident st
  match add_var_to_scope st1.curscope ident type 0 st1 with
  | .ok (varinfo, scope) st2 => .ok varinfo { st2 with curscope := scope }
  | .exit c st2 => .exit c st2
  | .abort => .abort

/-- The name of an entry as `new_expr_variable` receives it. -/
def VarInfoOf.name_or_dummy {T : Type} (v : VarInfoOf T) : Name :=
  match v.name with
  | some n => n
  | none => .label 0

/-- The function `build_memcpy`: the block
`_dst = dst; _src = src; for (_size = size; _size > 0; --_size) *_dst++ = *_src++;`. -/
def build_memcpy (dst src : Expr) (size : Nat) (st : ParseState) : Result Stmt :=
  if is_global_scope st.curscope then .abort
  else
    let charptr_type := ptrof tyChar
    match add_dummy_var charptr_type st with
    | .exit c s1 => .exit c s1
    | .abort => .abort
    | .ok dstvar s1 =>
      match add_dummy_var charptr_type s1 with
      | .exit c s2 => .exit c s2
      | .abort => .abort
      | .ok srcvar s2 =>
        match add_dummy_var tySize s2 with
        | .exit c s3 => .exit c s3
        | .abort => .abort
        | .ok sizevar s3 =>
          let dstexpr := Expr.var dstvar.type dstvar.name_or_dummy s3.curscope
          let srcexpr := Expr.var srcvar.type srcvar.name_or_dummy s3.curscope
          let sizeexpr := Expr.var sizevar.type sizevar.name_or_dummy s3.curscope
          let size_num := Expr.fixnum tySize (size_to_fixnum size)
          let zeroexpr := Expr.fixnum tySize 0
          .ok (.block [
            .expr (.bop .EX_ASSIGN charptr_type dstexpr dst),
            .expr (.bop .EX_ASSIGN charptr_type srcexpr src),
            .for_
              (some (.bop .EX_ASSIGN tySize sizeexpr size_num))
              (some (.bop .EX_GT tyBool sizeexpr zeroexpr))
              (some (.unary .EX_PREDEC tySize sizeexpr))
              (.expr (.bop .EX_ASSIGN tyChar
                (.unary .EX_DEREF tyChar (.unary .EX_POSTINC charptr_type dstexpr))
                (.unary .EX_DEREF tyChar (.unary .EX_POSTINC charptr_type srcexpr))))]) s3

/-- The expression with its type replaced (an assignment through
`expr->type`). -/
def Expr.set_type : Expr → CType → Expr
  | .fixnum _ v, t => .fixnum t v
  | .flonum _, t => .flonum t
  | .str _ b n, t => .str t b n
  | .var _ n sc, t => .var t n sc
  | .bop k _ l r, t => .bop k t l r
  | .unary k _ e, t => .unary k t e
  | .member _ tk e i, t => .member t tk e i
  | .other _, t => .other t

/-- The function `init_char_array_by_string`. The three `assert`s are the
`abort` cases; the assignment to `dst->type->pa.length` is the new type of
`dst`. -/
def init_char_array_by_string (env : Env) (dst : Expr) (src : Initializer)
    (st : ParseState) : Result Stmt :=
  match src, dst.type with
  | .single (.str _ _ strsize), .array elem length =>
    if ¬ is_char_type elem then .abort
    else
      let size : Int := (strsize : Int)
      let checked : Result Int :=
        if length = -1 then .ok size st
        else if length < size - 1 then parse_error st "Buffer is shorter than string: %d for \"%s\""
        else .ok length st
      match checked with
      | .exit c s1 => .exit c s1
      | .abort => .abort
      | .ok dstsize s1 =>
        let strtype := CType.array elem dstsize
        let dst1 := dst.set_type strtype
        match env.str_to_char_array strtype src s1 with
        | .exit c s2 => .exit c s2
        | .abort => .abort
        | .ok varinfo s2 =>
          let var := Expr.var strtype varinfo.name_or_dummy s2.curscope
          build_memcpy dst1 var strsize s2
  | _, _ => .abort

/-! ## flatten_array_initializer -/

/-- Addition of two `size_t` values. -/
def size_add (a b : Nat) : Nat := (a + b) % 2 ^ 64

/-- Subtraction of two `size_t` values. -/
def size_sub (a b : Nat) : Nat := (a + (2 ^ 64 - b % 2 ^ 64)) % 2 ^ 64

/-- Multiplication of two `size_t` values. -/
def size_mul (a b : Nat) : Nat := (a * b) % 2 ^ 64

/-- One entry of `ranges`: `range[0]` is the logical start index, `range[1]` the
position of the first element in the source list, `range[2]` the count. -/
structure DesigRange where
  start : Nat
  index : Nat
  count : Nat
  deriving DecidableEq, Repr

/-- The function `compare_desig_start`: the two starts are read as `ssize_t`. -/
def compare_desig_start (a b : DesigRange) : Int :=
  let d := size_to_fixnum a.start - size_to_fixnum b.start
  if d > 0 then 1 else if d < 0 then -1 else 0

/-- Insertion of an element into a list sorted by the comparison function. -/
def ordered_insert {α : Type} (cmp : α → α → Int) (x : α) : List α → List α
  | [] => [x]
  | y :: ys => if cmp x y ≤ 0 then x :: y :: ys else y :: ordered_insert cmp x ys

/-- Modelled from the spec: `myqsort` (util.c is not part of the sources) sorts
the vector in ascending order of the comparison function. -/
def myqsort {α : Type} (cmp : α → α → Int) : List α → List α
  | [] => []
  | x :: xs => ordered_insert cmp x (myqsort cmp xs)

/-- First loop of `flatten_array_initializer`: the position of the first
`IK_ARR` element, or the length when there is none; a `IK_DOT` element met on
the way is a fatal error. -/
def flatten_array_scan : List Initializer → Nat → ParseState → Result Nat
  | [], i, st => .ok i st
  | init_elem :: rest, i, st =>
    match init_elem with
    | .null => .abort
    | .dot _ _ => parse_error st "dot initializer for array"
    | .arr _ _ => .ok i st
    | _ => flatten_array_scan rest (i + 1) st

/-- The statement `if ((size_t)i > lastStartIndex) vec_push(ranges, range)`. -/
def push_range (ranges : List DesigRange) (i index lastStart lastStartIndex : Nat) :
    List DesigRange :=
  if i > lastStartIndex then
    ranges ++ [{ start := lastStart, index := lastStartIndex, count := size_sub index lastStart }]
  else ranges

/-- Second loop of `flatten_array_initializer` ("Enumerate designated
initializer"), run on the elements from position `i` on; the empty list is the
extra iteration `i == len` that closes the last range. -/
def flatten_array_enumerate :
    List Initializer → Nat → Nat → Nat → Nat → List DesigRange → ParseState →
      Result (List DesigRange)
  | [], i, index, lastStart, lastStartIndex, ranges, st =>
    .ok (push_range ranges i index lastStart lastStartIndex) st
  | init_elem :: rest, i, index, lastStart, lastStartIndex, ranges, st =>
    match init_elem with
    | .null => .abort
    | .arr (.fixnum _ v) _ =>
      flatten_array_enumerate rest (i + 1) (size_add (fixnum_to_size v) 1) (fixnum_to_size v) i
        (push_range ranges i index lastStart lastStartIndex) st
    | .arr _ _ => parse_error st "Constant value expected"
    | .dot _ _ => parse_error st "dot initializer for array"
    | _ => flatten_array_enumerate rest (i + 1) (size_add index 1) lastStart lastStartIndex ranges st

/-- The tag test `elem->kind == IK_ARR`. -/
def Initializer.is_arr : Initializer → Bool
  | .arr _ _ => true
  | _ => false

/-- Inner loop of the reorder step: push the elements `data[index + j]` for
`j` from `j` on, `remaining` of them; the first one is wrapped into a new
`IK_ARR` node when it is not one and its position differs from `start`. `none`
is a read outside the vector or through NULL. -/
def flatten_array_copy (data : List Initializer) (p : DesigRange) :
    Nat → Nat → List Initializer → Option (List Initializer)
  | 0, _, reordered => some reordered
  | remaining + 1, j, reordered =>
    match data.get? (size_add p.index j) with
    | none => none
    | some elem =>
      if j = 0 ∧ p.index ≠ p.start then
        match elem with
        | .null => none
        | .arr _ _ => flatten_array_copy data p remaining (size_add j 1) (reordered ++ [elem])
        | _ =>
          flatten_array_copy data p remaining (size_add j 1)
            (reordered ++ [.arr (.fixnum tyInt (size_to_fixnum p.start)) elem])
      else flatten_array_copy data p remaining (size_add j 1) (reordered ++ [elem])

/-- Third loop of `flatten_array_initializer` ("Reorder"): `prev` is
`ranges->data[i - 1]`. -/
def flatten_array_reorder (data : List Initializer) :
    List DesigRange → Option DesigRange → List Initializer → ParseState →
      Result (List Initializer)
  | [], _, reordered, st => .ok reordered st
  | p :: rest, prev, reordered, st =>
    let overlapped : Bool :=
      match prev with
      | some q => decide (p.start < size_add q.start q.count)
      | none => false
    if overlapped then parse_error st "Initializer for array overlapped"
    else
      match flatten_array_copy data p p.count 0 reordered with
      | some reordered1 => flatten_array_reorder data rest (some p) reordered1 st
      | none => .abort

/-- The function `flatten_array_initializer`. -/
def flatten_array_initializer (init : Initializer) (st : ParseState) : Result Initializer :=
  match init with
  | .multi data =>
    match flatten_array_scan data 0 st with
    | .exit c st1 => .exit c st1
    | .abort => .abort
    | .ok i st1 =>
      if i ≥ data.length then .ok init st1
      else
        match flatten_array_enumerate (data.drop i) i i 0 0 [] st1 with
        | .exit c st2 => .exit c st2
        | .abort => .abort
        | .ok ranges st2 =>
          match flatten_array_reorder data (myqsort compare_desig_start ranges) none [] st2 with
          | .exit c st3 => .exit c st3
          | .abort => .abort
          | .ok reordered st3 => .ok (.multi reordered) st3
  | _ => .abort

/-! ## flatten_initializer -/

/-- The root of the scope chain (`global_scope`). -/
def Scope.root : Scope → Scope
  | .global vs => .global vs
  | .nested p _ => p.root

/-- The test `type->kind == TY_PTR && is_char_type(type->pa.ptrof)`. -/
def is_char_ptr : CType → Bool
  | .ptr t => is_char_type t
  | _ => false

/-- The function `convert_str_to_ptr_initializer`, called with `curscope`: the
string literal becomes a reference to the hidden char array holding it. -/
def convert_str_to_ptr_initializer (env : Env) (type : CType) (init : Initializer)
    (st : ParseState) : Result Initializer :=
  match type with
  | .array elem _ =>
    if ¬ is_char_type elem then .abort
    else
      match env.str_to_char_array type init st with
      | .exit c st1 => .exit c st1
      | .abort => .abort
      | .ok varinfo st1 =>
        let gvar_name := if is_global_scope st.curscope then varinfo.name_or_dummy
          else match varinfo.label with
            | some l => l
            | none => varinfo.name_or_dummy
        .ok (.single (.var type gvar_name st1.curscope.root)) st1
  | _ => .abort

/-- The step "Allocate string literal for char* as a char array" of the struct
loop of `flatten_initializer`: the value to store at `index`. -/
def flatten_struct_convert (env : Env) (members : List VarInfo) (index : Int)
    (value : Initializer) (st : ParseState) : Result Initializer :=
  match value with
  | .null => .abort
  | .single (.str t _ _) =>
    if index < 0 then .abort
    else
      match members.get? index.toNat with
      | none => .abort
      | some member =>
        if is_char_ptr member.type then convert_str_to_ptr_initializer env t value st
        else .ok value st
  | _ => .ok value st

/-- The tail of one iteration of the struct loop of `flatten_initializer`, from
the test `index >= n` to `values[index++] = value`: the new index and the new
vector. An index below 0 is an access outside the vector. -/
def flatten_struct_store (env : Env) (members : List VarInfo) (index : Int)
    (value : Initializer) (values : List Initializer) (st : ParseState) :
    Result (Int × List Initializer) :=
  if index ≥ (members.length : Int) then parse_error st "Too many init values"
  else
    match flatten_struct_convert env members index value st with
    | .exit c st1 => .exit c st1
    | .abort => .abort
    | .ok value1 st1 =>
      if index < 0 then .abort
      else .ok (index + 1, values.set index.toNat value1) st1

/-- The struct loop of `flatten_initializer` over the elements of the brace
list, with the running `index` and the vector `values`. -/
def flatten_struct_loop (env : Env) (type : CType) (members : List VarInfo) :
    List Initializer → Int → List Initializer → ParseState → Result (List Initializer)
  | [], _, values, st => .ok values st
  | value :: rest, index, values, st =>
    match value with
    | .null => .abort
    | .arr _ _ => parse_error st "indexed initializer for struct"
    | .dot name v =>
      let index := var_find members name
      if index ≥ 0 then
        match flatten_struct_store env members index v values st with
        | .exit c st1 => .exit c st1
        | .abort => .abort
        | .ok (index1, values1) st1 => flatten_struct_loop env type members rest index1 values1 st1
      else
        match search_from_anonymous type name with
        | none =>
          match parse_error_nofatal st "`%.*s' is not member of struct" with
          | .exit c st1 => .exit c st1
          | .abort => .abort
          | .ok _ st1 => flatten_struct_loop env type members rest index values st1
        | some stack =>
          match stack.head? with
          | none => .abort
          | some index0 =>
            match flatten_struct_store env members index0 (.multi [value]) values st with
            | .exit c st1 => .exit c st1
            | .abort => .abort
            | .ok (index1, values1) st1 =>
              flatten_struct_loop env type members rest index1 values1 st1
    | _ =>
      match flatten_struct_store env members index value values st with
      | .exit c st1 => .exit c st1
      | .abort => .abort
      | .ok (index1, values1) st1 => flatten_struct_loop env type members rest index1 values1 st1

/-- The case `TY_STRUCT` of `flatten_initializer` for a non-NULL initializer. -/
def flatten_struct_initializer (env : Env) (type : CType) (members : List VarInfo)
    (is_union : Bool) (init : Initializer) (st : ParseState) : Result Initializer :=
  match init with
  | .multi data =>
    if members.length ≤ 0 then
      if data.length > 0 then
        match parse_error_nofatal st "Initializer for empty struct" with
        | .exit c st1 => .exit c st1
        | .abort => .abort
        | .ok _ st1 => .ok init st1
      else .ok init st
    else if is_union ∧ data.length > 1 then
      parse_error st "Initializer for union more than 1"
    else
      match flatten_struct_loop env type members data 0
          (List.replicate members.length .null) st with
      | .exit c st1 => .exit c st1
      | .abort => .abort
      | .ok values st1 => .ok (.multi values) st1
  | _ => .ok init st

/-- The case `TY_PTR` of `flatten_initializer`: `p` is the initializer, or its
value when it is an `IK_ARR` node. -/
def flatten_ptr_initializer (env : Env) (type : CType) (init p : Initializer)
    (st : ParseState) : Result Initializer :=
  match p with
  | .null => .abort
  | .single value =>
    match env.check_cast type value.type (is_zero value) false st with
    | .exit c st1 => .exit c st1
    | .abort => .abort
    | .ok _ st1 => .ok init st1
  | _ =>
    match parse_error_nofatal st "Initializer type error" with
    | .exit c st1 => .exit c st1
    | .abort => .abort
    | .ok _ st1 => .ok init st1

/-- The function `flatten_initializer`. -/
def flatten_initializer (env : Env) (type : CType) (init : Initializer) (st : ParseState) :
    Result Initializer :=
  match init with
  | .null => .ok .null st
  | _ =>
    match type with
    | .struct_ members is_union => flatten_struct_initializer env type members is_union init st
    | .array _ _ =>
      if init.is_multi then flatten_array_initializer init st else .ok init st
    | .ptr _ =>
      flatten_ptr_initializer env type init
        (match init with
          | .arr _ value => value
          | _ => init) st
    | _ => .ok init st

/-! ### Placement by cursor (specification side) -/

/-- The value of a struct list element: the initializer after `.m =` for a
designated element, the element itself otherwise. -/
def struct_value : Initializer → Initializer
  | .dot _ v => v
  | e => e

/-- A struct list element is positional or designates a member by name. -/
def is_struct_elem (members : List VarInfo) : Initializer → Bool
  | .single _ => true
  | .multi _ => true
  | .dot name (.single _) => decide (0 ≤ var_find members name)
  | .dot name (.multi _) => decide (0 ≤ var_find members name)
  | _ => false

/-- The value of a struct list element is a string literal. -/
def has_str_value (e : Initializer) : Bool := (struct_value e).is_single_str

/-- Placement of the values by a cursor: a designator `.m` moves the cursor to
the index of member `m`, the value is stored at the cursor, and the cursor
advances by one. `none` when a value arrives with the cursor outside the
positions. -/
def place_by_cursor (members : List VarInfo) :
    List Initializer → Nat → List Initializer → Option (List Initializer)
  | [], _, values => some values
  | e :: rest, cursor, values =>
    let pos := match e with
      | .dot name _ => (var_find members name).toNat
      | _ => cursor
    if pos < values.length then
      place_by_cursor members rest (pos + 1) (values.set pos (struct_value e))
    else none

/-- The struct type `struct P { int x, y; }`. -/
def struct_P : CType :=
  .struct_ [{ name := some (.ident 1), type := tyInt, storage := 0 },
    { name := some (.ident 2), type := tyInt, storage := 0 }] false

/-- The initializer `{.y = 3, .x = 2}`. -/
def init_P : Initializer :=
  .multi [.dot (.ident 2) (.single (.fixnum tyInt 3)), .dot (.ident 1) (.single (.fixnum tyInt 2))]

/-! ## assign_initial_value -/

/-- The pointee of a pointer type (`type->pa.ptrof`). -/
def CType.pointee : CType → CType
  | .ptr t => t
  | .array t _ => t
  | t => t

/-- The statement list after `if (inits == NULL) inits = new_vector();`. -/
def inits_vector : Option (List Stmt) → List Stmt
  | some v => v
  | none => []

/-- The error exit "Array initializer requires `\x7b'" of `assign_initial_value`. -/
def array_requires_brace (inits : List Stmt) (st : ParseState) :
    Option (Result (Option (List Stmt))) :=
  match parse_error_nofatal st "Array initializer requires `\x7b'" with
  | .exit c st1 => some (.exit c st1)
  | .abort => some .abort
  | .ok _ st1 => some (.ok (some inits) st1)

/-- The error exit "Struct initializer requires `\x7b'" of `assign_initial_value`. -/
def struct_requires_brace (inits : List Stmt) (st : ParseState) :
    Option (Result (Option (List Stmt))) :=
  match parse_error_nofatal st "Struct initializer requires `\x7b'" with
  | .exit c st1 => some (.exit c st1)
  | .abort => some .abort
  | .ok _ st1 => some (.ok (some inits) st1)

/-- The statement `ptr += n` that the array loop emits when the step `add` is
positive: `n = add * elem_size`. -/
def advance_stmt (ptr_type : CType) (ptr_var : Expr) (add elem_size : Nat) : Stmt :=
  .expr (.unary .EX_MODIFY ptr_type
    (.bop .EX_ADD ptr_type ptr_var (.fixnum tySize (size_to_fixnum (size_mul add elem_size)))))

mutual
/-- The function `assign_initial_value`. The first argument bounds the number
of calls and loop iterations; `none` means the bound was reached. -/
def assign_initial_value (env : Env) :
    Nat → Expr → Initializer → Option (List Stmt) → ParseState →
      Option (Result (Option (List Stmt)))
  | 0, _, _, _, _ => none
  | fuel + 1, expr, init, inits, st =>
    match init with
    | .null => some (.ok inits st)
    | _ =>
      let inits0 := inits_vector inits
      match flatten_initializer env expr.type init st with
      | .exit c st1 => some (.exit c st1)
      | .abort => some .abort
      | .ok init1 st1 =>
        match expr.type with
        | .array elem arr_len =>
          match init1 with
          | .multi data =>
            if ¬ (arr_len > 0) then some .abort
            else if (data.length : Int) > arr_len then
              some (parse_error st1 "Initializer more than array size")
            else if is_global_scope st1.curscope then some .abort
            else
              let ptr_type := array_to_ptr expr.type
              match add_dummy_var ptr_type st1 with
              | .exit c st2 => some (.exit c st2)
              | .abort => some .abort
              | .ok ptr_varinfo st2 =>
                let ptr_var := Expr.var ptr_type ptr_varinfo.name_or_dummy st2.curscope
                assign_array_elems env fuel ptr_type ptr_var (type_size elem) data 0 0
                  (inits0 ++ [.expr (.bop .EX_ASSIGN ptr_type ptr_var expr)]) st2
          | .single (.str _ _ _) =>
            if is_char_type elem then
              match init_char_array_by_string env expr init1 st1 with
              | .exit c st2 => some (.exit c st2)
              | .abort => some .abort
              | .ok stmt st2 => some (.ok (some (inits0 ++ [stmt])) st2)
            else array_requires_brace inits0 st1
          | _ => array_requires_brace inits0 st1
        | .struct_ members is_union =>
          match init1 with
          | .single e =>
            if can_cast expr.type e.type false false then
              some (.ok (some (inits0 ++ [.expr (.bop .EX_ASSIGN expr.type expr e)])) st1)
            else struct_requires_brace inits0 st1
          | .multi data =>
            if ¬ is_union then assign_struct_members env fuel expr members 0 data inits0 st1
            else if members.length ≤ 0 ∧ data.length > 0 then
              some (parse_error st1 "Initializer for empty union")
            else if init.multi_data.length > 1 then
              some (parse_error st1 "More than one initializer for union")
            else assign_union_member env fuel expr members 0 data inits0 st1
          | _ => struct_requires_brace inits0 st1
        | _ =>
          let scalar (single : Expr) : Option (Result (Option (List Stmt))) :=
            match env.str_to_char_array_var single st1 with
            | .exit c st2 => some (.exit c st2)
            | .abort => some .abort
            | .ok value st2 =>
              match env.make_cast expr.type value false st2 with
              | .exit c st3 => some (.exit c st3)
              | .abort => some .abort
              | .ok cast st3 =>
                some (.ok (some (inits0 ++ [.expr (.bop .EX_ASSIGN expr.type expr cast)])) st3)
          match init1 with
          | .multi [.single single] => scalar single
          | .multi [.null] => some .abort
          | .multi _ =>
            match parse_error_nofatal st1 "Requires scaler" with
            | .exit c st2 => some (.exit c st2)
            | .abort => some .abort
            | .ok _ st2 => some (.ok (some inits0) st2)
          | .single single => scalar single
          | _ => some (parse_error st1 "Error initializer")
/-- The element loop of the array case of `assign_initial_value`, with
`prev_index` and `index`. -/
def assign_array_elems (env : Env) :
    Nat → CType → Expr → Nat → List Initializer → Nat → Nat → List Stmt → ParseState →
      Option (Result (Option (List Stmt)))
  | 0, _, _, _, _, _, _, _, _ => none
  | _ + 1, _, _, _, [], _, _, inits, st => some (.ok (some inits) st)
  | fuel + 1, ptr_type, ptr_var, elem_size, init_elem :: rest, prev_index, index, inits, st =>
    let designated : Result (Nat × Initializer) :=
      match init_elem with
      | .null => .abort
      | .arr (.fixnum _ v) value => .ok (fixnum_to_size v, value) st
      | .arr _ _ => parse_error st "Number required"
      | _ => .ok (index, init_elem) st
    match designated with
    | .exit c st1 => some (.exit c st1)
    | .abort => some .abort
    | .ok (index1, init_elem1) _ =>
      let add := size_sub index1 prev_index
      let inits1 := if add > 0 then inits ++ [advance_stmt ptr_type ptr_var add elem_size] else inits
      match assign_initial_value env fuel (.unary .EX_DEREF ptr_type.pointee ptr_var) init_elem1
          (some inits1) st with
      | some (.ok inits2 st1) =>
        assign_array_elems env fuel ptr_type ptr_var elem_size rest index1 (size_add index1 1)
          (inits_vector inits2) st1
      | other => other
/-- The member loop of the struct case of `assign_initial_value`. -/
def assign_struct_members (env : Env) :
    Nat → Expr → List VarInfo → Nat → List Initializer → List Stmt → ParseState →
      Option (Result (Option (List Stmt)))
  | 0, _, _, _, _, _, _ => none
  | _ + 1, _, [], _, _, inits, st => some (.ok (some inits) st)
  | fuel + 1, expr, member :: rest, i, data, inits, st =>
    match data.get? i with
    | none => some .abort
    | some .null => assign_struct_members env fuel expr rest (i + 1) data inits st
    | some init_elem =>
      match assign_initial_value env fuel (.member member.type none expr i) init_elem
          (some inits) st with
      | some (.ok inits1 st1) =>
        assign_struct_members env fuel expr rest (i + 1) data (inits_vector inits1) st1
      | other => other
/-- The member loop of the union case of `assign_initial_value`: the first
entry that is not NULL is assigned. -/
def assign_union_member (env : Env) :
    Nat → Expr → List VarInfo → Nat → List Initializer → List Stmt → ParseState →
      Option (Result (Option (List Stmt)))
  | 0, _, _, _, _, _, _ => none
  | _ + 1, _, [], _, _, inits, st => some (.ok (some inits) st)
  | fuel + 1, expr, member :: rest, i, data, inits, st =>
    match data.get? i with
    | none => some .abort
    | some .null => assign_union_member env fuel expr rest (i + 1) data inits st
    | some init_elem =>
      assign_initial_value env fuel (.member member.type none expr i) init_elem (some inits) st
end

/-- The lowering of one local array declaration `T name[...] = init;`:
`check_vardecl` fixes the array size, `construct_initializing_stmts` builds the
statements. The result is the type of the variable and the statements. -/
def lower_local_array (env : Env) (fuel : Nat) (name : Name) (type : CType)
    (init : Initializer) (st : ParseState) : Option (Result (CType × Option (List Stmt))) :=
  match fix_array_size type init st with
  | .exit c st1 => some (.exit c st1)
  | .abort => some .abort
  | .ok type1 st1 =>
    match assign_initial_value env fuel (.var type1 name st1.curscope) init none st1 with
    | none => none
    | some (.exit c st2) => some (.exit c st2)
    | some .abort => some .abort
    | some (.ok inits st2) => some (.ok (type1, inits) st2)

/-! ## check_global_initializer -/

/-- The function `check_global_initializer_fixnum`: the rewritten expression and
the flag stored in `*isconst`. -/
def check_global_initializer_fixnum (env : Env) : Expr → ParseState → Result (Expr × Bool)
  | .fixnum t v, st => .ok (.fixnum t v, true) st
  | .flonum t, st => .ok (.flonum t, true) st
  | .str t b n, st =>
    match env.str_to_char_array_var (.str t b n) st with
    | .exit c st1 => .exit c st1
    | .abort => .abort
    | .ok value st1 => .ok (value, true) st1
  | .var t name scope, st =>
    match scope_find scope name with
    | (some varinfo, some found) =>
      if ¬ is_global_scope found ∧ varinfo.storage &&& VS_STATIC = 0 then
        parse_error st "Allowed global reference only"
      else
        .ok (.var t name scope,
          match t with
          | .array _ _ => true
          | .func _ _ _ => true
          | .ptr (.func _ _ _) => true
          | _ => false) st
    | _ => .abort
  | .bop .EX_ADD t lhs rhs, st =>
    match check_global_initializer_fixnum env lhs st with
    | .exit c st1 => .exit c st1
    | .abort => .abort
    | .ok (lhs1, lhs_const) st1 =>
      match check_global_initializer_fixnum env rhs st1 with
      | .exit c st2 => .exit c st2
      | .abort => .abort
      | .ok (rhs1, rhs_const) st2 => .ok (.bop .EX_ADD t lhs1 rhs1, lhs_const && rhs_const) st2
  | .bop .EX_SUB t lhs rhs, st =>
    match check_global_initializer_fixnum env lhs st with
    | .exit c st1 => .exit c st1
    | .abort => .abort
    | .ok (lhs1, lhs_const) st1 =>
      match check_global_initializer_fixnum env rhs st1 with
      | .exit c st2 => .exit c st2
      | .abort => .abort
      | .ok (rhs1, rhs_const) st2 => .ok (.bop .EX_SUB t lhs1 rhs1, lhs_const && rhs_const) st2
  | .unary .EX_REF t sub, st =>
    match check_global_initializer_fixnum env sub st with
    | .exit c st1 => .exit c st1
    | .abort => .abort
    | .ok (sub1, _) st1 => .ok (.unary .EX_REF t sub1, true) st1
  | .unary .EX_DEREF t sub, st =>
    match check_global_initializer_fixnum env sub st with
    | .exit c st1 => .exit c st1
    | .abort => .abort
    | .ok (sub1, isconst) st1 => .ok (.unary .EX_DEREF t sub1, isconst) st1
  | .unary .EX_CAST t sub, st =>
    match check_global_initializer_fixnum env sub st with
    | .exit c st1 => .exit c st1
    | .abort => .abort
    | .ok (sub1, isconst) st1 => .ok (.unary .EX_CAST t sub1, isconst) st1
  | .member t token target index, st =>
    match check_global_initializer_fixnum env target st with
    | .exit c st1 => .exit c st1
    | .abort => .abort
    | .ok (target1, _) st1 =>
      match token with
      | none => .abort
      | some .TK_DOT =>
        .ok (.member t token target1 index,
          match t with
          | .array _ _ => true
          | _ => false) st1
      | some _ => parse_error st1 "Allowed global reference only"
  | e, st => .ok (e, false) st

/-- Modelled from the spec: `strip_cast` (parser_expr.c is not part of the
sources) removes the cast nodes around an expression. -/
def strip_cast : Expr → Expr
  | .unary .EX_CAST _ sub => strip_cast sub
  | e => e

/-- Recording of a non-fatal error by `check_global_initializer`, which then
returns the initializer. -/
def global_init_error (st : ParseState) (fmt : String) (init : Initializer) :
    Option (Result Initializer) :=
  match parse_error_nofatal st fmt with
  | .exit c st1 => some (.exit c st1)
  | .abort => some .abort
  | .ok _ st1 => some (.ok init st1)

mutual
/-- The function `check_global_initializer`. The first argument bounds the
number of calls and loop iterations; `none` means the bound was reached. A
struct initializer that is a compound literal has no counterpart in `Expr` and
is not covered: every `IK_SINGLE` struct initializer takes the error branch. -/
def check_global_initializer (env : Env) :
    Nat → CType → Initializer → ParseState → Option (Result Initializer)
  | 0, _, _, _ => none
  | fuel + 1, type, init, st =>
    match init with
    | .null => some (.ok .null st)
    | _ =>
      match flatten_initializer env type init st with
      | .exit c st1 => some (.exit c st1)
      | .abort => some .abort
      | .ok init1 st1 =>
        match type with
        | .flonum _ =>
          match init1 with
          | .single (.fixnum _ _) => some (.ok (.single (.flonum type)) st1)
          | .single (.flonum t) => some (.ok (.single (.flonum t)) st1)
          | .single _ => global_init_error st1 "Constant expression expected" init1
          | _ => some (.ok init1 st1)
        | .fixnum _ _ => check_global_scalar env type init1 st1
        | .ptr _ => check_global_scalar env type init1 st1
        | .array elem length =>
          match init1 with
          | .multi multi =>
            match check_global_elems env fuel elem multi st1 with
            | some (.ok multi1 st2) => some (.ok (.multi multi1) st2)
            | some (.exit c st2) => some (.exit c st2)
            | some .abort => some .abort
            | none => none
          | .single single =>
            match is_char_type elem, strip_cast single with
            | true, .str _ _ size =>
              if ¬ (length > 0) then some .abort
              else if (size : Int) - 1 > length then
                global_init_error st1 "Array size shorter than initializer" init1
              else some (.ok init1 st1)
            | _, _ => global_init_error st1 "Array initializer requires `\x7b'" init1
          | _ => global_init_error st1 "Array initializer requires `\x7b'" init1
        | .struct_ members _ =>
          match init1 with
          | .single _ => global_init_error st1 "Struct initializer requires `\x7b'" init1
          | .multi multi =>
            match check_global_members env fuel members 0 multi st1 with
            | some (.ok multi1 st2) => some (.ok (.multi multi1) st2)
            | some (.exit c st2) => some (.exit c st2)
            | some .abort => some .abort
            | none => none
          | _ => some .abort
        | _ =>
          global_init_error st1 "Global initial value for type %d not implemented (yet)\n" init1
/-- The cases `TY_FIXNUM` and `TY_PTR` of `check_global_initializer`. -/
def check_global_scalar (env : Env) (type : CType) (init : Initializer) (st : ParseState) :
    Option (Result Initializer) :=
  match init with
  | .single single =>
    match check_global_initializer_fixnum env single st with
    | .exit c st1 => some (.exit c st1)
    | .abort => some .abort
    | .ok (value, isconst) st1 =>
      match env.make_cast type value false st1 with
      | .exit c st2 => some (.exit c st2)
      | .abort => some .abort
      | .ok cast st2 =>
        if ¬ isconst then global_init_error st2 "Initializer must be constant" (.single cast)
        else some (.ok (.single cast) st2)
  | _ => some .abort
/-- The element loop of the array case of `check_global_initializer`. -/
def check_global_elems (env : Env) :
    Nat → CType → List Initializer → ParseState → Option (Result (List Initializer))
  | 0, _, _, _ => none
  | _ + 1, _, [], st => some (.ok [] st)
  | fuel + 1, elemtype, eleminit :: rest, st =>
    let checked : Option (Result Initializer) :=
      match eleminit with
      | .null => some .abort
      | .arr index value =>
        match check_global_initializer env fuel elemtype value st with
        | some (.ok value1 st1) => some (.ok (.arr index value1) st1)
        | other => other
      | _ => check_global_initializer env fuel elemtype eleminit st
    match checked with
    | some (.ok eleminit1 st1) =>
      match check_global_elems env fuel elemtype rest st1 with
      | some (.ok rest1 st2) => some (.ok (eleminit1 :: rest1) st2)
      | other => other
    | some (.exit c st1) => some (.exit c st1)
    | some .abort => some .abort
    | none => none
/-- The member loop of the struct case of `check_global_initializer`: the
entries of `multi` from position `i` on, checked against the members. -/
def check_global_members (env : Env) :
    Nat → List VarInfo → Nat → List Initializer → ParseState →
      Option (Result (List Initializer))
  | 0, _, _, _, _ => none
  | _ + 1, [], _, multi, st => some (.ok multi st)
  | fuel + 1, member :: rest, i, multi, st =>
    match multi.get? i with
    | none => some .abort
    | some .null => check_global_members env fuel rest (i + 1) multi st
    | some init_elem =>
      match check_global_initializer env fuel member.type init_elem st with
      | some (.ok init_elem1 st1) =>
        check_global_members env fuel rest (i + 1) (multi.set i init_elem1) st1
      | some (.exit c st1) => some (.exit c st1)
      | some .abort => some .abort
      | none => none
end

/-! ### Compile-time constants (specification side) -/

/-- The variable an expression refers to is found in the global scope or is
static. -/
def is_global_ref (name : Name) (scope : Scope) : Bool :=
  match scope_find scope name with
  | (some varinfo, some found) => is_global_scope found || decide (varinfo.storage &&& VS_STATIC ≠ 0)
  | _ => false

/-- A numeric literal, possibly under casts. -/
def is_numeric_constant : Expr → Bool
  | .fixnum _ _ => true
  | .flonum _ => true
  | .unary .EX_CAST _ e => is_numeric_constant e
  | _ => false

/-- The basic compile-time constants: a numeric literal, a string literal, the
address of a global, a global array or a function designator, possibly under
casts. -/
def is_constant_base : Expr → Bool
  | .fixnum _ _ => true
  | .flonum _ => true
  | .str _ _ _ => true
  | .unary .EX_REF _ (.var _ name scope) => is_global_ref name scope
  | .var (.array _ _) name scope => is_global_ref name scope
  | .var (.func _ _ _) name scope => is_global_ref name scope
  | .unary .EX_CAST _ e => is_constant_base e
  | _ => false

/-- A compile-time constant: a basic constant, or one of them plus or minus a
numeric constant, possibly under casts. -/
def is_compile_time_constant : Expr → Bool
  | .bop .EX_ADD _ l r => is_constant_base l && is_numeric_constant r
  | .bop .EX_SUB _ l r => is_constant_base l && is_numeric_constant r
  | .unary .EX_CAST _ e => is_compile_time_constant e
  | e => is_constant_base e

/-- The type `void (*)(void)`. -/
def fn_ptr_type : CType := .ptr (.func .void [] false)

/-- The global scope after `void (*fp)(void); int arr[3];`. -/
def globals_scope : Scope :=
  .global (some [{ name := some (.ident 1), type := fn_ptr_type, storage := 0 },
    { name := some (.ident 2), type := .array tyInt 3, storage := 0 }])

/-- The parser state at top level after these declarations. -/
def globals_state : ParseState := { init_state with curscope := globals_scope }

/-- The initializer `fp` of `void (*gp)(void) = fp;`: the value of the
variable `fp`. -/
def fp_value : Expr := .var fn_ptr_type (.ident 1) globals_scope

/-- The initializer `*arr` of `int x = *arr;`: the value of `arr[0]`. -/
def arr_value : Expr := .unary .EX_DEREF tyInt (.var (.array tyInt 3) (.ident 2) globals_scope)

/-- The messages recorded by a call, when it returns. -/
def recorded_errors (r : Option (Result Initializer)) : Option (List String) :=
  match r with
  | some (.ok _ st) => some st.errors
  | _ => none

/-! ## parse_case -/

/-- The function `consume`, given the result of `match(kind)`: a missing token
is a fatal error. -/
def consume (matched : Bool) (error : String) (st : ParseState) : Result Unit :=
  if matched then .ok () st else parse_error st error

/-- The duplication loop of `parse_case` over `curswitch->switch_.cases`: every
earlier case with the value `v` records a non-fatal error; an entry whose
`case_.value` is NULL (a `default`) is skipped. -/
def parse_case_check : List Stmt → Int → ParseState → Result Unit
  | [], _, st => .ok () st
  | c :: rest, v, st =>
    match c with
    | .case_ none => parse_case_check rest v st
    | .case_ (some (.fixnum _ w)) =>
      if w = v then
        match parse_error_nofatal st "Case value `%ld' already defined" with
        | .exit code st1 => .exit code st1
        | .abort => .abort
        | .ok _ st1 => parse_case_check rest v st1
      else parse_case_check rest v st
    | _ => .abort

/-- The function `parse_case`, given the expression read by `parse_const` and
whether the `:` follows. -/
def parse_case (value : Expr) (colon : Bool) (st : ParseState) : Result Stmt :=
  match consume colon "`:' expected" st with
  | .exit c st1 => .exit c st1
  | .abort => .abort
  | .ok _ st1 =>
    match value with
    | .fixnum t v =>
      let stmt := Stmt.case_ (some (.fixnum t v))
      match st1.curswitch with
      | none => parse_error st1 "`case' cannot use outside of `switch`"
      | some sw =>
        match parse_case_check sw.cases v st1 with
        | .exit c st2 => .exit c st2
        | .abort => .abort
        | .ok _ st2 =>
          .ok stmt { st2 with curswitch := some { sw with cases := sw.cases ++ [stmt] } }
    | _ => .abort

/-- The state of the process when the function returns or exits. -/
def Result.state {α : Type} : Result α → Option ParseState
  | .ok _ st => some st
  | .exit _ st => some st
  | .abort => none

/-- An entry of `switch_.cases`: a `default` label or a case label with its
constant. -/
def is_case_entry : Stmt → Bool
  | .case_ none => true
  | .case_ (some (.fixnum _ _)) => true
  | _ => false

/-- The constant of a case label (none for a `default` entry). -/
def case_value : Stmt → Option Int
  | .case_ (some (.fixnum _ w)) => some w
  | _ => none

/-- A `switch` in which `case 1:`, `default:` and `case 2:` have been parsed. -/
def switch_example : SwitchInfo :=
  { cases := [.case_ (some (.fixnum tyInt 1)), .case_ none, .case_ (some (.fixnum tyInt 2))],
    default_ := some (.case_ none) }

/-! ## Execution of lowered initialisation statements

The statements built by `build_memcpy` and `assign_initial_value` are ordinary
C statements over local variables. Their meaning is given by a small
interpreter: scalar variables hold integers (a pointer holds an address),
objects of array or struct type have an address, and memory records every
store. -/

/-- Run-time state: values of scalar variables, addresses of array and struct
objects, and the stores performed so far, the most recent first. -/
structure Machine where
  vars : List (Name × Int)
  objects : List (Name × Int)
  stores : List (Int × Int)

/-- Value of a key in an association list. -/
def assoc_get : List (Name × Int) → Name → Option Int
  | [], _ => none
  | (k, v) :: rest, n => if k = n then some v else assoc_get rest n

/-- The value read at an address: the most recent store to it, or 0 when the
address was never stored to. -/
def load_at : List (Int × Int) → Int → Int
  | [], _ => 0
  | (a, v) :: rest, addr => if a = addr then v else load_at rest addr

/-- Assignment to a scalar variable. -/
def Machine.set_var (m : Machine) (n : Name) (v : Int) : Machine :=
  { m with vars := (n, v) :: m.vars }

/-- Step of `++`/`--` on a value of the given type: the size of the pointee for
a pointer, 1 otherwise. -/
def inc_step : CType → Int
  | .ptr t => (type_size t : Int)
  | _ => 1

/-- Evaluation of an expression: its value and the state after its side
effects; `none` for a form the lowering never builds. -/
def eval : Expr → Machine → Option (Int × Machine)
  | .fixnum _ v, m => some (v, m)
  | .var t n _, m =>
    match t with
    | .array _ _ => (assoc_get m.objects n).map (fun a => (a, m))
    | .struct_ _ _ => (assoc_get m.objects n).map (fun a => (a, m))
    | _ => (assoc_get m.vars n).map (fun v => (v, m))
  | .bop .EX_ASSIGN _ (.var _ n _) rhs, m =>
    match eval rhs m with
    | some (v, m1) => some (v, m1.set_var n v)
    | none => none
  | .bop .EX_ASSIGN _ (.unary .EX_DEREF _ p) rhs, m =>
    match eval p m with
    | some (a, m1) =>
      match eval rhs m1 with
      | some (v, m2) => some (v, { m2 with stores := (a, v) :: m2.stores })
      | none => none
    | none => none
  | .bop .EX_ADD _ l r, m =>
    match eval l m with
    | some (a, m1) =>
      match eval r m1 with
      | some (b, m2) => some (a + b, m2)
      | none => none
    | none => none
  | .bop .EX_GT _ l r, m =>
    match eval l m with
    | some (a, m1) =>
      match eval r m1 with
      | some (b, m2) => some (if a > b then 1 else 0, m2)
      | none => none
    | none => none
  | .unary .EX_PREDEC t (.var _ n _), m =>
    match assoc_get m.vars n with
    | some v => some (v - inc_step t, m.set_var n (v - inc_step t))
    | none => none
  | .unary .EX_POSTINC t (.var _ n _), m =>
    match assoc_get m.vars n with
    | some v => some (v, m.set_var n (v + inc_step t))
    | none => none
  | .unary .EX_DEREF _ p, m =>
    match eval p m with
    | some (a, m1) => some (load_at m1.stores a, m1)
    | none => none
  | .unary .EX_CAST _ e, m => eval e m
  | .unary .EX_MODIFY _ (.bop k t (.var tv n sc) r), m =>
    match eval (.bop k t (.var tv n sc) r) m with
    | some (v, m1) => some (v, m1.set_var n v)
    | none => none
  | _, _ => none

/-- Evaluation of an optional expression (an omitted `for` clause). -/
def eval_opt : Option Expr → Machine → Option (Int × Machine)
  | none, m => some (1, m)
  | some e, m => eval e m

mutual
/-- Execution of a statement with a bound on the number of steps; `none` when
the bound is reached or the statement is of a form the lowering never builds. -/
def exec : Nat → Stmt → Machine → Option Machine
  | 0, _, _ => none
  | _ + 1, .expr e, m => (eval e m).map (fun r => r.2)
  | fuel + 1, .block stmts, m => exec_list fuel stmts m
  | fuel + 1, .for_ pre cond post body, m =>
    match eval_opt pre m with
    | some (_, m1) => exec_loop fuel cond post body m1
    | none => none
  | _ + 1, _, _ => none
/-- Execution of a statement list. -/
def exec_list : Nat → List Stmt → Machine → Option Machine
  | 0, _, _ => none
  | _ + 1, [], m => some m
  | fuel + 1, s :: rest, m =>
    match exec fuel s m with
    | some m1 => exec_list fuel rest m1
    | none => none
/-- Execution of the iterations of a `for` loop after its init clause. -/
def exec_loop :
    Nat → Option Expr → Option Expr → Stmt → Machine → Option Machine
  | 0, _, _, _, _ => none
  | fuel + 1, cond, post, body, m =>
    match eval_opt cond m with
    | some (c, m1) =>
      if c = 0 then some m1
      else
        match exec fuel body m1 with
        | some m2 =>
          match eval_opt post m2 with
          | some (_, m3) => exec_loop fuel cond post body m3
          | none => none
        | none => none
    | none => none
end

/-! ### The declaration `char s[3] = "abc";` inside a function -/

/-- The scope of a function body that declares `char s[3]`. -/
def overrun_scope : Scope :=
  .nested (.global none) (some [{ name := some (.ident 0), type := .array tyChar 3, storage := 0 }])

/-- The variable reference `s`, of type `char[3]`. -/
def overrun_dst : Expr := .var (.array tyChar 3) (.ident 0) overrun_scope

/-- The initializer `"abc"`: four bytes with the terminating NUL. -/
def overrun_src : Initializer := .single (.str (.array tyChar 4) [97, 98, 99, 0] 4)

/-- The parser state inside that function. -/
def overrun_state : ParseState := { init_state with curscope := overrun_scope }

/-- Run-time state in which `s` occupies the three bytes at addresses 1000 to
1002 and the hidden array holding "abc" sits at address 2000. -/
def overrun_machine : Machine :=
  { vars := [], objects := [(.ident 0, 1000), (.label 1, 2000)],
    stores := [(2003, 0), (2002, 99), (2001, 98), (2000, 97)] }

/-- The stores performed by a lowered statement, the most recent first. -/
def stores_of (r : Result Stmt) (fuel : Nat) (m : Machine) : Option (List (Int × Int)) :=
  match r with
  | .ok stmt _ => (exec fuel stmt m).map (fun m1 => m1.stores.take (m1.stores.length - m.stores.length))
  | _ => none

/-! ### Running a lowered local array initialisation -/

/-- The values of the elements of a local array after its initialisation
statements have run, the array sitting at address `base` in memory that reads 0
wherever nothing was stored. -/
def run_local_array (env : Env) (name : Name) (type : CType) (init : Initializer)
    (st : ParseState) (base : Int) : Option (List Int) :=
  match lower_local_array env 1000 name type init st with
  | some (.ok (.array elem len, some stmts) _) =>
    match exec_list 1000 stmts { vars := [], objects := [(name, base)], stores := [] } with
    | some m =>
      some ((List.range len.toNat).map (fun i => load_at m.stores (base + type_size elem * i)))
    | none => none
  | _ => none

/-- The sum `a[0] + a[1] + a[2] + a[3]`. -/
def sum_first_four (a : List Int) : Int := a.getD 0 0 + a.getD 1 0 + a.getD 2 0 + a.getD 3 0

/-- The parser state inside `main`, where `int a[]` has just been declared. -/
def main_state : ParseState :=
  { init_state with
    curscope := .nested (.global none)
      (some [{ name := some (.ident 0), type := .array tyInt (-1), storage := 0 }]) }

/-! ## Logical indices of an array initializer list (specification side) -/

/-- The constant of a designated element `[k] = value`. -/
def Initializer.designator : Initializer → Option Int
  | .arr (.fixnum _ k) _ => some k
  | _ => none

/-- An element of an array brace list with a constant non-negative designator:
a positional element, or `[k] = value` with a literal `k ≥ 0` (a `Fixnum`,
hence below `2 ^ 63`). -/
def is_array_elem : Initializer → Bool
  | .single _ => true
  | .multi _ => true
  | .arr (.fixnum _ k) _ => decide (0 ≤ k) && decide (k < 2 ^ 63)
  | _ => false

/-- Logical indices of the elements of a list read with the cursor at `cursor`:
a designated element `[k]` has index `k`, a positional element has the index
following that of its predecessor (`cursor` for the first element). -/
def logical_indices_from : Int → List Initializer → List Int
  | _, [] => []
  | cursor, e :: rest =>
    let k := match e.designator with
      | some k => k
      | none => cursor
    k :: logical_indices_from (k + 1) rest

/-- Logical indices of the elements of a brace list: the first positional
element has index 0. -/
def logical_indices (l : List Initializer) : List Int := logical_indices_from 0 l

/-- Logical indices covered by a range: `start, start + 1, ...`, `count` of
them. -/
def DesigRange.indices (r : DesigRange) : List Int :=
  (List.range' r.start r.count).map Int.ofNat

/-- The elements of the source list that a range covers. -/
def DesigRange.block (data : List Initializer) (r : DesigRange) : List Initializer :=
  (data.drop r.index).take r.count

/-- The elements a range covers, each paired with its logical index. -/
def DesigRange.tagged (data : List Initializer) (r : DesigRange) : List (Int × Initializer) :=
  List.zip r.indices (r.block data)

/-- The first element of a range is a designated element, or the range sits at
its own logical position. -/
def DesigRange.head_ok (data : List Initializer) (r : DesigRange) : Prop :=
  r.index = r.start ∨ ∃ idx v, data.get? r.index = some (.arr idx v)

/-- The ranges, in list order, lie one after another without overlap, the first
one starting at `lo` or later. -/
def ranges_disjoint : Nat → List DesigRange → Bool
  | _, [] => true
  | lo, p :: rest => decide (lo ≤ p.start) && ranges_disjoint (p.start + p.count) rest

/-- The range that `push_range` adds for the elements read since the last
designator: none when there is no such element. -/
def pending_range (lastStart lastStartIndex count : Nat) : List DesigRange :=
  if count = 0 then [] else [⟨lastStart, lastStartIndex, count⟩]

/-- The initializer list `{[2]=7, 1, 2, [0]=9}`. -/
def desig_example : List Initializer :=
  [.arr (.fixnum tyInt 2) (.single (.fixnum tyInt 7)), .single (.fixnum tyInt 1),
    .single (.fixnum tyInt 2), .arr (.fixnum tyInt 0) (.single (.fixnum tyInt 9))]

/-- The initializer list `{[1]=7, 8, [2]=9}`, in which index 2 is given twice. -/
def overlap_example : List Initializer :=
  [.arr (.fixnum tyInt 1) (.single (.fixnum tyInt 7)), .single (.fixnum tyInt 8),
    .arr (.fixnum tyInt 2) (.single (.fixnum tyInt 9))]

/-! ## Scopes of a function and typedefs (parser.c) -/

/-- Continuation of a parser function after a call: an `exit` or `abort` of the
callee ends the caller as well. -/
def Result.bind {α β : Type} (r : Result α) (f : α → ParseState → Result β) : Result β :=
  match r with
  | .ok a st => f a st
  | .exit c st => .exit c st
  | .abort => .abort

/-- A function of the parser that reads part of the token stream: it runs on
the parser state and returns a value, exits or aborts. -/
abbrev Action (α : Type) := ParseState → Result α

/-- The function `enter_scope`. The argument `func` is `curfunc` at every call
site and is read from the state; a NULL `func` is an access through NULL. The
new scope gets an empty typedef table. -/
def enter_scope (vars : Option (List VarInfo)) (st : ParseState) : Result Scope :=
  let scope := Scope.nested st.curscope vars
  match st.curfunc with
  | none => .abort
  | some func =>
    .ok scope { st with
      curscope := scope
      curfunc := some { func with scopes := func.scopes ++ [scope] }
      typedefs := [] :: st.typedefs }

/-- The function `exit_scope`. -/
def exit_scope (st : ParseState) : Result Unit :=
  match st.curscope with
  | .global _ => .abort
  | .nested parent _ => .ok () { st with curscope := parent, typedefs := st.typedefs.tail }

/-- Modelled from the spec: lookup in one typedef table (table.c is not part of
the sources). -/
def typedef_get : List (Name × CType) → Name → Option CType
  | [], _ => none
  | (k, v) :: rest, name => if k = name then some v else typedef_get rest name

/-- Modelled from the spec: store into one typedef table (table.c is not part
of the sources): replace the entry of the name, or add one. -/
def typedef_put : List (Name × CType) → Name → CType → List (Name × CType)
  | [], name, v => [(name, v)]
  | (k, w) :: rest, name, v =>
    if k = name then (k, v) :: rest else (k, w) :: typedef_put rest name v

/-- The walk of `find_typedef` over the tables of the scope chain; `depth` is
the number of parent links followed so far. -/
def find_typedef_from : List (List (Name × CType)) → Name → Nat → Option (CType × Nat)
  | [], _, _ => none
  | table :: rest, name, depth =>
    match typedef_get table name with
    | some type => some (type, depth)
    | none => find_typedef_from rest name (depth + 1)

/-- Modelled from the spec: `find_typedef` (its definition is not part of the
sources) walks from `curscope` along the parent links and returns the type
stored under the name in the first scope that has one, together with that scope,
given as the number of parent links between `curscope` and it (0 is `curscope`
itself). -/
def find_typedef (st : ParseState) (name : Name) : Option (CType × Nat) :=
  find_typedef_from st.typedefs name 0

/-- Modelled from the spec: `add_typedef` (its definition is not part of the
sources) stores the type under the name in the typedef table of `curscope`. -/
def add_typedef (name : Name) (type : CType) (st : ParseState) : ParseState :=
  match st.typedefs with
  | [] => { st with typedefs := [[(name, type)]] }
  | table :: rest => { st with typedefs := typedef_put table name type :: rest }

/-- Modelled from the spec: `ensure_struct` (its definition is not part of the
sources) completes a struct type that was named only by its tag. A `CType`
struct always carries its members, so nothing is left to complete. -/
def ensure_struct (_type : CType) (st : ParseState) : Result Unit := .ok () st

/-- The first part of `def_type`: the typedef in conflict, after the check of
its type. -/
def def_type_conflict (type : CType) (name : Name) (st : ParseState) :
    Result (Option CType) :=
  match find_typedef st name with
  | some (conflict, 0) =>
    if !same_type type conflict then parse_error st "Conflict typedef"
    else .ok (some conflict) st
  | _ => .ok none st

/-- The function `def_type`. The test `type->struct_.info != NULL` holds for
every `CType` struct. -/
def def_type (type : CType) (ident : Name) (st : ParseState) : Result Bool :=
  let name := ident
  (def_type_conflict type name st).bind fun conflict st1 =>
    if conflict.isNone || decide (type.kind = .TY_STRUCT) then
      let r := if type.kind = .TY_ARRAY then ensure_struct type st1 else .ok () st1
      r.bind fun _ st2 => .ok true (add_typedef name type st2)
    else .ok false st1

/-! ## Statements (parser.c)

The token stream of a statement is given by its syntax tree. The punctuation
the grammar requires is present, so every `consume` succeeds. The parts read by
the expression parser and by the declaration parser, which are outside the
sources, are `Action`s at the leaves of the tree: `parse_expr` together with the
checks applied to its result (`make_cond`, `not_void`), `parse_var_def`,
`parse_vardecl_cont`, `parse_vardecl`, `construct_initializing_stmts` on the
declarations just read, and `parse_asm`. -/

/-- The constant `LF_BREAK`. -/
def LF_BREAK : Nat := 1 <<< 0

/-- The constant `LF_CONTINUE`. -/
def LF_CONTINUE : Nat := 1 <<< 0

/-- Modelled from the spec: `table_put` on a label table (table.c is not part
of the sources): whether the key is new, and the table with the key. -/
def label_table_put (table : List Name) (key : Name) : Bool × List Name :=
  if table.contains key then (false, table) else (true, table ++ [key])

/-- Modelled from the spec: `table_try_get` on a label table (table.c is not
part of the sources): whether the key is in the table. -/
def label_table_try_get (table : List Name) (key : Name) : Bool := table.contains key

/-- The function `add_func_label`. -/
def add_func_label (label : Name) (st : ParseState) : Result Unit :=
  match st.curfunc with
  | none => .abort
  | some func =>
    let table := match func.label_table with
      | some t => t
      | none => []
    let (is_new, table1) := label_table_put table label
    let st1 := { st with curfunc := some { func with label_table := some table1 } }
    if !is_new then parse_error_nofatal st1 "Label `%.*s' already defined"
    else .ok () st1

/-- The function `add_func_goto`. -/
def add_func_goto (stmt : Stmt) (st : ParseState) : Result Unit :=
  match st.curfunc with
  | none => .abort
  | some func =>
    let gotos := match func.gotos with
      | some v => v
      | none => []
    .ok () { st with curfunc := some { func with gotos := some (gotos ++ [stmt]) } }

/-- The statement kinds passed to `parse_break_continue`. -/
inductive StmtKind
  | ST_BREAK | ST_CONTINUE
  deriving DecidableEq, Repr

/-- The function `new_stmt` on the two kinds of `StmtKind`. -/
def new_stmt : StmtKind → Stmt
  | .ST_BREAK => .break_
  | .ST_CONTINUE => .continue_

/-- The function `parse_if`; `fblock` is present when `else` follows. -/
def parse_if (cond : Action Expr) (tblock : Action Stmt) (fblock : Option (Action Stmt))
    (st : ParseState) : Result Stmt :=
  (cond st).bind fun c st1 =>
  (tblock st1).bind fun t st2 =>
  match fblock with
  | none => .ok (.if_ c t none) st2
  | some p => (p st2).bind fun f st3 => .ok (.if_ c t (some f)) st3

/-- The function `parse_switch`; `body` is the call of `parse_stmt`. The
statement returned carries what `curswitch` collected while the body was
read. -/
def parse_switch (value : Action Expr) (body : Action Stmt) (st : ParseState) :
    Result Stmt :=
  (value st).bind fun v st1 =>
  let swtch : SwitchInfo := { cases := [], default_ := none }
  let save_switch := st1.curswitch
  let save_flag := st1.curloopflag
  let st2 := { st1 with curloopflag := st1.curloopflag ||| LF_BREAK, curswitch := some swtch }
  (body st2).bind fun b st3 =>
  let sw := match st3.curswitch with
    | some s => s
    | none => swtch
  .ok (.switch_ v b sw.cases sw.default_)
    { st3 with curloopflag := save_flag, curswitch := save_switch }

/-- The function `parse_default`. -/
def parse_default (st : ParseState) : Result Stmt :=
  let stmt : Stmt := .case_ none
  match st.curswitch with
  | none =>
    (parse_error_nofatal st "`default' cannot use outside of `switch'").bind fun _ st1 =>
      .ok stmt st1
  | some sw =>
    match sw.default_ with
    | some _ =>
      (parse_error_nofatal st "`default' already defined in `switch'").bind fun _ st1 =>
        .ok stmt st1
    | none =>
      .ok stmt { st with curswitch := some { cases := sw.cases ++ [stmt], default_ := some stmt } }

/-- The function `parse_while`. -/
def parse_while (cond : Action Expr) (body : Action Stmt) (st : ParseState) : Result Stmt :=
  (cond st).bind fun c st1 =>
  let save_flag := st1.curloopflag
  let st2 := { st1 with curloopflag := st1.curloopflag ||| (LF_BREAK ||| LF_CONTINUE) }
  (body st2).bind fun b st3 =>
  .ok (.while_ c b) { st3 with curloopflag := save_flag }

/-- The function `parse_do_while`. -/
def parse_do_while (body : Action Stmt) (cond : Action Expr) (st : ParseState) :
    Result Stmt :=
  let save_flag := st.curloopflag
  let st1 := { st with curloopflag := st.curloopflag ||| (LF_BREAK ||| LF_CONTINUE) }
  (body st1).bind fun b st2 =>
  let st3 := { st2 with curloopflag := save_flag }
  (cond st3).bind fun c st4 =>
  .ok (.do_while b c) st4

/-- The first clause of a `for` statement: empty, a declaration (`var_def` is
`parse_var_def`, which returned a type, with the check that a name follows;
`cont` is `parse_vardecl_cont`, `inits` is `construct_initializing_stmts` on the
declarations), or an expression. -/
inductive ForInit
  | empty
  | decl (var_def : Action Unit) (cont : Action (Option (List VarDecl)))
      (inits : List VarDecl → Action (Option (List Stmt)))
  | expr (pre : Action Expr)

/-- An optional clause: NULL when the clause is absent. -/
def parse_optional (p : Option (Action Expr)) (st : ParseState) : Result (Option Expr) :=
  match p with
  | none => .ok none st
  | some q => (q st).bind fun e st1 => .ok (some e) st1

/-- The first clause of `parse_for`: `pre`, `decls` and whether a scope was
entered. -/
def parse_for_init (init : ForInit) (st : ParseState) :
    Result (Option Expr × Option (List VarDecl) × Bool) :=
  match init with
  | .empty => .ok (none, none, false) st
  | .decl var_def cont _ =>
    (var_def st).bind fun _ st1 =>
    (enter_scope none st1).bind fun _ st2 =>
    (cont st2).bind fun decls st3 =>
    .ok (none, decls, true) st3
  | .expr pre => (pre st).bind fun e st1 => .ok (some e, none, false) st1

/-- The statements `parse_for` puts before the loop: the declaration with its
initialising statements when `decls` is not NULL. -/
def parse_for_decls (init : ForInit) (decls : Option (List VarDecl)) (st : ParseState) :
    Result (List Stmt) :=
  match init, decls with
  | .decl _ _ inits, some ds =>
    (inits ds st).bind fun i st1 =>
      .ok [.vardecl ds (match i with
        | some l => l
        | none => [])] st1
  | _, _ => .ok [] st

/-- The function `parse_for`. -/
def parse_for (init : ForInit) (cond post : Option (Action Expr)) (body : Action Stmt)
    (st : ParseState) : Result Stmt :=
  (parse_for_init init st).bind fun (pre, decls, scope) st1 =>
  (parse_optional cond st1).bind fun c st2 =>
  (parse_optional post st2).bind fun p st3 =>
  let save_flag := st3.curloopflag
  let st4 := { st3 with curloopflag := st3.curloopflag ||| (LF_BREAK ||| LF_CONTINUE) }
  (body st4).bind fun b st5 =>
  (parse_for_decls init decls st5).bind fun stmts st6 =>
  let st7 := { st6 with curloopflag := save_flag }
  (if scope then exit_scope st7 else .ok () st7).bind fun _ st8 =>
  .ok (.block (stmts ++ [.for_ pre c p b])) st8

/-- The function `parse_break_continue`. -/
def parse_break_continue (kind : StmtKind) (st : ParseState) : Result Stmt :=
  if st.curloopflag &&& LF_BREAK = 0 then
    let err :=
      if kind = .ST_BREAK then "`break' cannot be used outside of loop"
      else "`continue' cannot be used outside of loop"
    (parse_error_nofatal st err).bind fun _ st1 => .ok (new_stmt kind) st1
  else .ok (new_stmt kind) st

/-- The function `parse_goto`. -/
def parse_goto (label : Name) (st : ParseState) : Result Stmt :=
  let stmt : Stmt := .goto_ label
  (add_func_goto stmt st).bind fun _ st1 => .ok stmt st1

/-- The function `parse_label`; `body` is the call of `parse_stmt`. -/
def parse_label (label : Name) (body : Action Stmt) (st : ParseState) : Result Stmt :=
  (body st).bind fun s st1 =>
  (add_func_label label st1).bind fun _ st2 => .ok (.label label s) st2

/-- The value of `parse_return`: NULL when `;` follows at once. -/
def parse_return_value (env : Env) (val : Option (Action Expr)) (st : ParseState) :
    Result (Option Expr) :=
  match val with
  | none => .ok none st
  | some p =>
    (p st).bind fun v st1 =>
    (env.str_to_char_array_var v st1).bind fun v1 st2 => .ok (some v1) st2

/-- The function `parse_return`. -/
def parse_return (env : Env) (val : Option (Action Expr)) (st : ParseState) : Result Stmt :=
  (parse_return_value env val st).bind fun val st1 =>
  match st1.curfunc with
  | none => .abort
  | some func =>
    match func.type with
    | .func rettype _ _ =>
      match val with
      | none =>
        if rettype.kind ≠ .TY_VOID then
          (parse_error_nofatal st1 "`return' required a value").bind fun _ st2 =>
            .ok (.return_ none) st2
        else .ok (.return_ none) st1
      | some v =>
        if rettype.kind = .TY_VOID then
          (parse_error_nofatal st1 "void function `return' a value").bind fun _ st2 =>
            .ok (.return_ (some v)) st2
        else
          (env.make_cast rettype v false st1).bind fun v1 st2 => .ok (.return_ (some v1)) st2
    | _ => .abort

/-- The function `parse_block`; `body` is the call of `parse_stmts`. -/
def parse_block (body : Action (List Stmt)) (st : ParseState) : Result Stmt :=
  (enter_scope none st).bind fun _ st1 =>
  (body st1).bind fun stmts st2 =>
  let stmt : Stmt := .block stmts
  (exit_scope st2).bind fun _ st3 => .ok stmt st3

mutual
/-- Syntax tree of a statement as `parse_stmt` reads it. -/
inductive SrcStmt
  | label (name : Name) (body : SrcStmt)
  | empty
  | block (items : List SrcItem)
  | if_ (cond : Action Expr) (tblock : SrcStmt)
  | if_else (cond : Action Expr) (tblock fblock : SrcStmt)
  | switch_ (value : Action Expr) (body : SrcStmt)
  | while_ (cond : Action Expr) (body : SrcStmt)
  | do_while (body : SrcStmt) (cond : Action Expr)
  | for_ (init : ForInit) (cond post : Option (Action Expr)) (body : SrcStmt)
  | break_
  | continue_
  | goto_ (label : Name)
  | return_ (val : Option (Action Expr))
  | asm_ (act : Action Stmt)
  | expr (val : Action Expr)
/-- One item of a block as `parse_stmts` reads it: a declaration (the call of
`parse_vardecl` that returned true), a `case` label with its constant, a
`default` label, or a statement. -/
inductive SrcItem
  | vardecl (decl : Action (Option Stmt))
  | case_ (value : Expr)
  | default_
  | stmt (s : SrcStmt)
end

mutual
/-- The function `parse_stmt` on a statement. -/
def parse_stmt (env : Env) : SrcStmt → ParseState → Result Stmt
  | .label name body, st => parse_label name (parse_stmt env body) st
  | .empty, st => .ok (.block []) st
  | .block items, st => parse_block (parse_stmts env items) st
  | .if_ cond tblock, st => parse_if cond (parse_stmt env tblock) none st
  | .if_else cond tblock fblock, st =>
    parse_if cond (parse_stmt env tblock) (some (parse_stmt env fblock)) st
  | .switch_ value body, st => parse_switch value (parse_stmt env body) st
  | .while_ cond body, st => parse_while cond (parse_stmt env body) st
  | .do_while body cond, st => parse_do_while (parse_stmt env body) cond st
  | .for_ init cond post body, st => parse_for init cond post (parse_stmt env body) st
  | .break_, st => parse_break_continue .ST_BREAK st
  | .continue_, st => parse_break_continue .ST_CONTINUE st
  | .goto_ label, st => parse_goto label st
  | .return_ val, st => parse_return env val st
  | .asm_ act, st => act st
  | .expr val, st =>
    (val st).bind fun v st1 =>
    (env.str_to_char_array_var v st1).bind fun v1 st2 => .ok (.expr v1) st2
/-- The function `parse_stmts` on the items up to the closing brace. -/
def parse_stmts (env : Env) : List SrcItem → ParseState → Result (List Stmt)
  | [], st => .ok [] st
  | item :: rest, st =>
    (parse_item env item st).bind fun stmt st1 =>
    (parse_stmts env rest st1).bind fun stmts st2 =>
      .ok (match stmt with
        | some s => s :: stmts
        | none => stmts) st2
/-- One turn of the loop of `parse_stmts`: the statement pushed, NULL when a
declaration produced none. -/
def parse_item (env : Env) : SrcItem → ParseState → Result (Option Stmt)
  | .vardecl decl, st => decl st
  | .case_ value, st => (parse_case value true st).bind fun s st1 => .ok (some s) st1
  | .default_, st => (parse_default st).bind fun s st1 => .ok (some s) st1
  | .stmt s, st => (parse_stmt env s st).bind fun r st1 => .ok (some r) st1
end

/-! ## parse_defun -/

/-- The chain with its root replaced: the effect on `curscope` of a write to
the global scope. -/
def Scope.set_root : Scope → Scope → Scope
  | .global _, r => r
  | .nested parent vars, r => .nested (parent.set_root r) vars

/-- The test `label_table == NULL || !table_try_get(label_table, label, NULL)`
of `parse_defun`. -/
def label_missing (label_table : Option (List Name)) (label : Name) : Bool :=
  match label_table with
  | none => true
  | some table => !label_table_try_get table label

/-- The loop of `parse_defun` over `func->gotos`. -/
def check_goto_labels_loop (label_table : Option (List Name)) :
    List Stmt → ParseState → Result Unit
  | [], st => .ok () st
  | stmt :: rest, st =>
    match stmt with
    | .goto_ label =>
      if label_missing label_table label then
        (parse_error_nofatal st "`%.*s' not found").bind fun _ st1 =>
          check_goto_labels_loop label_table rest st1
      else check_goto_labels_loop label_table rest st
    | _ => .abort

/-- The part of `parse_defun` headed `Check goto labels`. -/
def check_goto_labels (func : Function) (st : ParseState) : Result Unit :=
  match func.gotos with
  | some gotos => check_goto_labels_loop func.label_table gotos st
  | none => .ok () st

/-- The first part of `parse_defun`: the entry of the function in the global
scope and the flag `err`. A `CType` function type always has its parameter
list, so the branches for an old-style declaration are not taken. -/
def parse_defun_entry (functype : CType) (storage : Nat) (ident : Name) (st : ParseState) :
    Result (VarInfo × Bool) :=
  let global_scope := st.curscope.root
  match (scope_find global_scope ident).1 with
  | none =>
    (add_var_to_scope global_scope ident functype storage st).bind fun (varinfo, scope) st1 =>
      .ok (varinfo, false) { st1 with curscope := st1.curscope.set_root scope }
  | some varinfo =>
    let conflict := match varinfo.type, functype with
      | .func vret _ _, .func ret _ _ => !same_type vret ret || !same_type varinfo.type functype
      | _, _ => true
    if conflict then
      (parse_error_nofatal st "Definition conflict: `%.*s'").bind fun _ st1 =>
        .ok (varinfo, true) st1
    else .ok (varinfo, false) st

/-- The part of `parse_defun` from the opening brace to the closing one: the
function with its body read, before the check of the labels. -/
def parse_defun_body (env : Env) (func : Function) (err : Bool)
    (params : Option (List VarInfo)) (items : List SrcItem) (st : ParseState) :
    Result Function :=
  let r :=
    if !err && st.defined_funcs.contains func.name then
      parse_error_nofatal st "`%.*s' function already defined"
    else .ok () { st with defined_funcs := st.defined_funcs ++ [func.name] }
  r.bind fun _ st1 =>
  if st1.curfunc.isSome then .abort
  else if !is_global_scope st1.curscope then .abort
  else
    let st2 := { st1 with curfunc := some { func with scopes := [] } }
    (enter_scope params st2).bind fun _ st3 =>
    (parse_stmts env items st3).bind fun stmts st4 =>
    (exit_scope st4).bind fun _ st5 =>
    if !is_global_scope st5.curscope then .abort
    else
      match st5.curfunc with
      | none => .abort
      | some f =>
        let f1 := { f with stmts := some stmts }
        .ok f1 { st5 with curfunc := some f1 }

/-- Modelled from the spec: `new_func` (its definition is not part of the
sources) builds the `Function` of a type and a name with no scope, no label, no
`goto` and no statement yet. -/
def new_func (type : CType) (name : Name) : Function :=
  { name := name, type := type, scopes := [], label_table := none, gotos := none,
    stmts := none }

/-- The function `parse_defun`. `params` is `functype->func.params`, `body` is
NULL for a prototype (`;` follows) and the items of the body otherwise. -/
def parse_defun (env : Env) (functype : CType) (storage : Nat) (ident : Name)
    (params : Option (List VarInfo)) (body : Option (List SrcItem)) (st : ParseState) :
    Result Function :=
  match functype with
  | .func _ _ _ =>
    let func := new_func functype ident
    (parse_defun_entry functype storage ident st).bind fun (_, err) st1 =>
    match body with
    | none => .ok func st1
    | some items =>
      (parse_defun_body env func err params items st1).bind fun f st2 =>
      (check_goto_labels f st2).bind fun _ st3 =>
      .ok f { st3 with curfunc := none }
  | _ => .abort

/-! ## The driver of cc1 (cc1.c) -/

/-- What the driver does besides parsing, in the order of occurrence. -/
inductive Event
  | show_version
  | cannot_open
  | gen
  | emit_code
  deriving DecidableEq, Repr

/-- How the process ended: by `return` from `main` or by `exit`, the status,
the events so far, and the state of the parser at that moment. -/
structure Outcome where
  returned : Bool
  status : Nat
  events : List Event
  st : ParseState

/-- The loop of `main` over the input files. An entry is NULL when `fopen`
fails and otherwise the call of `parse` on the tokens of the file. `error`
prints its message and exits with status 1; a failed `assert` ends the process
by `abort`, status 134. -/
def compile_files : List (Option (Action Unit)) → ParseState → Except Outcome ParseState
  | [], st => .ok st
  | none :: _, st => .error { returned := false, status := 1, events := [.cannot_open], st := st }
  | some parse :: rest, st =>
    match parse st with
    | .ok _ st1 => compile_files rest st1
    | .exit c st1 => .error { returned := false, status := c, events := [], st := st1 }
    | .abort => .error { returned := false, status := 134, events := [], st := st }

/-- The compilation of all inputs: the files named on the command line, or the
standard input when there is none. -/
def compile_inputs (files : List (Option (Action Unit))) (stdin : Action Unit)
    (st : ParseState) : Except Outcome ParseState :=
  match files with
  | [] => compile_files [some stdin] st
  | _ => compile_files files st

/-- The function `main` of cc1. `version` tells whether the option loop met
`-V` or `--version`; `st` is the state after `init_compiler`. -/
def cc1_main (version : Bool) (files : List (Option (Action Unit))) (stdin : Action Unit)
    (st : ParseState) : Outcome :=
  if version then { returned := true, status := 0, events := [.show_version], st := st }
  else
    match compile_inputs files stdin st with
    | .error out => out
    | .ok st1 =>
      if st1.compile_error_count ≠ 0 then
        { returned := false, status := 1, events := [], st := st1 }
      else { returned := true, status := 0, events := [.gen, .emit_code], st := st1 }

/-! ## The command line of the assembler (as.c) -/

/-- Modelled from the spec: `starts_with` (util.c is not part of the sources):
the second string is a prefix of the first. -/
def starts_with : List Char → List Char → Bool
  | _, [] => true
  | [], _ :: _ => false
  | c :: s, d :: p => c = d && starts_with s p

/-- What the option loop of `main` of the assembler decides: assemble with an
output file name and the input files, or return at once with a status. -/
inductive AsCommand
  | assemble (ofn : List Char) (inputs : List (List Char))
  | show_version
  | unknown_option (arg : List Char)
  deriving DecidableEq, Repr

/-- The option loop of `main` of the assembler over `argv[iarg..]`. -/
def as_options : List (List Char) → List Char → AsCommand
  | [], ofn => .assemble ofn []
  | arg :: rest, ofn =>
    if arg.head? ≠ some '-' then .assemble ofn (arg :: rest)
    else if starts_with arg "-o".toList then as_options rest (arg.drop 2)
    else if arg = "--version".toList then .show_version
    else .unknown_option arg

/-- The start of `main` of the assembler: `argv[0]` is skipped and the output
file name starts as `a.out`. -/
def as_main (argv : List (List Char)) : AsCommand :=
  as_options argv.tail "a.out".toList

/-! ## Scope lookup (specification side) -/

/-- Whether the scope declares the name. -/
def scope_has (s : Scope) (name : Name) : Bool :=
  match s.vars with
  | some vs => vs.any fun v => decide (v.name = some name)
  | none => false

/-- The first entry of the scope with the name. -/
def scope_entry (s : Scope) (name : Name) : Option VarInfo :=
  match s.vars with
  | some vs => vs.find? fun v => decide (v.name = some name)
  | none => none

/-- The scopes along the parent links, the starting scope first. -/
def scope_chain : Scope → List Scope
  | .global vs => [.global vs]
  | .nested p vs => .nested p vs :: scope_chain p

/-- The lookup as the specification words it: the innermost scope of the chain
that declares the name, with its entry; NULL twice when there is none. -/
def scope_find_spec (s : Scope) (name : Name) : Option VarInfo × Option Scope :=
  match (scope_chain s).find? fun sc => scope_has sc name with
  | some sc => (scope_entry sc name, some sc)
  | none => (none, none)

/-! ## Examples for the drivers and typedefs -/

/-- The command line `as -o out.o in.s`. -/
def as_separate_example : List (List Char) :=
  ["as".toList, "-o".toList, "out.o".toList, "in.s".toList]

/-- The typedef table of `curscope` (empty when the state has none). -/
def current_typedefs (st : ParseState) : List (Name × CType) :=
  match st.typedefs with
  | [] => []
  | table :: _ => table

/-! ## Example functions -/

/-- An expression whose parse leaves the state as it is. -/
def read_expr (e : Expr) : Action Expr := fun st => .ok e st

/-- The type `void (int)`. -/
def void_int_func : CType := .func .void [tyInt] false

/-- The parameter `int x` (name 1). -/
def param_x : VarInfo := { name := some (.ident 1), type := tyInt, storage := 0 }

/-- The body of `void f(int x) { switch (x) { case 0: continue; } }`. -/
def continue_in_switch : List SrcItem :=
  [.stmt (.switch_ (read_expr (.var tyInt (.ident 1) (.global none)))
    (.block [.case_ (.fixnum tyInt 0), .stmt .continue_]))]

/-- The body of `void f(int x) { continue; }`. -/
def continue_alone : List SrcItem := [.stmt .continue_]

/-- The body of a function with 26 statements `goto L;` and no label. -/
def many_gotos : List SrcItem := List.replicate 26 (.stmt (.goto_ (.ident 2)))

/-- The error count and the messages of the state in which a call ended. -/
def Result.report {α : Type} (r : Result α) : Option (Nat × List String) :=
  r.state.map fun st => (st.compile_error_count, st.errors)

/-- Whether the call ended by `exit`, and with which status. -/
def Result.exit_status {α : Type} : Result α → Option Nat
  | .exit c _ => some c
  | _ => none

/-! ## What the leaves of a syntax tree leave alone -/

/-- The part of the state that the parsers of expressions and declarations do
not write: the loop flag, the current function, and the position of `curscope`
on its chain (they add variables to the scope `curscope` points to, they never
move `curscope`). -/
def keeps_context (st st1 : ParseState) : Prop :=
  st1.curloopflag = st.curloopflag ∧ st1.curfunc = st.curfunc ∧
  st1.curscope.parent = st.curscope.parent

/-- An action keeps the context whenever it returns. -/
def action_keeps {α : Type} (p : Action α) : Prop :=
  ∀ st a st1, p st = .ok a st1 → keeps_context st st1

/-- The collaborators called by the statement parser keep the context. -/
def env_keeps (env : Env) : Prop :=
  (∀ e, action_keeps (env.str_to_char_array_var e)) ∧
  (∀ t e b, action_keeps (env.make_cast t e b))

/-- An optional clause keeps the context. -/
def optional_keeps : Option (Action Expr) → Prop
  | none => True
  | some p => action_keeps p

/-- The actions of the first clause of a `for` keep the context. -/
def ForInit.keeps : ForInit → Prop
  | .empty => True
  | .decl var_def cont inits =>
    action_keeps var_def ∧ action_keeps cont ∧ ∀ ds, action_keeps (inits ds)
  | .expr pre => action_keeps pre

mutual
/-- Every action at a leaf of the statement keeps the context. -/
def SrcStmt.keeps : SrcStmt → Prop
  | .label _ body => body.keeps
  | .empty => True
  | .block items => SrcItem.keeps_all items
  | .if_ cond tblock => action_keeps cond ∧ tblock.keeps
  | .if_else cond tblock fblock => action_keeps cond ∧ tblock.keeps ∧ fblock.keeps
  | .switch_ value body => action_keeps value ∧ body.keeps
  | .while_ cond body => action_keeps cond ∧ body.keeps
  | .do_while body cond => body.keeps ∧ action_keeps cond
  | .for_ init cond post body =>
    init.keeps ∧ optional_keeps cond ∧ optional_keeps post ∧ body.keeps
  | .break_ => True
  | .continue_ => True
  | .goto_ _ => True
  | .return_ val => optional_keeps val
  | .asm_ act => action_keeps act
  | .expr val => action_keeps val
/-- Every action at a leaf of the items keeps the context. -/
def SrcItem.keeps_all : List SrcItem → Prop
  | [] => True
  | item :: rest => item.keeps ∧ SrcItem.keeps_all rest
/-- Every action at a leaf of the item keeps the context. -/
def SrcItem.keeps : SrcItem → Prop
  | .vardecl decl => action_keeps decl
  | .case_ _ => True
  | .default_ => True
  | .stmt s => s.keeps
end

mutual
/-- The labels of the `goto` statements of a statement, in source order. -/
def SrcStmt.gotos : SrcStmt → List Name
  | .label _ body => body.gotos
  | .block items => SrcItem.gotos_all items
  | .if_ _ tblock => tblock.gotos
  | .if_else _ tblock fblock => tblock.gotos ++ fblock.gotos
  | .switch_ _ body => body.gotos
  | .while_ _ body => body.gotos
  | .do_while body _ => body.gotos
  | .for_ _ _ _ body => body.gotos
  | .goto_ label => [label]
  | _ => []
/-- The labels of the `goto` statements of the items, in source order. -/
def SrcItem.gotos_all : List SrcItem → List Name
  | [] => []
  | item :: rest => item.gotos ++ SrcItem.gotos_all rest
/-- The labels of the `goto` statements of an item. -/
def SrcItem.gotos : SrcItem → List Name
  | .stmt s => s.gotos
  | _ => []
end

mutual
/-- The labels a statement defines. -/
def SrcStmt.labels : SrcStmt → List Name
  | .label name body => body.labels ++ [name]
  | .block items => SrcItem.labels_all items
  | .if_ _ tblock => tblock.labels
  | .if_else _ tblock fblock => tblock.labels ++ fblock.labels
  | .switch_ _ body => body.labels
  | .while_ _ body => body.labels
  | .do_while body _ => body.labels
  | .for_ _ _ _ body => body.labels
  | _ => []
/-- The labels the items define. -/
def SrcItem.labels_all : List SrcItem → List Name
  | [] => []
  | item :: rest => item.labels ++ SrcItem.labels_all rest
/-- The labels an item defines. -/
def SrcItem.labels : SrcItem → List Name
  | .stmt s => s.labels
  | _ => []
end

/-- The vector `func->gotos` of the current function (empty when NULL). -/
def goto_list (func : Option Function) : List Stmt :=
  match func with
  | some f =>
    match f.gotos with
    | some v => v
    | none => []
  | none => []

/-- The keys of `func->label_table` of the current function (none when NULL). -/
def label_list (func : Option Function) : List Name :=
  match func with
  | some f =>
    match f.label_table with
    | some t => t
    | none => []
  | none => []

/-- Between two states `curscope` stayed at its position on the chain, the
current function got the `goto` statements `gs` appended and its label table
got the labels `ls`. -/
def extends_function (gs ls : List Name) (st st1 : ParseState) : Prop :=
  st1.curscope.parent = st.curscope.parent ∧
  st1.curfunc.isSome = st.curfunc.isSome ∧
  goto_list st1.curfunc = goto_list st.curfunc ++ gs.map Stmt.goto_ ∧
  ∀ n, n ∈ label_list st1.curfunc ↔ n ∈ label_list st.curfunc ∨ n ∈ ls

/-- Whenever the action returns, the loop flag is what it was and the current
function got the gotos `gs` and the labels `ls`. -/
def frames {α : Type} (gs ls : List Name) (p : Action α) : Prop :=
  ∀ st a st1, p st = .ok a st1 →
    st1.curloopflag = st.curloopflag ∧ extends_function gs ls st st1

/-! ## Example statements -/

/-- Whether the call returned normally. -/
def Result.returned {α : Type} : Result α → Bool
  | .ok _ _ => true
  | _ => false

/-- The function `void f(int x)` at the start of its body. -/
def function_f : Function :=
  { name := .ident 0, type := void_int_func, scopes := [], label_table := none, gotos := none,
    stmts := none }

/-- The state of the parser inside the body of `void f(int x)`. -/
def function_state : ParseState :=
  { init_state with
    curscope := .nested (.global none) (some [param_x])
    curfunc := some function_f
    typedefs := [[], []] }

/-- The state inside a `switch` of `f` in which `case 1:`, `default:` and
`case 2:` have been read. -/
def in_switch_state : ParseState :=
  { function_state with curswitch := some switch_example, curloopflag := LF_BREAK }

/-- The expression `x`. -/
def expr_x : Expr := .var tyInt (.ident 1) (.global none)

/-- The body `{ case 1: while (x) break; switch (x) { default: ; } }` of a
nested switch. -/
def nested_switch_body : SrcStmt :=
  .block [.case_ (.fixnum tyInt 1), .stmt (.while_ (read_expr expr_x) .break_),
    .stmt (.switch_ (read_expr expr_x) (.block [.default_, .stmt .empty]))]

/-- The items `int i; x;` of a block; the declaration adds `i` (name 3) to the
current scope. -/
def block_items : List SrcItem :=
  [.vardecl fun st =>
      (add_var_to_scope st.curscope (.ident 3) tyInt 0 st).bind fun r st1 =>
        .ok none { st1 with curscope := r.2 },
    .stmt (.expr (read_expr expr_x))]

/-- The clause `int i` of `for (int i; x; x) break;`: `parse_var_def` reads the
type and the name, `parse_vardecl_cont` adds the variable to the scope just
entered, and no initialising statement is built. -/
def for_init_example : ForInit :=
  .decl (fun st => .ok () st)
    (fun st =>
      (add_var_to_scope st.curscope (.ident 3) tyInt 0 st).bind fun r st1 =>
        .ok (some [{ type := tyInt, ident := .ident 3, init := .null, storage := 0 }])
          { st1 with curscope := r.2 })
    (fun _ st => .ok none st)

/-! ## break by syntactic nesting (specification side) -/

/-- The check of a `break` as the specification words it: an error is recorded
exactly when the statement is not nested in the body of a loop or switch. -/
def parse_break_nested (nested : Bool) (st : ParseState) : Result Stmt :=
  if !nested then
    (parse_error_nofatal st "`break' cannot be used outside of loop").bind fun _ st1 =>
      .ok .break_ st1
  else .ok .break_ st

mutual
/-- The statement parser in which `break` is checked by nesting: `nested` tells
whether the statement stands in the body of a `while`, `do`, `for` or `switch`
of the function. Everything but `break` is as in `parse_stmt`. -/
def parse_stmt_nested (env : Env) : Bool → SrcStmt → ParseState → Result Stmt
  | nested, .label name body, st => parse_label name (parse_stmt_nested env nested body) st
  | _, .empty, st => .ok (.block []) st
  | nested, .block items, st => parse_block (parse_stmts_nested env nested items) st
  | nested, .if_ cond tblock, st => parse_if cond (parse_stmt_nested env nested tblock) none st
  | nested, .if_else cond tblock fblock, st =>
    parse_if cond (parse_stmt_nested env nested tblock)
      (some (parse_stmt_nested env nested fblock)) st
  | _, .switch_ value body, st => parse_switch value (parse_stmt_nested env true body) st
  | _, .while_ cond body, st => parse_while cond (parse_stmt_nested env true body) st
  | _, .do_while body cond, st => parse_do_while (parse_stmt_nested env true body) cond st
  | _, .for_ init cond post body, st =>
    parse_for init cond post (parse_stmt_nested env true body) st
  | nested, .break_, st => parse_break_nested nested st
  | _, .continue_, st => parse_break_continue .ST_CONTINUE st
  | _, .goto_ label, st => parse_goto label st
  | _, .return_ val, st => parse_return env val st
  | _, .asm_ act, st => act st
  | _, .expr val, st =>
    (val st).bind fun v st1 =>
    (env.str_to_char_array_var v st1).bind fun v1 st2 => .ok (.expr v1) st2
/-- The items of a block, with `break` checked by nesting. -/
def parse_stmts_nested (env : Env) : Bool → List SrcItem → ParseState → Result (List Stmt)
  | _, [], st => .ok [] st
  | nested, item :: rest, st =>
    (parse_item_nested env nested item st).bind fun stmt st1 =>
    (parse_stmts_nested env nested rest st1).bind fun stmts st2 =>
      .ok (match stmt with
        | some s => s :: stmts
        | none => stmts) st2
/-- One item of a block, with `break` checked by nesting. -/
def parse_item_nested (env : Env) : Bool → SrcItem → ParseState → Result (Option Stmt)
  | _, .vardecl decl, st => decl st
  | _, .case_ value, st => (parse_case value true st).bind fun s st1 => .ok (some s) st1
  | _, .default_, st => (parse_default st).bind fun s st1 => .ok (some s) st1
  | nested, .stmt s, st =>
    (parse_stmt_nested env nested s st).bind fun r st1 => .ok (some r) st1
end

/-- Two actions give the same result in every state whose `LF_BREAK` bit is set
exactly when `nested` holds. -/
def agree {α : Type} (nested : Bool) (p q : Action α) : Prop :=
  ∀ st : ParseState, (st.curloopflag &&& LF_BREAK ≠ 0 ↔ nested = true) → p st = q st

/-- The body `break; while (x) break; switch (x) { case 0: break; } if (x) break;`
of a function. -/
def break_items : List SrcItem :=
  [.stmt .break_, .stmt (.while_ (read_expr expr_x) .break_),
    .stmt (.switch_ (read_expr expr_x) (.block [.case_ (.fixnum tyInt 0), .stmt .break_])),
    .stmt (.if_ (read_expr expr_x) .break_)]

/-! ## Undefined labels of a function (specification side) -/

/-- The labels of the `goto` statements of a function body for which the body
defines no label, one entry for each such statement, in source order. -/
def undefined_gotos (items : List SrcItem) : List Name :=
  (SrcItem.gotos_all items).filter fun l => !(SrcItem.labels_all items).contains l

/-- The state after the message has been printed and counted `k` times. -/
def ParseState.record_times (st : ParseState) (fmt : String) : Nat → ParseState
  | 0 => st
  | k + 1 => (st.record fmt).record_times fmt k

/-- The body `goto K; goto L; K: ; goto N;` of a function: `K` is defined after
its `goto`, `L` and `N` are not defined. -/
def goto_items : List SrcItem :=
  [.stmt (.goto_ (.ident 10)), .stmt (.goto_ (.ident 11)),
    .stmt (.label (.ident 10) .empty), .stmt (.goto_ (.ident 12))]

/-! ## The entry address of the executable (as.c) -/

/-- The field of `LabelInfo` that `main` reads: the resolved address. -/
structure LabelInfo where
  address : Nat
  deriving DecidableEq, Repr

/-- Size and load address of a section as `get_section_size` reports them. -/
structure SectionSize where
  filesz : Nat
  memsz : Nat
  loadadr : Nat
  deriving DecidableEq, Repr

/-- What `main` of the assembler writes to the output file, in the order of the
calls, and the message of `error`. -/
inductive AsEvent
  | elf_header (entry : Nat) (phnum : Nat)
  | program_header (sec offset vaddr filesz memsz : Nat)
  | padding (start : Nat)
  | section (sec : Nat)
  | error (fmt : String)
  deriving DecidableEq, Repr

/-- The constant `PROG_START`. -/
def PROG_START : Nat := 0x100

/-- The macro `ALIGN(x, align)`. -/
def ALIGN (x align : Nat) : Nat := (x + (align - 1)) / align * align

/-- The index `SEC_CODE`. -/
def SEC_CODE : Nat := 0

/-- The index `SEC_DATA`. -/
def SEC_DATA : Nat := 1

/-- Modelled from the spec: `table_get` on the label table (table.c is not part
of the sources): the entry stored under the name. -/
def label_table_get (table : List (List Char × LabelInfo)) (name : List Char) :
    Option LabelInfo :=
  match table with
  | [] => none
  | (k, v) :: rest => if k = name then some v else label_table_get rest name

/-- The name `_start` (`alloc_name("_start", NULL, false)`). -/
def start_name : List Char := "_start".toList

/-- The end of `main` of the assembler, from the lookup of `_start` to the
output of the sections: the exit status and what has been written. `error`
prints its message and exits with status 1. -/
def as_write_executable (label_table : List (List Char × LabelInfo))
    (code data : SectionSize) : Nat × List AsEvent :=
  match label_table_get label_table start_name with
  | none => (1, [.error "Cannot find label: `%s'"])
  | some entry =>
    let phnum := if data.memsz > 0 then 2 else 1
    let headers : List AsEvent :=
      [.elf_header entry.address phnum,
        .program_header 0 PROG_START code.loadadr code.filesz code.memsz] ++
      (if phnum > 1 then
        [.program_header 1 (ALIGN (PROG_START + code.filesz) 0x1000) data.loadadr data.filesz
          data.memsz]
      else [])
    let sections : List AsEvent :=
      [.padding PROG_START, .section SEC_CODE] ++
      (if data.filesz > 0 then
        [.padding (ALIGN (PROG_START + code.filesz) 0x1000), .section SEC_DATA]
      else [])
    (0, headers ++ sections)

/-- Whether the event is the output of an ELF header. -/
def AsEvent.is_elf_header : AsEvent → Bool
  | .elf_header _ _ => true
  | _ => false

/-! ## Examples for add_var_to_scope and the struct initializer -/

/-- A scope that declares `extern int x;` (name 1). -/
def extern_scope : Scope :=
  .global (some [{ name := some (.ident 1), type := tyInt, storage := VS_EXTERN }])

/-- The initializer `{.z = 1, 2}`, whose designator names no member of
`struct P`. -/
def init_no_member : Initializer :=
  .multi [.dot (.ident 9) (.single (.fixnum tyInt 1)), .single (.fixnum tyInt 2)]

/-- Whether the call ended in `abort` (a failed `assert`, or an access through
NULL or outside a vector). -/
def Result.aborted {α : Type} : Result α → Bool
  | .abort => true
  | _ => false

/-! ## The array loop of assign_initial_value by logical index (specification side) -/

/-- The statement `ptr += n` for a number of bytes `n`. -/
def advance_by (ptr_type : CType) (ptr_var : Expr) (n : Int) : Stmt :=
  .expr (.unary .EX_MODIFY ptr_type (.bop .EX_ADD ptr_type ptr_var (.fixnum tySize n)))

/-- The value of an element of an array brace list: the value behind the
designator of `[k] = value`, the element itself otherwise. -/
def Initializer.arr_value : Initializer → Initializer
  | .arr _ value => value
  | e => e

/-- The statements for the elements as the specification words them. The
pointer stands `pos` elements, that is `pos * elem_size` bytes, past the address
of the array. For each element with its logical index `k`: when `k` differs from
`pos`, the statement that advances the pointer by `(k - pos) * elem_size` bytes,
after which it stands `k` elements past the address; then the assignment of the
element through the pointer. -/
def assign_elems_by_index (env : Env) :
    Nat → CType → Expr → Nat → List (Int × Initializer) → Int → List Stmt → ParseState →
      Option (Result (Option (List Stmt)))
  | 0, _, _, _, _, _, _, _ => none
  | _ + 1, _, _, _, [], _, inits, st => some (.ok (some inits) st)
  | fuel + 1, ptr_type, ptr_var, elem_size, (k, init_elem) :: rest, pos, inits, st =>
    let inits1 :=
      if k ≠ pos then inits ++ [advance_by ptr_type ptr_var ((k - pos) * elem_size)] else inits
    match assign_initial_value env fuel (.unary .EX_DEREF ptr_type.pointee ptr_var)
        init_elem.arr_value (some inits1) st with
    | some (.ok inits2 st1) =>
      assign_elems_by_index env fuel ptr_type ptr_var elem_size rest k (inits_vector inits2) st1
    | other => other

/-- The scope of a function body that declares `int a[5]` (name 0). -/
def array_scope : Scope :=
  .nested (.global none) (some [{ name := some (.ident 0), type := .array tyInt 5, storage := 0 }])

/-- The parser state inside that function. -/
def array_state : ParseState := { init_state with curscope := array_scope }

/-- The variable reference `a`, of type `int[5]`. -/
def array_a : Expr := .var (.array tyInt 5) (.ident 0) array_scope

/-- The flattened initializer list `{1, [3] = 7, 8}`. -/
def array_init_example : List Initializer :=
  [.single (.fixnum tyInt 1), .arr (.fixnum tyInt 3) (.single (.fixnum tyInt 7)),
    .single (.fixnum tyInt 8)]

/-! ## The tokens of the preprocessor (pp_parser.c)

The lexer is outside the sources. A line is given with the tokens the lexer
yields from it, block comments skipped; `begin` and `end` of a token are offsets
into the buffer of its line. Line numbers, which only messages use, are left
out. -/

/-- The C type `Token`: the kind, `begin` and `end`, and the payload (a union in
C, each field read only for the kinds that carry it). -/
structure Token where
  kind : TokenKind
  begin_ : Nat
  end_ : Nat
  fixnum : Int
  ident : Name
  deriving DecidableEq, Repr

/-- A line of the stream: its buffer and the tokens the lexer yields from it. -/
structure SrcLine where
  buf : List Char
  tokens : List Token
  deriving DecidableEq, Repr

/-- The input of the preprocessor's parser: the buffer of the current line, its
tokens not yet read, and `pp_stream` (NULL, or the lines not yet read). -/
structure PpInput where
  buf : List Char
  tokens : List Token
  stream : Option (List SrcLine)
  deriving DecidableEq, Repr

/-- The input with other tokens left on the current line. -/
def PpInput.with_tokens (inp : PpInput) (tokens : List Token) : PpInput :=
  { inp with tokens := tokens }

/-- The token that stands for the end of the line. -/
def eof_token : Token :=
  { kind := .TK_EOF, begin_ := 0, end_ := 0, fixnum := 0, ident := .ident 0 }

/-- The call `pp_match(kind)` on an input whose tokens are given: the next token
is taken when it has the kind; at the end of the line only `TK_EOF` matches, and
nothing is taken. -/
def pp_match_token (kind : TokenKind) (inp : PpInput) : Option (Token × PpInput) :=
  match inp.tokens with
  | [] => if kind = .TK_EOF then some (eof_token, inp) else none
  | tok :: rest => if tok.kind = kind then some (tok, inp.with_tokens rest) else none

/-- A chain `pp_match(k1) || pp_match(k2) || ...`: the first match. -/
def pp_match_first : List TokenKind → PpInput → Option (Token × PpInput)
  | [], _ => none
  | kind :: rest, inp =>
    match pp_match_token kind inp with
    | some r => some r
    | none => pp_match_first rest inp

/-- How a function of the preprocessor's parser ends: with a value and the
input left, with the message of `pp_parse_error` (which exits with status 1),
or in a fault of the processor: a division by zero, the division of the least
value by -1 (whose quotient has no `intptr_t`; the behaviour is undefined in C
and the division instruction traps), or an access through NULL. -/
inductive PpOutcome (α : Type)
  | ok (val : α) (inp : PpInput)
  | error (msg : String)
  | fault

/-- Continuation after a call: an error or fault of the callee ends the caller,
and so does the exhaustion of the call bound (`none`). -/
def PpOutcome.bind {α β : Type} (r : Option (PpOutcome α))
    (f : α → PpInput → Option (PpOutcome β)) : Option (PpOutcome β) :=
  match r with
  | some (.ok a inp) => f a inp
  | some (.error msg) => some (.error msg)
  | some .fault => some .fault
  | none => none

/-- The function `pp_consume`. -/
def pp_consume (kind : TokenKind) (error : String) (inp : PpInput) : PpOutcome Token :=
  match pp_match_token kind inp with
  | some (tok, inp1) => .ok tok inp1
  | none => .error error

/-- The field of `Macro` that the parser reads: the parameter list, NULL for a
macro without parentheses. -/
structure Macro where
  params : Option (List Name)

/-- The collaborators of the parser outside the sources: `macro_get`, the name
`defined` as `alloc_name` gives it, and the expansion of a macro: `expand` is
the input after `expand_macro` has built the text and `set_source_string` has
made it, followed by the rest of the line, the source. -/
structure PpEnv where
  macro_get : Name → Option Macro
  defined_name : Name
  expand : Macro → Token → Option (List (List Char)) → PpInput → PpInput

/-! ### pp_funargs -/

/-- The function `match2`: at the end of a line the next lines are read until
one has a token; NULL (with a value) when the stream ends first. A NULL
`pp_stream` is an access through NULL. -/
def match2_lines (kind : TokenKind) (buf : List Char) :
    List SrcLine → PpOutcome (Option Token)
  | [] => .ok none { buf := buf, tokens := [], stream := some [] }
  | line :: rest =>
    match line.tokens with
    | [] => match2_lines kind line.buf rest
    | tok :: toks =>
      let inp : PpInput := { buf := line.buf, tokens := tok :: toks, stream := some rest }
      match pp_match_token kind inp with
      | some (t, inp1) => .ok (some t) inp1
      | none => .ok none inp

/-- The function `match2`. -/
def match2 (kind : TokenKind) (inp : PpInput) : PpOutcome (Option Token) :=
  match inp.tokens with
  | [] =>
    match inp.stream with
    | none => .fault
    | some lines => match2_lines kind inp.buf lines
  | _ :: _ =>
    match pp_match_token kind inp with
    | some (t, inp1) => .ok (some t) inp1
    | none => .ok none inp

/-- The text between two positions of a buffer: `strndup_(start, end - start)`
and what `sb_append(&sb, start, end)` appends. -/
def span_text (buf : List Char) (start end_ : Nat) : List Char :=
  (buf.drop start).take (end_ - start)

/-- The variables of the loop of `pp_funargs`: the string buffer, `start` and
`end` (NULL, or positions in the buffer of the current line), the nesting depth
and the arguments so far. -/
structure FunargsState where
  sb : List Char
  start : Option Nat
  end_ : Option Nat
  paren : Int
  args : List (List Char)
  deriving DecidableEq, Repr

/-- The text from `start` to `end`; both NULL give the empty text. -/
def FunargsState.span (s : FunargsState) (buf : List Char) : List Char :=
  match s.start, s.end_ with
  | some a, some b => span_text buf a b
  | _, _ => []

/-- How the loop of `pp_funargs` leaves a line: the closing parenthesis was
read, an error was raised, or the end of the line was met. -/
inductive FunargsStep
  | done (args : List (List Char)) (rest : List Token)
  | error (msg : String)
  | eof (s : FunargsState)
  deriving DecidableEq, Repr

/-- The loop of `pp_funargs` over the tokens of the current line; `pp_match(-1)`
takes the next token whatever its kind. -/
def pp_funargs_tokens (buf : List Char) : List Token → FunargsState → FunargsStep
  | [], s => .eof s
  | tok :: rest, s =>
    if tok.kind = .TK_COMMA ∨ tok.kind = .TK_RPAR then
      if s.paren ≤ 0 then
        if s.sb = [] then
          if s.start = s.end_ then .error "expression expected"
          else
            let args := s.args ++ [s.span buf]
            if tok.kind = .TK_RPAR then .done args rest
            else pp_funargs_tokens buf rest { s with start := none, end_ := none, args := args }
        else
          let sb := if s.start ≠ s.end_ then s.sb ++ s.span buf else s.sb
          let args := s.args ++ [sb]
          if tok.kind = .TK_RPAR then .done args rest
          else
            pp_funargs_tokens buf rest
              { s with sb := [], start := none, end_ := none, args := args }
      else
        let paren := if tok.kind = .TK_RPAR then s.paren - 1 else s.paren
        pp_funargs_tokens buf rest
          { s with
            paren := paren
            start := if s.start = none then some tok.begin_ else s.start
            end_ := some tok.end_ }
    else
      let paren := if tok.kind = .TK_LPAR then s.paren + 1 else s.paren
      pp_funargs_tokens buf rest
        { s with
          paren := paren
          start := if s.start = none then some tok.begin_ else s.start
          end_ := some tok.end_ }

/-- What `pp_funargs` does at the end of a line, before the next line is read:
the text of the line is moved to the string buffer, followed by a newline when
the buffer is not empty. -/
def funargs_at_eof (buf : List Char) (s : FunargsState) : FunargsState :=
  let sb := if s.start ≠ s.end_ then s.sb ++ s.span buf else s.sb
  let sb := if sb ≠ [] then sb ++ ['\n'] else sb
  { s with sb := sb, start := none, end_ := none }

/-- The loop of `pp_funargs` over the lines that follow the current one. -/
def pp_funargs_lines : List SrcLine → FunargsState → PpOutcome (List (List Char))
  | [], _ => .error "`)' expected"
  | line :: rest, s =>
    match pp_funargs_tokens line.buf line.tokens s with
    | .done args toks => .ok args { buf := line.buf, tokens := toks, stream := some rest }
    | .error msg => .error msg
    | .eof s1 => pp_funargs_lines rest (funargs_at_eof line.buf s1)

/-- The loop of `pp_funargs` from the current line on. -/
def pp_funargs_loop (inp : PpInput) : PpOutcome (List (List Char)) :=
  let s : FunargsState := { sb := [], start := none, end_ := none, paren := 0, args := [] }
  match pp_funargs_tokens inp.buf inp.tokens s with
  | .done args toks => .ok args (inp.with_tokens toks)
  | .error msg => .error msg
  | .eof s1 =>
    match inp.stream with
    | none => .error "`)' expected"
    | some lines => pp_funargs_lines lines (funargs_at_eof inp.buf s1)

/-- The function `pp_funargs`: the arguments, NULL when no parenthesis
follows. -/
def pp_funargs (inp : PpInput) : PpOutcome (Option (List (List Char))) :=
  match match2 .TK_LPAR inp with
  | .error msg => .error msg
  | .fault => .fault
  | .ok none inp1 => .ok none inp1
  | .ok (some _) inp1 =>
    match match2 .TK_RPAR inp1 with
    | .error msg => .error msg
    | .fault => .fault
    | .ok (some _) inp2 => .ok (some []) inp2
    | .ok none inp2 =>
      match pp_funargs_loop inp2 with
      | .ok args inp3 => .ok (some args) inp3
      | .error msg => .error msg
      | .fault => .fault

/-! ### The operators of C on `PpResult`

`PpResult` is declared in pp_parser.h, outside the sources; it is taken to be
`intptr_t` of the 64-bit targets: a value is an integer from -2^63 to 2^63 - 1,
and an addition, subtraction, multiplication or negation wraps to 64 bits in
two's complement, as the compiled code does. A division or remainder has no
value when the divisor is 0, or when the dividend is -2^63 and the divisor -1:
the division instruction traps on both. -/

/-- The value of 64 bits that an integer wraps to. -/
def wrap_intptr (x : Int) : Int :=
  (x + 2 ^ 63) % 2 ^ 64 - 2 ^ 63

/-- The 64 bits of a value. -/
def intptr_bits (x : Int) : Nat :=
  (x % 2 ^ 64).toNat

/-- The operator `&`. -/
def c_and (a b : Int) : Int :=
  wrap_intptr (Nat.land (intptr_bits a) (intptr_bits b) : Nat)

/-- The operator `|`. -/
def c_or (a b : Int) : Int :=
  wrap_intptr (Nat.lor (intptr_bits a) (intptr_bits b) : Nat)

/-- The operator `^`. -/
def c_xor (a b : Int) : Int :=
  wrap_intptr (Nat.xor (intptr_bits a) (intptr_bits b) : Nat)

/-- The operator `<<`; the count is taken modulo 64, as the processor does. -/
def c_shl (a b : Int) : Int :=
  wrap_intptr (a * 2 ^ (intptr_bits b % 64))

/-- The operator `>>` on a signed value; the count is taken modulo 64. -/
def c_shr (a b : Int) : Int :=
  Int.shiftRight a (intptr_bits b % 64)

/-- The operator `&&` on two values. -/
def c_logand (a b : Int) : Int :=
  if a ≠ 0 ∧ b ≠ 0 then 1 else 0

/-- The operator `||` on two values. -/
def c_logior (a b : Int) : Int :=
  if a ≠ 0 ∨ b ≠ 0 then 1 else 0

/-! ### The expression parser of the preprocessor

Every function takes a bound on the depth of the calls and on the turns of a
loop; `none` is the exhaustion of the bound. -/

/-- The loop shared by the functions of the binary operators:
`for (;;) \x7b if (!(pp_match(k1) || ...)) return result; rhs = operand();
result = result op rhs; \x7d`. The operation is `none` where the division
traps: the fault ends the run. -/
def pp_binary_loop (operand : PpInput → Option (PpOutcome Int)) (kinds : List TokenKind)
    (apply : TokenKind → Int → Int → Option Int) :
    Nat → Int → PpInput → Option (PpOutcome Int)
  | 0, _, _ => none
  | n + 1, result, inp =>
    match pp_match_first kinds inp with
    | none => some (.ok result inp)
    | some (tok, inp1) =>
      PpOutcome.bind (operand inp1) fun rhs inp2 =>
        match apply tok.kind result rhs with
        | none => some .fault
        | some result1 => pp_binary_loop operand kinds apply n result1 inp2

/-- The loop of `pp_conditional`. -/
def pp_conditional_loop (pp_expr pp_conditional : PpInput → Option (PpOutcome Int)) :
    Nat → Int → PpInput → Option (PpOutcome Int)
  | 0, _, _ => none
  | n + 1, result, inp =>
    match pp_match_token .TK_QUESTION inp with
    | none => some (.ok result inp)
    | some (_, inp1) =>
      PpOutcome.bind (pp_expr inp1) fun tval inp2 =>
        PpOutcome.bind (some (pp_consume .TK_COLON "`:' expected" inp2)) fun _ inp3 =>
          PpOutcome.bind (pp_conditional inp3) fun fval inp4 =>
            pp_conditional_loop pp_expr pp_conditional n (if result ≠ 0 then tval else fval) inp4

/-- The function `parse_defined`. -/
def parse_defined (env : PpEnv) (inp : PpInput) : PpOutcome Int :=
  let lpar := pp_match_token .TK_LPAR inp
  let inp1 := match lpar with
    | some (_, inp1) => inp1
    | none => inp
  match pp_consume .TK_IDENT "Ident expected" inp1 with
  | .error msg => .error msg
  | .fault => .fault
  | .ok ident inp2 =>
    let result : Int := if (env.macro_get ident.ident).isSome then 1 else 0
    if lpar.isSome then
      match pp_consume .TK_RPAR "No close paren" inp2 with
      | .error msg => .error msg
      | .fault => .fault
      | .ok _ inp3 => .ok result inp3
    else .ok result inp2

/-- The kinds of the literals that `pp_prim` takes, in the order of its tests. -/
def literal_kinds : List TokenKind :=
  [.TK_CHARLIT, .TK_INTLIT, .TK_LONGLIT, .TK_LLONGLIT, .TK_UCHARLIT, .TK_UINTLIT,
    .TK_ULONGLIT, .TK_ULLONGLIT]

/-- The switch of `pp_mul`. `result /= rhs` and `result %= rhs` have no value
when `rhs` is 0, or when `result` is the least `intptr_t` and `rhs` is -1: the
quotient 2^63 is not an `intptr_t`, the behaviour is undefined in C, and the
division instruction, which computes the quotient and the remainder together,
traps. -/
def pp_mul_apply (kind : TokenKind) (result rhs : Int) : Option Int :=
  match kind with
  | .TK_MUL => some (wrap_intptr (result * rhs))
  | .TK_DIV =>
    if rhs = 0 ∨ (result = -2 ^ 63 ∧ rhs = -1) then none else some (Int.tdiv result rhs)
  | .TK_MOD =>
    if rhs = 0 ∨ (result = -2 ^ 63 ∧ rhs = -1) then none else some (Int.tmod result rhs)
  | _ => none

/-- The test of `pp_add`. -/
def pp_add_apply (kind : TokenKind) (result rhs : Int) : Option Int :=
  if kind = .TK_ADD then some (wrap_intptr (result + rhs)) else some (wrap_intptr (result - rhs))

/-- The test of `pp_shift`. -/
def pp_shift_apply (kind : TokenKind) (lhs rhs : Int) : Option Int :=
  if kind = .TK_LSHIFT then some (c_shl lhs rhs) else some (c_shr lhs rhs)

/-- The switch of `pp_cmp`. -/
def pp_cmp_apply (kind : TokenKind) (lhs rhs : Int) : Option Int :=
  match kind with
  | .TK_LT => some (if lhs < rhs then 1 else 0)
  | .TK_LE => some (if lhs ≤ rhs then 1 else 0)
  | .TK_GE => some (if lhs ≥ rhs then 1 else 0)
  | .TK_GT => some (if lhs > rhs then 1 else 0)
  | _ => none

/-- The two statements of `pp_eq`. -/
def pp_eq_apply (kind : TokenKind) (lhs rhs : Int) : Option Int :=
  let result : Int := if lhs = rhs then 1 else 0
  if kind ≠ .TK_EQ then some (1 - result) else some result

mutual

/-- The function `expand_ident`. -/
def expand_ident (env : PpEnv) : Nat → Token → PpInput → Option (PpOutcome Int)
  | 0, _, _ => none
  | n + 1, ident, inp =>
    match env.macro_get ident.ident with
    | none => some (.ok 0 inp)
    | some m =>
      match m.params with
      | none => pp_prim env n (env.expand m ident none inp)
      | some _ =>
        match pp_funargs inp with
        | .error msg => some (.error msg)
        | .fault => some .fault
        | .ok args inp1 => pp_prim env n (env.expand m ident args inp1)

/-- The function `pp_prim`. -/
def pp_prim (env : PpEnv) : Nat → PpInput → Option (PpOutcome Int)
  | 0, _ => none
  | n + 1, inp =>
    match pp_match_token .TK_LPAR inp with
    | some (_, inp1) =>
      PpOutcome.bind (pp_expr env n inp1) fun result inp2 =>
        PpOutcome.bind (some (pp_consume .TK_RPAR "No close paren" inp2)) fun _ inp3 =>
          some (.ok result inp3)
    | none =>
      match pp_match_first literal_kinds inp with
      | some (tok, inp1) => some (.ok tok.fixnum inp1)
      | none =>
        PpOutcome.bind
          (some (pp_consume .TK_IDENT "Number or Ident or open paren expected" inp))
          fun ident inp1 =>
            if ident.ident = env.defined_name then some (parse_defined env inp1)
            else expand_ident env n ident inp1

/-- The function `pp_postfix`. -/
def pp_postfix (env : PpEnv) : Nat → PpInput → Option (PpOutcome Int)
  | 0, _ => none
  | n + 1, inp => pp_prim env n inp

/-- The function `pp_unary`. -/
def pp_unary (env : PpEnv) : Nat → PpInput → Option (PpOutcome Int)
  | 0, _ => none
  | n + 1, inp =>
    match pp_match_token .TK_ADD inp with
    | some (_, inp1) => pp_cast_expr env n inp1
    | none =>
      match pp_match_token .TK_SUB inp with
      | some (_, inp1) =>
        PpOutcome.bind (pp_cast_expr env n inp1) fun result inp2 =>
          some (.ok (wrap_intptr (-result)) inp2)
      | none =>
        match pp_match_token .TK_NOT inp with
        | some (_, inp1) =>
          PpOutcome.bind (pp_cast_expr env n inp1) fun result inp2 =>
            some (.ok (if result ≠ 0 then 0 else 1) inp2)
        | none =>
          match pp_match_token .TK_TILDA inp with
          | some (_, inp1) =>
            PpOutcome.bind (pp_cast_expr env n inp1) fun result inp2 =>
              some (.ok (Int.not result) inp2)
          | none => pp_postfix env n inp

/-- The function `pp_cast_expr`. -/
def pp_cast_expr (env : PpEnv) : Nat → PpInput → Option (PpOutcome Int)
  | 0, _ => none
  | n + 1, inp => pp_unary env n inp

/-- The function `pp_mul`. -/
def pp_mul (env : PpEnv) : Nat → PpInput → Option (PpOutcome Int)
  | 0, _ => none
  | n + 1, inp =>
    PpOutcome.bind (pp_cast_expr env n inp)
      (pp_binary_loop (pp_cast_expr env n) [.TK_MUL, .TK_DIV, .TK_MOD] pp_mul_apply n)

/-- The function `pp_add`. -/
def pp_add (env : PpEnv) : Nat → PpInput → Option (PpOutcome Int)
  | 0, _ => none
  | n + 1, inp =>
    PpOutcome.bind (pp_mul env n inp)
      (pp_binary_loop (pp_mul env n) [.TK_ADD, .TK_SUB] pp_add_apply n)

/-- The function `pp_shift`. -/
def pp_shift (env : PpEnv) : Nat → PpInput → Option (PpOutcome Int)
  | 0, _ => none
  | n + 1, inp =>
    PpOutcome.bind (pp_add env n inp)
      (pp_binary_loop (pp_add env n) [.TK_LSHIFT, .TK_RSHIFT] pp_shift_apply n)

/-- The function `pp_cmp`. -/
def pp_cmp (env : PpEnv) : Nat → PpInput → Option (PpOutcome Int)
  | 0, _ => none
  | n + 1, inp =>
    PpOutcome.bind (pp_shift env n inp)
      (pp_binary_loop (pp_shift env n) [.TK_LT, .TK_GT, .TK_LE, .TK_GE] pp_cmp_apply n)

/-- The function `pp_eq`. -/
def pp_eq (env : PpEnv) : Nat → PpInput → Option (PpOutcome Int)
  | 0, _ => none
  | n + 1, inp =>
    PpOutcome.bind (pp_cmp env n inp)
      (pp_binary_loop (pp_cmp env n) [.TK_EQ, .TK_NE] pp_eq_apply n)

/-- The function `pp_and`. -/
def pp_and (env : PpEnv) : Nat → PpInput → Option (PpOutcome Int)
  | 0, _ => none
  | n + 1, inp =>
    PpOutcome.bind (pp_eq env n inp)
      (pp_binary_loop (pp_eq env n) [.TK_AND] (fun _ lhs rhs => some (c_and lhs rhs)) n)

/-- The function `pp_xor`. -/
def pp_xor (env : PpEnv) : Nat → PpInput → Option (PpOutcome Int)
  | 0, _ => none
  | n + 1, inp =>
    PpOutcome.bind (pp_and env n inp)
      (pp_binary_loop (pp_and env n) [.TK_HAT] (fun _ lhs rhs => some (c_xor lhs rhs)) n)

/-- The function `pp_or`. -/
def pp_or (env : PpEnv) : Nat → PpInput → Option (PpOutcome Int)
  | 0, _ => none
  | n + 1, inp =>
    PpOutcome.bind (pp_xor env n inp)
      (pp_binary_loop (pp_xor env n) [.TK_OR] (fun _ lhs rhs => some (c_or lhs rhs)) n)

/-- The function `pp_logand`: the right operand is read by `pp_logand` itself,
before the two values are combined. -/
def pp_logand (env : PpEnv) : Nat → PpInput → Option (PpOutcome Int)
  | 0, _ => none
  | n + 1, inp =>
    PpOutcome.bind (pp_or env n inp)
      (pp_binary_loop (pp_logand env n) [.TK_LOGAND]
        (fun _ result rhs => some (c_logand result rhs)) n)

/-- The function `pp_logior`. -/
def pp_logior (env : PpEnv) : Nat → PpInput → Option (PpOutcome Int)
  | 0, _ => none
  | n + 1, inp =>
    PpOutcome.bind (pp_logand env n inp)
      (pp_binary_loop (pp_logand env n) [.TK_LOGIOR]
        (fun _ result rhs => some (c_logior result rhs)) n)

/-- The function `pp_conditional`. -/
def pp_conditional (env : PpEnv) : Nat → PpInput → Option (PpOutcome Int)
  | 0, _ => none
  | n + 1, inp =>
    PpOutcome.bind (pp_logior env n inp)
      (pp_conditional_loop (pp_expr env n) (pp_conditional env n) n)

/-- The function `pp_assign`. -/
def pp_assign (env : PpEnv) : Nat → PpInput → Option (PpOutcome Int)
  | 0, _ => none
  | n + 1, inp => pp_conditional env n inp

/-- The function `pp_expr`. -/
def pp_expr (env : PpEnv) : Nat → PpInput → Option (PpOutcome Int)
  | 0, _ => none
  | n + 1, inp =>
    PpOutcome.bind (pp_assign env n inp)
      (pp_binary_loop (pp_assign env n) [.TK_COMMA] (fun _ _ next_result => some next_result) n)

end

/-! ### Examples for the preprocessor -/

/-- A token of a kind with a value, at a place in the line. -/
def mk_token (kind : TokenKind) (begin_ end_ : Nat) (fixnum : Int) : Token :=
  { kind := kind, begin_ := begin_, end_ := end_, fixnum := fixnum, ident := .ident 0 }

/-- An operator token away from any text. -/
def op_token (kind : TokenKind) : Token := mk_token kind 0 0 0

/-- A literal token away from any text. -/
def int_token (value : Int) : Token := mk_token .TK_INTLIT 0 0 value

/-- An environment with no macros; `defined` is the name of number 1. -/
def empty_pp_env : PpEnv :=
  { macro_get := fun _ => none, defined_name := .ident 1, expand := fun _ _ _ inp => inp }

/-- A line with the given tokens and no stream behind it. -/
def line_input (tokens : List Token) : PpInput :=
  { buf := [], tokens := tokens, stream := none }

/-- What a run leaves to observe: the value, or the way it ended. -/
def pp_value : Option (PpOutcome Int) → Option (String ⊕ Int)
  | some (.ok v _) => some (.inr v)
  | some (.error msg) => some (.inl msg)
  | some .fault => some (.inl "fault")
  | none => none

/-! ## Expressions of the preprocessor by precedence (specification side) -/

/-- The precedence level of a binary operator of C, from the tightest:
multiplicative 1, additive 2, shift 3, relational 4, equality 5, `&` 6, `^` 7,
`|` 8, `&&` 9, `||` 10, `?` 11, comma 12; 13 for a token that is no binary
operator. -/
def binop_level : TokenKind → Nat
  | .TK_MUL | .TK_DIV | .TK_MOD => 1
  | .TK_ADD | .TK_SUB => 2
  | .TK_LSHIFT | .TK_RSHIFT => 3
  | .TK_LT | .TK_GT | .TK_LE | .TK_GE => 4
  | .TK_EQ | .TK_NE => 5
  | .TK_AND => 6
  | .TK_HAT => 7
  | .TK_OR => 8
  | .TK_LOGAND => 9
  | .TK_LOGIOR => 10
  | .TK_QUESTION => 11
  | .TK_COMMA => 12
  | _ => 13

/-- The value of a binary operator of C on two values of 64 bits; `none` where C
defines no value of a division or remainder: the divisor is 0, or the dividend
is -2^63 and the divisor -1. A relational, equality or logical operator gives 0
or 1, the comma its right operand. -/
def binop_eval : TokenKind → Int → Int → Option Int
  | .TK_MUL, a, b => some (wrap_intptr (a * b))
  | .TK_DIV, a, b => if b = 0 ∨ (a = -2 ^ 63 ∧ b = -1) then none else some (Int.tdiv a b)
  | .TK_MOD, a, b => if b = 0 ∨ (a = -2 ^ 63 ∧ b = -1) then none else some (Int.tmod a b)
  | .TK_ADD, a, b => some (wrap_intptr (a + b))
  | .TK_SUB, a, b => some (wrap_intptr (a - b))
  | .TK_LSHIFT, a, b => some (c_shl a b)
  | .TK_RSHIFT, a, b => some (c_shr a b)
  | .TK_LT, a, b => some (if a < b then 1 else 0)
  | .TK_GT, a, b => some (if b < a then 1 else 0)
  | .TK_LE, a, b => some (if a ≤ b then 1 else 0)
  | .TK_GE, a, b => some (if b ≤ a then 1 else 0)
  | .TK_EQ, a, b => some (if a = b then 1 else 0)
  | .TK_NE, a, b => some (if a = b then 0 else 1)
  | .TK_AND, a, b => some (c_and a b)
  | .TK_HAT, a, b => some (c_xor a b)
  | .TK_OR, a, b => some (c_or a b)
  | .TK_LOGAND, a, b => some (c_logand a b)
  | .TK_LOGIOR, a, b => some (c_logior a b)
  | .TK_COMMA, _, b => some b
  | _, _, _ => none

/-- The value of a unary operator of C. -/
def unop_eval : TokenKind → Int → Int
  | .TK_SUB, a => wrap_intptr (-a)
  | .TK_NOT, a => if a = 0 then 1 else 0
  | .TK_TILDA, a => Int.not a
  | _, a => a

/-- The kinds of the unary operators. -/
def unary_kinds : List TokenKind :=
  [.TK_ADD, .TK_SUB, .TK_NOT, .TK_TILDA]

/-- An expression as the grammar of C reads it, with the tokens it is written
with. -/
inductive PpTree
  | lit (tok : Token)
  | paren (lp : Token) (e : PpTree) (rp : Token)
  | unary (tok : Token) (e : PpTree)
  | binary (l : PpTree) (tok : Token) (r : PpTree)
  | cond (c : PpTree) (q : Token) (a : PpTree) (col : Token) (b : PpTree)

/-- The precedence level of an expression: 0 for a primary or unary one, else
the level of its operator. -/
def PpTree.level : PpTree → Nat
  | .lit _ => 0
  | .paren _ _ _ => 0
  | .unary _ _ => 0
  | .binary _ tok _ => binop_level tok.kind
  | .cond _ _ _ _ _ => 11

/-- The tokens of an expression, in the order they are written. -/
def PpTree.toks : PpTree → List Token
  | .lit tok => [tok]
  | .paren lp e rp => lp :: (e.toks ++ [rp])
  | .unary tok e => tok :: e.toks
  | .binary l tok r => l.toks ++ tok :: r.toks
  | .cond c q a col b => c.toks ++ q :: (a.toks ++ col :: b.toks)

/-- The tree is the reading of its tokens by the precedence of C with binary
operators associating to the left: the left operand of a binary operator binds
as tightly as the operator or tighter, the right operand tighter; the operand of
a unary operator is a primary or unary expression; in `c ? a : b` the condition
binds tighter than `?`, `a` is any expression and `b` is free of commas. The
value of a literal is one of the 64-bit field `fixnum` of its token. -/
def PpTree.wf : PpTree → Bool
  | .lit tok =>
    decide (tok.kind ∈ literal_kinds) && decide (-2 ^ 63 ≤ tok.fixnum)
      && decide (tok.fixnum < 2 ^ 63)
  | .paren lp e rp => decide (lp.kind = .TK_LPAR) && decide (rp.kind = .TK_RPAR) && e.wf
  | .unary tok e => decide (tok.kind ∈ unary_kinds) && decide (e.level = 0) && e.wf
  | .binary l tok r =>
    decide (binop_level tok.kind ≤ 12) && decide (binop_level tok.kind ≠ 11)
      && decide (l.level ≤ binop_level tok.kind) && decide (r.level < binop_level tok.kind)
      && l.wf && r.wf
  | .cond c q a col b =>
    decide (q.kind = .TK_QUESTION) && decide (col.kind = .TK_COLON)
      && decide (c.level ≤ 10) && decide (b.level ≤ 11) && c.wf && a.wf && b.wf

/-- The value of an expression, every operand evaluated; `none` when a division
or remainder without a value is met (by zero, or of -2^63 by -1). -/
def PpTree.eval : PpTree → Option Int
  | .lit tok => some tok.fixnum
  | .paren _ e _ => e.eval
  | .unary tok e => (e.eval).map (unop_eval tok.kind)
  | .binary l tok r =>
    match l.eval, r.eval with
    | some a, some b => binop_eval tok.kind a b
    | _, _ => none
  | .cond c _ a _ b =>
    match c.eval, a.eval, b.eval with
    | some vc, some va, some vb => some (if vc ≠ 0 then va else vb)
    | _, _, _ => none

/-- The level of the token that follows an expression: 13 at the end of the
line. -/
def head_level : List Token → Nat
  | [] => 13
  | tok :: _ => binop_level tok.kind

/-! ### Runs of the parser within a bound -/

/-- A function of the parser ends on an input in an outcome, whatever the bound
from some bound on. -/
def Runs (f : Nat → PpInput → Option (PpOutcome Int)) (inp : PpInput) (r : PpOutcome Int) :
    Prop :=
  ∃ n0, ∀ n, n0 ≤ n → f n inp = some r

/-- The loop of a binary level from a value and an input to its result, each
operand being read by a run of the operand function. -/
inductive LoopRuns (operand : PpInput → PpOutcome Int → Prop) (kinds : List TokenKind)
    (apply : TokenKind → Int → Int → Option Int) : Int → PpInput → Int → PpInput → Prop
  | stop (v : Int) (inp : PpInput) (h : pp_match_first kinds inp = none) :
    LoopRuns operand kinds apply v inp v inp
  | step (v : Int) (inp : PpInput) (tok : Token) (inp1 : PpInput) (rhs : Int) (inp2 : PpInput)
    (v1 w : Int) (out : PpInput) (hm : pp_match_first kinds inp = some (tok, inp1))
    (ho : operand inp1 (.ok rhs inp2)) (ha : apply tok.kind v rhs = some v1)
    (hl : LoopRuns operand kinds apply v1 inp2 w out) :
    LoopRuns operand kinds apply v inp w out

/-- The function of the parser for each precedence level. -/
def pp_level (env : PpEnv) : Nat → Nat → PpInput → Option (PpOutcome Int)
  | 0 => pp_cast_expr env
  | 1 => pp_mul env
  | 2 => pp_add env
  | 3 => pp_shift env
  | 4 => pp_cmp env
  | 5 => pp_eq env
  | 6 => pp_and env
  | 7 => pp_xor env
  | 8 => pp_or env
  | 9 => pp_logand env
  | 10 => pp_logior env
  | 11 => pp_conditional env
  | _ => pp_expr env

/-- The kinds that the loop of a level matches. -/
def level_kinds : Nat → List TokenKind
  | 1 => [.TK_MUL, .TK_DIV, .TK_MOD]
  | 2 => [.TK_ADD, .TK_SUB]
  | 3 => [.TK_LSHIFT, .TK_RSHIFT]
  | 4 => [.TK_LT, .TK_GT, .TK_LE, .TK_GE]
  | 5 => [.TK_EQ, .TK_NE]
  | 6 => [.TK_AND]
  | 7 => [.TK_HAT]
  | 8 => [.TK_OR]
  | 9 => [.TK_LOGAND]
  | 10 => [.TK_LOGIOR]
  | 11 => [.TK_QUESTION]
  | 12 => [.TK_COMMA]
  | _ => []

/-- The operation of the loop of a level. -/
def level_apply : Nat → TokenKind → Int → Int → Option Int
  | 1 => pp_mul_apply
  | 2 => pp_add_apply
  | 3 => pp_shift_apply
  | 4 => pp_cmp_apply
  | 5 => pp_eq_apply
  | 6 => fun _ lhs rhs => some (c_and lhs rhs)
  | 7 => fun _ lhs rhs => some (c_xor lhs rhs)
  | 8 => fun _ lhs rhs => some (c_or lhs rhs)
  | 9 => fun _ result rhs => some (c_logand result rhs)
  | 10 => fun _ result rhs => some (c_logior result rhs)
  | 12 => fun _ _ next_result => some next_result
  | _ => fun _ _ _ => none

/-- The level of the function that reads the right operand in the loop of a
level: the level below, but `pp_logand` itself in `pp_logand`. -/
def level_rhs : Nat → Nat
  | 9 => 9
  | n => n - 1

/-- What is left to do at a level once an expression of the level has been read
with value `v`: the loop of the level runs from `v` to the result; at level 0
there is no loop, at level 11 no `?` follows. -/
def LevelCont (env : PpEnv) (L : Nat) (v : Int) (inp : PpInput) (w : Int) (out : PpInput) :
    Prop :=
  if L = 0 then w = v ∧ out = inp
  else if L = 11 then pp_match_token .TK_QUESTION inp = none ∧ w = v ∧ out = inp
  else LoopRuns (Runs (pp_level env (level_rhs L))) (level_kinds L) (level_apply L) v inp w out

/-- The tokens `ts` are read at level `L` as an expression of value `v`, the loop
of the level going on from there. -/
def GoodAt (env : PpEnv) (L : Nat) (ts : List Token) (v : Int) : Prop :=
  ∀ (inp : PpInput) (rest : List Token) (w : Int) (out : PpInput),
    L ≤ head_level rest → LevelCont env L v (inp.with_tokens rest) w out →
    Runs (pp_level env L) (inp.with_tokens (ts ++ rest)) (.ok w out)


/-! ### Example expressions of the preprocessor -/

/-- The expression `1+2*3`, read by precedence. -/
def tree_add_mul : PpTree :=
  .binary (.lit (int_token 1)) (op_token .TK_ADD)
    (.binary (.lit (int_token 2)) (op_token .TK_MUL) (.lit (int_token 3)))

/-- The expression `10-3-2`, read to the left. -/
def tree_sub_sub : PpTree :=
  .binary (.binary (.lit (int_token 10)) (op_token .TK_SUB) (.lit (int_token 3)))
    (op_token .TK_SUB) (.lit (int_token 2))

/-- The expression `1<<2+1`. -/
def tree_shift_add : PpTree :=
  .binary (.lit (int_token 1)) (op_token .TK_LSHIFT)
    (.binary (.lit (int_token 2)) (op_token .TK_ADD) (.lit (int_token 1)))

/-- The tokens of `0 && 1/0`. -/
def tokens_logand_div : List Token :=
  [int_token 0, op_token .TK_LOGAND, int_token 1, op_token .TK_DIV, int_token 0]

/-- The tokens of `1 || 1/0`. -/
def tokens_logior_div : List Token :=
  [int_token 1, op_token .TK_LOGIOR, int_token 1, op_token .TK_DIV, int_token 0]

/-- The tokens of `(-9223372036854775807-1) / -1`. -/
def tokens_least_div : List Token :=
  [op_token .TK_LPAR, op_token .TK_SUB, int_token 9223372036854775807, op_token .TK_SUB,
    int_token 1, op_token .TK_RPAR, op_token .TK_DIV, op_token .TK_SUB, int_token 1]

/-- The tokens of `1 ? 2 : 1%0`. -/
def tokens_cond_mod : List Token :=
  [int_token 1, op_token .TK_QUESTION, int_token 2, op_token .TK_COLON, int_token 1,
    op_token .TK_MOD, int_token 0]

/-- An identifier token with a name. -/
def ident_token (name : Name) : Token :=
  { kind := .TK_IDENT, begin_ := 0, end_ := 0, fixnum := 0, ident := name }

/-- An environment in which the name of number 7 is a macro without
parameters. -/
def one_macro_env : PpEnv :=
  { macro_get := fun name => if name = .ident 7 then some { params := none } else none
    defined_name := .ident 1
    expand := fun _ _ _ inp => inp }

/-! ## The arguments of a macro call by the commas of depth 0 (specification side) -/

/-- The nesting depth after a token. -/
def depth_after (d : Nat) (tok : Token) : Nat :=
  if tok.kind = .TK_LPAR then d + 1 else if tok.kind = .TK_RPAR then d - 1 else d

/-- The parentheses of the tokens are balanced from a depth: none closes what is
not open, and all are closed at the end. -/
def balanced : Nat → List Token → Bool
  | d, [] => decide (d = 0)
  | d, tok :: rest =>
    if tok.kind = .TK_RPAR ∧ d = 0 then false else balanced (depth_after d tok) rest

/-- The pieces of the tokens delimited by the commas of depth 0; `cur` is the
piece that is being read. -/
def split_args : Nat → List Token → List Token → List (List Token)
  | _, cur, [] => [cur]
  | d, cur, tok :: rest =>
    if tok.kind = .TK_COMMA ∧ d = 0 then cur :: split_args 0 [] rest
    else split_args (depth_after d tok) (cur ++ [tok]) rest

/-- The source text of a piece: from the begin of its first token to the end of
its last token. -/
def piece_text (buf : List Char) (piece : List Token) : List Char :=
  match piece.head?, piece.getLast? with
  | some first, some last => span_text buf first.begin_ last.end_
  | _, _ => []

/-- The result of an argument list by its pieces: an empty piece is an error. -/
def funargs_by_pieces (buf : List Char) (args : List (List Char)) (pieces : List (List Token))
    (rest : List Token) : FunargsStep :=
  if [] ∈ pieces then .error "expression expected"
  else .done (args ++ pieces.map (piece_text buf)) rest

/-- The tokens lie in the line in their order, none empty and none over the
next. -/
def in_line_order (tokens : List Token) : Prop :=
  List.Pairwise (fun t u : Token => t.end_ ≤ u.begin_) tokens ∧ ∀ t ∈ tokens, t.begin_ < t.end_

/-! ### Examples for pp_funargs -/

/-- The line `(a,(b,c),d)`. -/
def call_buf : List Char := "(a,(b,c),d)".toList

/-- The tokens between the parentheses of `(a,(b,c),d)`. -/
def call_body : List Token :=
  [mk_token .TK_IDENT 1 2 0, mk_token .TK_COMMA 2 3 0, mk_token .TK_LPAR 3 4 0,
    mk_token .TK_IDENT 4 5 0, mk_token .TK_COMMA 5 6 0, mk_token .TK_IDENT 6 7 0,
    mk_token .TK_RPAR 7 8 0, mk_token .TK_COMMA 8 9 0, mk_token .TK_IDENT 9 10 0]

/-- The input `(a,(b,c),d)` on one line. -/
def call_input : PpInput :=
  { buf := call_buf
    tokens := mk_token .TK_LPAR 0 1 0 :: (call_body ++ [mk_token .TK_RPAR 10 11 0])
    stream := none }

/-- The input of two lines `(a` and `, b)`. -/
def two_line_call : PpInput :=
  { buf := "(a".toList
    tokens := [mk_token .TK_LPAR 0 1 0, mk_token .TK_IDENT 1 2 0]
    stream := some [{ buf := ", b)".toList
                      tokens := [mk_token .TK_COMMA 0 1 0, mk_token .TK_IDENT 2 3 0,
                        mk_token .TK_RPAR 3 4 0] }] }

/-- The arguments that a run of `pp_funargs` returns. -/
def funargs_value : PpOutcome (Option (List (List Char))) → Option (List String)
  | .ok (some args) _ => some (args.map String.mk)
  | _ => none

/-! ## pp_match and the block comments (pp_parser.c)

Here `pp_match` is followed on the text of the source, up to its last statement
`return match(kind)`. The functions `block_comment_start` and
`block_comment_end` of the lexer are outside the sources and are parameters; a
position in a text is the text from that position on, and a line of the stream
is a line as `getline_cont` returns it. -/

/-- How `pp_match` reaches its last statement: with the text that `match` reads
from and the lines left in the stream, or with the message of `lex_error`. -/
inductive LexOutcome
  | ok (p : Option (List Char)) (lines : List (List Char))
  | error (msg : String)
  deriving DecidableEq, Repr

/-- The inner loop of `pp_match`: `block_comment_end` is called on `q`, and on
each line read from the stream until it finds an end; `lex_error` when the
stream ends first. The result is the position after the comment and the lines
left. -/
def pp_match_comment (block_comment_end : List Char → Option (List Char)) :
    List Char → List (List Char) → Option (List Char × List (List Char))
  | q, [] =>
    match block_comment_end q with
    | some q1 => some (q1, [])
    | none => none
  | q, line :: lines =>
    match block_comment_end q with
    | some q1 => some (q1, line :: lines)
    | none => pp_match_comment block_comment_end line lines

/-- The outer loop of `pp_match` from a position `p`; every turn skips one
comment, and `none` is the exhaustion of the bound on the turns. -/
def pp_match_loop (block_comment_start block_comment_end : List Char → Option (List Char)) :
    Nat → List Char → List (List Char) → Option LexOutcome
  | 0, _, _ => none
  | n + 1, p, lines =>
    match block_comment_start p with
    | none => some (.ok (some p) lines)
    | some comment_start =>
      match pp_match_comment block_comment_end comment_start lines with
      | none => some (.error "Block comment not closed")
      | some (q, lines1) => pp_match_loop block_comment_start block_comment_end n q lines1

/-- The function `pp_match` up to `return match(kind)`; `p` is `get_lex_p()`. -/
def pp_match (block_comment_start block_comment_end : List Char → Option (List Char))
    (n : Nat) (p : Option (List Char)) (lines : List (List Char)) : Option LexOutcome :=
  match p with
  | none => some (.ok none lines)
  | some p => pp_match_loop block_comment_start block_comment_end n p lines

/-! ### Examples for pp_match -/

/-- A `block_comment_start` for the examples: white space is skipped, and the
position of a `/*` found there is returned. -/
def example_comment_start (p : List Char) : Option (List Char) :=
  match p.dropWhile Char.isWhitespace with
  | '/' :: '*' :: rest => some ('/' :: '*' :: rest)
  | _ => none

/-- A `block_comment_end` for the examples: the position after the first `*/`
at or after the given position. -/
def example_comment_end : List Char → Option (List Char)
  | [] => none
  | c :: rest =>
    match c, rest with
    | '*', '/' :: rest1 => some rest1
    | _, _ => example_comment_end rest

/-- The text `/*/ b`: the start of a comment that the line does not close. -/
def slash_star_slash : List Char := "/*/ b".toList

/-! ## Examples for the bounds of a local array -/

/-- The parser state inside a function where `int a[3]` has just been
declared. -/
def fixed_state : ParseState :=
  { init_state with
    curscope := .nested (.global none)
      (some [{ name := some (.ident 0), type := .array tyInt 3, storage := 0 }]) }

/-- The initializer list with the single element `[k] = v`. -/
def single_designated (k v : Int) : Initializer :=
  .multi [.arr (.fixnum tyInt k) (.single (.fixnum tyInt v))]

/-- The messages recorded while a local array declaration is lowered, and the
stores that the statements built perform when they run with the array at address
`base`, the most recent first. -/
def store_log (env : Env) (name : Name) (type : CType) (init : Initializer)
    (st : ParseState) (base : Int) : Option (List String × List (Int × Int)) :=
  match lower_local_array env 1000 name type init st with
  | some (.ok (_, some stmts) st1) =>
    match exec_list 1000 stmts { vars := [], objects := [(name, base)], stores := [] } with
    | some m => some (st1.errors, m.stores)
    | none => none
  | _ => none

/-- A `default` entry of a case list. -/
def is_default : Stmt → Bool
  | .case_ none => true
  | _ => false

/-- The number of `default` entries in a case list. -/
def default_count (cases : List Stmt) : Nat :=
  (cases.filter is_default).length


/-- The parser state inside the body of a function of type `void (int)`. -/
def in_void_func : ParseState :=
  { init_state with
    curfunc := some { name := .ident 0, type := void_int_func, scopes := [], label_table := none,
                      gotos := none, stmts := none } }

/-! ## Blocks of a flattened array initializer (specification side) -/

/-- The cursor after a list has been read from the cursor `c`: one past the
logical index of its last element. -/
def next_cursor : Int → List Initializer → Int
  | c, [] => c
  | c, e :: rest =>
    next_cursor ((match e.designator with
      | some k => k
      | none => c) + 1) rest

/-- A range and the elements it covers agree: read from the start of the range
the elements have the logical indices of the range, and the first element
carries a designator unless the range starts at index 0. -/
def DesigRange.block_ok (data : List Initializer) (r : DesigRange) : Prop :=
  (r.start = 0 ∨ ∃ e k, (r.block data).head? = some e ∧ e.designator = some k) ∧
  logical_indices_from (r.start : Int) (r.block data) = r.indices ∧
  next_cursor (r.start : Int) (r.block data) = ((r.start + r.count : Nat) : Int)

/-! ## Theorems -/

theorem is_array_elem_cases {e : Initializer} (h : is_array_elem e = true) :
    (∃ x, e = .single x) ∨ (∃ l, e = .multi l) ∨
      (∃ t k v, e = .arr (.fixnum t k) v ∧ 0 ≤ k ∧ k < 2 ^ 63) := by
  cases e with
  | null => simp [is_array_elem] at h
  | single x => exact Or.inl ⟨x, rfl⟩
  | multi l => exact Or.inr (Or.inl ⟨l, rfl⟩)
  | dot n v => simp [is_array_elem] at h
  | arr idx v =>
    cases idx with
    | fixnum t k =>
      simp [is_array_elem] at h
      exact Or.inr (Or.inr ⟨t, k, v, rfl, h.1, h.2⟩)
    | _ => simp [is_array_elem] at h

theorem logical_indices_from_nonneg (l : List Initializer) :
    ∀ cursor : Int, 0 ≤ cursor → (∀ e ∈ l, is_array_elem e = true) →
      ∀ k ∈ logical_indices_from cursor l, 0 ≤ k := by
  induction l with
  | nil => intro cursor _ _ k hk; simp [logical_indices_from] at hk
  | cons e rest ih =>
    intro cursor hc hl k hk
    have he := hl e (List.mem_cons_self _ _)
    have hrest : ∀ x ∈ rest, is_array_elem x = true :=
      fun x hx => hl x (List.mem_cons_of_mem _ hx)
    rcases is_array_elem_cases he with ⟨x, rfl⟩ | ⟨m, rfl⟩ | ⟨t, d, v, rfl, hd, _⟩
    · simp only [logical_indices_from, Initializer.designator, List.mem_cons] at hk
      rcases hk with rfl | hk
      · exact hc
      · exact ih (cursor + 1) (by omega) hrest k hk
    · simp only [logical_indices_from, Initializer.designator, List.mem_cons] at hk
      rcases hk with rfl | hk
      · exact hc
      · exact ih (cursor + 1) (by omega) hrest k hk
    · simp only [logical_indices_from, Initializer.designator, List.mem_cons] at hk
      rcases hk with rfl | hk
      · exact hd
      · exact ih (d + 1) (by omega) hrest k hk

theorem wrap_ssize_eq {x : Int} (h0 : -2 ^ 63 ≤ x) (h1 : x < 2 ^ 63) : wrap_ssize x = x := by
  unfold wrap_ssize
  rw [Int.emod_eq_of_lt (by omega) (by omega)]
  omega

theorem fix_array_size_loop_spec (l : List Initializer) :
    ∀ index max_index : Int, 0 ≤ index → (∀ e ∈ l, is_array_elem e = true) →
      (∀ k ∈ logical_indices_from index l, k + 1 < 2 ^ 63) →
      ∃ m, fix_array_size_loop l index max_index = some m ∧ max_index ≤ m ∧
        (∀ k ∈ logical_indices_from index l, k + 1 ≤ m) ∧
        (m = max_index ∨ ∃ k ∈ logical_indices_from index l, m = k + 1) := by
  induction l with
  | nil =>
    intro index max_index _ _ _
    exact ⟨max_index, rfl, le_refl _, by simp [logical_indices_from], Or.inl rfl⟩
  | cons e rest ih =>
    intro index max_index hindex hl hbound
    have he := hl e (List.mem_cons_self _ _)
    have hrest : ∀ x ∈ rest, is_array_elem x = true :=
      fun x hx => hl x (List.mem_cons_of_mem _ hx)
    have key : ∀ k : Int, 0 ≤ k →
        fix_array_size_loop (e :: rest) index max_index =
          fix_array_size_loop rest (wrap_ssize (k + 1))
            (if max_index < wrap_ssize (k + 1) then wrap_ssize (k + 1) else max_index) →
        logical_indices_from index (e :: rest) = k :: logical_indices_from (k + 1) rest →
        ∃ m, fix_array_size_loop (e :: rest) index max_index = some m ∧ max_index ≤ m ∧
          (∀ j ∈ logical_indices_from index (e :: rest), j + 1 ≤ m) ∧
          (m = max_index ∨ ∃ j ∈ logical_indices_from index (e :: rest), m = j + 1) := by
      intro k hk0 hloop hidx
      have hk1 : k + 1 < 2 ^ 63 := hbound k (by rw [hidx]; exact List.mem_cons_self _ _)
      have hw : wrap_ssize (k + 1) = k + 1 := wrap_ssize_eq (by omega) hk1
      rw [hw] at hloop
      obtain ⟨m, hm, hle, hall, hex⟩ :=
        ih (k + 1) (if max_index < k + 1 then k + 1 else max_index) (by omega) hrest
          (fun j hj => hbound j (by rw [hidx]; exact List.mem_cons_of_mem _ hj))
      refine ⟨m, hloop.trans hm, ?_, ?_, ?_⟩
      · split_ifs at hle <;> omega
      · intro j hj
        rw [hidx, List.mem_cons] at hj
        rcases hj with rfl | hj
        · split_ifs at hle <;> omega
        · exact hall j hj
      · rcases hex with hex | ⟨j, hj, hmj⟩
        · by_cases hlt : max_index < k + 1
          · rw [if_pos hlt] at hex
            exact Or.inr ⟨k, by rw [hidx]; exact List.mem_cons_self _ _, hex⟩
          · rw [if_neg hlt] at hex
            exact Or.inl hex
        · exact Or.inr ⟨j, by rw [hidx]; exact List.mem_cons_of_mem _ hj, hmj⟩
    rcases is_array_elem_cases he with ⟨x, rfl⟩ | ⟨m, rfl⟩ | ⟨t, d, v, rfl, hd, _⟩
    · exact key index hindex rfl rfl
    · exact key index hindex rfl rfl
    · exact key d hd rfl rfl

/-- Claim C2: for an array type of fixed length `N > 0`, `fix_array_size` stops
with the fatal error "Initializer more than array size" exactly when the
initializer is a brace list of more than `N` elements or, for a char array, a
string literal whose size (NUL included) exceeds `N + 1`; in every other case
it returns the type unchanged, so a string of `N` or `N + 1` bytes is accepted
for `char s[N]`. -/
theorem fix_array_size_fixed_length (elem : CType) (N : Int) (init : Initializer)
    (st : ParseState) (hN : 0 < N) (hinit : init ≠ Initializer.null) :
    (fix_array_size (.array elem N) init st =
        parse_error st "Initializer more than array size" ↔
      ((∃ l, init = .multi l ∧ N < (l.length : Int)) ∨
        (is_char_type elem = true ∧
          ∃ t buf size, init = .single (.str t buf size) ∧ N + 1 < (size : Int)))) ∧
    (fix_array_size (.array elem N) init st ≠
        parse_error st "Initializer more than array size" →
      fix_array_size (.array elem N) init st = .ok (.array elem N) st) ∧
    (is_char_type elem = true → ∀ t buf (size : Nat), ((size : Int) = N ∨ (size : Int) = N + 1) →
      fix_array_size (.array elem N) (.single (.str t buf size)) st =
        .ok (.array elem N) st) := by
  have hN1 : N ≠ -1 := by omega
  refine ⟨?_, ?_, ?_⟩
  · cases init with
    | null => exact absurd rfl hinit
    | single x =>
      cases x <;> cases hc : is_char_type elem <;>
        simp [fix_array_size, Initializer.is_single_str, Initializer.is_multi,
          Initializer.str_size, Initializer.multi_data, parse_error, hc, hN1, hN]
      constructor
      · rintro ⟨_, h⟩
        exact ⟨_, _, _, ⟨rfl, rfl, rfl⟩, h⟩
      · rintro ⟨_, _, _, ⟨_, _, rfl⟩, h⟩
        exact ⟨by omega, h⟩
    | multi l =>
      simp [fix_array_size, Initializer.is_single_str, Initializer.is_multi,
        Initializer.str_size, Initializer.multi_data, parse_error, hN1, hN]
    | dot n v =>
      simp [fix_array_size, Initializer.is_single_str, Initializer.is_multi, parse_error]
    | arr i v =>
      simp [fix_array_size, Initializer.is_single_str, Initializer.is_multi, parse_error]
  · cases init with
    | null => exact absurd rfl hinit
    | single x =>
      cases x <;> cases hc : is_char_type elem <;>
        simp [fix_array_size, Initializer.is_single_str, Initializer.is_multi,
          Initializer.str_size, Initializer.multi_data, parse_error, hc, hN1, hN]
    | multi l =>
      simp [fix_array_size, Initializer.is_single_str, Initializer.is_multi,
        Initializer.str_size, Initializer.multi_data, parse_error, hN1, hN]
    | dot n v =>
      simp [fix_array_size, Initializer.is_single_str, Initializer.is_multi, parse_error]
    | arr i v =>
      simp [fix_array_size, Initializer.is_single_str, Initializer.is_multi, parse_error]
  · intro hc t buf size hsize
    simp [fix_array_size, Initializer.is_single_str, Initializer.is_multi,
      Initializer.str_size, parse_error, hc, hN1, hN]
    omega

/-- Witness for claim C2: `char s[3]` accepts the 4-byte literal "abc". -/
theorem fix_array_size_fixed_length_witness :
    (0 : Int) < 3 ∧
    Initializer.single (.str (.array tyChar 4) [97, 98, 99, 0] 4) ≠ Initializer.null ∧
    fix_array_size (.array tyChar 3) (.single (.str (.array tyChar 4) [97, 98, 99, 0] 4))
      init_state = .ok (.array tyChar 3) init_state :=
  ⟨by decide, by simp,
    (fix_array_size_fixed_length tyChar 3 (.single (.str (.array tyChar 4) [97, 98, 99, 0] 4))
      init_state (by decide) (by simp)).2.2 rfl _ _ 4 (Or.inr (by norm_num))⟩

/-- Claim C3: for an unsized array and a brace list whose designators are
constant and non-negative, and whose logical indices are all below the greatest
value of `ssize_t` (so that the count `index + 1` of every element can be held
in the `ssize_t` that counts it), `fix_array_size` returns the array type whose
length is the greatest logical index plus one: every logical index is below the
length, and the length is one more than the logical index of some element (the
length is 0 for the empty list, which has no element). -/
theorem fix_array_size_unsized (elem : CType) (l : List Initializer) (st : ParseState)
    (hl : ∀ e ∈ l, is_array_elem e = true)
    (hbound : ∀ k ∈ logical_indices l, k + 1 < 2 ^ 63) :
    ∃ len : Int,
      fix_array_size (.array elem (-1)) (.multi l) st = .ok (.array elem len) st ∧
      (∀ k ∈ logical_indices l, k + 1 ≤ len) ∧
      (l ≠ [] → ∃ k ∈ logical_indices l, len = k + 1) ∧
      (l = [] → len = 0) := by
  obtain ⟨m, hm, hle, hall, hex⟩ := fix_array_size_loop_spec l 0 0 (le_refl _) hl hbound
  refine ⟨m, ?_, hall, ?_, ?_⟩
  · simp [fix_array_size, Initializer.is_single_str, Initializer.is_multi,
      Initializer.multi_data, hm]
  · intro hne
    rcases hex with h0 | h
    · exfalso
      cases l with
      | nil => exact hne rfl
      | cons e rest =>
        have hmem : (match e.designator with | some k => k | none => (0 : Int)) ∈
            logical_indices_from 0 (e :: rest) := by
          simp [logical_indices_from]
        have h1 := hall _ hmem
        have h2 := logical_indices_from_nonneg (e :: rest) 0 (le_refl _) hl _ hmem
        omega
    · exact h
  · intro hnil
    subst hnil
    simp [fix_array_size_loop] at hm
    omega

/-- Witness for claim C3: the list `{[2]=7, 1, 2, [0]=9}` has only constant
non-negative designators, its logical indices 2, 3, 4, 0 are far below the
greatest `ssize_t`, and the theorem applies to it. -/
theorem fix_array_size_unsized_witness :
    (∀ e ∈ [Initializer.arr (.fixnum tyInt 2) (.single (.fixnum tyInt 7)),
        .single (.fixnum tyInt 1), .single (.fixnum tyInt 2),
        .arr (.fixnum tyInt 0) (.single (.fixnum tyInt 9))], is_array_elem e = true) ∧
    (∀ k ∈ logical_indices [Initializer.arr (.fixnum tyInt 2) (.single (.fixnum tyInt 7)),
        .single (.fixnum tyInt 1), .single (.fixnum tyInt 2),
        .arr (.fixnum tyInt 0) (.single (.fixnum tyInt 9))], k + 1 < 2 ^ 63) ∧
    ∃ len : Int,
      fix_array_size (.array tyInt (-1))
        (.multi [Initializer.arr (.fixnum tyInt 2) (.single (.fixnum tyInt 7)),
          .single (.fixnum tyInt 1), .single (.fixnum tyInt 2),
          .arr (.fixnum tyInt 0) (.single (.fixnum tyInt 9))]) init_state =
        .ok (.array tyInt len) init_state ∧
      (∀ k ∈ logical_indices [Initializer.arr (.fixnum tyInt 2) (.single (.fixnum tyInt 7)),
          .single (.fixnum tyInt 1), .single (.fixnum tyInt 2),
          .arr (.fixnum tyInt 0) (.single (.fixnum tyInt 9))], k + 1 ≤ len) ∧
      ([Initializer.arr (.fixnum tyInt 2) (.single (.fixnum tyInt 7)),
          .single (.fixnum tyInt 1), .single (.fixnum tyInt 2),
          .arr (.fixnum tyInt 0) (.single (.fixnum tyInt 9))] ≠ [] →
        ∃ k ∈ logical_indices [Initializer.arr (.fixnum tyInt 2) (.single (.fixnum tyInt 7)),
          .single (.fixnum tyInt 1), .single (.fixnum tyInt 2),
          .arr (.fixnum tyInt 0) (.single (.fixnum tyInt 9))], len = k + 1) ∧
      ([Initializer.arr (.fixnum tyInt 2) (.single (.fixnum tyInt 7)),
          .single (.fixnum tyInt 1), .single (.fixnum tyInt 2),
          .arr (.fixnum tyInt 0) (.single (.fixnum tyInt 9))] = [] → len = 0) :=
  ⟨by simp [is_array_elem],
    by simp [logical_indices, logical_indices_from, Initializer.designator],
    fix_array_size_unsized tyInt _ init_state (by simp [is_array_elem])
      (by simp [logical_indices, logical_indices_from, Initializer.designator])⟩

/-! ### init_char_array_by_string -/

/-- Claim C1 at `char s[3] = "abc";`: the literal has size 4, the test
`dstsize < size - 1` accepts it, and the block built by `build_memcpy` stores
four bytes, at the addresses `s + 0` to `s + 3`: the terminating NUL is written
one byte past the end of the three-byte array. -/
theorem init_char_array_by_string_overrun :
    stores_of (init_char_array_by_string spec_env overrun_dst overrun_src overrun_state) 100
        overrun_machine =
      some [(1003, 0), (1002, 99), (1001, 98), (1000, 97)] := by
  decide!

/-! ### flatten_array_initializer -/

theorem size_add_eq {a b : Nat} (h : a + b < 2 ^ 64) : size_add a b = a + b := by
  unfold size_add
  exact Nat.mod_eq_of_lt h

theorem size_sub_add_eq {a b : Nat} (h : a + b < 2 ^ 64) : size_sub (a + b) a = b := by
  unfold size_sub
  have h1 : a % 2 ^ 64 = a := Nat.mod_eq_of_lt (by omega)
  rw [h1]
  have h2 : a + b + (2 ^ 64 - a) = b + 2 ^ 64 := by omega
  rw [h2, Nat.add_mod_right]
  exact Nat.mod_eq_of_lt (by omega)

theorem fixnum_to_size_eq {k : Int} (h0 : 0 ≤ k) (h1 : k < 2 ^ 63) :
    fixnum_to_size k = k.toNat := by
  unfold fixnum_to_size
  rw [Int.emod_eq_of_lt h0 (by omega)]

theorem size_to_fixnum_eq {n : Nat} (h : n < 2 ^ 63) : size_to_fixnum n = (n : Int) := by
  unfold size_to_fixnum
  have h1 : n % 2 ^ 64 = n := Nat.mod_eq_of_lt (by omega)
  rw [h1, if_pos h]

theorem designator_of_not_arr {e : Initializer} (h : e.is_arr = false) : e.designator = none := by
  cases e with
  | arr idx v => simp [Initializer.is_arr] at h
  | _ => rfl

theorem logical_indices_from_cons_none {e : Initializer} (c : Int) (rest : List Initializer)
    (h : e.designator = none) :
    logical_indices_from c (e :: rest) = c :: logical_indices_from (c + 1) rest := by
  simp [logical_indices_from, h]

theorem logical_indices_from_cons_some {e : Initializer} {k : Int} (c : Int)
    (rest : List Initializer) (h : e.designator = some k) :
    logical_indices_from c (e :: rest) = k :: logical_indices_from (k + 1) rest := by
  simp [logical_indices_from, h]

theorem logical_indices_from_positional (pre : List Initializer) :
    ∀ (c : Nat) (suf : List Initializer), (∀ e ∈ pre, e.is_arr = false) →
      logical_indices_from (c : Int) (pre ++ suf) =
        (List.range' c pre.length).map Int.ofNat ++
          logical_indices_from ((c + pre.length : Nat) : Int) suf := by
  induction pre with
  | nil => intro c suf _; simp
  | cons e pre ih =>
    intro c suf h
    have he := designator_of_not_arr (h e (List.mem_cons_self _ _))
    have := ih (c + 1) suf (fun x hx => h x (List.mem_cons_of_mem _ hx))
    have hc : ((c : Int) + 1) = ((c + 1 : Nat) : Int) := by push_cast; rfl
    have hlen : c + 1 + pre.length = c + (pre.length + 1) := by omega
    rw [List.cons_append, List.length_cons, List.range'_succ, List.map_cons, List.cons_append,
      logical_indices_from_cons_none _ _ he, hc, this, hlen]
    rfl

theorem block_eq_of_split {l A P rest : List Initializer} (h : l = A ++ P ++ rest) :
    DesigRange.block l ⟨s, A.length, P.length⟩ = P := by
  subst h
  simp [DesigRange.block, List.append_assoc]

theorem get?_of_split {l A P rest : List Initializer} (h : l = A ++ P ++ rest) :
    l.get? A.length = (P ++ rest).head? := by
  subst h
  rw [List.append_assoc, List.get?_eq_getElem?, List.getElem?_append_right (le_refl _)]
  simp [List.head?_eq_getElem?]

theorem push_range_pending (ranges : List DesigRange) (A P : List Initializer) (lastStart : Nat)
    (h : lastStart + P.length < 2 ^ 64) :
    push_range ranges (A.length + P.length) (lastStart + P.length) lastStart A.length =
      ranges ++ pending_range lastStart A.length P.length := by
  unfold push_range pending_range
  cases P with
  | nil => simp
  | cons e P =>
    have hpos : A.length + (e :: P).length > A.length := by simp
    rw [if_pos hpos, size_sub_add_eq h]
    simp

theorem pending_props {l A P rest : List Initializer} (hl : l = A ++ P ++ rest)
    (lastStart : Nat) (hls : lastStart < 2 ^ 63)
    (hP : A.length = lastStart ∨ ∃ idx v, P.head? = some (Initializer.arr idx v)) :
    (pending_range lastStart A.length P.length).flatMap
        (DesigRange.block l) = P ∧
    (pending_range lastStart A.length P.length).flatMap
        DesigRange.indices = (List.range' lastStart P.length).map Int.ofNat ∧
    ∀ r ∈ (pending_range lastStart A.length P.length),
      0 < r.count ∧ r.start < 2 ^ 63 ∧ r.index + r.count ≤ l.length ∧ r.head_ok l := by
  by_cases hPn : P = []
  · subst hPn
    simp [pending_range]
  · have hPl : P.length ≠ 0 := fun h => hPn (List.length_eq_zero.mp h)
    unfold pending_range
    rw [if_neg hPl]
    refine ⟨?_, ?_, ?_⟩
    · simp [block_eq_of_split hl]
    · simp [DesigRange.indices]
    · intro r hr
      simp only [List.mem_singleton] at hr
      subst hr
      refine ⟨?_, hls, ?_, ?_⟩
      · exact List.length_pos.mpr hPn
      · subst hl
        simp only [List.length_append]
        omega
      · rcases hP with h | ⟨idx, v, h⟩
        · exact Or.inl h
        · refine Or.inr ⟨idx, v, ?_⟩
          rw [get?_of_split hl]
          cases P with
          | nil => exact absurd rfl hPn
          | cons e P => simpa using h

theorem flatten_array_enumerate_spec (l : List Initializer) (hlen : l.length < 2 ^ 63)
    (st : ParseState) :
    ∀ (rest A P : List Initializer) (lastStart : Nat) (ranges : List DesigRange),
      l = A ++ P ++ rest → (∀ e ∈ rest, is_array_elem e = true) → lastStart < 2 ^ 63 →
      (A.length = lastStart ∨ ∃ idx v, P.head? = some (Initializer.arr idx v)) →
      ∃ R, flatten_array_enumerate rest (A.length + P.length) (lastStart + P.length) lastStart
            A.length ranges st = .ok (ranges ++ R) st ∧
        R.flatMap (DesigRange.block l) = P ++ rest ∧
        R.flatMap DesigRange.indices =
          (List.range' lastStart P.length).map Int.ofNat ++
            logical_indices_from ((lastStart + P.length : Nat) : Int) rest ∧
        ∀ r ∈ R, 0 < r.count ∧ r.start < 2 ^ 63 ∧ r.index + r.count ≤ l.length ∧
          r.head_ok l := by
  intro rest
  induction rest with
  | nil =>
    intro A P lastStart ranges hl _ hls hP
    have hPlen : P.length ≤ l.length := by subst hl; simp
    obtain ⟨h1, h2, h3⟩ := pending_props hl lastStart hls hP
    refine ⟨_, ?_, ?_, ?_, h3⟩
    · simp only [flatten_array_enumerate]
      rw [push_range_pending ranges A P lastStart (by omega)]
    · simpa using h1
    · simpa [logical_indices_from] using h2
  | cons e rest ih =>
    intro A P lastStart ranges hl hrest hls hP
    have hPlen : P.length + 1 ≤ l.length := by subst hl; simp; omega
    have he := hrest e (List.mem_cons_self _ _)
    have hrest' : ∀ x ∈ rest, is_array_elem x = true :=
      fun x hx => hrest x (List.mem_cons_of_mem _ hx)
    have hpos : ∀ (hd : e.designator = none)
        (hstep : flatten_array_enumerate (e :: rest) (A.length + P.length) (lastStart + P.length)
            lastStart A.length ranges st =
          flatten_array_enumerate rest (A.length + P.length + 1)
            (size_add (lastStart + P.length) 1) lastStart A.length ranges st),
        ∃ R, flatten_array_enumerate (e :: rest) (A.length + P.length) (lastStart + P.length)
              lastStart A.length ranges st = .ok (ranges ++ R) st ∧
          R.flatMap (DesigRange.block l) = P ++ e :: rest ∧
          R.flatMap DesigRange.indices =
            (List.range' lastStart P.length).map Int.ofNat ++
              logical_indices_from ((lastStart + P.length : Nat) : Int) (e :: rest) ∧
          ∀ r ∈ R, 0 < r.count ∧ r.start < 2 ^ 63 ∧ r.index + r.count ≤ l.length ∧
            r.head_ok l := by
      intro hd hstep
      have hl' : l = A ++ (P ++ [e]) ++ rest := by rw [hl]; simp
      have hP' : A.length = lastStart ∨ ∃ idx v, (P ++ [e]).head? = some (Initializer.arr idx v) := by
        rcases hP with h | ⟨idx, v, h⟩
        · exact Or.inl h
        · refine Or.inr ⟨idx, v, ?_⟩
          cases P with
          | nil => simp at h
          | cons p P => simpa using h
      obtain ⟨R, hR, hb, hi, hp⟩ := ih A (P ++ [e]) lastStart ranges hl' hrest' hls hP'
      refine ⟨R, ?_, ?_, ?_, hp⟩
      · rw [hstep, size_add_eq (by omega)]
        have e1 : A.length + (P ++ [e]).length = A.length + P.length + 1 := by simp; omega
        have e2 : lastStart + (P ++ [e]).length = lastStart + P.length + 1 := by simp; omega
        rw [e1, e2] at hR
        exact hR
      · rw [hb]; simp
      · rw [hi, logical_indices_from_cons_none _ _ hd]
        have e2 : lastStart + (P ++ [e]).length = lastStart + P.length + 1 := by simp; omega
        rw [e2]
        simp only [List.length_append, List.length_singleton]
        rw [Nat.add_comm P.length 1, ← List.range'_append lastStart P.length 1 1, List.map_append,
          List.append_assoc]
        simp
    rcases is_array_elem_cases he with ⟨x, rfl⟩ | ⟨m, rfl⟩ | ⟨t, k, v, rfl, hk0, hk1⟩
    · exact hpos rfl rfl
    · exact hpos rfl rfl
    · have hkz : fixnum_to_size k = k.toNat := fixnum_to_size_eq hk0 hk1
      have hkn : k.toNat < 2 ^ 63 := by omega
      have hl' : l = (A ++ P) ++ [Initializer.arr (.fixnum t k) v] ++ rest := by rw [hl]; simp
      obtain ⟨R, hR, hb, hi, hp⟩ := ih (A ++ P) [Initializer.arr (.fixnum t k) v] k.toNat
        (push_range ranges (A.length + P.length) (lastStart + P.length) lastStart A.length)
        hl' hrest' hkn (Or.inr ⟨_, _, rfl⟩)
      obtain ⟨h1, h2, h3⟩ := @pending_props l A P (Initializer.arr (.fixnum t k) v :: rest)
        hl lastStart hls hP
      rw [push_range_pending ranges A P lastStart (by omega)] at hR
      refine ⟨(pending_range lastStart A.length P.length) ++ R, ?_, ?_, ?_, ?_⟩
      · simp only [flatten_array_enumerate]
        rw [hkz, size_add_eq (by omega), push_range_pending ranges A P lastStart (by omega)]
        simp only [List.length_append, List.length_singleton, List.append_assoc] at hR ⊢
        exact hR
      · rw [List.flatMap_append, h1, hb]; simp
      · rw [List.flatMap_append, h2, hi,
          logical_indices_from_cons_some _ _ (show (Initializer.arr (.fixnum t k) v).designator = some k from rfl)]
        simp only [List.length_singleton, List.range'_one, List.map_cons, List.map_nil,
          List.singleton_append, List.append_cancel_left_eq, Int.ofNat_eq_coe]
        have : ((k.toNat : Nat) : Int) = k := Int.toNat_of_nonneg hk0
        push_cast
        rw [this]
      · intro r hr
        rcases List.mem_append.mp hr with h | h
        · exact h3 r h
        · exact hp r h

theorem ordered_insert_perm {α : Type} (cmp : α → α → Int) (x : α) (xs : List α) :
    (ordered_insert cmp x xs).Perm (x :: xs) := by
  induction xs with
  | nil => exact List.Perm.refl _
  | cons y ys ih =>
    unfold ordered_insert
    split_ifs
    · exact List.Perm.refl _
    · exact ((List.perm_cons y).mpr ih).trans (List.Perm.swap x y ys)

theorem myqsort_perm {α : Type} (cmp : α → α → Int) (xs : List α) :
    (myqsort cmp xs).Perm xs := by
  induction xs with
  | nil => exact List.Perm.refl _
  | cons x xs ih =>
    unfold myqsort
    exact (ordered_insert_perm cmp x _).trans ((List.perm_cons x).mpr ih)

theorem compare_desig_start_le {a b : DesigRange} (ha : a.start < 2 ^ 63) (hb : b.start < 2 ^ 63) :
    compare_desig_start a b ≤ 0 ↔ a.start ≤ b.start := by
  unfold compare_desig_start
  rw [size_to_fixnum_eq ha, size_to_fixnum_eq hb]
  simp only
  split_ifs <;> omega

theorem ordered_insert_sorted (x : DesigRange) (hx : x.start < 2 ^ 63) (xs : List DesigRange)
    (hxs : ∀ r ∈ xs, r.start < 2 ^ 63)
    (hs : xs.Pairwise (fun a b => a.start ≤ b.start)) :
    (ordered_insert compare_desig_start x xs).Pairwise (fun a b => a.start ≤ b.start) := by
  induction xs with
  | nil => simp [ordered_insert]
  | cons y ys ih =>
    have hy := hxs y (List.mem_cons_self _ _)
    have hys : ∀ r ∈ ys, r.start < 2 ^ 63 := fun r hr => hxs r (List.mem_cons_of_mem _ hr)
    rw [List.pairwise_cons] at hs
    unfold ordered_insert
    split_ifs with h
    · rw [compare_desig_start_le hx hy] at h
      refine List.pairwise_cons.mpr ⟨?_, List.pairwise_cons.mpr hs⟩
      intro z hz
      rcases List.mem_cons.mp hz with rfl | hz
      · exact h
      · exact le_trans h (hs.1 z hz)
    · rw [compare_desig_start_le hx hy] at h
      refine List.pairwise_cons.mpr ⟨?_, ih hys hs.2⟩
      intro z hz
      have hz' := (ordered_insert_perm compare_desig_start x ys).mem_iff.mp hz
      rcases List.mem_cons.mp hz' with rfl | hz'
      · omega
      · exact hs.1 z hz'

theorem myqsort_sorted (xs : List DesigRange) (hxs : ∀ r ∈ xs, r.start < 2 ^ 63) :
    (myqsort compare_desig_start xs).Pairwise (fun a b => a.start ≤ b.start) := by
  induction xs with
  | nil => simp [myqsort]
  | cons x xs ih =>
    unfold myqsort
    have hx := hxs x (List.mem_cons_self _ _)
    have hxs' : ∀ r ∈ xs, r.start < 2 ^ 63 := fun r hr => hxs r (List.mem_cons_of_mem _ hr)
    refine ordered_insert_sorted x hx _ ?_ (ih hxs')
    intro r hr
    exact hxs' r ((myqsort_perm compare_desig_start xs).mem_iff.mp hr)

theorem flatten_array_copy_spec (data : List Initializer) (p : DesigRange)
    (hdata : data.length < 2 ^ 63) (hhead : p.head_ok data) :
    ∀ (remaining j : Nat) (reordered : List Initializer),
      p.index + j + remaining ≤ data.length →
      flatten_array_copy data p remaining j reordered =
        some (reordered ++ (data.drop (p.index + j)).take remaining) := by
  intro remaining
  induction remaining with
  | zero => intro j reordered _; simp [flatten_array_copy]
  | succ n ih =>
    intro j reordered hb
    have hlt : p.index + j < data.length := by omega
    have hget : data.get? (size_add p.index j) = some data[p.index + j] := by
      rw [size_add_eq (by omega), List.get?_eq_getElem?, List.getElem?_eq_getElem hlt]
    have hdrop : (data.drop (p.index + j)).take (n + 1) =
        data[p.index + j] :: (data.drop (p.index + (j + 1))).take n := by
      rw [List.drop_eq_getElem_cons hlt, List.take_succ_cons]
      rfl
    have hnext := ih (j + 1) (reordered ++ [data[p.index + j]]) (by omega)
    unfold flatten_array_copy
    rw [hget]
    simp only
    rw [size_add_eq (by omega), hdrop]
    by_cases hc : j = 0 ∧ p.index ≠ p.start
    · rw [if_pos hc]
      obtain ⟨hj, hne⟩ := hc
      subst hj
      rcases hhead with h | ⟨idx, v, h⟩
      · exact absurd h hne
      · rw [List.get?_eq_getElem?, List.getElem?_eq_getElem (by omega : p.index < data.length)] at h
        have h' : data[p.index + 0] = Initializer.arr idx v := by
          simpa using h
        rw [h'] at hnext ⊢
        simp only
        rw [hnext]
        simp
    · rw [if_neg hc, hnext]
      simp

theorem flatten_array_reorder_spec (data : List Initializer) (hdata : data.length < 2 ^ 63)
    (st : ParseState) :
    ∀ (S : List DesigRange) (prev : Option DesigRange) (reordered : List Initializer),
      (∀ r ∈ S, 0 < r.count ∧ r.start < 2 ^ 63 ∧ r.index + r.count ≤ data.length ∧
        r.head_ok data) →
      (∀ q, prev = some q → q.start < 2 ^ 63 ∧ q.count < 2 ^ 63) →
      flatten_array_reorder data S prev reordered st =
        if ranges_disjoint (match prev with
            | some q => q.start + q.count
            | none => 0) S
        then .ok (reordered ++ S.flatMap (DesigRange.block data)) st
        else parse_error st "Initializer for array overlapped" := by
  intro S
  induction S with
  | nil => intro prev reordered _ _; simp [flatten_array_reorder, ranges_disjoint]
  | cons p S ih =>
    intro prev reordered hS hprev
    obtain ⟨hc, hs, hb, hh⟩ := hS p (List.mem_cons_self _ _)
    have hS' : ∀ r ∈ S, 0 < r.count ∧ r.start < 2 ^ 63 ∧ r.index + r.count ≤ data.length ∧
        r.head_ok data := fun r hr => hS r (List.mem_cons_of_mem _ hr)
    have hcopy := flatten_array_copy_spec data p hdata hh p.count 0 reordered (by omega)
    have hnext := ih (some p) (reordered ++ (data.drop (p.index + 0)).take p.count) hS'
      (by intro q hq; cases hq; exact ⟨hs, by omega⟩)
    unfold flatten_array_reorder
    simp only [ranges_disjoint]
    cases prev with
    | none =>
      simp only [Bool.false_eq_true, if_false, Nat.zero_le, decide_True, Bool.true_and]
      rw [hcopy]
      simp only
      rw [hnext]
      simp [DesigRange.block, List.append_assoc]
    | some q =>
      obtain ⟨hq1, hq2⟩ := hprev q rfl
      have hsz : size_add q.start q.count = q.start + q.count := size_add_eq (by omega)
      simp only [hsz]
      by_cases hov : p.start < q.start + q.count
      · have : ¬ (q.start + q.count ≤ p.start) := by omega
        simp [hov, this]
      · have : q.start + q.count ≤ p.start := by omega
        simp only [hov, decide_False, Bool.false_eq_true, if_false, this, decide_True,
          Bool.true_and]
        rw [hcopy]
        simp only
        rw [hnext]
        simp [DesigRange.block, List.append_assoc]

theorem mem_indices {r : DesigRange} {x : Int} :
    x ∈ r.indices ↔ ∃ n : Nat, r.start ≤ n ∧ n < r.start + r.count ∧ x = (n : Int) := by
  unfold DesigRange.indices
  simp only [List.mem_map, List.mem_range', Int.ofNat_eq_coe]
  constructor
  · rintro ⟨n, ⟨i, hi, rfl⟩, rfl⟩
    exact ⟨r.start + 1 * i, by omega, by omega, rfl⟩
  · rintro ⟨n, h1, h2, rfl⟩
    exact ⟨n, ⟨n - r.start, by omega, by omega⟩, rfl⟩

theorem indices_pairwise (r : DesigRange) : r.indices.Pairwise (· < ·) := by
  unfold DesigRange.indices
  refine List.Pairwise.map _ ?_ (List.pairwise_lt_range' r.start r.count)
  intro a b h
  simp only [Int.ofNat_eq_coe]
  omega

theorem ranges_disjoint_ascending (S : List DesigRange) :
    ∀ lo : Nat, ranges_disjoint lo S = true →
      (S.flatMap DesigRange.indices).Pairwise (· < ·) ∧
        ∀ x ∈ S.flatMap DesigRange.indices, (lo : Int) ≤ x := by
  induction S with
  | nil => intro lo _; simp
  | cons p S ih =>
    intro lo h
    simp only [ranges_disjoint, Bool.and_eq_true, decide_eq_true_eq] at h
    obtain ⟨hlo, hrest⟩ := h
    obtain ⟨hpw, hge⟩ := ih (p.start + p.count) hrest
    rw [List.flatMap_cons]
    refine ⟨List.pairwise_append.mpr ⟨indices_pairwise p, hpw, ?_⟩, ?_⟩
    · intro a ha b hb
      obtain ⟨n, _, hn2, rfl⟩ := mem_indices.mp ha
      have := hge b hb
      push_cast at this
      omega
    · intro x hx
      rcases List.mem_append.mp hx with hx | hx
      · obtain ⟨n, hn1, _, rfl⟩ := mem_indices.mp hx
        omega
      · have := hge x hx
        push_cast at this
        omega

theorem ranges_overlap_not_nodup (S : List DesigRange) :
    ∀ q : DesigRange, (q :: S).Pairwise (fun a b => a.start ≤ b.start) →
      (∀ r ∈ q :: S, 0 < r.count) → ranges_disjoint (q.start + q.count) S = false →
      ¬ ((q :: S).flatMap DesigRange.indices).Nodup := by
  induction S with
  | nil => intro q _ _ h; simp [ranges_disjoint] at h
  | cons p S ih =>
    intro q hs hc h hnd
    rw [List.pairwise_cons] at hs
    have hqp : q.start ≤ p.start := hs.1 p (List.mem_cons_self _ _)
    have hpc : 0 < p.count := hc p (List.mem_cons_of_mem _ (List.mem_cons_self _ _))
    rw [List.flatMap_cons, List.nodup_append] at hnd
    obtain ⟨_, hnd2, hdisj⟩ := hnd
    simp only [ranges_disjoint, Bool.and_eq_false_iff, decide_eq_false_iff_not] at h
    rcases h with h | h
    · have h1 : (p.start : Int) ∈ q.indices := mem_indices.mpr ⟨p.start, hqp, by omega, rfl⟩
      have h2 : (p.start : Int) ∈ (p :: S).flatMap DesigRange.indices := by
        rw [List.flatMap_cons]
        exact List.mem_append_left _ (mem_indices.mpr ⟨p.start, le_refl _, by omega, rfl⟩)
      exact hdisj h1 h2
    · exact ih p hs.2 (fun r hr => hc r (List.mem_cons_of_mem _ hr)) h hnd2

theorem ranges_disjoint_iff_nodup (S : List DesigRange)
    (hs : S.Pairwise (fun a b => a.start ≤ b.start)) (hc : ∀ r ∈ S, 0 < r.count) :
    ranges_disjoint 0 S = true ↔ (S.flatMap DesigRange.indices).Nodup := by
  constructor
  · intro h
    exact (ranges_disjoint_ascending S 0 h).1.imp (fun hab => ne_of_lt hab)
  · intro hnd
    cases S with
    | nil => rfl
    | cons q S =>
      by_contra hne
      have hf : ranges_disjoint (q.start + q.count) S = false := by
        simpa [ranges_disjoint] using hne
      exact ranges_overlap_not_nodup S q hs hc hf hnd

theorem zip_flatMap {α β γ : Type} (f : α → List β) (g : α → List γ) (R : List α)
    (h : ∀ r ∈ R, (f r).length = (g r).length) :
    R.flatMap (fun r => List.zip (f r) (g r)) = List.zip (R.flatMap f) (R.flatMap g) := by
  induction R with
  | nil => simp
  | cons r R ih =>
    rw [List.flatMap_cons, List.flatMap_cons, List.flatMap_cons,
      List.zip_append (h r (List.mem_cons_self _ _)),
      ih (fun x hx => h x (List.mem_cons_of_mem _ hx))]

theorem flatMap_length_eq {α β γ : Type} (f : α → List β) (g : α → List γ) (R : List α)
    (h : ∀ r ∈ R, (f r).length = (g r).length) :
    (R.flatMap f).length = (R.flatMap g).length := by
  induction R with
  | nil => rfl
  | cons r R ih =>
    rw [List.flatMap_cons, List.flatMap_cons, List.length_append, List.length_append,
      h r (List.mem_cons_self _ _), ih (fun x hx => h x (List.mem_cons_of_mem _ hx))]

theorem logical_indices_from_length (l : List Initializer) :
    ∀ c : Int, (logical_indices_from c l).length = l.length := by
  induction l with
  | nil => intro c; rfl
  | cons e l ih => intro c; simp [logical_indices_from, ih]

theorem flatten_array_scan_spec (l : List Initializer) (st : ParseState)
    (hl : ∀ e ∈ l, is_array_elem e = true) :
    ∀ i0 : Nat, ∃ pre suf, l = pre ++ suf ∧ (∀ e ∈ pre, e.is_arr = false) ∧
      (suf = [] ∨ ∃ idx v s, suf = Initializer.arr idx v :: s) ∧
      flatten_array_scan l i0 st = .ok (i0 + pre.length) st := by
  induction l with
  | nil => intro i0; exact ⟨[], [], rfl, by simp, Or.inl rfl, rfl⟩
  | cons e l ih =>
    intro i0
    have hl' : ∀ x ∈ l, is_array_elem x = true := fun x hx => hl x (List.mem_cons_of_mem _ hx)
    obtain ⟨pre, suf, hsplit, hpre, hsuf, hscan⟩ := ih hl' (i0 + 1)
    have hpos : e.is_arr = false →
        flatten_array_scan (e :: l) i0 st = flatten_array_scan l (i0 + 1) st →
        ∃ pre suf, e :: l = pre ++ suf ∧ (∀ x ∈ pre, x.is_arr = false) ∧
          (suf = [] ∨ ∃ idx v s, suf = Initializer.arr idx v :: s) ∧
          flatten_array_scan (e :: l) i0 st = .ok (i0 + pre.length) st := by
      intro he hstep
      refine ⟨e :: pre, suf, by rw [hsplit]; rfl, ?_, hsuf, ?_⟩
      · intro x hx
        rcases List.mem_cons.mp hx with rfl | hx
        · exact he
        · exact hpre x hx
      · rw [hstep, hscan, List.length_cons]
        congr 1
        omega
    rcases is_array_elem_cases (hl e (List.mem_cons_self _ _)) with
      ⟨x, rfl⟩ | ⟨m, rfl⟩ | ⟨t, k, v, rfl, _, _⟩
    · exact hpos rfl rfl
    · exact hpos rfl rfl
    · exact ⟨[], _, rfl, by simp, Or.inr ⟨_, _, _, rfl⟩, rfl⟩

theorem flatten_array_core (l : List Initializer) (st : ParseState)
    (hl : ∀ e ∈ l, is_array_elem e = true) (hlen : l.length < 2 ^ 63) :
    ∃ S : List DesigRange,
      (S.flatMap (DesigRange.tagged l)).Perm (List.zip (logical_indices l) l) ∧
      (S.flatMap DesigRange.indices).Perm (logical_indices l) ∧
      (∀ r ∈ S, 0 < r.count) ∧
      S.Pairwise (fun a b => a.start ≤ b.start) ∧
      (∀ t : List (Int × Initializer), t = S.flatMap (DesigRange.tagged l) →
        t.map Prod.fst = S.flatMap DesigRange.indices ∧
        t.map Prod.snd = S.flatMap (DesigRange.block l)) ∧
      flatten_array_initializer (.multi l) st =
        if ranges_disjoint 0 S then .ok (.multi (S.flatMap (DesigRange.block l))) st
        else parse_error st "Initializer for array overlapped" := by
  -- every range covers as many elements as it has indices
  have hlens : ∀ (S : List DesigRange), (∀ r ∈ S, r.index + r.count ≤ l.length) →
      ∀ r ∈ S, r.indices.length = (r.block l).length := by
    intro S hS r hr
    have := hS r hr
    simp only [DesigRange.indices, DesigRange.block, List.length_map, List.length_range',
      List.length_take, List.length_drop]
    omega
  have hmaps : ∀ (S : List DesigRange), (∀ r ∈ S, r.index + r.count ≤ l.length) →
      ∀ t : List (Int × Initializer), t = S.flatMap (DesigRange.tagged l) →
        t.map Prod.fst = S.flatMap DesigRange.indices ∧
        t.map Prod.snd = S.flatMap (DesigRange.block l) := by
    intro S hS t ht
    have hz := zip_flatMap DesigRange.indices (DesigRange.block l) S (hlens S hS)
    have hlen2 : (S.flatMap DesigRange.indices).length = (S.flatMap (DesigRange.block l)).length :=
      flatMap_length_eq _ _ S (hlens S hS)
    have ht' : t = List.zip (S.flatMap DesigRange.indices) (S.flatMap (DesigRange.block l)) := by
      rw [ht]; exact hz
    rw [ht']
    exact ⟨List.map_fst_zip _ _ (le_of_eq hlen2), List.map_snd_zip _ _ (le_of_eq hlen2.symm)⟩
  have hfinish : ∀ (R S : List DesigRange), S.Perm R →
      R.flatMap (DesigRange.block l) = l → R.flatMap DesigRange.indices = logical_indices l →
      (∀ r ∈ R, r.index + r.count ≤ l.length) →
      (S.flatMap (DesigRange.tagged l)).Perm (List.zip (logical_indices l) l) ∧
      (S.flatMap DesigRange.indices).Perm (logical_indices l) := by
    intro R S hperm hb hi hR
    constructor
    · have hz := zip_flatMap DesigRange.indices (DesigRange.block l) R (hlens R hR)
      rw [hb, hi] at hz
      rw [← hz]
      exact hperm.flatMap_right _
    · rw [← hi]
      exact hperm.flatMap_right _
  obtain ⟨pre, suf, hsplit, hpre, hsuf, hscan⟩ := flatten_array_scan_spec l st hl 0
  rcases hsuf with hnil | ⟨idx, v, s, hsuf⟩
  · -- no designated element: the initializer is returned as it is
    subst hnil
    have hpl : pre = l := by rw [hsplit]; simp
    subst hpl
    have hl0 : pre = [] ++ pre ++ [] := by simp
    obtain ⟨h1, h2, h3⟩ := @pending_props pre [] pre [] hl0 0 (by norm_num)
      (Or.inl rfl)
    have hidx : logical_indices pre = (List.range' 0 pre.length).map Int.ofNat := by
      have := logical_indices_from_positional pre 0 [] hpre
      simpa [logical_indices, logical_indices_from] using this
    have hbound : ∀ r ∈ pending_range 0 ([] : List Initializer).length pre.length,
        r.index + r.count ≤ pre.length := fun r hr => (h3 r hr).2.2.1
    obtain ⟨hf1, hf2⟩ := hfinish _ _ (List.Perm.refl _) h1 (by rw [h2, hidx]) hbound
    refine ⟨pending_range 0 ([] : List Initializer).length pre.length, hf1, hf2,
      fun r hr => (h3 r hr).1, ?_, hmaps _ hbound, ?_⟩
    · unfold pending_range
      split_ifs <;> simp
    · have hd : ranges_disjoint 0 (pending_range 0 ([] : List Initializer).length pre.length) = true := by
        unfold pending_range
        split_ifs <;> simp [ranges_disjoint]
      rw [if_pos hd, h1]
      simp only [flatten_array_initializer, hscan]
      simp
  · -- designated elements from position `pre.length` on
    have hsufm : ∀ e ∈ suf, is_array_elem e = true := by
      intro e he
      exact hl e (by rw [hsplit]; exact List.mem_append_right _ he)
    have hl0 : l = [] ++ pre ++ suf := by simpa using hsplit
    obtain ⟨R, hR, hb, hi, hp⟩ := flatten_array_enumerate_spec l hlen st suf [] pre 0 []
      hl0 hsufm (by norm_num) (Or.inl rfl)
    have hidx : R.flatMap DesigRange.indices = logical_indices l := by
      rw [hi]
      have := logical_indices_from_positional pre 0 suf hpre
      rw [logical_indices, hsplit]
      simpa using this.symm
    have hperm := myqsort_perm compare_desig_start R
    have hS : ∀ r ∈ myqsort compare_desig_start R,
        0 < r.count ∧ r.start < 2 ^ 63 ∧ r.index + r.count ≤ l.length ∧ r.head_ok l :=
      fun r hr => hp r (hperm.mem_iff.mp hr)
    have hbound : ∀ r ∈ R, r.index + r.count ≤ l.length := fun r hr => (hp r hr).2.2.1
    obtain ⟨hf1, hf2⟩ := hfinish R _ hperm (by rw [hb, hsplit]) hidx hbound
    refine ⟨myqsort compare_desig_start R, hf1, hf2, fun r hr => (hS r hr).1,
      myqsort_sorted R (fun r hr => (hp r hr).2.1), hmaps _ (fun r hr => (hS r hr).2.2.1), ?_⟩
    have hre := flatten_array_reorder_spec l hlen st (myqsort compare_desig_start R) none [] hS
      (by intro q hq; cases hq)
    have hlt : ¬ (pre.length ≥ l.length) := by
      rw [hsplit, hsuf]; simp
    have hdrop : l.drop pre.length = suf := by rw [hsplit]; simp
    simp only [List.length_nil, Nat.zero_add, List.nil_append] at hR
    simp only [flatten_array_initializer, hscan, Nat.zero_add, hlt, if_false, hdrop, hR, hre]
    split_ifs <;> simp [parse_error]

/-- Claim C7: for an array brace list whose designators are constant and
non-negative, a successful `flatten_array_initializer` returns a list made of
exactly the elements of the input (a permutation of the input elements, each
carrying the logical index it has in the input) in strictly ascending order of
logical index, and leaves the state unchanged; it does succeed whenever the
logical indices are pairwise different. -/
theorem flatten_array_initializer_ascending (l : List Initializer) (st : ParseState)
    (hl : ∀ e ∈ l, is_array_elem e = true) (hlen : l.length < 2 ^ 31) :
    (∀ r st1, flatten_array_initializer (.multi l) st = .ok r st1 →
      st1 = st ∧ ∃ t : List (Int × Initializer),
        r = .multi (t.map Prod.snd) ∧
        t.Perm (List.zip (logical_indices l) l) ∧
        (t.map Prod.fst).Pairwise (· < ·)) ∧
    ((logical_indices l).Nodup →
      ∃ r, flatten_array_initializer (.multi l) st = .ok r st) := by
  obtain ⟨S, hperm, hiperm, hcount, hsorted, hmaps, hres⟩ :=
    flatten_array_core l st hl (by omega)
  obtain ⟨hfst, hsnd⟩ := hmaps _ rfl
  constructor
  · intro r st1 hok
    rw [hres] at hok
    by_cases hd : ranges_disjoint 0 S = true
    · rw [if_pos hd] at hok
      injection hok with h1 h2
      refine ⟨h2.symm, S.flatMap (DesigRange.tagged l), ?_, hperm, ?_⟩
      · rw [hsnd, h1]
      · rw [hfst]
        exact (ranges_disjoint_ascending S 0 hd).1
    · rw [if_neg hd] at hok
      simp [parse_error] at hok
  · intro hnd
    have hd : ranges_disjoint 0 S = true :=
      (ranges_disjoint_iff_nodup S hsorted hcount).mpr (hiperm.nodup_iff.mpr hnd)
    exact ⟨_, by rw [hres, if_pos hd]⟩

/-- Witness for claim C7: `{[2]=7, 1, 2, [0]=9}` is flattened with success. -/
theorem flatten_array_initializer_ascending_witness :
    (∀ e ∈ desig_example, is_array_elem e = true) ∧ desig_example.length < 2 ^ 31 ∧
      ∃ r, flatten_array_initializer (.multi desig_example) init_state = .ok r init_state :=
  ⟨by simp [desig_example, is_array_elem], by decide,
    (flatten_array_initializer_ascending desig_example init_state
      (by simp [desig_example, is_array_elem]) (by decide)).2 (by decide)⟩

/-- Claim C8: for an array brace list whose designators are constant and
non-negative, `flatten_array_initializer` stops with the fatal error
"Initializer for array overlapped" exactly when two elements of the list have
the same logical index. -/
theorem flatten_array_initializer_overlap (l : List Initializer) (st : ParseState)
    (hl : ∀ e ∈ l, is_array_elem e = true) (hlen : l.length < 2 ^ 31) :
    flatten_array_initializer (.multi l) st =
        parse_error st "Initializer for array overlapped" ↔
      ∃ i j : Nat, i < j ∧ j < l.length ∧ (logical_indices l)[i]? = (logical_indices l)[j]? := by
  obtain ⟨S, _, hiperm, hcount, hsorted, _, hres⟩ := flatten_array_core l st hl (by omega)
  have hnd : (∃ i j : Nat, i < j ∧ j < l.length ∧
      (logical_indices l)[i]? = (logical_indices l)[j]?) ↔ ¬ (logical_indices l).Nodup := by
    rw [List.nodup_iff_getElem?_ne_getElem?]
    have hlen2 : (logical_indices l).length = l.length := logical_indices_from_length l 0
    rw [hlen2]
    push_neg
    rfl
  rw [hnd, ← hiperm.nodup_iff, ← ranges_disjoint_iff_nodup S hsorted hcount, hres]
  by_cases hd : ranges_disjoint 0 S = true
  · simp [hd, parse_error]
  · simp [hd]

/-- Witness for claim C8: `{[1]=7, 8, [2]=9}` gives index 2 twice and is
rejected. -/
theorem flatten_array_initializer_overlap_witness :
    (∀ e ∈ overlap_example, is_array_elem e = true) ∧ overlap_example.length < 2 ^ 31 ∧
      flatten_array_initializer (.multi overlap_example) init_state =
        parse_error init_state "Initializer for array overlapped" :=
  ⟨by simp [overlap_example, is_array_elem], by decide,
    (flatten_array_initializer_overlap overlap_example init_state
      (by simp [overlap_example, is_array_elem]) (by decide)).mpr
      ⟨1, 2, by decide, by decide, by decide⟩⟩

/-! ### flatten_initializer on structs -/

theorem flatten_struct_store_length {env : Env} {members : List VarInfo} {index : Int}
    {value : Initializer} {values : List Initializer} {st st1 : ParseState}
    {r : Int × List Initializer}
    (h : flatten_struct_store env members index value values st = .ok r st1) :
    r.2.length = values.length := by
  unfold flatten_struct_store at h
  by_cases h1 : index ≥ (members.length : Int)
  · rw [if_pos h1] at h
    simp [parse_error] at h
  · rw [if_neg h1] at h
    cases hc : flatten_struct_convert env members index value st with
    | exit c s => rw [hc] at h; cases h
    | abort => rw [hc] at h; cases h
    | ok v s =>
      rw [hc] at h
      simp only at h
      by_cases h2 : index < 0
      · rw [if_pos h2] at h; cases h
      · rw [if_neg h2] at h
        injection h with h3 _
        rw [← h3]
        simp

theorem flatten_struct_loop_length (env : Env) (type : CType) (members : List VarInfo)
    (l : List Initializer) :
    ∀ (index : Int) (values : List Initializer) (st : ParseState) (vs : List Initializer)
      (st1 : ParseState),
      flatten_struct_loop env type members l index values st = .ok vs st1 →
      vs.length = values.length := by
  induction l with
  | nil =>
    intro index values st vs st1 h
    simp only [flatten_struct_loop] at h
    injection h with h1 _
    rw [h1]
  | cons e rest ih =>
    intro index values st vs st1 h
    have hstep : ∀ (i0 : Int) (v : Initializer),
        (match flatten_struct_store env members i0 v values st with
          | .exit c s => Result.exit c s
          | .abort => Result.abort
          | .ok (index1, values1) s => flatten_struct_loop env type members rest index1 values1 s)
          = .ok vs st1 → vs.length = values.length := by
      intro i0 v hm
      cases hs : flatten_struct_store env members i0 v values st with
      | exit c s => rw [hs] at hm; cases hm
      | abort => rw [hs] at hm; cases hm
      | ok r s =>
        rw [hs] at hm
        obtain ⟨i1, v1⟩ := r
        have := ih i1 v1 s vs st1 hm
        rw [this]
        exact flatten_struct_store_length hs
    cases e with
    | null => simp [flatten_struct_loop] at h
    | arr i v => simp [flatten_struct_loop, parse_error] at h
    | single x => exact hstep index _ (by simpa [flatten_struct_loop] using h)
    | multi m => exact hstep index _ (by simpa [flatten_struct_loop] using h)
    | dot name v =>
      simp only [flatten_struct_loop] at h
      split_ifs at h with h0
      · exact hstep _ _ h
      · cases hsa : search_from_anonymous type name with
        | none =>
          rw [hsa] at h
          simp only at h
          cases hpe : parse_error_nofatal st "`%.*s' is not member of struct" with
          | exit c s => rw [hpe] at h; cases h
          | abort => rw [hpe] at h; cases h
          | ok u s =>
            rw [hpe] at h
            exact ih _ _ _ _ _ h
        | some stack =>
          rw [hsa] at h
          simp only at h
          cases hh : stack.head? with
          | none => rw [hh] at h; cases h
          | some i0 =>
            rw [hh] at h
            exact hstep _ _ h


theorem flatten_struct_store_eq (env : Env) (members : List VarInfo) (c : Nat)
    (value : Initializer) (values : List Initializer) (st : ParseState)
    (hv : (∃ x, value = .single x) ∨ ∃ m, value = .multi m)
    (hstr : value.is_single_str = true → ∀ m ∈ members, is_char_ptr m.type = false) :
    flatten_struct_store env members (c : Int) value values st =
      if c < members.length then .ok (((c + 1 : Nat) : Int), values.set c value) st
      else parse_error st "Too many init values" := by
  unfold flatten_struct_store
  by_cases hc : c < members.length
  · have h1 : ¬ ((c : Int) ≥ (members.length : Int)) := by omega
    have h2 : ¬ ((c : Int) < 0) := by omega
    have hconv : flatten_struct_convert env members (c : Int) value st = .ok value st := by
      rcases hv with ⟨x, rfl⟩ | ⟨m, rfl⟩
      · cases x with
        | str t b sz =>
          have hget : members[c]? = some members[c] := List.getElem?_eq_getElem hc
          have hp := hstr rfl _ (List.getElem_mem hc)
          simp [flatten_struct_convert, hget, hp, h2]
        | _ => rfl
      · rfl
    rw [if_neg h1, if_pos hc, hconv]
    simp only [h2, if_false, Int.toNat_ofNat]
    push_cast
    rfl
  · have h1 : (c : Int) ≥ (members.length : Int) := by omega
    rw [if_pos h1, if_neg hc]

theorem is_struct_elem_cases {members : List VarInfo} {e : Initializer}
    (h : is_struct_elem members e = true) :
    (∃ x, e = .single x) ∨ (∃ m, e = .multi m) ∨
      ∃ name v, e = .dot name v ∧ 0 ≤ var_find members name ∧
        ((∃ x, v = .single x) ∨ ∃ m, v = .multi m) := by
  cases e with
  | null => simp [is_struct_elem] at h
  | single x => exact Or.inl ⟨x, rfl⟩
  | multi m => exact Or.inr (Or.inl ⟨m, rfl⟩)
  | arr i v => simp [is_struct_elem] at h
  | dot name v =>
    cases v with
    | single x =>
      simp [is_struct_elem] at h
      exact Or.inr (Or.inr ⟨name, _, rfl, h, Or.inl ⟨x, rfl⟩⟩)
    | multi m =>
      simp [is_struct_elem] at h
      exact Or.inr (Or.inr ⟨name, _, rfl, h, Or.inr ⟨m, rfl⟩⟩)
    | _ => simp [is_struct_elem] at h

theorem flatten_struct_loop_placement (env : Env) (type : CType) (members : List VarInfo)
    (l : List Initializer) :
    ∀ (cursor : Nat) (values : List Initializer) (st : ParseState),
      values.length = members.length →
      (∀ e ∈ l, is_struct_elem members e = true) →
      (∀ e ∈ l, has_str_value e = true → ∀ m ∈ members, is_char_ptr m.type = false) →
      flatten_struct_loop env type members l (cursor : Int) values st =
        match place_by_cursor members l cursor values with
        | some vs => .ok vs st
        | none => parse_error st "Too many init values" := by
  induction l with
  | nil => intro cursor values st _ _ _; rfl
  | cons e rest ih =>
    intro cursor values st hlen hl hstr
    have he := hl e (List.mem_cons_self _ _)
    have hse := hstr e (List.mem_cons_self _ _)
    have hrest : ∀ x ∈ rest, is_struct_elem members x = true :=
      fun x hx => hl x (List.mem_cons_of_mem _ hx)
    have hstr' : ∀ x ∈ rest, has_str_value x = true → ∀ m ∈ members, is_char_ptr m.type = false :=
      fun x hx => hstr x (List.mem_cons_of_mem _ hx)
    have hstep : ∀ (c : Nat) (v : Initializer),
        ((∃ x, v = .single x) ∨ ∃ m, v = .multi m) →
        (v.is_single_str = true → ∀ m ∈ members, is_char_ptr m.type = false) →
        (match flatten_struct_store env members (c : Int) v values st with
          | .exit c s => Result.exit c s
          | .abort => Result.abort
          | .ok (index1, values1) s => flatten_struct_loop env type members rest index1 values1 s) =
        match (if c < values.length then
            place_by_cursor members rest (c + 1) (values.set c v) else none) with
        | some vs => .ok vs st
        | none => parse_error st "Too many init values" := by
      intro c v hv hs
      rw [flatten_struct_store_eq env members c v values st hv hs, hlen]
      by_cases hc : c < members.length
      · rw [if_pos hc, if_pos hc]
        simp only
        exact ih (c + 1) (values.set c v) st (by simp [hlen]) hrest hstr'
      · rw [if_neg hc, if_neg hc]
        rfl
    rcases is_struct_elem_cases he with ⟨x, rfl⟩ | ⟨m, rfl⟩ | ⟨name, v, rfl, h0, hv⟩
    · exact hstep cursor _ (Or.inl ⟨x, rfl⟩) hse
    · exact hstep cursor _ (Or.inr ⟨m, rfl⟩) hse
    · have hidx : var_find members name = (((var_find members name).toNat : Nat) : Int) :=
        (Int.toNat_of_nonneg h0).symm
      have := hstep (var_find members name).toNat v hv hse
      rw [← hidx] at this
      simp only [flatten_struct_loop, place_by_cursor, struct_value]
      rw [if_pos (show var_find members name ≥ 0 from h0)]
      exact this

/-- Counterexample for claim C6: for `struct P { int x, y; }` and the list
`{1, 2, 3}`, which has no designator at all, the third value has no member's
position and `flatten_initializer` stops with a fatal error. -/
theorem flatten_initializer_struct_too_many :
    flatten_initializer spec_env struct_P
        (.multi [.single (.fixnum tyInt 1), .single (.fixnum tyInt 2),
          .single (.fixnum tyInt 3)]) init_state =
      parse_error init_state "Too many init values" := by
  rfl

/-- Claim C6, amended: for a struct (not a union) with at least one member and
a brace list whose elements are positional or designate a member by name, no
string literal being given while a member has type `char *`,
`flatten_initializer` stores each value at the cursor, which starts at 0, is
moved by a designator `.m` to the index `var_find` gives for `m` and advances by
one after each value; positions never stored stay NULL. A value that arrives
with the cursor past the last member is the fatal error "Too many init values".
For `struct P { int x, y; }`, `{.y = 3, .x = 2}` flattens to `[2, 3]`. -/
theorem flatten_initializer_struct_placement (env : Env) (members : List VarInfo)
    (l : List Initializer) (st : ParseState)
    (hn : 1 ≤ members.length)
    (hl : ∀ e ∈ l, is_struct_elem members e = true)
    (hstr : ∀ e ∈ l, has_str_value e = true → ∀ m ∈ members, is_char_ptr m.type = false) :
    (flatten_initializer env (.struct_ members false) (.multi l) st =
      match place_by_cursor members l 0 (List.replicate members.length .null) with
      | some values => .ok (.multi values) st
      | none => parse_error st "Too many init values") ∧
    flatten_initializer env struct_P init_P st =
      .ok (.multi [.single (.fixnum tyInt 2), .single (.fixnum tyInt 3)]) st := by
  have key : ∀ (ms : List VarInfo) (l0 : List Initializer), 1 ≤ ms.length →
      (∀ e ∈ l0, is_struct_elem ms e = true) →
      (∀ e ∈ l0, has_str_value e = true → ∀ m ∈ ms, is_char_ptr m.type = false) →
      flatten_initializer env (.struct_ ms false) (.multi l0) st =
        match place_by_cursor ms l0 0 (List.replicate ms.length .null) with
        | some values => .ok (.multi values) st
        | none => parse_error st "Too many init values" := by
    intro ms l0 h1 h2 h3
    have hloop := flatten_struct_loop_placement env (.struct_ ms false) ms l0 0
      (List.replicate ms.length .null) st (by simp) h2 h3
    have hn0 : ¬ (ms.length ≤ 0) := by omega
    simp only [flatten_initializer, flatten_struct_initializer, hn0, if_false, Bool.false_eq_true,
      false_and]
    simp only [Nat.cast_zero] at hloop
    rw [hloop]
    cases place_by_cursor ms l0 0 (List.replicate ms.length .null) <;> rfl
  refine ⟨key members l hn hl hstr, ?_⟩
  exact key [{ name := some (.ident 1), type := tyInt, storage := 0 },
      { name := some (.ident 2), type := tyInt, storage := 0 }]
    [.dot (.ident 2) (.single (.fixnum tyInt 3)), .dot (.ident 1) (.single (.fixnum tyInt 2))]
    (by decide) (by simp [is_struct_elem, var_find, var_find_from])
    (by simp [has_str_value, struct_value, Initializer.is_single_str])

/-- Witness for the amended claim C6: `struct P { int x, y; }` with the list
`{.y = 3, .x = 2}`. -/
theorem flatten_initializer_struct_placement_witness :
    1 ≤ [({ name := some (.ident 1), type := tyInt, storage := 0 } : VarInfo),
      { name := some (.ident 2), type := tyInt, storage := 0 }].length ∧
    flatten_initializer spec_env struct_P init_P init_state =
      .ok (.multi [.single (.fixnum tyInt 2), .single (.fixnum tyInt 3)]) init_state :=
  ⟨by decide,
    (flatten_initializer_struct_placement spec_env
      [{ name := some (.ident 1), type := tyInt, storage := 0 },
        { name := some (.ident 2), type := tyInt, storage := 0 }]
      [.dot (.ident 2) (.single (.fixnum tyInt 3)), .dot (.ident 1) (.single (.fixnum tyInt 2))]
      init_state (by decide) (by simp [is_struct_elem, var_find, var_find_from])
      (by simp [has_str_value, struct_value, Initializer.is_single_str])).2⟩

/-- Claim C5: when `flatten_initializer` returns for a struct or union type and
a brace list without having recorded an error, the result is a `Multi`
initializer whose list has exactly one entry per member. -/
theorem flatten_initializer_struct_length (env : Env) (members : List VarInfo)
    (is_union : Bool) (l : List Initializer) (st : ParseState) (r : Initializer)
    (st1 : ParseState)
    (hok : flatten_initializer env (.struct_ members is_union) (.multi l) st = .ok r st1)
    (hnoerr : st1.compile_error_count = st.compile_error_count) :
    ∃ values, r = .multi values ∧ values.length = members.length := by
  simp only [flatten_initializer, flatten_struct_initializer] at hok
  split_ifs at hok with h1 h2 h3
  · simp only [parse_error_nofatal] at hok
    split_ifs at hok
    injection hok with _ hst
    rw [← hst] at hnoerr
    simp at hnoerr
  · injection hok with hr _
    refine ⟨l, hr.symm, ?_⟩
    omega
  · simp [parse_error] at hok
  · cases hloop : flatten_struct_loop env (.struct_ members is_union) members l 0
        (List.replicate members.length .null) st with
    | exit c s => rw [hloop] at hok; cases hok
    | abort => rw [hloop] at hok; cases hok
    | ok vs s =>
      rw [hloop] at hok
      injection hok with hr _
      refine ⟨vs, hr.symm, ?_⟩
      rw [flatten_struct_loop_length env _ members l 0 _ st vs s hloop]
      simp

/-- Witness for claim C5: `struct P { int x, y; }` with `{.y = 3, .x = 2}`
flattens without error to a list of two entries. -/
theorem flatten_initializer_struct_length_witness :
    flatten_initializer spec_env struct_P init_P init_state =
        .ok (.multi [.single (.fixnum tyInt 2), .single (.fixnum tyInt 3)]) init_state ∧
      init_state.compile_error_count = init_state.compile_error_count ∧
      ∃ values, Initializer.multi [.single (.fixnum tyInt 2), .single (.fixnum tyInt 3)] =
        .multi values ∧ values.length = 2 :=
  ⟨rfl, rfl,
    flatten_initializer_struct_length spec_env
      [{ name := some (.ident 1), type := tyInt, storage := 0 },
        { name := some (.ident 2), type := tyInt, storage := 0 }] false
      [.dot (.ident 2) (.single (.fixnum tyInt 3)), .dot (.ident 1) (.single (.fixnum tyInt 2))]
      init_state _ init_state rfl rfl⟩

/-! ### assign_initial_value -/

/-- Counterexample for claim C4: lowered and run, the declaration
`int a[] = {[2]=7, 1, 2, [0]=9};` does not give `a[0]+a[1]+a[2]+a[3] = 12`. -/
theorem designated_example_sum_ne_12 :
    (run_local_array spec_env (.ident 0) (.array tyInt (-1)) (.multi desig_example)
      main_state 1000).map sum_first_four ≠ some 12 := by
  decide!

/-- Claim C4, amended: for `int a[] = {[2]=7, 1, 2, [0]=9};`, `fix_array_size`
gives the array five elements and the statements built by
`assign_initial_value` from the flattened list store `a[0] = 9`, `a[2] = 7`,
`a[3] = 1` and `a[4] = 2` (the positional entries continue after the designated
index 2), so that, `a[1]` reading 0, `a[0]+a[1]+a[2]+a[3] = 9+0+7+1 = 17`. -/
theorem designated_example_sum :
    run_local_array spec_env (.ident 0) (.array tyInt (-1)) (.multi desig_example)
        main_state 1000 = some [9, 0, 7, 1, 2] ∧
      (run_local_array spec_env (.ident 0) (.array tyInt (-1)) (.multi desig_example)
        main_state 1000).map sum_first_four = some 17 := by
  decide!

/-! ### check_global_initializer -/

/-- Claim C9 at `void (*gp)(void) = fp;` and at `int x = *arr;`, written at top
level after `void (*fp)(void); int arr[3];`: `check_global_initializer` returns
without recording any error, although neither initializer is a compile-time
constant (each reads the value of a variable at run time). -/
theorem check_global_initializer_accepts_variable :
    recorded_errors (check_global_initializer spec_env 10 fn_ptr_type (.single fp_value)
        globals_state) = some [] ∧
      is_compile_time_constant fp_value = false ∧
      recorded_errors (check_global_initializer spec_env 10 tyInt (.single arr_value)
        globals_state) = some [] ∧
      is_compile_time_constant arr_value = false := by
  decide!

/-! ### parse_case -/

theorem parse_error_nofatal_exit (st : ParseState) (fmt : String)
    (h : st.compile_error_count + 1 ≥ MAX_ERROR_COUNT) :
    parse_error_nofatal st fmt = .exit 1 (st.record fmt) := by
  simp [parse_error_nofatal, ParseState.record, h]

theorem parse_error_nofatal_ok (st : ParseState) (fmt : String)
    (h : ¬ st.compile_error_count + 1 ≥ MAX_ERROR_COUNT) :
    parse_error_nofatal st fmt = .ok () (st.record fmt) := by
  simp [parse_error_nofatal, ParseState.record, h]

theorem parse_case_check_spec (cases : List Stmt) (v : Int) :
    ∀ st : ParseState, (∀ c ∈ cases, is_case_entry c = true) →
      ∃ st1, (parse_case_check cases v st).state = some st1 ∧
        st1.curswitch = st.curswitch ∧
        st.compile_error_count ≤ st1.compile_error_count ∧
        (st.compile_error_count < st1.compile_error_count ↔
          ∃ c ∈ cases, case_value c = some v) ∧
        ((∀ c ∈ cases, case_value c ≠ some v) → parse_case_check cases v st = .ok () st) := by
  induction cases with
  | nil =>
    intro st _
    exact ⟨st, rfl, rfl, le_refl _, by simp, fun _ => rfl⟩
  | cons c rest ih =>
    intro st hc
    have hrest : ∀ x ∈ rest, is_case_entry x = true :=
      fun x hx => hc x (List.mem_cons_of_mem _ hx)
    have hskip : case_value c ≠ some v →
        parse_case_check (c :: rest) v st = parse_case_check rest v st →
        ∃ st1, (parse_case_check (c :: rest) v st).state = some st1 ∧
          st1.curswitch = st.curswitch ∧
          st.compile_error_count ≤ st1.compile_error_count ∧
          (st.compile_error_count < st1.compile_error_count ↔
            ∃ x ∈ c :: rest, case_value x = some v) ∧
          ((∀ x ∈ c :: rest, case_value x ≠ some v) →
            parse_case_check (c :: rest) v st = .ok () st) := by
      intro hne hstep
      obtain ⟨st1, h1, h2, h3, h4, h5⟩ := ih st hrest
      refine ⟨st1, by rw [hstep]; exact h1, h2, h3, ?_, ?_⟩
      · rw [h4]
        constructor
        · rintro ⟨x, hx, hv⟩
          exact ⟨x, List.mem_cons_of_mem _ hx, hv⟩
        · rintro ⟨x, hx, hv⟩
          rcases List.mem_cons.mp hx with rfl | hx
          · exact absurd hv hne
          · exact ⟨x, hx, hv⟩
      · intro hall
        rw [hstep]
        exact h5 (fun x hx => hall x (List.mem_cons_of_mem _ hx))
    have hentry := hc c (List.mem_cons_self _ _)
    cases c with
    | case_ value =>
      cases value with
      | none => exact hskip (by simp [case_value]) rfl
      | some e =>
        cases e with
        | fixnum t w =>
          by_cases hw : w = v
          · subst hw
            have hmem : ∃ x ∈ Stmt.case_ (some (Expr.fixnum t w)) :: rest, case_value x = some w :=
              ⟨_, List.mem_cons_self _ _, rfl⟩
            by_cases hcap : st.compile_error_count + 1 ≥ MAX_ERROR_COUNT
            · refine ⟨st.record "Case value `%ld' already defined", ?_, rfl, ?_, ?_, ?_⟩
              · simp only [parse_case_check, if_true]
                rw [parse_error_nofatal_exit st _ hcap]
                rfl
              · simp [ParseState.record]
              · simp only [ParseState.record]
                exact ⟨fun _ => hmem, fun _ => by omega⟩
              · intro hall
                exact absurd rfl (hall _ (List.mem_cons_self _ _))
            · obtain ⟨st1, h1, h2, h3, h4, h5⟩ := ih
                (st.record "Case value `%ld' already defined") hrest
              have h3' : st.compile_error_count + 1 ≤ st1.compile_error_count := h3
              refine ⟨st1, ?_, h2, ?_, ?_, ?_⟩
              · simp only [parse_case_check, if_true]
                rw [parse_error_nofatal_ok st _ hcap]
                exact h1
              · omega
              · constructor
                · intro _; exact hmem
                · intro _; omega
              · intro hall
                exact absurd rfl (hall _ (List.mem_cons_self _ _))
          · exact hskip (by simp [case_value, hw]) (by simp [parse_case_check, hw])
        | _ => simp [is_case_entry] at hentry
    | _ => simp [is_case_entry] at hentry

/-- Claim C10: inside a switch whose `cases` vector holds the labels parsed so
far, `parse_case` for `case v:` records a non-fatal error (the error count
grows) exactly when an earlier case label of that switch has the value `v`;
`default` entries are skipped and only the vector of `curswitch`, the innermost
switch, is read. Without such a label the call returns with nothing recorded,
and whenever it returns the new label is appended to the vector. -/
theorem parse_case_duplicate (t : CType) (v : Int) (sw : SwitchInfo) (st : ParseState)
    (hsw : st.curswitch = some sw) (hcases : ∀ c ∈ sw.cases, is_case_entry c = true) :
    (∃ st1, (parse_case (.fixnum t v) true st).state = some st1 ∧
      (st.compile_error_count < st1.compile_error_count ↔
        ∃ c ∈ sw.cases, case_value c = some v)) ∧
    ((∀ c ∈ sw.cases, case_value c ≠ some v) →
      parse_case (.fixnum t v) true st =
        .ok (.case_ (some (.fixnum t v)))
          { st with curswitch := some { sw with cases := sw.cases ++ [.case_ (some (.fixnum t v))] } }) ∧
    (∀ stmt st2, parse_case (.fixnum t v) true st = .ok stmt st2 →
      st2.curswitch = some { sw with cases := sw.cases ++ [.case_ (some (.fixnum t v))] }) := by
  obtain ⟨st1, h1, h2, h3, h4, h5⟩ := parse_case_check_spec sw.cases v st hcases
  refine ⟨?_, ?_, ?_⟩
  · cases hres : parse_case_check sw.cases v st with
    | ok u s =>
      rw [hres] at h1
      simp only [Result.state, Option.some.injEq] at h1
      subst h1
      refine ⟨{ s with curswitch := some { sw with cases := sw.cases ++ [.case_ (some (.fixnum t v))] } }, ?_, ?_⟩
      · simp [parse_case, consume, hsw, hres, Result.state]
      · exact h4
    | exit c s =>
      rw [hres] at h1
      simp only [Result.state, Option.some.injEq] at h1
      subst h1
      exact ⟨s, by simp [parse_case, consume, hsw, hres, Result.state], h4⟩
    | abort =>
      rw [hres] at h1
      simp [Result.state] at h1
  · intro hall
    simp [parse_case, consume, hsw, h5 hall]
  · intro stmt st2 hok
    simp only [parse_case, consume, if_true, hsw] at hok
    cases hres : parse_case_check sw.cases v st with
    | ok u s =>
      rw [hres] at hok
      injection hok with _ hst
      rw [← hst]
    | exit c s => rw [hres] at hok; cases hok
    | abort => rw [hres] at hok; cases hok

/-- Witness for claim C10: after `case 1:`, `default:` and `case 2:`, the label
`case 2:` meets an earlier label with its value. -/
theorem parse_case_duplicate_witness :
    ({ init_state with curswitch := some switch_example } : ParseState).curswitch =
        some switch_example ∧
      (∀ c ∈ switch_example.cases, is_case_entry c = true) ∧
      ∃ st1, (parse_case (.fixnum tyInt 2) true
          { init_state with curswitch := some switch_example }).state = some st1 ∧
        (({ init_state with curswitch := some switch_example } : ParseState).compile_error_count <
            st1.compile_error_count ↔
          ∃ c ∈ switch_example.cases, case_value c = some 2) :=
  ⟨rfl, by simp [switch_example, is_case_entry],
    (parse_case_duplicate tyInt 2 switch_example
      { init_state with curswitch := some switch_example } rfl
      (by simp [switch_example, is_case_entry])).1⟩

/-! ### scope_find and parse_error_nofatal -/

theorem var_find_from_spec (name : Name) :
    ∀ (vs : List VarInfo) (i : Int), 0 ≤ i →
      (vs.any (fun v => decide (v.name = some name)) = false → var_find_from vs name i = -1) ∧
      (vs.any (fun v => decide (v.name = some name)) = true →
        i ≤ var_find_from vs name i ∧
        vs.get? (var_find_from vs name i - i).toNat =
          vs.find? (fun v => decide (v.name = some name)) ∧
        (vs.find? (fun v => decide (v.name = some name))).isSome = true) := by
  intro vs
  induction vs with
  | nil => intro i _; simp [var_find_from]
  | cons v rest ih =>
    intro i hi
    by_cases hv : v.name = some name
    · simp [var_find_from, hv]
    · have h1 := ih (i + 1) (by omega)
      simp only [var_find_from, hv, if_false, List.any_cons, decide_False, Bool.false_or,
        List.find?_cons]
      refine ⟨h1.1, fun hany => ?_⟩
      obtain ⟨hle, hget, hsome⟩ := h1.2 hany
      refine ⟨by omega, ?_, hsome⟩
      rw [← hget]
      have : (var_find_from rest name (i + 1) - i).toNat
          = (var_find_from rest name (i + 1) - (i + 1)).toNat + 1 := by omega
      rw [this]
      simp

theorem var_find_spec (name : Name) (vs : List VarInfo) :
    (vs.any (fun v => decide (v.name = some name)) = false → ¬ var_find vs name ≥ 0) ∧
    (vs.any (fun v => decide (v.name = some name)) = true →
      var_find vs name ≥ 0 ∧
      vs.get? (var_find vs name).toNat = vs.find? (fun v => decide (v.name = some name)) ∧
      (vs.find? (fun v => decide (v.name = some name))).isSome = true) := by
  have h := var_find_from_spec name vs 0 (le_refl _)
  refine ⟨fun hf => ?_, fun ht => ?_⟩
  · have := h.1 hf
    simp only [var_find]
    omega
  · obtain ⟨h1, h2, h3⟩ := h.2 ht
    simp only [var_find]
    refine ⟨h1, ?_, h3⟩
    rw [← h2]
    simp

/-- C17: `scope_find` returns the entry of the name in the innermost scope of
the chain that declares it and stores that scope in `*pscope`; when no scope of
the chain declares the name both are NULL. The entry is NULL exactly when the
scope is. -/
theorem scope_find_innermost (s : Scope) (name : Name) :
    scope_find s name = scope_find_spec s name ∧
    ((scope_find s name).1 = none ↔ (scope_find s name).2 = none) ∧
    ((scope_find s name).2 = none ↔ ∀ sc ∈ scope_chain s, scope_has sc name = false) := by
  induction s with
  | global vars =>
    cases vars with
    | none => simp [scope_find, scope_find_spec, scope_chain, scope_has, Scope.vars]
    | some vs =>
      by_cases hany : vs.any (fun v => decide (v.name = some name)) = true
      · obtain ⟨h1, h2, h3⟩ := (var_find_spec name vs).2 hany
        obtain ⟨e, he⟩ := Option.isSome_iff_exists.mp h3
        have h2a : vs[(var_find vs name).toNat]? = some e := by
          rw [← List.get?_eq_getElem?, h2, he]
        have h2b : var_find vs name < (vs.length : Int) := by
          have := (List.getElem?_eq_some.mp h2a).1
          omega
        simp [scope_find, scope_find_spec, scope_chain, scope_has, scope_entry, Scope.vars,
          h1, h2a, h2b, hany, he]
      · have hf : vs.any (fun v => decide (v.name = some name)) = false := by
          simpa using hany
        have h1 := (var_find_spec name vs).1 hf
        simp [scope_find, scope_find_spec, scope_chain, scope_has, Scope.vars, h1, hf]
  | nested parent vars ih =>
    cases vars with
    | none =>
      simp only [scope_find, scope_find_spec, scope_chain, List.find?_cons, scope_has,
        Scope.vars, List.mem_cons, forall_eq_or_imp, true_and]
      exact ih
    | some vs =>
      by_cases hany : vs.any (fun v => decide (v.name = some name)) = true
      · obtain ⟨h1, h2, h3⟩ := (var_find_spec name vs).2 hany
        obtain ⟨e, he⟩ := Option.isSome_iff_exists.mp h3
        have h2a : vs[(var_find vs name).toNat]? = some e := by
          rw [← List.get?_eq_getElem?, h2, he]
        have h2b : var_find vs name < (vs.length : Int) := by
          have := (List.getElem?_eq_some.mp h2a).1
          omega
        simp [scope_find, scope_find_spec, scope_chain, scope_has, scope_entry, Scope.vars,
          h1, h2a, h2b, hany, he]
      · have hf : vs.any (fun v => decide (v.name = some name)) = false := by
          simpa using hany
        have h1 := (var_find_spec name vs).1 hf
        simp only [scope_find, scope_find_spec, scope_chain, List.find?_cons, scope_has,
          Scope.vars, h1, if_false, hf, List.mem_cons, forall_eq_or_imp, true_and]
        exact ih

/-- C14: every call of `parse_error_nofatal` counts one more error; while the
count was below the cap of 25 the call returns normally when the new count is
still below 25 and exits with status 1 when it is 25, so the count never
exceeds 25 and a call never returns with 25 or more errors counted. -/
theorem parse_error_nofatal_cap (st : ParseState) (fmt : String)
    (h : st.compile_error_count < MAX_ERROR_COUNT) :
    MAX_ERROR_COUNT = 25 ∧
    (st.record fmt).compile_error_count = st.compile_error_count + 1 ∧
    (st.compile_error_count + 1 < MAX_ERROR_COUNT →
      parse_error_nofatal st fmt = .ok () (st.record fmt)) ∧
    (st.compile_error_count + 1 = MAX_ERROR_COUNT →
      parse_error_nofatal st fmt = .exit 1 (st.record fmt)) ∧
    (∀ st1, parse_error_nofatal st fmt = .ok () st1 →
      st1 = st.record fmt ∧ st1.compile_error_count < MAX_ERROR_COUNT) ∧
    (∀ c st1, parse_error_nofatal st fmt = .exit c st1 →
      c = 1 ∧ st1 = st.record fmt ∧ st1.compile_error_count = MAX_ERROR_COUNT) ∧
    parse_error_nofatal st fmt ≠ .abort := by
  refine ⟨rfl, rfl, ?_, ?_, ?_, ?_, ?_⟩
  · intro h1
    simp [parse_error_nofatal, ParseState.record, Nat.not_le.mpr h1]
  · intro h1
    simp [parse_error_nofatal, ParseState.record, h1]
  · intro st1 h1
    by_cases hc : st.compile_error_count + 1 ≥ MAX_ERROR_COUNT
    · simp [parse_error_nofatal, hc] at h1
    · simp only [parse_error_nofatal, hc, if_false, Result.ok.injEq, true_and] at h1
      subst h1
      exact ⟨rfl, Nat.not_le.mp hc⟩
  · intro c st1 h1
    by_cases hc : st.compile_error_count + 1 ≥ MAX_ERROR_COUNT
    · simp only [parse_error_nofatal, hc, if_true, Result.exit.injEq] at h1
      obtain ⟨h2, h3⟩ := h1
      subst h3
      refine ⟨h2.symm, rfl, ?_⟩
      show st.compile_error_count + 1 = MAX_ERROR_COUNT
      omega
    · simp [parse_error_nofatal, hc] at h1
  · by_cases hc : st.compile_error_count + 1 ≥ MAX_ERROR_COUNT <;>
      simp [parse_error_nofatal, hc]

/-- Witness for claim C14: the first error of a process. -/
theorem parse_error_nofatal_cap_witness :
    init_state.compile_error_count < MAX_ERROR_COUNT ∧
    parse_error_nofatal init_state "x" ≠ .abort :=
  ⟨by decide, (parse_error_nofatal_cap init_state "x" (by decide)).2.2.2.2.2.2⟩

/-! ### The command line of the assembler -/

/-- C20, as stated, fails: for `as -o out.o in.s` the output file name is the
empty string and `out.o` is taken as the first input file. -/
theorem as_main_separate_output :
    as_main as_separate_example = .assemble [] ["out.o".toList, "in.s".toList] := by
  decide

/-- C20, amended: when the first argument is `-o` with the name attached
(`-oNAME`) and the input files follow, the output file name is `NAME` and the
remaining arguments are the input files; without an option the output file name
is `a.out`. -/
theorem as_main_attached_output (prog name : List Char) (files : List (List Char))
    (h : ∀ f, files.head? = some f → f.head? ≠ some '-') :
    as_main (prog :: ('-' :: 'o' :: name) :: files) = .assemble name files ∧
    as_main (prog :: files) = .assemble "a.out".toList files := by
  cases files with
  | nil => simp [as_main, as_options, starts_with]
  | cons f rest =>
    have hf : f.head? ≠ some '-' := h f rfl
    simp [as_main, as_options, starts_with, hf]

/-- Witness for claim C20: the command lines `as -oout.o in.s` and `as in.s`. -/
theorem as_main_attached_output_witness :
    as_main ["as".toList, "-oout.o".toList, "in.s".toList]
        = .assemble "out.o".toList ["in.s".toList] ∧
    as_main ["as".toList, "in.s".toList] = .assemble "a.out".toList ["in.s".toList] :=
  as_main_attached_output "as".toList "out.o".toList ["in.s".toList] (by decide)

/-! ### The driver of cc1 -/

theorem compile_files_error (files : List (Option (Action Unit))) :
    ∀ (st : ParseState) (out : Outcome), compile_files files st = .error out →
      out.returned = false ∧ Event.gen ∉ out.events ∧ Event.emit_code ∉ out.events := by
  induction files with
  | nil => intro st out h; simp [compile_files] at h
  | cons f rest ih =>
    intro st out h
    cases f with
    | none =>
      simp only [compile_files, Except.error.injEq] at h
      subst h
      simp
    | some parse =>
      simp only [compile_files] at h
      cases hp : parse st with
      | ok u st1 =>
        rw [hp] at h
        exact ih st1 out h
      | exit c st1 =>
        rw [hp] at h
        simp only [Except.error.injEq] at h
        subst h
        simp
      | abort =>
        rw [hp] at h
        simp only [Except.error.injEq] at h
        subst h
        simp

/-- C15: in the driver of cc1, `gen` and `emit_code` run only when the error
count is zero after the parse of all inputs; when the inputs have been parsed and
the count is not zero the process exits with status 1 and nothing has been
emitted; and `main` returns (with 0) only when no error was recorded, or at once
for the version option. -/
theorem cc1_main_no_output_on_error (version : Bool) (files : List (Option (Action Unit)))
    (stdin : Action Unit) (st : ParseState) :
    ((Event.gen ∈ (cc1_main version files stdin st).events ∨
        Event.emit_code ∈ (cc1_main version files stdin st).events) →
      (cc1_main version files stdin st).st.compile_error_count = 0 ∧
      (cc1_main version files stdin st).returned = true ∧
      (cc1_main version files stdin st).status = 0 ∧
      compile_inputs files stdin st = .ok (cc1_main version files stdin st).st) ∧
    (∀ st1, version = false → compile_inputs files stdin st = .ok st1 →
      st1.compile_error_count ≠ 0 →
      (cc1_main version files stdin st).returned = false ∧
      (cc1_main version files stdin st).status = 1 ∧
      (cc1_main version files stdin st).events = [] ∧
      (cc1_main version files stdin st).st = st1) ∧
    ((cc1_main version files stdin st).returned = true →
      (cc1_main version files stdin st).status = 0 ∧
      (version = true ∨ (cc1_main version files stdin st).st.compile_error_count = 0)) := by
  cases version with
  | true => simp [cc1_main]
  | false =>
    cases hc : compile_inputs files stdin st with
    | error out =>
      have hout : out.returned = false ∧ Event.gen ∉ out.events ∧
          Event.emit_code ∉ out.events := by
        cases files with
        | nil => exact compile_files_error _ st out (by simpa [compile_inputs] using hc)
        | cons f rest => exact compile_files_error _ st out (by simpa [compile_inputs] using hc)
      simp [cc1_main, hc, hout.1, hout.2.1, hout.2.2]
    | ok st1 =>
      by_cases h0 : st1.compile_error_count = 0
      · simp [cc1_main, hc, h0]
      · simp [cc1_main, hc, h0]

/-! ### def_type -/

theorem find_typedef_from_head (table : List (Name × CType)) (rest : List (List (Name × CType)))
    (name : Name) (depth : Nat) :
    (∀ c, typedef_get table name = some c →
      find_typedef_from (table :: rest) name depth = some (c, depth)) ∧
    (typedef_get table name = none →
      find_typedef_from (table :: rest) name depth = find_typedef_from rest name (depth + 1)) := by
  constructor
  · intro c hc
    simp [find_typedef_from, hc]
  · intro hc
    simp [find_typedef_from, hc]

theorem find_typedef_from_depth (name : Name) :
    ∀ (tables : List (List (Name × CType))) (depth : Nat) (c : CType) (d : Nat),
      find_typedef_from tables name depth = some (c, d) → depth ≤ d := by
  intro tables
  induction tables with
  | nil => intro depth c d h; simp [find_typedef_from] at h
  | cons t rest ih =>
    intro depth c d h
    cases ht : typedef_get t name with
    | some c1 =>
      rw [(find_typedef_from_head t rest name depth).1 c1 ht] at h
      simp only [Option.some.injEq, Prod.mk.injEq] at h
      omega
    | none =>
      rw [(find_typedef_from_head t rest name depth).2 ht] at h
      have := ih (depth + 1) c d h
      omega

theorem typedef_get_put (name : Name) (type : CType) :
    ∀ table : List (Name × CType), typedef_get (typedef_put table name type) name = some type := by
  intro table
  induction table with
  | nil => simp [typedef_put, typedef_get]
  | cons e rest ih =>
    obtain ⟨k, w⟩ := e
    by_cases hk : k = name
    · simp [typedef_put, typedef_get, hk]
    · simp [typedef_put, typedef_get, hk, ih]

theorem def_type_conflict_spec (type : CType) (name : Name) (st : ParseState) :
    (∀ c, typedef_get (current_typedefs st) name = some c → same_type type c = false →
      def_type_conflict type name st = parse_error st "Conflict typedef") ∧
    (∀ c, typedef_get (current_typedefs st) name = some c → same_type type c = true →
      def_type_conflict type name st = .ok (some c) st) ∧
    (typedef_get (current_typedefs st) name = none →
      def_type_conflict type name st = .ok none st) := by
  cases hts : st.typedefs with
  | nil =>
    simp [def_type_conflict, find_typedef, current_typedefs, hts, find_typedef_from, typedef_get]
  | cons t rest =>
    refine ⟨fun c hc hs => ?_, fun c hc hs => ?_, fun hc => ?_⟩
    · simp only [current_typedefs, hts] at hc
      simp [def_type_conflict, find_typedef, hts, (find_typedef_from_head t rest name 0).1 c hc, hs]
    · simp only [current_typedefs, hts] at hc
      simp [def_type_conflict, find_typedef, hts, (find_typedef_from_head t rest name 0).1 c hc, hs]
    · simp only [current_typedefs, hts] at hc
      simp only [def_type_conflict, find_typedef, hts,
        (find_typedef_from_head t rest name 0).2 hc]
      cases hf : find_typedef_from rest name (0 + 1) with
      | none => rfl
      | some p =>
        obtain ⟨c, d⟩ := p
        have := find_typedef_from_depth name rest (0 + 1) c d hf
        cases d with
        | zero => omega
        | succ n => rfl

/-- C16: `def_type` ends with the fatal error "Conflict typedef" exactly when
the typedef table of the current scope itself has the name with a type that is
not the same (`same_type`) as the new one; a name that only an enclosing scope
defines is added to the table of the current scope, where the lookup finds the
new type first. -/
theorem def_type_conflict_iff (type : CType) (name : Name) (st : ParseState) :
    (def_type type name st = parse_error st "Conflict typedef" ↔
      ∃ c, typedef_get (current_typedefs st) name = some c ∧ same_type type c = false) ∧
    ((∀ st1, def_type type name st ≠ .exit 1 st1) ∨
      def_type type name st = parse_error st "Conflict typedef") ∧
    (typedef_get (current_typedefs st) name = none →
      def_type type name st = .ok true (add_typedef name type st) ∧
      find_typedef (add_typedef name type st) name = some (type, 0) ∧
      (add_typedef name type st).typedefs.tail = st.typedefs.tail) := by
  have hspec := def_type_conflict_spec type name st
  have hens : ∀ s : ParseState,
      (if type.kind = .TY_ARRAY then ensure_struct type s else Result.ok () s) = .ok () s := by
    intro s
    split <;> rfl
  refine ⟨⟨fun h => ?_, fun ⟨c, hc, hs⟩ => ?_⟩, ?_, fun hn => ⟨?_, ?_, ?_⟩⟩
  · cases hg : typedef_get (current_typedefs st) name with
    | none =>
      rw [def_type, hspec.2.2 hg] at h
      simp [Result.bind, hens, parse_error] at h
    | some c =>
      cases hs : same_type type c with
      | false => exact ⟨c, rfl, hs⟩
      | true =>
        rw [def_type, hspec.2.1 c hg hs] at h
        simp only [Result.bind, hens, parse_error] at h
        split at h <;> simp at h
  · rw [def_type, hspec.1 c hc hs]
    rfl
  · cases hg : typedef_get (current_typedefs st) name with
    | none =>
      left
      intro st1
      rw [def_type, hspec.2.2 hg]
      simp [Result.bind, hens]
    | some c =>
      cases hs : same_type type c with
      | false =>
        right
        rw [def_type, hspec.1 c hg hs]
        rfl
      | true =>
        left
        intro st1
        rw [def_type, hspec.2.1 c hg hs]
        simp only [Result.bind, hens]
        split <;> simp
  · rw [def_type, hspec.2.2 hn]
    simp [Result.bind, hens]
  · cases hts : st.typedefs with
    | nil => simp [add_typedef, hts, find_typedef, find_typedef_from, typedef_get]
    | cons t rest =>
      simp only [add_typedef, hts, find_typedef]
      exact (find_typedef_from_head _ rest name 0).1 type (typedef_get_put name type t)
  · cases hts : st.typedefs with
    | nil => simp [add_typedef, hts]
    | cons t rest => simp [add_typedef, hts]

/-! ### break and continue -/

/-- C11: for `void f(int x) { switch (x) { case 0: continue; } }` the
parser returns with no error recorded, although the `continue` is inside no
loop: `LF_CONTINUE` is the same bit as `LF_BREAK`, `parse_switch` sets that bit,
and `parse_break_continue` tests `LF_BREAK` for both statements. The same
`continue` directly in the function body is rejected. -/
theorem continue_in_switch_accepted :
    (parse_defun spec_env void_int_func 0 (.ident 0) (some [param_x])
      (some continue_in_switch) init_state).report = some (0, []) ∧
    (parse_defun spec_env void_int_func 0 (.ident 0) (some [param_x])
      (some continue_in_switch) init_state).exit_status = none ∧
    (parse_defun spec_env void_int_func 0 (.ident 0) (some [param_x])
      (some continue_alone) init_state).report
      = some (1, ["`continue' cannot be used outside of loop"]) ∧
    LF_CONTINUE = LF_BREAK := by
  decide!

/-! ### The check of the goto labels in parse_defun -/

/-- C13, as stated, fails: a function with 26 statements `goto L;` and no label
`L` gets 25 errors, not 26; with the 25th the process exits with status 1. -/
theorem parse_defun_goto_cap :
    (parse_defun spec_env void_int_func 0 (.ident 0) (some [param_x])
      (some many_gotos) init_state).exit_status = some 1 ∧
    ((parse_defun spec_env void_int_func 0 (.ident 0) (some [param_x])
      (some many_gotos) init_state).report.map fun r => r.1) = some 25 ∧
    many_gotos.length = 26 := by
  decide!

/-! ### Frame of the statement parser -/

theorem Result.bind_eq_ok {α β : Type} (r : Result α) (f : α → ParseState → Result β)
    (b : β) (st : ParseState) :
    r.bind f = .ok b st ↔ ∃ a st1, r = .ok a st1 ∧ f a st1 = .ok b st := by
  cases r with
  | ok a s =>
    simp only [Result.bind, Result.ok.injEq]
    constructor
    · intro h
      exact ⟨a, s, ⟨rfl, rfl⟩, h⟩
    · rintro ⟨a1, s1, ⟨rfl, rfl⟩, h⟩
      exact h
  | exit c s => simp [Result.bind]
  | abort => simp [Result.bind]

theorem parse_error_nofatal_frame (st : ParseState) (fmt : String) (st1 : ParseState)
    (h : parse_error_nofatal st fmt = .ok () st1) :
    st1 = st.record fmt := by
  by_cases hc : st.compile_error_count + 1 ≥ MAX_ERROR_COUNT
  · rw [parse_error_nofatal_exit st fmt hc] at h
    cases h
  · rw [parse_error_nofatal_ok st fmt hc] at h
    injection h with _ h
    exact h.symm

theorem extends_function_refl (st : ParseState) : extends_function [] [] st st := by
  simp [extends_function]

theorem extends_function_trans (gs1 ls1 gs2 ls2 : List Name) (a b c : ParseState)
    (h1 : extends_function gs1 ls1 a b) (h2 : extends_function gs2 ls2 b c) :
    extends_function (gs1 ++ gs2) (ls1 ++ ls2) a c := by
  obtain ⟨p1, s1, g1, l1⟩ := h1
  obtain ⟨p2, s2, g2, l2⟩ := h2
  refine ⟨p2.trans p1, s2.trans s1, ?_, fun n => ?_⟩
  · rw [g2, g1, List.map_append, List.append_assoc]
  · rw [l2, l1, List.mem_append, or_assoc]

theorem extends_function_of_eq (gs ls : List Name) (a b a1 b1 : ParseState)
    (h : extends_function gs ls a b)
    (ha : a1.curscope = a.curscope ∧ a1.curfunc = a.curfunc)
    (hb : b1.curscope = b.curscope ∧ b1.curfunc = b.curfunc) :
    extends_function gs ls a1 b1 := by
  unfold extends_function at *
  rw [ha.1, ha.2, hb.1, hb.2]
  exact h

theorem frames_of_keeps {α : Type} (p : Action α) (h : action_keeps p) : frames [] [] p := by
  intro st a st1 hp
  obtain ⟨h1, h2, h3⟩ := h st a st1 hp
  refine ⟨h1, h3, by rw [h2], by rw [h2]; simp, fun n => by rw [h2]; simp⟩

theorem frames_bind {α β : Type} (gs1 ls1 gs2 ls2 : List Name) (p : Action α)
    (f : α → Action β) (hp : frames gs1 ls1 p) (hf : ∀ a, frames gs2 ls2 (f a)) :
    frames (gs1 ++ gs2) (ls1 ++ ls2) (fun st => (p st).bind f) := by
  intro st b st2 h
  obtain ⟨a, st1, h1, h2⟩ := (Result.bind_eq_ok _ _ _ _).mp h
  obtain ⟨f1, e1⟩ := hp st a st1 h1
  obtain ⟨f2, e2⟩ := hf a st1 b st2 h2
  exact ⟨f2.trans f1, extends_function_trans _ _ _ _ _ _ _ e1 e2⟩

theorem frames_ok {α : Type} (a : α) : frames [] [] (fun st => Result.ok a st) := by
  intro st b st1 h
  injection h with _ h
  subst h
  exact ⟨rfl, extends_function_refl _⟩

theorem frames_nofatal (fmt : String) :
    frames [] [] (fun st => parse_error_nofatal st fmt) := by
  intro st a st1 h
  have := parse_error_nofatal_frame st fmt st1 h
  subst this
  exact ⟨rfl, extends_function_refl _⟩

theorem frames_if (gs1 ls1 gs2 ls2 : List Name) (cond : Action Expr) (tblock : Action Stmt)
    (fblock : Action Stmt) (hc : action_keeps cond) (ht : frames gs1 ls1 tblock)
    (hf : frames gs2 ls2 fblock) :
    frames gs1 ls1 (parse_if cond tblock none) ∧
    frames (gs1 ++ gs2) (ls1 ++ ls2) (parse_if cond tblock (some fblock)) := by
  constructor
  · intro st r st3 h
    simp only [parse_if, Result.bind_eq_ok] at h
    obtain ⟨c, st1, h1, t, st2, h2, h3⟩ := h
    injection h3 with _ h3
    subst h3
    obtain ⟨f1, e1⟩ := frames_of_keeps cond hc st c st1 h1
    obtain ⟨f2, e2⟩ := ht st1 t st2 h2
    exact ⟨f2.trans f1, by simpa using extends_function_trans _ _ _ _ _ _ _ e1 e2⟩
  · intro st r st4 h
    simp only [parse_if, Result.bind_eq_ok] at h
    obtain ⟨c, st1, h1, t, st2, h2, f, st3, h3, h4⟩ := h
    injection h4 with _ h4
    subst h4
    obtain ⟨f1, e1⟩ := frames_of_keeps cond hc st c st1 h1
    obtain ⟨f2, e2⟩ := ht st1 t st2 h2
    obtain ⟨f3, e3⟩ := hf st2 f st3 h3
    refine ⟨f3.trans (f2.trans f1), ?_⟩
    have := extends_function_trans _ _ _ _ _ _ _
      (extends_function_trans _ _ _ _ _ _ _ e1 e2) e3
    simpa using this

theorem frames_switch (gs ls : List Name) (value : Action Expr) (body : Action Stmt)
    (hv : action_keeps value) (hb : frames gs ls body) :
    frames gs ls (parse_switch value body) := by
  intro st r st4 h
  simp only [parse_switch, Result.bind_eq_ok] at h
  obtain ⟨v, st1, h1, b, st3, h2, h3⟩ := h
  injection h3 with _ h3
  subst h3
  obtain ⟨f1, e1⟩ := frames_of_keeps value hv st v st1 h1
  obtain ⟨_, e2⟩ := hb _ b st3 h2
  refine ⟨f1, ?_⟩
  have e2a : extends_function gs ls st1
      { st3 with curloopflag := st1.curloopflag, curswitch := st1.curswitch } :=
    extends_function_of_eq gs ls _ _ _ _ e2 ⟨rfl, rfl⟩ ⟨rfl, rfl⟩
  simpa using extends_function_trans _ _ _ _ _ _ _ e1 e2a

theorem frames_while (gs ls : List Name) (cond : Action Expr) (body : Action Stmt)
    (hc : action_keeps cond) (hb : frames gs ls body) :
    frames gs ls (parse_while cond body) := by
  intro st r st4 h
  simp only [parse_while, Result.bind_eq_ok] at h
  obtain ⟨c, st1, h1, b, st3, h2, h3⟩ := h
  injection h3 with _ h3
  subst h3
  obtain ⟨f1, e1⟩ := frames_of_keeps cond hc st c st1 h1
  obtain ⟨_, e2⟩ := hb _ b st3 h2
  refine ⟨f1, ?_⟩
  have e2a : extends_function gs ls st1 { st3 with curloopflag := st1.curloopflag } :=
    extends_function_of_eq gs ls _ _ _ _ e2 ⟨rfl, rfl⟩ ⟨rfl, rfl⟩
  simpa using extends_function_trans _ _ _ _ _ _ _ e1 e2a

theorem frames_do_while (gs ls : List Name) (body : Action Stmt) (cond : Action Expr)
    (hb : frames gs ls body) (hc : action_keeps cond) :
    frames gs ls (parse_do_while body cond) := by
  intro st r st4 h
  simp only [parse_do_while, Result.bind_eq_ok] at h
  obtain ⟨b, st2, h1, c, st3, h2, h3⟩ := h
  injection h3 with _ h3
  subst h3
  obtain ⟨_, e1⟩ := hb _ b st2 h1
  obtain ⟨f2, e2⟩ := frames_of_keeps cond hc _ c st3 h2
  refine ⟨f2, ?_⟩
  have e1a : extends_function gs ls st { st2 with curloopflag := st.curloopflag } :=
    extends_function_of_eq gs ls _ _ _ _ e1 ⟨rfl, rfl⟩ ⟨rfl, rfl⟩
  simpa using extends_function_trans _ _ _ _ _ _ _ e1a e2

theorem frames_break_continue (kind : StmtKind) :
    frames [] [] (parse_break_continue kind) := by
  intro st r st1 h
  simp only [parse_break_continue] at h
  split at h
  · simp only [Result.bind_eq_ok] at h
    obtain ⟨u, st2, h1, h2⟩ := h
    injection h2 with _ h2
    subst h2
    exact frames_nofatal _ st u st2 h1
  · injection h with _ h
    subst h
    exact ⟨rfl, extends_function_refl _⟩

theorem frames_goto (label : Name) : frames [label] [] (parse_goto label) := by
  intro st r st2 h
  simp only [parse_goto, Result.bind_eq_ok] at h
  obtain ⟨u, st1, h1, h2⟩ := h
  injection h2 with _ h2
  subst h2
  simp only [add_func_goto] at h1
  cases hf : st.curfunc with
  | none => rw [hf] at h1; cases h1
  | some func =>
    rw [hf] at h1
    injection h1 with _ h1
    subst h1
    refine ⟨rfl, rfl, by simp [hf], ?_, fun n => ?_⟩
    · simp [goto_list, hf]
    · simp [label_list, hf]

theorem frames_label (gs ls : List Name) (label : Name) (body : Action Stmt)
    (hb : frames gs ls body) : frames gs (ls ++ [label]) (parse_label label body) := by
  intro st r st3 h
  simp only [parse_label, Result.bind_eq_ok] at h
  obtain ⟨s, st1, h1, u, st2, h2, h3⟩ := h
  injection h3 with _ h3
  subst h3
  obtain ⟨f1, e1⟩ := hb st s st1 h1
  have key : st2.curloopflag = st1.curloopflag ∧ extends_function [] [label] st1 st2 := by
    simp only [add_func_label] at h2
    cases hf : st1.curfunc with
    | none => rw [hf] at h2; cases h2
    | some func =>
      rw [hf] at h2
      simp only [label_table_put] at h2
      split at h2
      · rename_i hin
        simp only [Bool.not_false, if_true] at h2
        have := parse_error_nofatal_frame _ _ _ h2
        subst this
        refine ⟨rfl, rfl, by simp [ParseState.record, hf], ?_, fun n => ?_⟩
        · simp [ParseState.record, goto_list, hf]
        · have hin2 : label ∈ (match func.label_table with
              | some t => t
              | none => []) := by simpa using hin
          simp only [ParseState.record, label_list, hf, List.mem_singleton]
          constructor
          · intro hn; exact Or.inl hn
          · rintro (hn | hn)
            · exact hn
            · rw [hn]; exact hin2
      · simp only [Bool.not_true] at h2
        injection h2 with _ h2
        subst h2
        refine ⟨rfl, rfl, by simp [hf], ?_, fun n => ?_⟩
        · simp [goto_list, hf]
        · simp [label_list, hf]
  refine ⟨key.1.trans f1, ?_⟩
  simpa using extends_function_trans _ _ _ _ _ _ _ e1 key.2

theorem frames_case (value : Expr) : frames [] [] (parse_case value true) := by
  intro st r st1 h
  simp only [parse_case, consume, if_true] at h
  cases value with
  | fixnum t v =>
    simp only at h
    cases hsw : st.curswitch with
    | none => rw [hsw] at h; simp [parse_error] at h
    | some sw =>
      rw [hsw] at h
      simp only at h
      have hstate : ∀ (cases : List Stmt) (s s1 : ParseState),
          parse_case_check cases v s = .ok () s1 →
            s1.curloopflag = s.curloopflag ∧ s1.curscope = s.curscope ∧
            s1.curfunc = s.curfunc := by
        intro cases
        induction cases with
        | nil =>
          intro s s1 hs
          simp only [parse_case_check] at hs
          injection hs with _ hs
          subst hs
          exact ⟨rfl, rfl, rfl⟩
        | cons c rest ih =>
          intro s s1 hs
          cases c with
          | case_ value =>
            cases value with
            | none => exact ih s s1 (by simpa [parse_case_check] using hs)
            | some e =>
              cases e with
              | fixnum t w =>
                simp only [parse_case_check] at hs
                by_cases hw : w = v
                · rw [if_pos hw] at hs
                  cases hp : parse_error_nofatal s "Case value `%ld' already defined" with
                  | ok u s2 =>
                    rw [hp] at hs
                    simp only at hs
                    have := parse_error_nofatal_frame _ _ _ hp
                    subst this
                    obtain ⟨a, b, c⟩ := ih (s.record "Case value `%ld' already defined") s1 hs
                    exact ⟨a, b, c⟩
                  | exit c s2 => rw [hp] at hs; cases hs
                  | abort => rw [hp] at hs; cases hs
                · rw [if_neg hw] at hs
                  exact ih s s1 hs
              | _ => simp [parse_case_check] at hs
          | _ => simp [parse_case_check] at hs
      cases hc : parse_case_check sw.cases v st with
      | ok u s2 =>
        rw [hc] at h
        injection h with _ h
        subst h
        obtain ⟨a, b, c⟩ := hstate _ _ _ hc
        exact ⟨a, by simp [b], by simp [c], by simp [c], fun n => by simp [c]⟩
      | exit c s2 => rw [hc] at h; cases h
      | abort => rw [hc] at h; cases h
  | _ => simp at h

theorem frames_default : frames [] [] parse_default := by
  intro st r st1 h
  simp only [parse_default] at h
  split at h
  · simp only [Result.bind_eq_ok] at h
    obtain ⟨u, st2, h1, h2⟩ := h
    injection h2 with _ h2
    subst h2
    exact frames_nofatal _ st u st2 h1
  · split at h
    · simp only [Result.bind_eq_ok] at h
      obtain ⟨u, st2, h1, h2⟩ := h
      injection h2 with _ h2
      subst h2
      exact frames_nofatal _ st u st2 h1
    · injection h with _ h
      subst h
      exact ⟨rfl, extends_function_refl _⟩

theorem enter_scope_spec (vars : Option (List VarInfo)) (st : ParseState) (scope : Scope)
    (st1 : ParseState) (h : enter_scope vars st = .ok scope st1) :
    ∃ func, st.curfunc = some func ∧ scope = .nested st.curscope vars ∧
      st1 = { st with
        curscope := .nested st.curscope vars
        curfunc := some { func with scopes := func.scopes ++ [.nested st.curscope vars] }
        typedefs := [] :: st.typedefs } := by
  simp only [enter_scope] at h
  cases hf : st.curfunc with
  | none => rw [hf] at h; cases h
  | some func =>
    rw [hf] at h
    injection h with h1 h2
    exact ⟨func, rfl, h1.symm, h2.symm⟩

theorem exit_scope_spec (st st1 : ParseState) (h : exit_scope st = .ok () st1) :
    ∃ parent vars, st.curscope = .nested parent vars ∧
      st1 = { st with curscope := parent, typedefs := st.typedefs.tail } := by
  simp only [exit_scope] at h
  cases hs : st.curscope with
  | global vars => rw [hs] at h; cases h
  | nested parent vars =>
    rw [hs] at h
    injection h with _ h2
    exact ⟨parent, vars, rfl, h2.symm⟩

theorem enter_scope_extends (vars : Option (List VarInfo)) (st : ParseState) (scope : Scope)
    (st1 : ParseState) (h : enter_scope vars st = .ok scope st1) :
    st1.curloopflag = st.curloopflag ∧ st1.curscope = .nested st.curscope vars ∧
    st1.curfunc.isSome = st.curfunc.isSome ∧
    goto_list st1.curfunc = goto_list st.curfunc ∧
    label_list st1.curfunc = label_list st.curfunc := by
  obtain ⟨func, hf, _, h1⟩ := enter_scope_spec vars st scope st1 h
  subst h1
  simp [hf, goto_list, label_list]

theorem exit_scope_extends (st st1 : ParseState) (parent : Scope)
    (hp : st.curscope.parent = some parent) (h : exit_scope st = .ok () st1) :
    st1.curloopflag = st.curloopflag ∧ st1.curscope = parent ∧ st1.curfunc = st.curfunc := by
  obtain ⟨p, vars, hs, h1⟩ := exit_scope_spec st st1 h
  subst h1
  rw [hs] at hp
  simp only [Scope.parent, Option.some.injEq] at hp
  exact ⟨rfl, hp, rfl⟩

theorem parse_block_frame (gs ls : List Name) (body : Action (List Stmt))
    (hb : frames gs ls body) (st : ParseState) (r : Stmt) (st3 : ParseState)
    (h : parse_block body st = .ok r st3) :
    st3.curloopflag = st.curloopflag ∧ extends_function gs ls st st3 ∧
    st3.curscope = st.curscope := by
  simp only [parse_block, Result.bind_eq_ok] at h
  obtain ⟨scope, st1, h1, stmts, st2, h2, u, st3a, h3, h4⟩ := h
  injection h4 with _ h4
  subst h4
  obtain ⟨a1, a2, a3, a4, a5⟩ := enter_scope_extends _ _ _ _ h1
  obtain ⟨b1, b2, b3, b4, b5⟩ := hb st1 stmts st2 h2
  have hp : st2.curscope.parent = some st.curscope := by
    rw [b2, a2]; rfl
  obtain ⟨c1, c2, c3⟩ := exit_scope_extends _ _ _ hp h3
  refine ⟨by rw [c1, b1, a1], ⟨by rw [c2], by rw [c3, b3, a3], by rw [c3, b4, a4], ?_⟩, c2⟩
  intro n
  rw [c3, b5, a5]

theorem frames_block (gs ls : List Name) (body : Action (List Stmt))
    (hb : frames gs ls body) : frames gs ls (parse_block body) := by
  intro st r st1 h
  obtain ⟨h1, h2, _⟩ := parse_block_frame gs ls body hb st r st1 h
  exact ⟨h1, h2⟩

theorem parse_optional_keeps (p : Option (Action Expr)) (hp : optional_keeps p) :
    action_keeps (parse_optional p) := by
  intro st a st1 h
  cases p with
  | none =>
    simp only [parse_optional] at h
    injection h with _ h
    subst h
    exact ⟨rfl, rfl, rfl⟩
  | some q =>
    simp only [parse_optional, Result.bind_eq_ok] at h
    obtain ⟨e, st2, h1, h2⟩ := h
    injection h2 with _ h2
    subst h2
    exact hp st e st2 h1

theorem parse_for_decls_keeps (init : ForInit) (hi : init.keeps)
    (decls : Option (List VarDecl)) : action_keeps (parse_for_decls init decls) := by
  intro st a st1 h
  cases init with
  | decl var_def cont inits =>
    cases decls with
    | none =>
      simp only [parse_for_decls] at h
      injection h with _ h
      subst h
      exact ⟨rfl, rfl, rfl⟩
    | some ds =>
      simp only [parse_for_decls, Result.bind_eq_ok] at h
      obtain ⟨i, st2, h1, h2⟩ := h
      injection h2 with _ h2
      subst h2
      exact hi.2.2 ds st i st2 h1
  | empty =>
    simp only [parse_for_decls] at h
    injection h with _ h
    subst h
    exact ⟨rfl, rfl, rfl⟩
  | expr pre =>
    simp only [parse_for_decls] at h
    injection h with _ h
    subst h
    exact ⟨rfl, rfl, rfl⟩

/-- The scope in which a `for` statement leaves `curscope`: the one it met when
no scope was entered, the one after `parse_var_def` when a declaration opened a
scope. -/
theorem parse_for_init_spec (init : ForInit) (hi : init.keeps) (st : ParseState)
    (pre : Option Expr) (decls : Option (List VarDecl)) (scope : Bool) (st1 : ParseState)
    (h : parse_for_init init st = .ok (pre, decls, scope) st1) :
    st1.curloopflag = st.curloopflag ∧ st1.curfunc.isSome = st.curfunc.isSome ∧
    goto_list st1.curfunc = goto_list st.curfunc ∧
    label_list st1.curfunc = label_list st.curfunc ∧
    (scope = false → st1.curscope.parent = st.curscope.parent) ∧
    (scope = true → ∃ var_def cont inits sa, init = .decl var_def cont inits ∧
      var_def st = .ok () sa ∧ sa.curscope.parent = st.curscope.parent ∧
      st1.curscope.parent = some sa.curscope) := by
  cases init with
  | empty =>
    simp only [parse_for_init] at h
    injection h with h1 h2
    subst h2
    simp only [Prod.mk.injEq] at h1
    obtain ⟨_, _, h3⟩ := h1
    subst h3
    simp
  | expr p =>
    simp only [parse_for_init, Result.bind_eq_ok] at h
    obtain ⟨e, st2, h1, h2⟩ := h
    injection h2 with h2 h3
    subst h3
    simp only [Prod.mk.injEq] at h2
    obtain ⟨_, _, h4⟩ := h2
    subst h4
    obtain ⟨k1, k2, k3⟩ := hi st e st2 h1
    simp [k1, k2, k3]
  | decl var_def cont inits =>
    simp only [parse_for_init, Result.bind_eq_ok] at h
    obtain ⟨u, sa, h1, sc, sb, h2, ds, sc2, h3, h4⟩ := h
    injection h4 with h4 h5
    subst h5
    simp only [Prod.mk.injEq] at h4
    obtain ⟨_, _, h6⟩ := h4
    subst h6
    obtain ⟨k1, k2, k3⟩ := hi.1 st u sa h1
    obtain ⟨a1, a2, a3, a4, a5⟩ := enter_scope_extends _ _ _ _ h2
    obtain ⟨m1, m2, m3⟩ := hi.2.1 sb ds sc2 h3
    refine ⟨by rw [m1, a1, k1], by rw [m2, a3, k2], by rw [m2, a4, k2], by rw [m2, a5, k2],
      by simp, fun _ => ⟨var_def, cont, inits, sa, rfl, h1, k3, ?_⟩⟩
    rw [m3, a2]
    rfl

theorem parse_for_frame (gs ls : List Name) (init : ForInit) (cond post : Option (Action Expr))
    (body : Action Stmt) (hi : init.keeps) (hc : optional_keeps cond)
    (hp : optional_keeps post) (hb : frames gs ls body) (st : ParseState) (r : Stmt)
    (st8 : ParseState) (h : parse_for init cond post body st = .ok r st8) :
    st8.curloopflag = st.curloopflag ∧ extends_function gs ls st st8 ∧
    (∀ var_def cont inits, init = .decl var_def cont inits →
      ∃ sa, var_def st = .ok () sa ∧ st8.curscope = sa.curscope) := by
  simp only [parse_for, Result.bind_eq_ok] at h
  obtain ⟨⟨pre, decls, scope⟩, st1, h1, c, st2, h2, p, st3, h3, b, st5, h4, stmts, st6, h5,
    u, st8a, h6, h7⟩ := h
  injection h7 with _ h7
  subst h7
  obtain ⟨i1, i2, i3, i4, i5, i6⟩ := parse_for_init_spec init hi st pre decls scope st1 h1
  obtain ⟨c1, c2, c3⟩ := parse_optional_keeps cond hc st1 c st2 h2
  obtain ⟨p1, p2, p3⟩ := parse_optional_keeps post hp st2 p st3 h3
  obtain ⟨_, b2, b3, b4, b5⟩ := hb _ b st5 h4
  obtain ⟨d1, d2, d3⟩ := parse_for_decls_keeps init hi decls st5 stmts st6 h5
  have b2a : st5.curscope.parent = st3.curscope.parent := b2
  have b3a : st5.curfunc.isSome = st3.curfunc.isSome := b3
  have b4a : goto_list st5.curfunc = goto_list st3.curfunc ++ gs.map Stmt.goto_ := b4
  have b5a : ∀ n, n ∈ label_list st5.curfunc ↔ n ∈ label_list st3.curfunc ∨ n ∈ ls := b5
  have hpar : st6.curscope.parent = st1.curscope.parent := by
    rw [d3, b2a, p3, c3]
  have hsome : st6.curfunc.isSome = st.curfunc.isSome := by
    rw [d2, b3a, p2, c2, i2]
  have hgoto : goto_list st6.curfunc = goto_list st.curfunc ++ gs.map Stmt.goto_ := by
    rw [d2, b4a, p2, c2, i3]
  have hlab : ∀ n, n ∈ label_list st6.curfunc ↔ n ∈ label_list st.curfunc ∨ n ∈ ls := by
    intro n
    rw [d2, b5a, p2, c2, i4]
  have hflag : st3.curloopflag = st.curloopflag := by
    rw [p1, c1, i1]
  cases scope with
  | false =>
    simp only [Bool.false_eq_true, if_false] at h6
    injection h6 with _ h6
    subst h6
    refine ⟨hflag, ⟨by rw [← i5 rfl, ← hpar], hsome, hgoto, hlab⟩, ?_⟩
    intro var_def cont inits hinit
    subst hinit
    simp only [parse_for_init, Result.bind_eq_ok] at h1
    obtain ⟨_, _, _, _, _, _, _, _, _, hx⟩ := h1
    injection hx with hx _
    simp at hx
  | true =>
    simp only [if_true] at h6
    obtain ⟨var_def, cont, inits, sa, hinit, hsa, hsap, hst1⟩ := i6 rfl
    have hp7 : ({ st6 with curloopflag := st3.curloopflag } : ParseState).curscope.parent
        = some sa.curscope := by
      show st6.curscope.parent = some sa.curscope
      rw [hpar, hst1]
    obtain ⟨e1, e2, e3⟩ := exit_scope_extends _ _ _ hp7 h6
    refine ⟨by rw [e1]; exact hflag, ⟨by rw [e2, hsap], by rw [e3]; exact hsome,
      by rw [e3]; exact hgoto, fun n => by rw [e3]; exact hlab n⟩, ?_⟩
    intro vd ct is hinit2
    rw [hinit] at hinit2
    injection hinit2 with hv _ _
    subst hv
    exact ⟨sa, hsa, e2⟩

theorem frames_for (gs ls : List Name) (init : ForInit) (cond post : Option (Action Expr))
    (body : Action Stmt) (hi : init.keeps) (hc : optional_keeps cond)
    (hp : optional_keeps post) (hb : frames gs ls body) :
    frames gs ls (parse_for init cond post body) := by
  intro st r st1 h
  obtain ⟨h1, h2, _⟩ := parse_for_frame gs ls init cond post body hi hc hp hb st r st1 h
  exact ⟨h1, h2⟩

theorem frames_return (env : Env) (henv : env_keeps env) (val : Option (Action Expr))
    (hv : optional_keeps val) : frames [] [] (parse_return env val) := by
  have hval : frames [] [] (parse_return_value env val) := by
    cases val with
    | none => exact frames_ok none
    | some p =>
      exact frames_bind [] [] [] [] p _ (frames_of_keeps p hv) fun v =>
        frames_bind [] [] [] [] _ _ (frames_of_keeps _ (henv.1 v)) fun v1 => frames_ok (some v1)
  intro st r st2 h
  simp only [parse_return, Result.bind_eq_ok] at h
  obtain ⟨v, st1, h1, h2⟩ := h
  obtain ⟨f1, e1⟩ := hval st v st1 h1
  have key : st2.curloopflag = st1.curloopflag ∧ extends_function [] [] st1 st2 := by
    cases hf : st1.curfunc with
    | none => rw [hf] at h2; cases h2
    | some func =>
      rw [hf] at h2
      simp only at h2
      cases hty : func.type with
      | func rettype params vaargs =>
        rw [hty] at h2
        simp only at h2
        cases v with
        | none =>
          simp only at h2
          split at h2
          · simp only [Result.bind_eq_ok] at h2
            obtain ⟨u, st3, h3, h4⟩ := h2
            injection h4 with _ h4
            subst h4
            exact frames_nofatal _ st1 u st3 h3
          · injection h2 with _ h2
            subst h2
            exact ⟨rfl, extends_function_refl _⟩
        | some e =>
          simp only at h2
          split at h2
          · simp only [Result.bind_eq_ok] at h2
            obtain ⟨u, st3, h3, h4⟩ := h2
            injection h4 with _ h4
            subst h4
            exact frames_nofatal _ st1 u st3 h3
          · simp only [Result.bind_eq_ok] at h2
            obtain ⟨e1, st3, h3, h4⟩ := h2
            injection h4 with _ h4
            subst h4
            exact frames_of_keeps _ (henv.2 rettype e false) st1 e1 st3 h3
      | _ => rw [hty] at h2; cases h2
  exact ⟨key.1.trans f1, by simpa using extends_function_trans _ _ _ _ _ _ _ e1 key.2⟩

mutual
theorem parse_stmt_frames (env : Env) (henv : env_keeps env) :
    ∀ s : SrcStmt, s.keeps → frames s.gotos s.labels (parse_stmt env s)
  | .label name body, hk => by
    have ih := parse_stmt_frames env henv body (by simpa [SrcStmt.keeps] using hk)
    intro st r st1 h
    rw [parse_stmt] at h
    simpa [SrcStmt.gotos, SrcStmt.labels] using frames_label _ _ name _ ih st r st1 h
  | .empty, _ => by
    intro st r st1 h
    rw [parse_stmt] at h
    simpa [SrcStmt.gotos, SrcStmt.labels] using frames_ok (Stmt.block []) st r st1 h
  | .block items, hk => by
    have ih := parse_stmts_frames env henv items (by simpa [SrcStmt.keeps] using hk)
    intro st r st1 h
    rw [parse_stmt] at h
    simpa [SrcStmt.gotos, SrcStmt.labels] using frames_block _ _ _ ih st r st1 h
  | .if_ cond tblock, hk => by
    simp only [SrcStmt.keeps] at hk
    have ih := parse_stmt_frames env henv tblock hk.2
    intro st r st1 h
    rw [parse_stmt] at h
    simpa [SrcStmt.gotos, SrcStmt.labels] using
      (frames_if _ _ [] [] cond _ (fun st => Result.ok Stmt.other st) hk.1 ih
        (frames_ok Stmt.other)).1 st r st1 h
  | .if_else cond tblock fblock, hk => by
    simp only [SrcStmt.keeps] at hk
    have ih1 := parse_stmt_frames env henv tblock hk.2.1
    have ih2 := parse_stmt_frames env henv fblock hk.2.2
    intro st r st1 h
    rw [parse_stmt] at h
    simpa [SrcStmt.gotos, SrcStmt.labels] using
      (frames_if _ _ _ _ cond _ _ hk.1 ih1 ih2).2 st r st1 h
  | .switch_ value body, hk => by
    simp only [SrcStmt.keeps] at hk
    have ih := parse_stmt_frames env henv body hk.2
    intro st r st1 h
    rw [parse_stmt] at h
    simpa [SrcStmt.gotos, SrcStmt.labels] using frames_switch _ _ value _ hk.1 ih st r st1 h
  | .while_ cond body, hk => by
    simp only [SrcStmt.keeps] at hk
    have ih := parse_stmt_frames env henv body hk.2
    intro st r st1 h
    rw [parse_stmt] at h
    simpa [SrcStmt.gotos, SrcStmt.labels] using frames_while _ _ cond _ hk.1 ih st r st1 h
  | .do_while body cond, hk => by
    simp only [SrcStmt.keeps] at hk
    have ih := parse_stmt_frames env henv body hk.1
    intro st r st1 h
    rw [parse_stmt] at h
    simpa [SrcStmt.gotos, SrcStmt.labels] using frames_do_while _ _ _ cond ih hk.2 st r st1 h
  | .for_ init cond post body, hk => by
    simp only [SrcStmt.keeps] at hk
    have ih := parse_stmt_frames env henv body hk.2.2.2
    intro st r st1 h
    rw [parse_stmt] at h
    simpa [SrcStmt.gotos, SrcStmt.labels] using
      frames_for _ _ init cond post _ hk.1 hk.2.1 hk.2.2.1 ih st r st1 h
  | .break_, _ => by
    intro st r st1 h
    rw [parse_stmt] at h
    simpa [SrcStmt.gotos, SrcStmt.labels] using frames_break_continue _ st r st1 h
  | .continue_, _ => by
    intro st r st1 h
    rw [parse_stmt] at h
    simpa [SrcStmt.gotos, SrcStmt.labels] using frames_break_continue _ st r st1 h
  | .goto_ label, _ => by
    intro st r st1 h
    rw [parse_stmt] at h
    simpa [SrcStmt.gotos, SrcStmt.labels] using frames_goto label st r st1 h
  | .return_ val, hk => by
    simp only [SrcStmt.keeps] at hk
    intro st r st1 h
    rw [parse_stmt] at h
    simpa [SrcStmt.gotos, SrcStmt.labels] using frames_return env henv val hk st r st1 h
  | .asm_ act, hk => by
    simp only [SrcStmt.keeps] at hk
    intro st r st1 h
    rw [parse_stmt] at h
    simpa [SrcStmt.gotos, SrcStmt.labels] using frames_of_keeps act hk st r st1 h
  | .expr val, hk => by
    simp only [SrcStmt.keeps] at hk
    intro st r st1 h
    rw [parse_stmt] at h
    have := frames_bind [] [] [] [] val _ (frames_of_keeps val hk) fun v =>
      frames_bind [] [] [] [] _ _ (frames_of_keeps _ (henv.1 v)) fun v1 =>
        frames_ok (Stmt.expr v1)
    simpa [SrcStmt.gotos, SrcStmt.labels] using this st r st1 h
theorem parse_stmts_frames (env : Env) (henv : env_keeps env) :
    ∀ items : List SrcItem, SrcItem.keeps_all items →
      frames (SrcItem.gotos_all items) (SrcItem.labels_all items) (parse_stmts env items)
  | [], _ => by
    intro st r st1 h
    rw [parse_stmts] at h
    simpa [SrcItem.gotos_all, SrcItem.labels_all] using
      frames_ok ([] : List Stmt) st r st1 h
  | item :: rest, hk => by
    simp only [SrcItem.keeps_all] at hk
    have ih1 := parse_item_frames env henv item hk.1
    have ih2 := parse_stmts_frames env henv rest hk.2
    intro st r st1 h
    rw [parse_stmts] at h
    have := frames_bind _ _ _ _ (parse_item env item) _ ih1 fun stmt =>
      frames_bind _ _ [] [] (parse_stmts env rest) _ ih2 fun stmts =>
        frames_ok (match stmt with
          | some s => s :: stmts
          | none => stmts)
    simpa [SrcItem.gotos_all, SrcItem.labels_all] using this st r st1 h
theorem parse_item_frames (env : Env) (henv : env_keeps env) :
    ∀ item : SrcItem, item.keeps → frames item.gotos item.labels (parse_item env item)
  | .vardecl decl, hk => by
    simp only [SrcItem.keeps] at hk
    intro st r st1 h
    rw [parse_item] at h
    simpa [SrcItem.gotos, SrcItem.labels] using frames_of_keeps decl hk st r st1 h
  | .case_ value, _ => by
    intro st r st1 h
    rw [parse_item] at h
    have := frames_bind [] [] [] [] _ _ (frames_case value) fun s => frames_ok (some s)
    simpa [SrcItem.gotos, SrcItem.labels] using this st r st1 h
  | .default_, _ => by
    intro st r st1 h
    rw [parse_item] at h
    have := frames_bind [] [] [] [] _ _ frames_default fun s => frames_ok (some s)
    simpa [SrcItem.gotos, SrcItem.labels] using this st r st1 h
  | .stmt s, hk => by
    simp only [SrcItem.keeps] at hk
    have ih := parse_stmt_frames env henv s hk
    intro st r st1 h
    rw [parse_item] at h
    have := frames_bind _ _ [] [] _ _ ih fun s => frames_ok (some s)
    simpa [SrcItem.gotos, SrcItem.labels] using this st r st1 h
end

theorem var_add_keeps (vars : List VarInfo) (name : Option Name) (type : CType) (flag : Nat)
    (st : ParseState) (r : VarInfo × List VarInfo) (st1 : ParseState)
    (h : var_add vars name type flag st = .ok r st1) :
    st1.curloopflag = st.curloopflag ∧ st1.curfunc = st.curfunc ∧
    st1.curscope = st.curscope := by
  cases name with
  | none =>
    simp only [var_add] at h
    injection h with _ h
    subst h
    exact ⟨rfl, rfl, rfl⟩
  | some nm =>
    simp only [var_add] at h
    split at h
    · simp [parse_error] at h
    · split at h
      · simp only [alloc_label] at h
        cases hd : define_global type flag (Name.label st.label_count)
            { st with label_count := st.label_count + 1 } with
        | ok g s2 =>
          rw [hd] at h
          injection h with _ h
          subst h
          simp only [define_global, find_global] at hd
          split at hd
          · split at hd
            · split at hd
              · simp [parse_error] at hd
              · injection hd with _ hd
                subst hd
                exact ⟨rfl, rfl, rfl⟩
            · injection hd with _ hd
              subst hd
              exact ⟨rfl, rfl, rfl⟩
          · injection hd with _ hd
            subst hd
            exact ⟨rfl, rfl, rfl⟩
        | exit c s2 => rw [hd] at h; cases h
        | abort => rw [hd] at h; cases h
      · injection h with _ h
        subst h
        exact ⟨rfl, rfl, rfl⟩

theorem Scope.set_vars_parent (scope : Scope) (vs : List VarInfo) :
    (scope.set_vars vs).parent = scope.parent := by
  cases scope <;> rfl

theorem add_var_to_scope_keeps (scope : Scope) (name : Name) (type : CType) (storage : Nat)
    (st : ParseState) (r : VarInfo × Scope) (st1 : ParseState)
    (h : add_var_to_scope scope name type storage st = .ok r st1) :
    st1.curloopflag = st.curloopflag ∧ st1.curfunc = st.curfunc ∧
    st1.curscope = st.curscope ∧ r.2.parent = scope.parent := by
  simp only [add_var_to_scope] at h
  split at h
  · cases hp : parse_error_nofatal st "`%.*s' already defined" with
    | ok u s2 =>
      rw [hp] at h
      injection h with h1 h2
      subst h2
      subst h1
      have := parse_error_nofatal_frame _ _ _ hp
      subst this
      exact ⟨rfl, rfl, rfl, rfl⟩
    | exit c s2 => rw [hp] at h; cases h
    | abort => rw [hp] at h; cases h
  · simp only [scope_add] at h
    split at h
    · rename_i info vars1 s2 hv
      injection h with h1 h2
      subst h2
      subst h1
      obtain ⟨a, b, c⟩ := var_add_keeps _ _ _ _ _ _ _ hv
      exact ⟨a, b, c, Scope.set_vars_parent _ _⟩
    · cases h
    · cases h

theorem spec_str_to_char_array_keeps (type : CType) (init : Initializer) :
    action_keeps (spec_str_to_char_array type init) := by
  intro st a st1 h
  cases type with
  | array elem len =>
    simp only [spec_str_to_char_array] at h
    by_cases hc : is_char_type elem = true
    · rw [if_pos hc] at h
      simp only [alloc_dummy_ident, alloc_label] at h
      cases ha : add_var_to_scope st.curscope (Name.label st.label_count)
          (CType.array elem len) VS_STATIC { st with label_count := st.label_count + 1 } with
      | ok r s2 =>
        obtain ⟨v, sc⟩ := r
        rw [ha] at h
        injection h with _ h
        subst h
        obtain ⟨a1, a2, _, a4⟩ := add_var_to_scope_keeps _ _ _ _ _ _ _ ha
        exact ⟨a1, a2, a4⟩
      | exit c s2 => rw [ha] at h; cases h
      | abort => rw [ha] at h; cases h
    · rw [if_neg hc] at h
      cases h
  | _ => simp [spec_str_to_char_array] at h

theorem spec_check_cast_keeps (dst src : CType) (zero is_explicit : Bool) :
    action_keeps (spec_check_cast dst src zero is_explicit) := by
  intro st a st1 h
  simp only [spec_check_cast] at h
  split at h
  · injection h with _ h
    subst h
    exact ⟨rfl, rfl, rfl⟩
  · cases hp : parse_error_nofatal st "Cannot convert value from type %d to %d" with
    | ok u s2 =>
      rw [hp] at h
      injection h with _ h
      subst h
      have := parse_error_nofatal_frame _ _ _ hp
      subst this
      exact ⟨rfl, rfl, rfl⟩
    | exit c s2 => rw [hp] at h; cases h
    | abort => rw [hp] at h; cases h

theorem spec_env_keeps : env_keeps spec_env := by
  have hcast : ∀ t e b, action_keeps (spec_make_cast t e b) := by
    intro t e b st a st1 h
    simp only [spec_make_cast] at h
    split at h
    · injection h with _ h
      subst h
      exact ⟨rfl, rfl, rfl⟩
    · split at h
      · injection h with _ h
        subst h
        exact ⟨rfl, rfl, rfl⟩
      · cases hc : spec_check_cast t e.type (is_zero e) b st with
        | ok u s2 =>
          rw [hc] at h
          injection h with _ h
          subst h
          exact spec_check_cast_keeps _ _ _ _ st u s2 hc
        | exit c s2 => rw [hc] at h; cases h
        | abort => rw [hc] at h; cases h
  have hstr : ∀ e, action_keeps (spec_str_to_char_array_var e) := by
    intro e st a st1 h
    cases e with
    | str t buf size =>
      simp only [spec_str_to_char_array_var] at h
      cases hs : spec_str_to_char_array t (.single (.str t buf size)) st with
      | ok v s2 =>
        rw [hs] at h
        injection h with _ h
        subst h
        exact spec_str_to_char_array_keeps _ _ st v s2 hs
      | exit c s2 => rw [hs] at h; cases h
      | abort => rw [hs] at h; cases h
    | _ =>
      simp only [spec_str_to_char_array_var] at h
      injection h with _ h
      subst h
      exact ⟨rfl, rfl, rfl⟩
  exact ⟨hstr, hcast⟩

/-! ### parse_switch -/

theorem Result.returned_iff {α : Type} (r : Result α) :
    r.returned = true ↔ ∃ a st, r = .ok a st := by
  cases r <;> simp [Result.returned]

theorem parse_case_ok_spec (value : Expr) (st : ParseState) (stmt : Stmt) (st1 : ParseState)
    (h : parse_case value true st = .ok stmt st1) :
    ∃ sw, st.curswitch = some sw ∧
      st1.curswitch = some { sw with cases := sw.cases ++ [stmt] } := by
  simp only [parse_case, consume, if_true] at h
  cases value with
  | fixnum t v =>
    simp only at h
    cases hsw : st.curswitch with
    | none => rw [hsw] at h; simp [parse_error] at h
    | some sw =>
      rw [hsw] at h
      simp only at h
      cases hc : parse_case_check sw.cases v st with
      | ok u s2 =>
        rw [hc] at h
        injection h with h1 h2
        subst h1
        subst h2
        exact ⟨sw, rfl, rfl⟩
      | exit c s2 => rw [hc] at h; cases h
      | abort => rw [hc] at h; cases h
  | _ => simp at h

/-- C19: when `parse_switch` returns, `curswitch` and `curloopflag` have the
values they had when it was entered, whatever the body is (nested switches and
loops included); a case label read next is therefore appended to the `cases` of
the switch that was current at entry. The expression parser, which reads the
value of the switch, writes neither variable. -/
theorem parse_switch_restores (value : Action Expr) (body : Action Stmt) (st : ParseState)
    (stmt : Stmt) (st1 : ParseState)
    (hvalue : ∀ s e s1, value s = .ok e s1 →
      s1.curswitch = s.curswitch ∧ s1.curloopflag = s.curloopflag)
    (h : parse_switch value body st = .ok stmt st1) :
    st1.curswitch = st.curswitch ∧ st1.curloopflag = st.curloopflag ∧
    ∀ value2 stmt2 st2, parse_case value2 true st1 = .ok stmt2 st2 →
      ∃ sw, st.curswitch = some sw ∧
        st2.curswitch = some { sw with cases := sw.cases ++ [stmt2] } := by
  simp only [parse_switch, Result.bind_eq_ok] at h
  obtain ⟨v, s1, h1, b, s3, h2, h3⟩ := h
  injection h3 with _ h3
  subst h3
  obtain ⟨a1, a2⟩ := hvalue st v s1 h1
  refine ⟨a1, a2, fun value2 stmt2 st2 hc => ?_⟩
  obtain ⟨sw, hsw, hst2⟩ := parse_case_ok_spec value2 _ stmt2 st2 hc
  exact ⟨sw, by rw [← a1]; exact hsw, hst2⟩

/-- Witness for claim C19: inside a switch of `f`, a nested `switch (x)` whose
body holds a case label, a loop with a `break` and a further switch returns
with `curswitch` and `curloopflag` as they were. -/
theorem parse_switch_restores_witness :
    ∃ stmt st1,
      parse_switch (read_expr expr_x) (parse_stmt spec_env nested_switch_body) in_switch_state
        = .ok stmt st1 ∧
      st1.curswitch = some switch_example ∧ st1.curloopflag = LF_BREAK := by
  obtain ⟨stmt, st1, h⟩ := (Result.returned_iff
    (parse_switch (read_expr expr_x) (parse_stmt spec_env nested_switch_body)
      in_switch_state)).mp (by decide!)
  have hv : ∀ s e s1, read_expr expr_x s = .ok e s1 →
      s1.curswitch = s.curswitch ∧ s1.curloopflag = s.curloopflag := by
    intro s e s1 hs
    simp only [read_expr] at hs
    injection hs with _ hs
    subst hs
    exact ⟨rfl, rfl⟩
  have := parse_switch_restores (read_expr expr_x) (parse_stmt spec_env nested_switch_body)
    in_switch_state stmt st1 hv h
  exact ⟨stmt, st1, h, this.1, this.2.1⟩

/-! ### enter_scope and exit_scope -/

/-- C18: inside a function, `enter_scope` creates a scope whose parent is the
previous `curscope`, makes it `curscope` and appends it to the scopes of the
function; `exit_scope` then sets `curscope` back to the previous value and
leaves the scopes of the function as they are. So a block returns with
`curscope` as it was at entry, and a `for` statement returns with `curscope` at
the same place of the chain; when its first clause is a declaration, `curscope`
is again the scope in which `enter_scope` was called. -/
theorem enter_exit_scope_restores (env : Env) (st : ParseState) (func : Function)
    (henv : env_keeps env) (hf : st.curfunc = some func) :
    (∀ vars, ∃ st1, enter_scope vars st = .ok (.nested st.curscope vars) st1 ∧
      st1.curscope = .nested st.curscope vars ∧
      st1.curfunc = some { func with scopes := func.scopes ++ [.nested st.curscope vars] } ∧
      ∃ st2, exit_scope st1 = .ok () st2 ∧ st2.curscope = st.curscope ∧
        st2.curfunc = st1.curfunc) ∧
    (∀ items r st1, SrcItem.keeps_all items → parse_stmt env (.block items) st = .ok r st1 →
      st1.curscope = st.curscope) ∧
    (∀ init cond post body r st1, (SrcStmt.for_ init cond post body).keeps →
      parse_stmt env (.for_ init cond post body) st = .ok r st1 →
      st1.curscope.parent = st.curscope.parent ∧
      ∀ var_def cont inits, init = .decl var_def cont inits →
        ∃ sa, var_def st = .ok () sa ∧ st1.curscope = sa.curscope) := by
  refine ⟨fun vars => ?_, fun items r st1 hk h => ?_, fun init cond post body r st1 hk h => ?_⟩
  · have h1 : enter_scope vars st = .ok (.nested st.curscope vars)
        { st with
          curscope := .nested st.curscope vars
          curfunc := some { func with scopes := func.scopes ++ [.nested st.curscope vars] }
          typedefs := [] :: st.typedefs } := by
      simp only [enter_scope, hf]
    exact ⟨_, h1, rfl, rfl, _, rfl, rfl, rfl⟩
  · rw [parse_stmt] at h
    exact (parse_block_frame _ _ _ (parse_stmts_frames env henv items hk) st r st1 h).2.2
  · rw [parse_stmt] at h
    simp only [SrcStmt.keeps] at hk
    obtain ⟨_, h2, h3⟩ := parse_for_frame _ _ init cond post _ hk.1 hk.2.1 hk.2.2.1
      (parse_stmt_frames env henv body hk.2.2.2) st r st1 h
    exact ⟨h2.1, h3⟩

/-- Witness for claim C18: in the body of `f`, the block `{ int i; x; }` and the
statement `for (int i; x; x) break;` are parsed and leave `curscope` as it
was. -/
theorem enter_exit_scope_restores_witness :
    (parse_stmt spec_env (.block block_items) function_state).returned = true ∧
    (∀ r st1, parse_stmt spec_env (.block block_items) function_state = .ok r st1 →
      st1.curscope = function_state.curscope) ∧
    (parse_stmt spec_env (.for_ for_init_example (some (read_expr expr_x))
      (some (read_expr expr_x)) .break_) function_state).returned = true ∧
    (∀ r st1, parse_stmt spec_env (.for_ for_init_example (some (read_expr expr_x))
      (some (read_expr expr_x)) .break_) function_state = .ok r st1 →
      st1.curscope = function_state.curscope) := by
  have hread : ∀ e, action_keeps (read_expr e) := by
    intro e st a st1 h
    simp only [read_expr] at h
    injection h with _ h
    subst h
    exact ⟨rfl, rfl, rfl⟩
  have hadd : ∀ {α : Type} (a : α), action_keeps (fun st : ParseState =>
      (add_var_to_scope st.curscope (.ident 3) tyInt 0 st).bind fun r st1 =>
        Result.ok a { st1 with curscope := r.2 }) := by
    intro α a st b st1 h
    simp only [Result.bind_eq_ok] at h
    obtain ⟨r, s1, h1, h2⟩ := h
    injection h2 with _ h2
    subst h2
    obtain ⟨k1, k2, _, k4⟩ := add_var_to_scope_keeps _ _ _ _ _ _ _ h1
    exact ⟨k1, k2, k4⟩
  have hok : ∀ {α : Type} (a : α), action_keeps (fun st : ParseState => Result.ok a st) := by
    intro α a st b st1 h
    injection h with _ h
    subst h
    exact ⟨rfl, rfl, rfl⟩
  have hthm := enter_exit_scope_restores spec_env function_state function_f spec_env_keeps rfl
  refine ⟨by decide!, fun r st1 h => ?_, by decide!, fun r st1 h => ?_⟩
  · refine hthm.2.1 block_items r st1 ?_ h
    simp only [block_items, SrcItem.keeps_all, SrcItem.keeps, SrcStmt.keeps, and_true]
    exact ⟨hadd none, hread _⟩
  · have hk : (SrcStmt.for_ for_init_example (some (read_expr expr_x))
        (some (read_expr expr_x)) .break_).keeps := by
      simp only [SrcStmt.keeps, for_init_example, ForInit.keeps, optional_keeps, and_true]
      exact ⟨⟨hok (), hadd _, fun ds => hok none⟩, hread _, hread _⟩
    obtain ⟨sa, hsa, hsc⟩ := (hthm.2.2 _ _ _ _ r st1 hk h).2 _ _ _ rfl
    injection hsa with _ hsa
    rw [hsc, ← hsa]

/-! ### break inside and outside of loops -/

theorem Result.bind_congr {α β : Type} (r : Result α) (f g : α → ParseState → Result β)
    (h : ∀ a st, r = .ok a st → f a st = g a st) : r.bind f = r.bind g := by
  cases r with
  | ok a st => exact h a st rfl
  | exit c st => rfl
  | abort => rfl

theorem flag_or_break (x : Nat) : (x ||| LF_BREAK) &&& LF_BREAK ≠ 0 := by
  have h : (x ||| 1).testBit 0 = true := by simp [Nat.testBit_or]
  intro h0
  have h1 : ((x ||| 1) &&& 1).testBit 0 = true := by simp [Nat.testBit_and, h]
  have h2 : (x ||| 1) &&& 1 = 0 := h0
  rw [h2] at h1
  simp at h1

theorem flag_or_loop (x : Nat) : (x ||| (LF_BREAK ||| LF_CONTINUE)) &&& LF_BREAK ≠ 0 := by
  have h : (LF_BREAK ||| LF_CONTINUE) = LF_BREAK := by decide
  rw [h]
  exact flag_or_break x

theorem agree_break (nested : Bool) :
    agree nested (parse_break_continue .ST_BREAK) (parse_break_nested nested) := by
  intro st hst
  cases nested with
  | true =>
    have h : ¬ st.curloopflag &&& LF_BREAK = 0 := hst.mpr rfl
    simp [parse_break_continue, parse_break_nested, h, new_stmt]
  | false =>
    have h : st.curloopflag &&& LF_BREAK = 0 := by
      by_contra hc
      exact absurd (hst.mp hc) (by simp)
    simp [parse_break_continue, parse_break_nested, h, new_stmt]

theorem agree_label (nested : Bool) (label : Name) (p q : Action Stmt)
    (h : agree nested p q) : agree nested (parse_label label p) (parse_label label q) := by
  intro st hst
  simp only [parse_label, h st hst]

theorem agree_block (nested : Bool) (p q : Action (List Stmt)) (h : agree nested p q) :
    agree nested (parse_block p) (parse_block q) := by
  intro st hst
  simp only [parse_block]
  refine Result.bind_congr _ _ _ fun sc st1 h1 => ?_
  have hf := (enter_scope_extends _ _ _ _ h1).1
  rw [h st1 (by rw [hf]; exact hst)]

theorem agree_if (nested : Bool) (gs ls : List Name) (cond : Action Expr)
    (p q p2 q2 : Action Stmt) (hc : action_keeps cond) (hp : frames gs ls p)
    (h : agree nested p q) (h2 : agree nested p2 q2) :
    agree nested (parse_if cond p none) (parse_if cond q none) ∧
    agree nested (parse_if cond p (some p2)) (parse_if cond q (some q2)) := by
  constructor
  · intro st hst
    simp only [parse_if]
    refine Result.bind_congr _ _ _ fun c st1 h1 => ?_
    have hf := (hc st c st1 h1).1
    rw [h st1 (by rw [hf]; exact hst)]
  · intro st hst
    simp only [parse_if]
    refine Result.bind_congr _ _ _ fun c st1 h1 => ?_
    have hf := (hc st c st1 h1).1
    have hst1 : st1.curloopflag &&& LF_BREAK ≠ 0 ↔ nested = true := by rw [hf]; exact hst
    rw [← h st1 hst1]
    refine Result.bind_congr _ _ _ fun t st2 h3 => ?_
    have hf2 := (hp st1 t st2 h3).1
    rw [h2 st2 (by rw [hf2]; exact hst1)]

theorem agree_switch (nested : Bool) (value : Action Expr) (p q : Action Stmt)
    (h : agree true p q) : agree nested (parse_switch value p) (parse_switch value q) := by
  intro st _
  simp only [parse_switch]
  refine Result.bind_congr _ _ _ fun v st1 _ => ?_
  rw [h _ ⟨fun _ => rfl, fun _ => flag_or_break st1.curloopflag⟩]

theorem agree_while (nested : Bool) (cond : Action Expr) (p q : Action Stmt)
    (h : agree true p q) : agree nested (parse_while cond p) (parse_while cond q) := by
  intro st _
  simp only [parse_while]
  refine Result.bind_congr _ _ _ fun v st1 _ => ?_
  rw [h _ ⟨fun _ => rfl, fun _ => flag_or_loop st1.curloopflag⟩]

theorem agree_do_while (nested : Bool) (cond : Action Expr) (p q : Action Stmt)
    (h : agree true p q) : agree nested (parse_do_while p cond) (parse_do_while q cond) := by
  intro st _
  simp only [parse_do_while]
  rw [h _ ⟨fun _ => rfl, fun _ => flag_or_loop st.curloopflag⟩]

theorem agree_for (nested : Bool) (init : ForInit) (cond post : Option (Action Expr))
    (p q : Action Stmt) (h : agree true p q) :
    agree nested (parse_for init cond post p) (parse_for init cond post q) := by
  intro st _
  simp only [parse_for]
  refine Result.bind_congr _ _ _ fun r st1 _ => ?_
  refine Result.bind_congr _ _ _ fun c st2 _ => ?_
  refine Result.bind_congr _ _ _ fun e st3 _ => ?_
  rw [h _ ⟨fun _ => rfl, fun _ => flag_or_loop st3.curloopflag⟩]

mutual
theorem parse_stmt_agrees (env : Env) (henv : env_keeps env) :
    ∀ (s : SrcStmt) (nested : Bool), s.keeps →
      agree nested (parse_stmt env s) (parse_stmt_nested env nested s)
  | .label name body, nested, hk => by
    have ih := parse_stmt_agrees env henv body nested (by simpa [SrcStmt.keeps] using hk)
    intro st hst
    rw [parse_stmt, parse_stmt_nested]
    exact agree_label nested name _ _ ih st hst
  | .empty, nested, _ => by
    intro st _
    rw [parse_stmt, parse_stmt_nested]
  | .block items, nested, hk => by
    have ih := parse_stmts_agrees env henv items nested (by simpa [SrcStmt.keeps] using hk)
    intro st hst
    rw [parse_stmt, parse_stmt_nested]
    exact agree_block nested _ _ ih st hst
  | .if_ cond tblock, nested, hk => by
    simp only [SrcStmt.keeps] at hk
    have ih := parse_stmt_agrees env henv tblock nested hk.2
    intro st hst
    rw [parse_stmt, parse_stmt_nested]
    exact (agree_if nested _ _ cond _ _ _ _ hk.1 (parse_stmt_frames env henv tblock hk.2)
      ih ih).1 st hst
  | .if_else cond tblock fblock, nested, hk => by
    simp only [SrcStmt.keeps] at hk
    have ih1 := parse_stmt_agrees env henv tblock nested hk.2.1
    have ih2 := parse_stmt_agrees env henv fblock nested hk.2.2
    intro st hst
    rw [parse_stmt, parse_stmt_nested]
    exact (agree_if nested _ _ cond _ _ _ _ hk.1 (parse_stmt_frames env henv tblock hk.2.1)
      ih1 ih2).2 st hst
  | .switch_ value body, nested, hk => by
    simp only [SrcStmt.keeps] at hk
    have ih := parse_stmt_agrees env henv body true hk.2
    intro st hst
    rw [parse_stmt, parse_stmt_nested]
    exact agree_switch nested value _ _ ih st hst
  | .while_ cond body, nested, hk => by
    simp only [SrcStmt.keeps] at hk
    have ih := parse_stmt_agrees env henv body true hk.2
    intro st hst
    rw [parse_stmt, parse_stmt_nested]
    exact agree_while nested cond _ _ ih st hst
  | .do_while body cond, nested, hk => by
    simp only [SrcStmt.keeps] at hk
    have ih := parse_stmt_agrees env henv body true hk.1
    intro st hst
    rw [parse_stmt, parse_stmt_nested]
    exact agree_do_while nested cond _ _ ih st hst
  | .for_ init cond post body, nested, hk => by
    simp only [SrcStmt.keeps] at hk
    have ih := parse_stmt_agrees env henv body true hk.2.2.2
    intro st hst
    rw [parse_stmt, parse_stmt_nested]
    exact agree_for nested init cond post _ _ ih st hst
  | .break_, nested, _ => by
    intro st hst
    rw [parse_stmt, parse_stmt_nested]
    exact agree_break nested st hst
  | .continue_, nested, _ => by
    intro st _
    rw [parse_stmt, parse_stmt_nested]
  | .goto_ label, nested, _ => by
    intro st _
    rw [parse_stmt, parse_stmt_nested]
  | .return_ val, nested, _ => by
    intro st _
    rw [parse_stmt, parse_stmt_nested]
  | .asm_ act, nested, _ => by
    intro st _
    rw [parse_stmt, parse_stmt_nested]
  | .expr val, nested, _ => by
    intro st _
    rw [parse_stmt, parse_stmt_nested]
theorem parse_stmts_agrees (env : Env) (henv : env_keeps env) :
    ∀ (items : List SrcItem) (nested : Bool), SrcItem.keeps_all items →
      agree nested (parse_stmts env items) (parse_stmts_nested env nested items)
  | [], nested, _ => by
    intro st _
    rw [parse_stmts, parse_stmts_nested]
  | item :: rest, nested, hk => by
    simp only [SrcItem.keeps_all] at hk
    have ih1 := parse_item_agrees env henv item nested hk.1
    have ih2 := parse_stmts_agrees env henv rest nested hk.2
    intro st hst
    rw [parse_stmts, parse_stmts_nested, ← ih1 st hst]
    refine Result.bind_congr _ _ _ fun stmt st1 h1 => ?_
    have hf := (parse_item_frames env henv item hk.1 st stmt st1 h1).1
    rw [ih2 st1 (by rw [hf]; exact hst)]
theorem parse_item_agrees (env : Env) (henv : env_keeps env) :
    ∀ (item : SrcItem) (nested : Bool), item.keeps →
      agree nested (parse_item env item) (parse_item_nested env nested item)
  | .vardecl decl, nested, _ => by
    intro st _
    rw [parse_item, parse_item_nested]
  | .case_ value, nested, _ => by
    intro st _
    rw [parse_item, parse_item_nested]
  | .default_, nested, _ => by
    intro st _
    rw [parse_item, parse_item_nested]
  | .stmt s, nested, hk => by
    simp only [SrcItem.keeps] at hk
    have ih := parse_stmt_agrees env henv s nested hk
    intro st hst
    rw [parse_item, parse_item_nested, ih st hst]
end

theorem read_expr_keeps (e : Expr) : action_keeps (read_expr e) := by
  intro st a st1 h
  simp only [read_expr] at h
  injection h with _ h
  subst h
  exact ⟨rfl, rfl, rfl⟩

/-- C12: let `nested` tell whether the place of the parser is inside the body
of a `while`, `do`, `for` or `switch` of the function, the `LF_BREAK` bit of
`curloopflag` being set exactly then. The parser then treats every `break` of
the items and statements that follow as the check by nesting does: an error is
recorded for a `break` exactly when no loop or switch body encloses it. At the
place itself, `parse_break_continue` returns with nothing recorded when `nested`
holds and counts one error when it does not. -/
theorem break_error_iff_not_nested (env : Env) (items : List SrcItem) (nested : Bool)
    (st : ParseState) (henv : env_keeps env) (hk : SrcItem.keeps_all items)
    (hst : st.curloopflag &&& LF_BREAK ≠ 0 ↔ nested = true) :
    parse_stmts env items st = parse_stmts_nested env nested items st ∧
    (∀ s : SrcStmt, s.keeps → parse_stmt env s st = parse_stmt_nested env nested s st) ∧
    (nested = true → parse_break_continue .ST_BREAK st = .ok .break_ st) ∧
    (nested = false → ∃ st1, (parse_break_continue .ST_BREAK st).state = some st1 ∧
      st1 = st.record "`break' cannot be used outside of loop") := by
  refine ⟨parse_stmts_agrees env henv items nested hk st hst,
    fun s hs => parse_stmt_agrees env henv s nested hs st hst, fun hn => ?_, fun hn => ?_⟩
  · subst hn
    rw [agree_break true st hst]
    rfl
  · subst hn
    rw [agree_break false st hst]
    simp only [parse_break_nested, Bool.not_false, if_true]
    by_cases hc : st.compile_error_count + 1 ≥ MAX_ERROR_COUNT
    · rw [parse_error_nofatal_exit st _ hc]
      exact ⟨_, rfl, rfl⟩
    · rw [parse_error_nofatal_ok st _ hc]
      exact ⟨_, rfl, rfl⟩

/-- Witness for claim C12: in the body of `f`, of the four `break` statements of
`break; while (x) break; switch (x) { case 0: break; } if (x) break;` the first
and the last are rejected. -/
theorem break_error_iff_not_nested_witness :
    (function_state.curloopflag &&& LF_BREAK ≠ 0 ↔ false = true) ∧
    parse_stmts spec_env break_items function_state
      = parse_stmts_nested spec_env false break_items function_state ∧
    (parse_stmts spec_env break_items function_state).report
      = some (2, ["`break' cannot be used outside of loop",
          "`break' cannot be used outside of loop"]) ∧
    (parse_stmts spec_env break_items function_state).returned = true := by
  have hst : function_state.curloopflag &&& LF_BREAK ≠ 0 ↔ false = true := by decide
  have hk : SrcItem.keeps_all break_items := by
    simp only [break_items, SrcItem.keeps_all, SrcItem.keeps, SrcStmt.keeps, and_true, true_and]
    exact ⟨read_expr_keeps _, read_expr_keeps _, read_expr_keeps _⟩
  exact ⟨hst,
    (break_error_iff_not_nested spec_env break_items false function_state spec_env_keeps hk
      hst).1, by decide!, by decide!⟩

/-! ### The check of the goto labels, with the cap -/

theorem check_goto_labels_loop_spec (table : Option (List Name)) (labels : List Name)
    (htable : ∀ n, n ∈ labels ↔ ∃ t, table = some t ∧ n ∈ t) :
    ∀ (names : List Name) (st : ParseState),
      st.compile_error_count < MAX_ERROR_COUNT →
      (st.compile_error_count + (names.filter fun l => !labels.contains l).length
          < MAX_ERROR_COUNT →
        check_goto_labels_loop table (names.map Stmt.goto_) st =
          .ok () (st.record_times "`%.*s' not found"
            (names.filter fun l => !labels.contains l).length)) ∧
      (MAX_ERROR_COUNT ≤ st.compile_error_count
          + (names.filter fun l => !labels.contains l).length →
        check_goto_labels_loop table (names.map Stmt.goto_) st =
          .exit 1 (st.record_times "`%.*s' not found"
            (MAX_ERROR_COUNT - st.compile_error_count))) := by
  have hfound : ∀ l, label_missing table l = !labels.contains l := by
    intro l
    have hmem : ∀ (xs : List Name), xs.contains l = true ↔ l ∈ xs := by
      intro xs
      simp
    have h1 : (!label_missing table l) = labels.contains l := by
      rw [Bool.eq_iff_iff, hmem labels, htable l]
      cases table with
      | none => simp [label_missing]
      | some t => simp [label_missing, label_table_try_get]
    rw [← h1]
    simp
  intro names
  induction names with
  | nil =>
    intro st hst
    refine ⟨fun _ => rfl, fun h => ?_⟩
    simp only [List.filter_nil, List.length_nil, Nat.add_zero] at h
    omega
  | cons l rest ih =>
    intro st hst
    simp only [List.map_cons, check_goto_labels_loop, hfound l]
    rw [List.filter_cons]
    by_cases hl : labels.contains l = true
    · simp only [hl, Bool.not_true, Bool.false_eq_true, if_false]
      exact ih st hst
    · have hl2 : labels.contains l = false := by
        cases h : labels.contains l with
        | true => exact absurd h hl
        | false => rfl
      simp only [hl2, Bool.not_false, if_true, List.length_cons]
      by_cases hc : st.compile_error_count + 1 ≥ MAX_ERROR_COUNT
      · rw [parse_error_nofatal_exit st _ hc]
        have hm : MAX_ERROR_COUNT - st.compile_error_count = 1 := by omega
        refine ⟨fun h => by omega, fun _ => ?_⟩
        rw [hm]
        rfl
      · rw [parse_error_nofatal_ok st _ hc]
        have hrec : (st.record "`%.*s' not found").compile_error_count
            = st.compile_error_count + 1 := rfl
        obtain ⟨ih1, ih2⟩ := ih (st.record "`%.*s' not found") (by rw [hrec]; omega)
        rw [hrec] at ih1 ih2
        refine ⟨fun h => ?_, fun h => ?_⟩
        · simp only [Result.bind]
          rw [ih1 (by omega)]
          rfl
        · simp only [Result.bind]
          rw [ih2 (by omega)]
          have hm : MAX_ERROR_COUNT - st.compile_error_count
              = (MAX_ERROR_COUNT - (st.compile_error_count + 1)) + 1 := by omega
          rw [hm]
          rfl

theorem record_times_spec (fmt : String) :
    ∀ (k : Nat) (st : ParseState),
      (st.record_times fmt k).compile_error_count = st.compile_error_count + k ∧
      (st.record_times fmt k).errors = st.errors ++ List.replicate k fmt := by
  intro k
  induction k with
  | zero => intro st; simp [ParseState.record_times]
  | succ k ih =>
    intro st
    obtain ⟨h1, h2⟩ := ih (st.record fmt)
    have h3 : (st.record fmt).compile_error_count = st.compile_error_count + 1 := rfl
    have h4 : (st.record fmt).errors = st.errors ++ [fmt] := rfl
    refine ⟨?_, ?_⟩
    · show ((st.record fmt).record_times fmt k).compile_error_count = _
      rw [h1, h3]
      omega
    · show ((st.record fmt).record_times fmt k).errors = _
      rw [h2, h4, List.replicate_succ, List.append_assoc, List.singleton_append]

theorem parse_defun_body_spec (env : Env) (henv : env_keeps env) (func : Function)
    (err : Bool) (params : Option (List VarInfo)) (items : List SrcItem)
    (hk : SrcItem.keeps_all items) (st : ParseState) (f : Function) (st_b : ParseState)
    (hg : func.gotos = none) (hl : func.label_table = none)
    (h : parse_defun_body env func err params items st = .ok f st_b) :
    st_b.curfunc = some f ∧
    goto_list (some f) = (SrcItem.gotos_all items).map Stmt.goto_ ∧
    ∀ n, n ∈ label_list (some f) ↔ n ∈ SrcItem.labels_all items := by
  simp only [parse_defun_body, Result.bind_eq_ok] at h
  obtain ⟨u, st1, _, h⟩ := h
  by_cases h1 : st1.curfunc.isSome = true
  · rw [if_pos h1] at h
    cases h
  · rw [if_neg h1] at h
    by_cases h2 : (!is_global_scope st1.curscope) = true
    · rw [if_pos h2] at h
      cases h
    · rw [if_neg h2] at h
      simp only [Result.bind_eq_ok] at h
      obtain ⟨sc, st3, e1, stmts, st4, e2, u2, st5, e3, h⟩ := h
      by_cases h3 : (!is_global_scope st5.curscope) = true
      · rw [if_pos h3] at h
        cases h
      · rw [if_neg h3] at h
        obtain ⟨_, _, _, a4, a5⟩ := enter_scope_extends _ _ _ _ e1
        obtain ⟨_, _, _, b4, b5⟩ := parse_stmts_frames env henv items hk st3 stmts st4 e2
        obtain ⟨_, _, _, c1⟩ := exit_scope_spec st4 st5 e3
        have c3 : st5.curfunc = st4.curfunc := by rw [c1]
        cases hf5 : st5.curfunc with
        | none => rw [hf5] at h; cases h
        | some f5 =>
          rw [hf5] at h
          injection h with h4 h5
          subst h4
          subst h5
          have g0 : goto_list st3.curfunc = [] := by
            rw [a4]
            simp [goto_list, hg]
          have l0 : label_list st3.curfunc = [] := by
            rw [a5]
            simp [label_list, hl]
          have g5 : goto_list (some f5) = (SrcItem.gotos_all items).map Stmt.goto_ := by
            rw [← hf5, c3, b4, g0, List.nil_append]
          have l5 : ∀ n, n ∈ label_list (some f5) ↔ n ∈ SrcItem.labels_all items := by
            intro n
            rw [← hf5, c3, b5, l0]
            simp
          exact ⟨rfl, g5, l5⟩

/-- C13, amended: after a function body has been parsed with fewer than 25
errors counted, `parse_defun` records the error "not found" once for each `goto`
whose label the body defines nowhere, and none for a `goto` whose label is
defined before or after it, as long as the error count stays below 25; then it
returns. The error that brings the count to 25 ends the process with status 1,
and the gotos after it are not checked. -/
theorem parse_defun_goto_errors (env : Env) (ret : CType) (ptypes : List CType)
    (vaargs : Bool) (storage : Nat) (ident : Name) (params : Option (List VarInfo))
    (items : List SrcItem) (st : ParseState) (f : Function) (st_b : ParseState)
    (henv : env_keeps env) (hk : SrcItem.keeps_all items)
    (hparsed : (parse_defun_entry (.func ret ptypes vaargs) storage ident st).bind
      (fun r st1 => parse_defun_body env (new_func (.func ret ptypes vaargs) ident) r.2
        params items st1) = .ok f st_b)
    (hcount : st_b.compile_error_count < MAX_ERROR_COUNT) :
    (st_b.compile_error_count + (undefined_gotos items).length < MAX_ERROR_COUNT →
      parse_defun env (.func ret ptypes vaargs) storage ident params (some items) st =
        .ok f { st_b.record_times "`%.*s' not found" (undefined_gotos items).length with
          curfunc := none }) ∧
    (MAX_ERROR_COUNT ≤ st_b.compile_error_count + (undefined_gotos items).length →
      parse_defun env (.func ret ptypes vaargs) storage ident params (some items) st =
        .exit 1 (st_b.record_times "`%.*s' not found"
          (MAX_ERROR_COUNT - st_b.compile_error_count))) ∧
    (∀ k, (st_b.record_times "`%.*s' not found" k).compile_error_count
        = st_b.compile_error_count + k ∧
      (st_b.record_times "`%.*s' not found" k).errors
        = st_b.errors ++ List.replicate k "`%.*s' not found") := by
  obtain ⟨r, st_a, hentry, hbody⟩ := (Result.bind_eq_ok _ _ _ _).mp hparsed
  obtain ⟨v, err⟩ := r
  obtain ⟨_, hgoto, hlab⟩ := parse_defun_body_spec env henv _ err params items hk st_a f st_b
    rfl rfl hbody
  have hdefun : parse_defun env (.func ret ptypes vaargs) storage ident params (some items) st
      = (check_goto_labels f st_b).bind fun _ st3 => .ok f { st3 with curfunc := none } := by
    simp only [parse_defun, hentry, Result.bind]
    simp only [hbody]
  have hcheck : (st_b.compile_error_count + (undefined_gotos items).length < MAX_ERROR_COUNT →
        check_goto_labels f st_b = .ok () (st_b.record_times "`%.*s' not found"
          (undefined_gotos items).length)) ∧
      (MAX_ERROR_COUNT ≤ st_b.compile_error_count + (undefined_gotos items).length →
        check_goto_labels f st_b = .exit 1 (st_b.record_times "`%.*s' not found"
          (MAX_ERROR_COUNT - st_b.compile_error_count))) := by
    simp only [check_goto_labels]
    cases hg : f.gotos with
    | none =>
      have hnil : SrcItem.gotos_all items = [] := by
        have : (SrcItem.gotos_all items).map Stmt.goto_ = [] := by
          rw [← hgoto]
          simp [goto_list, hg]
        simpa using this
      simp only [undefined_gotos, hnil, List.filter_nil, List.length_nil, Nat.add_zero]
      exact ⟨fun _ => rfl, fun h => by omega⟩
    | some g =>
      have hg2 : g = (SrcItem.gotos_all items).map Stmt.goto_ := by
        rw [← hgoto]
        simp [goto_list, hg]
      rw [hg2]
      refine check_goto_labels_loop_spec f.label_table (SrcItem.labels_all items) ?_
        (SrcItem.gotos_all items) st_b hcount
      intro n
      rw [← hlab n]
      cases hlt : f.label_table with
      | none => simp [label_list, hlt]
      | some t => simp [label_list, hlt]
  refine ⟨fun h => ?_, fun h => ?_, fun k => record_times_spec _ k st_b⟩
  · rw [hdefun, hcheck.1 h]
    rfl
  · rw [hdefun, hcheck.2 h]
    rfl

theorem Result.report_ok {α : Type} (r : Result α) (a : α) (st : ParseState)
    (h : r = .ok a st) : r.report = some (st.compile_error_count, st.errors) := by
  subst h
  rfl

/-- Witness for claim C13: for the body `goto K; goto L; K: ; goto N;` two errors
are recorded, for `L` and for `N`, and none for the forward reference to `K`. -/
theorem parse_defun_goto_errors_witness :
    undefined_gotos goto_items = [.ident 11, .ident 12] ∧
    (parse_defun spec_env void_int_func 0 (.ident 0) (some [param_x]) (some goto_items)
      init_state).report = some (2, ["`%.*s' not found", "`%.*s' not found"]) ∧
    ∃ (f : Function) (st_b : ParseState),
      parse_defun spec_env void_int_func 0 (.ident 0) (some [param_x]) (some goto_items)
          init_state =
        .ok f { st_b.record_times "`%.*s' not found" (undefined_gotos goto_items).length with
          curfunc := none } := by
  refine ⟨by decide, by decide!, ?_⟩
  have hret : ((parse_defun_entry void_int_func 0 (.ident 0) init_state).bind
      (fun r st1 => parse_defun_body spec_env (new_func void_int_func (.ident 0)) r.2
        (some [param_x]) goto_items st1)).report = some (0, []) := by
    decide!
  obtain ⟨f, st_b, h⟩ := (Result.returned_iff
    ((parse_defun_entry void_int_func 0 (.ident 0) init_state).bind
      (fun r st1 => parse_defun_body spec_env (new_func void_int_func (.ident 0)) r.2
        (some [param_x]) goto_items st1))).mp (by decide!)
  have hc : st_b.compile_error_count = 0 := by
    rw [Result.report_ok _ f st_b h] at hret
    simp only [Option.some.injEq, Prod.mk.injEq] at hret
    exact hret.1
  have hk : SrcItem.keeps_all goto_items := by
    simp [goto_items, SrcItem.keeps_all, SrcItem.keeps, SrcStmt.keeps]
  have hlen : (undefined_gotos goto_items).length = 2 := by decide
  refine ⟨f, st_b, (parse_defun_goto_errors spec_env .void [tyInt] false 0 (.ident 0)
    (some [param_x]) goto_items init_state f st_b spec_env_keeps hk h ?_).1 ?_⟩
  · rw [hc]
    decide
  · rw [hc, hlen]
    decide

/-! ### The entry address of the executable -/

/-- C21: the entry address written to the ELF header is the address of the
label `_start` in the label table, the header is written once and first; when
the table has no `_start` the assembler stops with the error message and status
1 and nothing is written. -/
theorem as_write_executable_entry (label_table : List (List Char × LabelInfo))
    (code data : SectionSize) :
    (∀ entry, label_table_get label_table start_name = some entry →
      (as_write_executable label_table code data).1 = 0 ∧
      ∃ phnum rest, (as_write_executable label_table code data).2
          = .elf_header entry.address phnum :: rest ∧
        ∀ e ∈ rest, e.is_elf_header = false) ∧
    (label_table_get label_table start_name = none →
      as_write_executable label_table code data = (1, [.error "Cannot find label: `%s'"])) := by
  constructor
  · intro entry h
    by_cases h1 : data.memsz > 0 <;> by_cases h2 : data.filesz > 0 <;>
      simp only [as_write_executable, h, h1, h2, if_true, if_false, List.cons_append,
        List.nil_append, List.append_nil, gt_iff_lt, Nat.lt_irrefl, Nat.one_lt_ofNat] <;>
      exact ⟨trivial, _, _, rfl, by simp [AsEvent.is_elf_header]⟩
  · intro h
    simp only [as_write_executable, h]

/-! ### add_var_to_scope with an extern declaration -/

/-- C23: when the scope already has the name and the existing or the new
declaration is `extern`, `add_var_to_scope` passes its own test and calls
`scope_add`, where `var_add` finds the name and ends the process with the fatal
error "already defined": the redeclaration is not accepted. -/
theorem add_var_to_scope_extern_redeclared (scope : Scope) (name : Name) (type : CType)
    (storage : Nat) (st : ParseState) (vars : List VarInfo) (varinfo : VarInfo)
    (hvars : scope.vars = some vars) (hfind : var_find vars name ≥ 0)
    (hget : vars.get? (var_find vars name).toNat = some varinfo)
    (hext : varinfo.storage &&& VS_EXTERN ≠ 0 ∨ storage &&& VS_EXTERN ≠ 0) :
    add_var_to_scope scope name type storage st = parse_error st "`%.*s' already defined" := by
  simp only [add_var_to_scope, hvars, hfind, if_true, hget, hext, not_true_eq_false, if_false,
    scope_add, var_add]
  rfl

/-- Witness for claim C23: `int x;` after `extern int x;` in the same scope. -/
theorem add_var_to_scope_extern_redeclared_witness :
    add_var_to_scope extern_scope (.ident 1) tyInt 0 init_state
      = parse_error init_state "`%.*s' already defined" :=
  add_var_to_scope_extern_redeclared extern_scope (.ident 1) tyInt 0 init_state
    [{ name := some (.ident 1), type := tyInt, storage := VS_EXTERN }]
    { name := some (.ident 1), type := tyInt, storage := VS_EXTERN } rfl (by decide) rfl
    (Or.inl (by decide))

/-! ### fix_array_size on a string literal -/

/-- C24: for an unsized array of a character type and a single string literal,
`fix_array_size` returns the array type with the same element type and the
length `str.size` of the literal, which counts the terminating NUL; the state,
and with it every type stored in a scope, is as before. -/
theorem fix_array_size_string (elem t : CType) (buf : List Nat) (size : Nat)
    (st : ParseState) (helem : is_char_type elem = true) :
    fix_array_size (.array elem (-1)) (.single (.str t buf size)) st
      = .ok (.array elem (size : Int)) st := by
  simp [fix_array_size, helem, Initializer.is_single_str, Initializer.str_size]

/-- Witness for claim C24: `char s[] = "foo";` gets the length 4. -/
theorem fix_array_size_string_witness :
    fix_array_size (.array tyChar (-1))
        (.single (.str (.array tyChar 4) [102, 111, 111, 0] 4)) init_state
      = .ok (.array tyChar 4) init_state :=
  fix_array_size_string tyChar (.array tyChar 4) [102, 111, 111, 0] 4 init_state rfl

/-! ### The struct loop of flatten_initializer after an unknown designator -/

/-- C30: for `struct P { int x, y; }` and the list `{.z = 1, 2}` the designator
`.z` sets `index` to the -1 that `var_find` returns; after the non-fatal error
the loop goes on with that index, and the value `2` is stored at `values[-1]`,
outside the vector (an `abort` of the model). -/
theorem flatten_initializer_index_below_zero :
    var_find [{ name := some (.ident 1), type := tyInt, storage := 0 },
      { name := some (.ident 2), type := tyInt, storage := 0 }] (.ident 9) = -1 ∧
    (parse_error_nofatal init_state "`%.*s' is not member of struct").returned = true ∧
    (flatten_struct_store spec_env
      [{ name := some (.ident 1), type := tyInt, storage := 0 },
        { name := some (.ident 2), type := tyInt, storage := 0 }] (-1)
      (.single (.fixnum tyInt 2)) [.null, .null]
      (init_state.record "`%.*s' is not member of struct")).aborted = true ∧
    (flatten_initializer spec_env struct_P init_no_member init_state).aborted = true := by
  decide!

/-! ### The array loop of assign_initial_value -/

theorem advance_stmt_eq (ptr_type : CType) (ptr_var : Expr) (k prev elem_size : Nat)
    (hle : prev ≤ k) (hk : k < 2 ^ 63) (hbytes : k * elem_size < 2 ^ 63) :
    size_sub k prev = k - prev ∧
    advance_stmt ptr_type ptr_var (size_sub k prev) elem_size
      = advance_by ptr_type ptr_var ((((k : Nat) : Int) - ((prev : Nat) : Int)) * elem_size) := by
  have hsub : size_sub k prev = k - prev := by
    have := @size_sub_add_eq prev (k - prev) (by omega)
    rwa [Nat.add_sub_cancel' hle] at this
  refine ⟨hsub, ?_⟩
  have hmul : (k - prev) * elem_size ≤ k * elem_size := Nat.mul_le_mul_right _ (Nat.sub_le _ _)
  have h1 : size_mul (k - prev) elem_size = (k - prev) * elem_size := by
    unfold size_mul
    exact Nat.mod_eq_of_lt (by omega)
  have h2 : size_to_fixnum ((k - prev) * elem_size) = (((k - prev) * elem_size : Nat) : Int) :=
    size_to_fixnum_eq (by omega)
  simp only [advance_stmt, advance_by, hsub, h1, h2]
  congr 5
  push_cast [Nat.cast_sub hle]
  ring

theorem assign_array_elems_by_index (env : Env) (ptr_type : CType) (ptr_var : Expr)
    (elem_size : Nat) :
    ∀ (fuel : Nat) (data : List Initializer) (prev index : Nat) (inits : List Stmt)
      (st : ParseState),
      (∀ x ∈ data, is_array_elem x = true) →
      prev ≤ index →
      List.Chain (· ≤ ·) ((prev : Nat) : Int) (logical_indices_from ((index : Nat) : Int) data) →
      (∀ k ∈ logical_indices_from ((index : Nat) : Int) data,
        k < 2 ^ 63 ∧ k * elem_size < 2 ^ 63) →
      assign_array_elems env fuel ptr_type ptr_var elem_size data prev index inits st =
        assign_elems_by_index env fuel ptr_type ptr_var elem_size
          (List.zip (logical_indices_from ((index : Nat) : Int) data) data) ((prev : Nat) : Int)
          inits st := by
  intro fuel
  induction fuel with
  | zero =>
    intro data prev index inits st _ _ _ _
    simp [assign_array_elems, assign_elems_by_index]
  | succ fuel ih =>
    intro data prev index inits st hdata hle hasc hbound
    cases data with
    | nil => simp [assign_array_elems, assign_elems_by_index, logical_indices_from]
    | cons e rest =>
      have he := hdata e (List.mem_cons_self _ _)
      have hrest : ∀ x ∈ rest, is_array_elem x = true :=
        fun x hx => hdata x (List.mem_cons_of_mem _ hx)
      -- the logical index of the element, as a natural number
      have key : ∃ k : Nat, prev ≤ k ∧ k < 2 ^ 63 ∧ k * elem_size < 2 ^ 63 ∧
          logical_indices_from ((index : Nat) : Int) (e :: rest)
            = ((k : Nat) : Int) :: logical_indices_from (((k + 1 : Nat) : Nat) : Int) rest ∧
          assign_array_elems env (fuel + 1) ptr_type ptr_var elem_size (e :: rest) prev index
              inits st =
            (match assign_initial_value env fuel (.unary .EX_DEREF ptr_type.pointee ptr_var)
                e.arr_value
                (some (if size_sub k prev > 0 then
                  inits ++ [advance_stmt ptr_type ptr_var (size_sub k prev) elem_size]
                  else inits)) st with
            | some (.ok inits2 st1) =>
              assign_array_elems env fuel ptr_type ptr_var elem_size rest k (size_add k 1)
                (inits_vector inits2) st1
            | other => other) := by
        rcases is_array_elem_cases he with ⟨x, rfl⟩ | ⟨m, rfl⟩ | ⟨t, d, v, rfl, hd0, hd1⟩
        · have hli := logical_indices_from_cons_none ((index : Nat) : Int) rest
            (show (Initializer.single x).designator = none from rfl)
          have hb := hbound _ (by rw [hli]; exact List.mem_cons_self _ _)
          refine ⟨index, hle, by exact_mod_cast hb.1, by exact_mod_cast hb.2, ?_, ?_⟩
          · rw [hli]
            push_cast
            rfl
          · simp only [assign_array_elems, Initializer.arr_value]
        · have hli := logical_indices_from_cons_none ((index : Nat) : Int) rest
            (show (Initializer.multi m).designator = none from rfl)
          have hb := hbound _ (by rw [hli]; exact List.mem_cons_self _ _)
          refine ⟨index, hle, by exact_mod_cast hb.1, by exact_mod_cast hb.2, ?_, ?_⟩
          · rw [hli]
            push_cast
            rfl
          · simp only [assign_array_elems, Initializer.arr_value]
        · have hli := logical_indices_from_cons_some ((index : Nat) : Int) rest
            (show (Initializer.arr (.fixnum t d) v).designator = some d from rfl)
          have hb := hbound _ (by rw [hli]; exact List.mem_cons_self _ _)
          have hpd : ((prev : Nat) : Int) ≤ d := by
            rw [hli] at hasc
            exact (List.chain_cons.mp hasc).1
          have hdn : ((d.toNat : Nat) : Int) = d := Int.toNat_of_nonneg hd0
          refine ⟨d.toNat, by omega, by omega, ?_, ?_, ?_⟩
          · have := hb.2
            rw [← hdn] at this
            exact_mod_cast this
          · rw [hli]
            push_cast
            rw [hdn]
          · simp only [assign_array_elems, fixnum_to_size_eq hd0 hd1, Initializer.arr_value]
      obtain ⟨k, hpk, hk, hbytes, hli, hdes⟩ := key
      obtain ⟨hsub, hadv⟩ := advance_stmt_eq ptr_type ptr_var k prev elem_size hpk hk hbytes
      have hcond : (size_sub k prev > 0) ↔ (((k : Nat) : Int) ≠ ((prev : Nat) : Int)) := by
        rw [hsub]
        omega
      have hinits : (if size_sub k prev > 0 then
            inits ++ [advance_stmt ptr_type ptr_var (size_sub k prev) elem_size] else inits)
          = (if ((k : Nat) : Int) ≠ ((prev : Nat) : Int) then
            inits ++ [advance_by ptr_type ptr_var
              ((((k : Nat) : Int) - ((prev : Nat) : Int)) * elem_size)] else inits) := by
        by_cases hc : size_sub k prev > 0
        · rw [if_pos hc, if_pos (hcond.mp hc), hadv]
        · rw [if_neg hc, if_neg (fun h => hc (hcond.mpr h))]
      have hasc2 : List.Chain (· ≤ ·) ((k : Nat) : Int)
          (logical_indices_from (((k + 1 : Nat) : Nat) : Int) rest) := by
        rw [hli] at hasc
        exact (List.chain_cons.mp hasc).2
      have hbound2 : ∀ j ∈ logical_indices_from (((k + 1 : Nat) : Nat) : Int) rest,
          j < 2 ^ 63 ∧ j * elem_size < 2 ^ 63 := by
        intro j hj
        exact hbound j (by rw [hli]; exact List.mem_cons_of_mem _ hj)
      have hadd : size_add k 1 = k + 1 := size_add_eq (by omega)
      have hnext := fun inits2 st1 =>
        ih rest k (k + 1) inits2 st1 hrest (Nat.le_succ k) hasc2 hbound2
      rw [hli, hdes]
      simp only [List.zip_cons_cons, assign_elems_by_index, hinits, hadd]
      cases hcall : assign_initial_value env fuel (.unary .EX_DEREF ptr_type.pointee ptr_var)
          e.arr_value (some (if ((k : Nat) : Int) ≠ ((prev : Nat) : Int) then
            inits ++ [advance_by ptr_type ptr_var
              ((((k : Nat) : Int) - ((prev : Nat) : Int)) * elem_size)] else inits)) st with
      | none => rfl
      | some r =>
        cases r with
        | ok inits2 st1 => exact hnext (inits_vector inits2) st1
        | exit c st1 => rfl
        | abort => rfl
theorem add_dummy_var_fresh (type : CType) (st : ParseState) (varinfo : VarInfo)
    (st1 : ParseState) (h : add_dummy_var type st = .ok varinfo st1)
    (hfresh : scope_has st.curscope (.label st.label_count) = false) :
    varinfo.name = some (.label st.label_count) := by
  simp only [add_dummy_var, alloc_dummy_ident, alloc_label] at h
  have hfind : ∀ vars : List VarInfo, st.curscope.vars = some vars →
      ¬ var_find vars (Name.label st.label_count) ≥ 0 := by
    intro vars hv
    have hany : vars.any (fun v => decide (v.name = some (Name.label st.label_count))) = false := by
      simpa [scope_has, hv] using hfresh
    exact (var_find_spec (Name.label st.label_count) vars).1 hany
  have hadd : add_var_to_scope st.curscope (Name.label st.label_count) type 0
      { st with label_count := st.label_count + 1 }
      = scope_add st.curscope (Name.label st.label_count) type 0
        { st with label_count := st.label_count + 1 } := by
    simp only [add_var_to_scope]
    cases hv : st.curscope.vars with
    | none => rfl
    | some vars => simp only [hfind vars hv, if_false]
  rw [hadd] at h
  simp only [scope_add] at h
  have hvf : ¬ var_find (match st.curscope.vars with
      | some vs => vs
      | none => []) (Name.label st.label_count) ≥ 0 := by
    cases hv : st.curscope.vars with
    | none => simp [var_find, var_find_from]
    | some vars => exact hfind vars hv
  have hstat : ¬ (0 &&& VS_STATIC ≠ 0) := by decide
  simp only [var_add, hvf, if_false, hstat] at h
  injection h with h1 _
  rw [← h1]

/-- C25: for a local array whose flattened brace list has ascending logical
indices, `assign_initial_value` first appends the assignment of the array to a
new pointer variable, whose name is the label just allocated, and then treats
the elements as the specification words it: before the assignment of the element
with logical index `k` through the pointer, the pointer is advanced from the
index `pos` of the element before (0 at the start) by `(k - pos) * elem_size`
bytes, so that it stands `k * elem_size` bytes past the array address, and the
advancing statement is emitted only when `k` differs from `pos`. -/
theorem assign_initial_value_array_by_index (env : Env) (fuel : Nat) (expr : Expr)
    (elem : CType) (arr_len : Int) (init : Initializer) (data : List Initializer)
    (inits : Option (List Stmt)) (st st1 st2 : ParseState) (ptr_varinfo : VarInfo)
    (htype : expr.type = .array elem arr_len) (hinit : init ≠ .null)
    (hflat : flatten_initializer env (.array elem arr_len) init st = .ok (.multi data) st1)
    (hlen : arr_len > 0) (hfit : (data.length : Int) ≤ arr_len)
    (hscope : is_global_scope st1.curscope = false)
    (hptr : add_dummy_var (.ptr elem) st1 = .ok ptr_varinfo st2)
    (hdata : ∀ x ∈ data, is_array_elem x = true)
    (hasc : List.Chain (· ≤ ·) 0 (logical_indices data))
    (hbound : ∀ k ∈ logical_indices data, k < 2 ^ 63 ∧ k * type_size elem < 2 ^ 63) :
    assign_initial_value env (fuel + 1) expr init inits st =
      assign_elems_by_index env fuel (.ptr elem)
        (.var (.ptr elem) ptr_varinfo.name_or_dummy st2.curscope) (type_size elem)
        (List.zip (logical_indices data) data) 0
        (inits_vector inits ++
          [.expr (.bop .EX_ASSIGN (.ptr elem)
            (.var (.ptr elem) ptr_varinfo.name_or_dummy st2.curscope) expr)]) st2 ∧
    (scope_has st1.curscope (.label st1.label_count) = false →
      ptr_varinfo.name = some (.label st1.label_count)) := by
  refine ⟨?_, add_dummy_var_fresh _ _ _ _ hptr⟩
  have hloop := assign_array_elems_by_index env (.ptr elem)
    (.var (.ptr elem) ptr_varinfo.name_or_dummy st2.curscope) (type_size elem) fuel data 0 0
    (inits_vector inits ++
      [.expr (.bop .EX_ASSIGN (.ptr elem)
        (.var (.ptr elem) ptr_varinfo.name_or_dummy st2.curscope) expr)]) st2 hdata
    (le_refl _) hasc hbound
  have hnot : ¬ (¬ arr_len > 0) := by omega
  have hnot2 : ¬ ((data.length : Int) > arr_len) := by omega
  have hrw : assign_elems_by_index env fuel (.ptr elem)
        (.var (.ptr elem) ptr_varinfo.name_or_dummy st2.curscope) (type_size elem)
        (List.zip (logical_indices data) data) 0
        (inits_vector inits ++
          [.expr (.bop .EX_ASSIGN (.ptr elem)
            (.var (.ptr elem) ptr_varinfo.name_or_dummy st2.curscope) expr)]) st2
      = assign_array_elems env fuel (.ptr elem)
        (.var (.ptr elem) ptr_varinfo.name_or_dummy st2.curscope) (type_size elem) data 0 0
        (inits_vector inits ++
          [.expr (.bop .EX_ASSIGN (.ptr elem)
            (.var (.ptr elem) ptr_varinfo.name_or_dummy st2.curscope) expr)]) st2 :=
    hloop.symm
  rw [hrw]
  cases init with
  | null => exact absurd rfl hinit
  | single x =>
    simp only [assign_initial_value, htype, hflat, hnot, hnot2, if_false, hscope, array_to_ptr,
      hptr, Bool.false_eq_true]
  | multi l =>
    simp only [assign_initial_value, htype, hflat, hnot, hnot2, if_false, hscope, array_to_ptr,
      hptr, Bool.false_eq_true]
  | dot n v =>
    simp only [assign_initial_value, htype, hflat, hnot, hnot2, if_false, hscope, array_to_ptr,
      hptr, Bool.false_eq_true]
  | arr i v =>
    simp only [assign_initial_value, htype, hflat, hnot, hnot2, if_false, hscope, array_to_ptr,
      hptr, Bool.false_eq_true]

/-- Witness for claim C25: the list `1, [3] = 7, 8` for `int a[5]` inside a
function. -/
theorem assign_initial_value_array_by_index_witness :
    ∃ (ptr_varinfo : VarInfo) (st2 : ParseState),
      add_dummy_var (.ptr tyInt) array_state = .ok ptr_varinfo st2 ∧
      logical_indices array_init_example = [0, 3, 4] ∧
      assign_initial_value spec_env 10 array_a (.multi array_init_example) none array_state =
        assign_elems_by_index spec_env 9 (.ptr tyInt)
          (.var (.ptr tyInt) ptr_varinfo.name_or_dummy st2.curscope) (type_size tyInt)
          (List.zip (logical_indices array_init_example) array_init_example) 0
          (inits_vector none ++
            [.expr (.bop .EX_ASSIGN (.ptr tyInt)
              (.var (.ptr tyInt) ptr_varinfo.name_or_dummy st2.curscope) array_a)]) st2 ∧
      (assign_initial_value spec_env 10 array_a (.multi array_init_example) none
        array_state).map Result.returned = some true := by
  obtain ⟨v, st2, hptr⟩ := (Result.returned_iff (add_dummy_var (.ptr tyInt) array_state)).mp
    (by decide!)
  refine ⟨v, st2, hptr, by decide, ?_, by decide!⟩
  exact (assign_initial_value_array_by_index spec_env 9 array_a tyInt 5
    (.multi array_init_example) array_init_example none array_state array_state st2 v rfl
    (by simp) rfl (by decide) (by decide) rfl hptr
    (by simp [array_init_example, is_array_elem])
    (by rw [show logical_indices array_init_example = [0, 3, 4] from by decide]; simp)
    (by decide)).1

/-! ### The expression parser of the preprocessor -/

theorem with_tokens_with_tokens (inp : PpInput) (a b : List Token) :
    (inp.with_tokens a).with_tokens b = inp.with_tokens b := rfl

theorem pp_match_token_cons (kind : TokenKind) (inp : PpInput) (tok : Token) (ts : List Token) :
    pp_match_token kind (inp.with_tokens (tok :: ts))
      = if tok.kind = kind then some (tok, inp.with_tokens ts) else none := rfl

theorem pp_match_first_cons_eq (kinds : List TokenKind) (inp : PpInput) (tok : Token)
    (ts : List Token) :
    pp_match_first kinds (inp.with_tokens (tok :: ts))
      = if tok.kind ∈ kinds then some (tok, inp.with_tokens ts) else none := by
  induction kinds with
  | nil => simp [pp_match_first]
  | cons k ks ih =>
    simp only [pp_match_first, pp_match_token_cons, ih, List.mem_cons]
    by_cases h : tok.kind = k
    · simp [h]
    · simp [h]

theorem pp_match_first_nil_eq (kinds : List TokenKind) (inp : PpInput)
    (h : TokenKind.TK_EOF ∉ kinds) :
    pp_match_first kinds (inp.with_tokens []) = none := by
  induction kinds with
  | nil => simp [pp_match_first]
  | cons k ks ih =>
    simp only [List.mem_cons, not_or] at h
    have hk : ¬ k = TokenKind.TK_EOF := fun e => h.1 e.symm
    simp only [pp_match_first, pp_match_token, PpInput.with_tokens, hk, if_false]
    exact ih h.2

theorem runs_bind {f g : Nat → PpInput → Option (PpOutcome Int)}
    {K : Nat → Int → PpInput → Option (PpOutcome Int)}
    (hf : ∀ n inp, f (n + 1) inp = PpOutcome.bind (g n inp) (K n))
    {inp inp1 : PpInput} {v : Int} {r : PpOutcome Int}
    (hg : Runs g inp (.ok v inp1)) (hk : ∃ n0, ∀ n, n0 ≤ n → K n v inp1 = some r) :
    Runs f inp r := by
  obtain ⟨a, ha⟩ := hg
  obtain ⟨b, hb⟩ := hk
  refine ⟨max a b + 1, fun n hn => ?_⟩
  obtain ⟨k, rfl⟩ : ∃ k, n = k + 1 := ⟨n - 1, by omega⟩
  rw [hf, ha k (by omega)]
  exact hb k (by omega)

theorem runs_alias {f g : Nat → PpInput → Option (PpOutcome Int)}
    (hf : ∀ n inp, f (n + 1) inp = g n inp) {inp : PpInput} {r : PpOutcome Int}
    (hg : Runs g inp r) : Runs f inp r := by
  obtain ⟨a, ha⟩ := hg
  refine ⟨a + 1, fun n hn => ?_⟩
  obtain ⟨k, rfl⟩ : ∃ k, n = k + 1 := ⟨n - 1, by omega⟩
  rw [hf, ha k (by omega)]

theorem loop_of_runs {h : Nat → PpInput → Option (PpOutcome Int)} {kinds : List TokenKind}
    {apply : TokenKind → Int → Int → Option Int} {v w : Int} {inp out : PpInput}
    (hl : LoopRuns (Runs h) kinds apply v inp w out) :
    ∃ a b, ∀ n m, a ≤ n → b ≤ m →
      pp_binary_loop (h n) kinds apply m v inp = some (.ok w out) := by
  induction hl with
  | stop v inp hm =>
    refine ⟨0, 1, fun n m _ hm1 => ?_⟩
    obtain ⟨k, rfl⟩ : ∃ k, m = k + 1 := ⟨m - 1, by omega⟩
    simp only [pp_binary_loop, hm]
  | step v inp tok inp1 rhs inp2 v1 w out hm ho ha _ ih =>
    obtain ⟨c, hc⟩ := ho
    obtain ⟨a, b, hab⟩ := ih
    refine ⟨max a c, b + 1, fun n m hn hm1 => ?_⟩
    obtain ⟨k, rfl⟩ : ∃ k, m = k + 1 := ⟨m - 1, by omega⟩
    simp only [pp_binary_loop, hm, hc n (by omega), PpOutcome.bind, ha]
    exact hab n k (by omega) (by omega)

theorem runs_of_loop {f g h : Nat → PpInput → Option (PpOutcome Int)}
    {kinds : List TokenKind} {apply : TokenKind → Int → Int → Option Int}
    (hf : ∀ n inp, f (n + 1) inp
      = PpOutcome.bind (g n inp) (pp_binary_loop (h n) kinds apply n))
    {inp inp1 out : PpInput} {v w : Int}
    (hg : Runs g inp (.ok v inp1)) (hl : LoopRuns (Runs h) kinds apply v inp1 w out) :
    Runs f inp (.ok w out) := by
  obtain ⟨a, b, hab⟩ := loop_of_runs hl
  exact runs_bind hf hg ⟨max a b, fun n hn => hab n n (by omega) (by omega)⟩

theorem LoopRuns.mono {p q : PpInput → PpOutcome Int → Prop} {kinds : List TokenKind}
    {apply : TokenKind → Int → Int → Option Int} (hpq : ∀ inp r, p inp r → q inp r)
    {v w : Int} {inp out : PpInput} (hl : LoopRuns p kinds apply v inp w out) :
    LoopRuns q kinds apply v inp w out := by
  induction hl with
  | stop v inp hm => exact .stop v inp hm
  | step v inp tok inp1 rhs inp2 v1 w out hm ho ha _ ih =>
    exact .step v inp tok inp1 rhs inp2 v1 w out hm (hpq _ _ ho) ha ih

theorem level_kinds_match (k : TokenKind) (L : Nat) (h : binop_level k = L) (hL : L ≤ 12) :
    k ∈ level_kinds L := by
  subst h
  cases k <;> simp [binop_level, level_kinds] at hL ⊢

theorem level_kinds_level (k : TokenKind) (L : Nat) (h : k ∈ level_kinds L) :
    binop_level k = L := by
  unfold level_kinds at h
  split at h <;> simp at h <;> (try rcases h with h | h | h | h) <;> subst_vars <;> rfl

theorem level_kinds_no_eof (L : Nat) : TokenKind.TK_EOF ∉ level_kinds L := by
  intro h
  have := level_kinds_level _ _ h
  unfold level_kinds at h
  split at h <;> simp at h

theorem level_apply_eq (k : TokenKind) (L : Nat) (a b : Int) (h : binop_level k = L)
    (hL : L ≤ 12) (h11 : L ≠ 11) : level_apply L k a b = binop_eval k a b := by
  subst h
  cases k <;> simp [binop_level] at hL h11 <;>
    simp [binop_level, level_apply, binop_eval, pp_mul_apply, pp_add_apply, pp_shift_apply,
      pp_cmp_apply, pp_eq_apply]
  · split_ifs <;> simp

theorem level_stop (env : PpEnv) (L : Nat) (v : Int) (inp : PpInput) (rest : List Token)
    (h : L < head_level rest) : LevelCont env L v (inp.with_tokens rest) v (inp.with_tokens rest) := by
  have hk : pp_match_first (level_kinds L) (inp.with_tokens rest) = none := by
    cases rest with
    | nil => exact pp_match_first_nil_eq _ _ (level_kinds_no_eof L)
    | cons tok ts =>
      rw [pp_match_first_cons_eq, if_neg]
      intro hm
      have := level_kinds_level _ _ hm
      simp only [head_level] at h
      omega
  unfold LevelCont
  split_ifs with h0 h11
  · exact ⟨rfl, rfl⟩
  · subst h11
    refine ⟨?_, rfl, rfl⟩
    have hk2 : pp_match_first [TokenKind.TK_QUESTION] (inp.with_tokens rest) = none := hk
    simp only [pp_match_first] at hk2
    cases hq : pp_match_token .TK_QUESTION (inp.with_tokens rest) with
    | none => rfl
    | some r =>
      rw [hq] at hk2
      exact absurd hk2 (by simp)
  · exact .stop _ _ hk

theorem level_intro (env : PpEnv) (L : Nat) (h1 : 1 ≤ L) (h12 : L ≤ 12)
    {inp inp1 out : PpInput} {v w : Int}
    (hg : Runs (pp_level env (L - 1)) inp (.ok v inp1)) (hc : LevelCont env L v inp1 w out) :
    Runs (pp_level env L) inp (.ok w out) := by
  unfold LevelCont at hc
  rw [if_neg (by omega)] at hc
  by_cases h11 : L = 11
  · subst h11
    rw [if_pos rfl] at hc
    obtain ⟨hq, rfl, rfl⟩ := hc
    refine runs_bind (f := pp_conditional env) (g := pp_logior env)
      (K := fun n => pp_conditional_loop (pp_expr env n) (pp_conditional env n) n)
      (fun _ _ => rfl) hg ⟨1, fun n hn => ?_⟩
    obtain ⟨k, rfl⟩ : ∃ k, n = k + 1 := ⟨n - 1, by omega⟩
    simp only [pp_conditional_loop, hq]
  · rw [if_neg h11] at hc
    have halias : ∀ inp r, Runs (pp_conditional env) inp r → Runs (pp_assign env) inp r :=
      fun inp r h => runs_alias (f := pp_assign env) (fun _ _ => rfl) h
    interval_cases L
    · exact runs_of_loop (f := pp_mul env) (fun _ _ => rfl) hg hc
    · exact runs_of_loop (f := pp_add env) (fun _ _ => rfl) hg hc
    · exact runs_of_loop (f := pp_shift env) (fun _ _ => rfl) hg hc
    · exact runs_of_loop (f := pp_cmp env) (fun _ _ => rfl) hg hc
    · exact runs_of_loop (f := pp_eq env) (fun _ _ => rfl) hg hc
    · exact runs_of_loop (f := pp_and env) (fun _ _ => rfl) hg hc
    · exact runs_of_loop (f := pp_xor env) (fun _ _ => rfl) hg hc
    · exact runs_of_loop (f := pp_or env) (fun _ _ => rfl) hg hc
    · exact runs_of_loop (f := pp_logand env) (fun _ _ => rfl) hg hc
    · exact runs_of_loop (f := pp_logior env) (fun _ _ => rfl) hg hc
    · exact absurd rfl h11
    · exact runs_of_loop (f := pp_expr env) (fun _ _ => rfl) (halias _ _ hg)
        (LoopRuns.mono halias hc)

theorem good_step (env : PpEnv) (L : Nat) (h1 : 1 ≤ L) (h12 : L ≤ 12) (ts : List Token)
    (v : Int) (h : GoodAt env (L - 1) ts v) : GoodAt env L ts v := by
  intro inp rest w out hrest hc
  exact level_intro env L h1 h12
    (h inp rest v (inp.with_tokens rest) (by omega) (level_stop env (L - 1) v inp rest (by omega)))
    hc

theorem good_lift (env : PpEnv) (M L : Nat) (hML : M ≤ L) (h12 : L ≤ 12) (ts : List Token)
    (v : Int) (h : GoodAt env M ts v) : GoodAt env L ts v := by
  induction L with
  | zero =>
    obtain rfl : M = 0 := by omega
    exact h
  | succ k ih =>
    by_cases hk : M = k + 1
    · subst hk
      exact h
    · exact good_step env (k + 1) (by omega) h12 ts v (ih (by omega) (by omega))

theorem good_runs (env : PpEnv) (M : Nat) (ts : List Token) (v : Int)
    (h : GoodAt env M ts v) (L : Nat) (hML : M ≤ L) (h12 : L ≤ 12) (inp : PpInput)
    (rest : List Token) (hrest : L < head_level rest) :
    Runs (pp_level env L) (inp.with_tokens (ts ++ rest)) (.ok v (inp.with_tokens rest)) :=
  good_lift env M L hML h12 ts v h inp rest v _ (by omega) (level_stop env L v inp rest hrest)

theorem cast_lit (env : PpEnv) (inp : PpInput) (tok : Token) (rest : List Token)
    (h : tok.kind ∈ literal_kinds) :
    Runs (pp_cast_expr env) (inp.with_tokens (tok :: rest))
      (.ok tok.fixnum (inp.with_tokens rest)) := by
  refine ⟨4, fun n hn => ?_⟩
  obtain ⟨k, rfl⟩ : ∃ k, n = k + 4 := ⟨n - 4, by omega⟩
  have h1 : tok.kind ≠ .TK_ADD := by rintro e; rw [e] at h; simp [literal_kinds] at h
  have h2 : tok.kind ≠ .TK_SUB := by rintro e; rw [e] at h; simp [literal_kinds] at h
  have h3 : tok.kind ≠ .TK_NOT := by rintro e; rw [e] at h; simp [literal_kinds] at h
  have h4 : tok.kind ≠ .TK_TILDA := by rintro e; rw [e] at h; simp [literal_kinds] at h
  have h5 : tok.kind ≠ .TK_LPAR := by rintro e; rw [e] at h; simp [literal_kinds] at h
  simp only [pp_cast_expr, pp_unary, pp_postfix, pp_prim, pp_match_token_cons,
    pp_match_first_cons_eq, if_neg h1, if_neg h2, if_neg h3, if_neg h4, if_neg h5, if_pos h]

theorem cast_paren (env : PpEnv) (inp : PpInput) (lp rp : Token) (ts rest : List Token)
    (v : Int) (hlp : lp.kind = .TK_LPAR) (hrp : rp.kind = .TK_RPAR)
    (h : Runs (pp_expr env) (inp.with_tokens ts) (.ok v (inp.with_tokens (rp :: rest)))) :
    Runs (pp_cast_expr env) (inp.with_tokens (lp :: ts)) (.ok v (inp.with_tokens rest)) := by
  obtain ⟨a, ha⟩ := h
  refine ⟨a + 4, fun n hn => ?_⟩
  obtain ⟨k, rfl⟩ : ∃ k, n = k + 4 := ⟨n - 4, by omega⟩
  have hk := ha k (by omega)
  simp only [pp_cast_expr, pp_unary, pp_postfix, pp_prim, pp_match_token_cons, hlp]
  simp only [reduceCtorEq, if_false, if_true]
  rw [hk]
  simp only [PpOutcome.bind, pp_consume, pp_match_token_cons, hrp, if_true]

theorem cast_unary (env : PpEnv) (inp out : PpInput) (tok : Token) (ts : List Token)
    (v : Int) (hk : tok.kind ∈ unary_kinds)
    (h : Runs (pp_cast_expr env) (inp.with_tokens ts) (.ok v out)) :
    Runs (pp_cast_expr env) (inp.with_tokens (tok :: ts))
      (.ok (unop_eval tok.kind v) out) := by
  obtain ⟨a, ha⟩ := h
  refine ⟨a + 2, fun n hn => ?_⟩
  obtain ⟨k, rfl⟩ : ∃ k, n = k + 2 := ⟨n - 2, by omega⟩
  simp only [unary_kinds, List.mem_cons, List.mem_singleton, List.not_mem_nil, or_false] at hk
  rcases hk with hk | hk | hk | hk <;>
    simp [pp_cast_expr, pp_unary, pp_match_token_cons, hk, ha k (by omega), PpOutcome.bind,
      unop_eval]

theorem loop_ok_stop (operand : PpInput → Option (PpOutcome Int)) (kinds : List TokenKind)
    (apply : TokenKind → Int → Int → Option Int) (m : Nat) :
    ∀ (v : Int) (inp : PpInput) (w : Int) (out : PpInput),
      pp_binary_loop operand kinds apply m v inp = some (.ok w out) →
      pp_match_first kinds out = none := by
  induction m with
  | zero => intro v inp w out h; simp [pp_binary_loop] at h
  | succ k ih =>
    intro v inp w out h
    simp only [pp_binary_loop] at h
    cases hm : pp_match_first kinds inp with
    | none =>
      rw [hm] at h
      simp only [Option.some.injEq, PpOutcome.ok.injEq] at h
      rw [← h.2]
      exact hm
    | some p =>
      obtain ⟨tok, inp1⟩ := p
      rw [hm] at h
      simp only at h
      cases ho : operand inp1 with
      | none => rw [ho] at h; simp [PpOutcome.bind] at h
      | some r =>
        rw [ho] at h
        cases r with
        | error msg => simp [PpOutcome.bind] at h
        | fault => simp [PpOutcome.bind] at h
        | ok rhs inp2 =>
          simp only [PpOutcome.bind] at h
          cases ha : apply tok.kind v rhs with
          | none => rw [ha] at h; simp at h
          | some v1 =>
            rw [ha] at h
            exact ih v1 inp2 w out h

theorem logand_stop (env : PpEnv) (inp out : PpInput) (x : Int)
    (h : Runs (pp_logand env) inp (.ok x out)) :
    pp_match_first [TokenKind.TK_LOGAND] out = none := by
  obtain ⟨n0, hn⟩ := h
  have h0 := hn n0 (le_refl _)
  cases n0 with
  | zero => simp [pp_logand] at h0
  | succ k =>
    simp only [pp_logand] at h0
    cases ho : pp_or env k inp with
    | none => rw [ho] at h0; simp [PpOutcome.bind] at h0
    | some r =>
      rw [ho] at h0
      cases r with
      | error msg => simp [PpOutcome.bind] at h0
      | fault => simp [PpOutcome.bind] at h0
      | ok v inp1 =>
        simp only [PpOutcome.bind] at h0
        exact loop_ok_stop _ _ _ _ _ _ _ _ h0

theorem cond_step (env : PpEnv) (inp inp1 inp2 inp3 inp4 inp5 : PpInput) (q col : Token)
    (vc va vb : Int) (hc : Runs (pp_logior env) inp (.ok vc inp1))
    (hq : pp_match_token .TK_QUESTION inp1 = some (q, inp2))
    (ha : Runs (pp_expr env) inp2 (.ok va inp3))
    (hcol : pp_match_token .TK_COLON inp3 = some (col, inp4))
    (hb : Runs (pp_conditional env) inp4 (.ok vb inp5))
    (hstop : pp_match_token .TK_QUESTION inp5 = none) :
    Runs (pp_conditional env) inp (.ok (if vc ≠ 0 then va else vb) inp5) := by
  obtain ⟨a, ha⟩ := ha
  obtain ⟨b, hb⟩ := hb
  refine runs_bind (f := pp_conditional env) (g := pp_logior env)
    (K := fun n => pp_conditional_loop (pp_expr env n) (pp_conditional env n) n)
    (fun _ _ => rfl) hc ⟨max a b + 2, fun n hn => ?_⟩
  obtain ⟨k, rfl⟩ : ∃ k, n = k + 2 := ⟨n - 2, by omega⟩
  simp only [pp_conditional_loop, hq, ha (k + 2) (by omega), PpOutcome.bind, pp_consume, hcol,
    hb (k + 2) (by omega), hstop]

theorem c_logand_assoc (a b c : Int) :
    c_logand a (c_logand b c) = c_logand (c_logand a b) c := by
  unfold c_logand
  by_cases ha : a = 0 <;> by_cases hb : b = 0 <;> by_cases hc : c = 0 <;> simp [ha, hb, hc]

theorem binop_level_nine (k : TokenKind) (h : binop_level k = 9) : k = .TK_LOGAND := by
  cases k <;> simp [binop_level] at h ⊢

theorem PpTree.level_le (e : PpTree) (h : e.wf = true) : e.level ≤ 12 := by
  cases e with
  | lit tok => simp [PpTree.level]
  | paren lp e rp => simp [PpTree.level]
  | unary tok e => simp [PpTree.level]
  | binary l tok r =>
    simp only [PpTree.wf, Bool.and_eq_true, decide_eq_true_eq] at h
    exact h.1.1.1.1.1
  | cond c q a col b => simp [PpTree.level]

theorem binop_level_pos (k : TokenKind) : 1 ≤ binop_level k := by
  cases k <;> simp [binop_level]

theorem tree_good (env : PpEnv) (e : PpTree) :
    e.wf = true → ∀ v, e.eval = some v → GoodAt env e.level e.toks v := by
  induction e with
  | lit tok =>
    intro hwf v hv inp rest w out _ hc
    simp only [PpTree.wf, Bool.and_eq_true, decide_eq_true_eq] at hwf
    simp only [PpTree.eval, Option.some.injEq] at hv
    simp only [PpTree.level, LevelCont, if_true] at hc
    obtain ⟨rfl, rfl⟩ := hc
    subst hv
    exact cast_lit env inp tok rest hwf.1.1
  | paren lp e rp ih =>
    intro hwf v hv inp rest w out _ hc
    simp only [PpTree.wf, Bool.and_eq_true, decide_eq_true_eq] at hwf
    obtain ⟨⟨hlp, hrp⟩, hwe⟩ := hwf
    simp only [PpTree.eval] at hv
    simp only [PpTree.level, LevelCont, if_true] at hc
    obtain ⟨rfl, rfl⟩ := hc
    have h12 := good_runs env e.level e.toks w (ih hwe w hv) 12 (e.level_le hwe) (le_refl _)
      inp (rp :: rest) (by simp [head_level, hrp, binop_level])
    have ht : (PpTree.paren lp e rp).toks ++ rest = lp :: (e.toks ++ rp :: rest) := by
      simp [PpTree.toks]
    rw [ht]
    exact cast_paren env inp lp rp _ rest w hlp hrp h12
  | unary tok e ih =>
    intro hwf v hv inp rest w out _ hc
    simp only [PpTree.wf, Bool.and_eq_true, decide_eq_true_eq] at hwf
    obtain ⟨⟨hk, hl⟩, hwe⟩ := hwf
    simp only [PpTree.level, LevelCont, if_true] at hc
    obtain ⟨rfl, rfl⟩ := hc
    cases he : e.eval with
    | none => simp [PpTree.eval, he] at hv
    | some x =>
      simp only [PpTree.eval, he, Option.map_some', Option.some.injEq] at hv
      subst hv
      have h0 := ih hwe x he
      rw [hl] at h0
      have hr := h0 inp rest x (inp.with_tokens rest) (Nat.zero_le _)
        (by simp [LevelCont])
      exact cast_unary env inp _ tok _ x hk hr
  | binary l tok r ihl ihr =>
    intro hwf v hv inp rest w out hrest hc
    simp only [PpTree.wf, Bool.and_eq_true, decide_eq_true_eq] at hwf
    obtain ⟨⟨⟨⟨⟨h12, h11⟩, hl⟩, hr⟩, hwl⟩, hwr⟩ := hwf
    cases hla : l.eval with
    | none => simp [PpTree.eval, hla] at hv
    | some a =>
      cases hrb : r.eval with
      | none => simp [PpTree.eval, hla, hrb] at hv
      | some b =>
        simp only [PpTree.eval, hla, hrb] at hv
        simp only [PpTree.level] at hrest hc ⊢
        have hm1 := binop_level_pos tok.kind
        have gl := good_lift env l.level _ hl h12 l.toks a (ihl hwl a hla)
        have ht : (PpTree.binary l tok r).toks ++ rest = l.toks ++ (tok :: (r.toks ++ rest)) := by
          simp [PpTree.toks]
        rw [ht]
        apply gl inp (tok :: (r.toks ++ rest)) w out (by simp [head_level])
        unfold LevelCont at hc ⊢
        rw [if_neg (by omega), if_neg h11] at hc ⊢
        have hmatch : pp_match_first (level_kinds (binop_level tok.kind))
            (inp.with_tokens (tok :: (r.toks ++ rest)))
            = some (tok, inp.with_tokens (r.toks ++ rest)) := by
          rw [pp_match_first_cons_eq, if_pos (level_kinds_match _ _ rfl h12)]
        have happ : level_apply (binop_level tok.kind) tok.kind a b = some v := by
          rw [level_apply_eq _ _ _ _ rfl h12 h11]
          exact hv
        by_cases h9 : binop_level tok.kind = 9
        · have hkind := binop_level_nine _ h9
          rw [h9] at hc hmatch happ hrest hr ⊢
          have gr9 := good_lift env r.level 9 (by omega) (by omega) r.toks b (ihr hwr b hrb)
          have hv2 : v = c_logand a b := by
            simpa [level_apply] using happ.symm
          simp only [level_rhs, level_kinds, level_apply] at hc ⊢
          cases hc with
          | stop _ _ hstop =>
            have hr9 := gr9 inp rest b _ hrest
              (by unfold LevelCont; rw [if_neg (by omega), if_neg (by omega)]; exact .stop _ _ hstop)
            exact .step _ _ tok _ b _ v v _ hmatch hr9 (by rw [hv2]) (.stop _ _ hstop)
          | step _ _ tok2 inp1 rhs inp2 v1 _ _ hm2 ho2 ha2 hl2 =>
            have hstop2 := logand_stop env _ _ _ ho2
            cases hl2 with
            | step _ _ _ _ _ _ _ _ _ hm3 _ _ _ =>
              rw [hstop2] at hm3
              exact absurd hm3 (by simp)
            | stop _ _ _ =>
              have hr9 := gr9 inp rest (c_logand b rhs) out hrest
                (by
                  unfold LevelCont
                  rw [if_neg (by omega), if_neg (by omega)]
                  exact .step _ _ tok2 inp1 rhs out _ _ _ hm2 ho2 rfl (.stop _ _ hstop2))
              refine .step _ _ tok _ (c_logand b rhs) out w w _ hmatch hr9 ?_ (.stop _ _ hstop2)
              simp only [Option.some.injEq] at ha2
              rw [← ha2, hv2, c_logand_assoc]
        · have hrhs : level_rhs (binop_level tok.kind) = binop_level tok.kind - 1 := by
            unfold level_rhs
            split
            · exact absurd (by assumption) h9
            · rfl
          have gr := good_runs env r.level r.toks b (ihr hwr b hrb) (binop_level tok.kind - 1)
            (by omega) (by omega) inp rest (by omega)
          exact .step _ _ tok _ b _ v w out hmatch (by rw [hrhs]; exact gr) happ hc
  | cond c q a col b ihc iha ihb =>
    intro hwf v hv inp rest w out hrest hc
    simp only [PpTree.wf, Bool.and_eq_true, decide_eq_true_eq] at hwf
    obtain ⟨⟨⟨⟨⟨⟨hq, hcol⟩, hcl⟩, hbl⟩, hwc⟩, hwa⟩, hwb⟩ := hwf
    cases hvc : c.eval with
    | none => simp [PpTree.eval, hvc] at hv
    | some vc =>
      cases hva : a.eval with
      | none => simp [PpTree.eval, hvc, hva] at hv
      | some va =>
        cases hvb : b.eval with
        | none => simp [PpTree.eval, hvc, hva, hvb] at hv
        | some vb =>
          simp only [PpTree.eval, hvc, hva, hvb, Option.some.injEq] at hv
          simp only [PpTree.level] at hrest hc ⊢
          unfold LevelCont at hc
          rw [if_neg (by omega), if_pos rfl] at hc
          obtain ⟨hq0, rfl, rfl⟩ := hc
          have ht : (PpTree.cond c q a col b).toks ++ rest
              = c.toks ++ (q :: (a.toks ++ (col :: (b.toks ++ rest)))) := by
            simp [PpTree.toks]
          rw [ht]
          have rc := good_runs env c.level c.toks vc (ihc hwc vc hvc) 10 hcl (by omega) inp
            (q :: (a.toks ++ (col :: (b.toks ++ rest)))) (by simp [head_level, hq, binop_level])
          have ra := good_runs env a.level a.toks va (iha hwa va hva) 12 (a.level_le hwa)
            (le_refl _) inp (col :: (b.toks ++ rest)) (by simp [head_level, hcol, binop_level])
          have rb := good_lift env b.level 11 hbl (by omega) b.toks vb (ihb hwb vb hvb) inp rest
            vb (inp.with_tokens rest) hrest
            (by unfold LevelCont; rw [if_neg (by omega), if_pos rfl]; exact ⟨hq0, rfl, rfl⟩)
          rw [← hv]
          exact cond_step env _ _ _ _ _ _ q col vc va vb rc
            (by rw [pp_match_token_cons, if_pos hq]) ra
            (by rw [pp_match_token_cons, if_pos hcol]) rb hq0

/-- C26: for every expression read by the precedence of C with binary operators
associating to the left (unary, multiplicative, additive, shift, relational,
equality, `&`, `^`, `|`, `&&`, `||`, conditional, comma) over integer literals
and parentheses, every literal holding a value of 64 bits, whose evaluation
meets no division or remainder without a value (by zero, or of -2^63 by -1,
where the code faults) and gives `v`, `pp_expr` on the tokens of the expression
returns `v` and leaves what follows, for every bound from some bound on, when
no operator follows. -/
theorem pp_expr_precedence (env : PpEnv) (e : PpTree) (v : Int) (inp : PpInput)
    (rest : List Token) (hwf : e.wf = true) (hv : e.eval = some v)
    (hrest : head_level rest = 13) :
    ∃ n0, ∀ n, n0 ≤ n →
      pp_expr env n (inp.with_tokens (e.toks ++ rest)) = some (.ok v (inp.with_tokens rest)) :=
  good_runs env e.level e.toks v (tree_good env e hwf v hv) 12 (e.level_le hwf) (le_refl _)
    inp rest (by omega)

theorem pp_expr_precedence_witness :
    (∃ n0, ∀ n, n0 ≤ n →
      pp_expr empty_pp_env n
          (line_input [int_token 1, op_token .TK_ADD, int_token 2, op_token .TK_MUL, int_token 3])
        = some (.ok 7 (line_input [])))
    ∧ (∃ n0, ∀ n, n0 ≤ n →
      pp_expr empty_pp_env n
          (line_input [int_token 10, op_token .TK_SUB, int_token 3, op_token .TK_SUB, int_token 2])
        = some (.ok 5 (line_input [])))
    ∧ (∃ n0, ∀ n, n0 ≤ n →
      pp_expr empty_pp_env n
          (line_input [int_token 1, op_token .TK_LSHIFT, int_token 2, op_token .TK_ADD,
            int_token 1])
        = some (.ok 8 (line_input []))) :=
  ⟨pp_expr_precedence empty_pp_env tree_add_mul 7 (line_input []) [] (by decide!) (by decide!) rfl,
    pp_expr_precedence empty_pp_env tree_sub_sub 5 (line_input []) [] (by decide!) (by decide!) rfl,
    pp_expr_precedence empty_pp_env tree_shift_add 8 (line_input []) [] (by decide!) (by decide!)
      rfl⟩

/-- The division that the evaluation of C26 leaves out beside the division by
zero: on `(-9223372036854775807-1) / -1` the run of `pp_expr` ends in the fault
of the division, whatever the bound from 40 on. -/
theorem pp_expr_least_by_minus_one (env : PpEnv) (n : Nat) :
    pp_expr env (n + 40) (line_input tokens_least_div) = some .fault :=
  rfl

/-- C27: the operands that C leaves unevaluated are evaluated: on `0 && 1/0`,
on `1 || 1/0` and on `1 ? 2 : 1%0` the run of `pp_expr` ends in the division by
zero, whatever the bound from 40 on. -/
theorem pp_expr_divides_in_unevaluated_operand (env : PpEnv) (n : Nat) :
    pp_expr env (n + 40) (line_input tokens_logand_div) = some .fault
    ∧ pp_expr env (n + 40) (line_input tokens_logior_div) = some .fault
    ∧ pp_expr env (n + 40) (line_input tokens_cond_mod) = some .fault :=
  ⟨rfl, rfl, rfl⟩

/-- C28: `pp_prim` gives 0 for an identifier that is neither `defined` nor the
name of a macro, and for `defined X` and `defined(X)` it gives 1 when `X` is the
name of a macro and 0 when it is not, whatever the bound from 2 on. -/
theorem pp_prim_ident_defined (env : PpEnv) (inp : PpInput) (d x lp rp : Token)
    (rest : List Token) (n : Nat) (hd : d.kind = .TK_IDENT) (hdn : d.ident = env.defined_name)
    (hx : x.kind = .TK_IDENT) (hlp : lp.kind = .TK_LPAR) (hrp : rp.kind = .TK_RPAR) :
    (x.ident ≠ env.defined_name → env.macro_get x.ident = none →
      pp_prim env (n + 2) (inp.with_tokens (x :: rest)) = some (.ok 0 (inp.with_tokens rest)))
    ∧ pp_prim env (n + 2) (inp.with_tokens (d :: x :: rest))
      = some (.ok (if (env.macro_get x.ident).isSome then 1 else 0) (inp.with_tokens rest))
    ∧ pp_prim env (n + 2) (inp.with_tokens (d :: lp :: x :: rp :: rest))
      = some (.ok (if (env.macro_get x.ident).isSome then 1 else 0) (inp.with_tokens rest)) := by
  have hx1 : x.kind ≠ .TK_LPAR := by rw [hx]; decide
  have hd1 : d.kind ≠ .TK_LPAR := by rw [hd]; decide
  have hx2 : x.kind ∉ literal_kinds := by rw [hx]; decide
  have hd2 : d.kind ∉ literal_kinds := by rw [hd]; decide
  refine ⟨fun hne hnone => ?_, ?_, ?_⟩
  · simp only [pp_prim, expand_ident, pp_match_token_cons, pp_match_first_cons_eq, if_neg hx1,
      if_neg hx2, pp_consume, if_pos hx, PpOutcome.bind, if_neg hne, hnone]
  · simp only [pp_prim, pp_match_token_cons, pp_match_first_cons_eq, if_neg hd1,
      if_neg hd2, pp_consume, if_pos hd, PpOutcome.bind, if_pos hdn, parse_defined, if_neg hx1,
      if_pos hx, Option.isSome_none]
    simp
  · simp only [pp_prim, pp_match_token_cons, pp_match_first_cons_eq, if_neg hd1,
      if_neg hd2, pp_consume, if_pos hd, PpOutcome.bind, if_pos hdn, parse_defined, if_pos hlp,
      if_pos hx, Option.isSome_some, if_pos hrp]
    simp

theorem pp_prim_ident_defined_witness :
    pp_prim one_macro_env 2 (line_input [ident_token (.ident 5)]) = some (.ok 0 (line_input []))
    ∧ pp_prim one_macro_env 2 (line_input [ident_token (.ident 1), ident_token (.ident 7)])
      = some (.ok 1 (line_input []))
    ∧ pp_prim one_macro_env 2
        (line_input [ident_token (.ident 1), op_token .TK_LPAR, ident_token (.ident 5),
          op_token .TK_RPAR])
      = some (.ok 0 (line_input [])) :=
  ⟨(pp_prim_ident_defined one_macro_env (line_input []) (ident_token (.ident 1))
      (ident_token (.ident 5)) (op_token .TK_LPAR) (op_token .TK_RPAR) [] 0 rfl rfl rfl rfl
      rfl).1 (by decide) rfl,
    (pp_prim_ident_defined one_macro_env (line_input []) (ident_token (.ident 1))
      (ident_token (.ident 7)) (op_token .TK_LPAR) (op_token .TK_RPAR) [] 0 rfl rfl rfl rfl
      rfl).2.1,
    (pp_prim_ident_defined one_macro_env (line_input []) (ident_token (.ident 1))
      (ident_token (.ident 5)) (op_token .TK_LPAR) (op_token .TK_RPAR) [] 0 rfl rfl rfl rfl
      rfl).2.2⟩

/-! ### pp_funargs -/


theorem span_eq_piece_text (buf : List Char) (cur : List Token) (s : FunargsState)
    (hs : s.start = cur.head?.map (fun t => t.begin_))
    (he : s.end_ = cur.getLast?.map (fun t => t.end_)) : s.span buf = piece_text buf cur := by
  unfold FunargsState.span piece_text
  rw [hs, he]
  cases cur with
  | nil => simp
  | cons t ts =>
    cases hl : (t :: ts).getLast? with
    | none => simp at hl
    | some l => simp

theorem pp_funargs_tokens_spec (buf : List Char) (rp : Token) (rest : List Token)
    (hrp : rp.kind = .TK_RPAR) :
    ∀ (body : List Token) (d : Nat) (cur : List Token) (s : FunargsState),
      balanced d body = true → s.sb = [] → s.paren = (d : Int) →
      s.start = cur.head?.map (fun t => t.begin_) →
      s.end_ = cur.getLast?.map (fun t => t.end_) →
      (cur = [] ∨ ∃ a b, s.start = some a ∧ s.end_ = some b ∧ a < b ∧ ∀ t ∈ body, b ≤ t.begin_) →
      in_line_order body →
      pp_funargs_tokens buf (body ++ rp :: rest) s
        = funargs_by_pieces buf s.args (split_args d cur body) rest := by
  intro body
  induction body with
  | nil =>
    intro d cur s hbal hsb hparen hs he hinv _
    simp only [balanced, decide_eq_true_eq] at hbal
    subst hbal
    have hp : s.paren ≤ 0 := by rw [hparen]; simp
    have htext := span_eq_piece_text buf cur s hs he
    simp only [List.nil_append, pp_funargs_tokens, hrp, or_true, if_true, hp, hsb, split_args,
      funargs_by_pieces, List.mem_singleton, List.map_cons, List.map_nil]
    rcases hinv with hc | ⟨a, b, ha, hb, hab, _⟩
    · subst hc
      simp only [List.head?_nil, Option.map_none', List.getLast?_nil] at hs he
      simp [hs, he]
    · have hne : cur ≠ [] := by
        rintro rfl
        rw [ha] at hs
        simp at hs
      have hse : s.start ≠ s.end_ := by
        rw [ha, hb]
        intro h
        simp only [Option.some.injEq] at h
        omega
      rw [if_neg hse, if_neg (fun h => hne h.symm), htext]
  | cons tok body ih =>
    intro d cur s hbal hsb hparen hs he hinv hord
    have hord2 : in_line_order body := ⟨(List.pairwise_cons.1 hord.1).2,
      fun t ht => hord.2 t (List.mem_cons_of_mem _ ht)⟩
    have hafter : ∀ t ∈ body, tok.end_ ≤ t.begin_ := (List.pairwise_cons.1 hord.1).1
    have htok : tok.begin_ < tok.end_ := hord.2 tok (List.mem_cons_self _ _)
    have htext := span_eq_piece_text buf cur s hs he
    -- the state after a token that is taken into the piece
    have htake : ∀ (paren : Int) (d1 : Nat), paren = (d1 : Int) → balanced d1 body = true →
        pp_funargs_tokens buf (body ++ rp :: rest)
            { s with
              paren := paren
              start := if s.start = none then some tok.begin_ else s.start
              end_ := some tok.end_ }
          = funargs_by_pieces buf s.args (split_args d1 (cur ++ [tok]) body) rest := by
      intro paren d1 hpd hb1
      refine ih d1 (cur ++ [tok]) _ hb1 hsb hpd ?_ ?_ ?_ hord2
      · cases cur with
        | nil => simp [hs]
        | cons c cs => simp [hs]
      · simp
      · right
        rcases hinv with hc | ⟨a, b, ha, hb, hab, hbody⟩
        · subst hc
          simp only [List.head?_nil, Option.map_none'] at hs
          exact ⟨tok.begin_, tok.end_, by simp [hs], rfl, htok, hafter⟩
        · have := hbody tok (List.mem_cons_self _ _)
          exact ⟨a, tok.end_, by simp [ha], rfl, by omega, hafter⟩
    simp only [balanced] at hbal
    by_cases hcomma : tok.kind = .TK_COMMA
    · have hnr : tok.kind ≠ .TK_RPAR := by rw [hcomma]; decide
      have hnl : tok.kind ≠ .TK_LPAR := by rw [hcomma]; decide
      simp only [hnr, false_and, if_false, Bool.false_eq_true] at hbal
      have hda : depth_after d tok = d := by simp [depth_after, hnr, hnl]
      rw [hda] at hbal
      by_cases hd : d = 0
      · subst hd
        have hp : s.paren ≤ 0 := by rw [hparen]; simp
        simp only [List.cons_append, pp_funargs_tokens, hcomma, true_or, if_true, hp, hsb,
          split_args, and_self]
        rcases hinv with hc | ⟨a, b, ha, hb, hab, _⟩
        · subst hc
          simp only [List.head?_nil, Option.map_none', List.getLast?_nil] at hs he
          simp [hs, he, funargs_by_pieces]
        · have hne : cur ≠ [] := by
            rintro rfl
            rw [ha] at hs
            simp at hs
          have hse : s.start ≠ s.end_ := by
            rw [ha, hb]
            intro h
            simp only [Option.some.injEq] at h
            omega
          rw [if_neg hse]
          simp only [reduceCtorEq, if_false]
          refine (ih 0 [] _ hbal ?_ ?_ ?_ ?_ (Or.inl rfl) hord2).trans ?_
          · first | exact hsb | rfl
          · exact hparen
          · rfl
          · rfl
          rw [htext]
          simp only [funargs_by_pieces, List.mem_cons, List.map_cons, List.append_assoc,
            List.singleton_append]
          have : ¬ ([] = cur) := fun h => hne h.symm
          simp only [this, false_or]
      · have hp : ¬ s.paren ≤ 0 := by rw [hparen]; omega
        simp only [List.cons_append, pp_funargs_tokens, hcomma, true_or, if_true, hp, if_false,
          reduceCtorEq, split_args, hd, and_false, hda]
        exact htake s.paren d hparen hbal
    · by_cases hr : tok.kind = .TK_RPAR
      · have hd : d ≠ 0 := by
          intro h
          simp [hr, h] at hbal
        have hnl : tok.kind ≠ .TK_LPAR := by rw [hr]; decide
        have hda : depth_after d tok = d - 1 := by simp [depth_after, hr]
        simp only [hr, hd, and_false, if_false, Bool.false_eq_true] at hbal
        rw [show depth_after d tok = d - 1 from hda] at hbal
        have hp : ¬ s.paren ≤ 0 := by rw [hparen]; omega
        simp only [List.cons_append, pp_funargs_tokens, hr, or_true, if_true, hp, if_false,
          split_args, reduceCtorEq, false_and]
        rw [show depth_after d tok = d - 1 from hda]
        exact htake (s.paren - 1) (d - 1) (by rw [hparen]; omega) hbal
      · simp only [hr, false_and, if_false, Bool.false_eq_true] at hbal
        simp only [List.cons_append, pp_funargs_tokens, hcomma, hr, or_self, if_false,
          split_args, false_and]
        by_cases hl : tok.kind = .TK_LPAR
        · have hda : depth_after d tok = d + 1 := by simp [depth_after, hl]
          rw [hda] at hbal ⊢
          simp only [hl, if_true]
          exact htake (s.paren + 1) (d + 1) (by rw [hparen]; simp) hbal
        · have hda : depth_after d tok = d := by simp [depth_after, hl, hr]
          rw [hda] at hbal ⊢
          simp only [hl, if_false]
          exact htake s.paren d hparen hbal

/-- C29 (amended): for an argument list with balanced parentheses that lies on
one line, `pp_funargs` returns one argument for each piece between the commas of
depth 0, each the text of the line from the begin of the first token of the piece
to the end of its last token; `()` gives no argument, and an empty piece raises
"expression expected". -/
theorem pp_funargs_one_line (inp : PpInput) (lp rp : Token) (body rest : List Token)
    (hlp : lp.kind = .TK_LPAR) (hrp : rp.kind = .TK_RPAR) (hbal : balanced 0 body = true)
    (hord : in_line_order body) :
    pp_funargs (inp.with_tokens (lp :: (body ++ rp :: rest)))
      = if body = [] then .ok (some []) (inp.with_tokens rest)
        else if [] ∈ split_args 0 [] body then .error "expression expected"
        else .ok (some ((split_args 0 [] body).map (piece_text inp.buf)))
          (inp.with_tokens rest) := by
  cases body with
  | nil =>
    simp [pp_funargs, match2, pp_match_token, PpInput.with_tokens, hlp, hrp]
  | cons tok body =>
    have hne : tok.kind ≠ .TK_RPAR := by
      intro h
      simp [balanced, h] at hbal
    have hloop := pp_funargs_tokens_spec inp.buf rp rest hrp (tok :: body) 0 []
      { sb := [], start := none, end_ := none, paren := 0, args := [] } hbal rfl rfl rfl rfl
      (Or.inl rfl) hord
    simp only [List.cons_append] at hloop
    simp only [pp_funargs, match2, pp_match_token, PpInput.with_tokens, hlp, List.cons_append,
      if_true, hne, if_false, pp_funargs_loop, hloop, funargs_by_pieces, reduceCtorEq,
      List.nil_append]
    split_ifs <;> rfl

theorem pp_funargs_one_line_witness :
    funargs_value (pp_funargs call_input) = some ["a", "(b,c)", "d"] := by
  have h := pp_funargs_one_line call_input (mk_token .TK_LPAR 0 1 0) (mk_token .TK_RPAR 10 11 0)
    call_body [] rfl rfl (by decide!) (by unfold in_line_order; decide!)
  have hin : call_input.with_tokens
      (mk_token .TK_LPAR 0 1 0 :: (call_body ++ [mk_token .TK_RPAR 10 11 0])) = call_input := rfl
  rw [hin] at h
  rw [h]
  decide!

/-- C29, as stated, fails for an argument list on several lines: for the lines
`(a` and `, b)` the first argument returned is `a` followed by a newline, while
the text from the begin to the end of its only token is `a`. -/
theorem pp_funargs_newline_in_argument :
    funargs_value (pp_funargs two_line_call) = some ["a\n", "b"]
    ∧ String.mk (piece_text two_line_call.buf [mk_token .TK_IDENT 1 2 0]) = "a" :=
  ⟨by decide!, by decide!⟩

/-! ### pp_match -/

theorem pp_match_loop_mono (bcs bce : List Char → Option (List Char)) (n : Nat) :
    ∀ (k : Nat) (p : List Char) (lines : List (List Char)) (r : LexOutcome),
      pp_match_loop bcs bce n p lines = some r → pp_match_loop bcs bce (n + k) p lines = some r := by
  induction n with
  | zero => intro k p lines r h; simp [pp_match_loop] at h
  | succ m ih =>
    intro k p lines r h
    rw [show m + 1 + k = (m + k) + 1 from by omega]
    simp only [pp_match_loop] at h ⊢
    cases hs : bcs p with
    | none => rw [hs] at h; simpa using h
    | some cs =>
      rw [hs] at h
      simp only at h ⊢
      cases hc : pp_match_comment bce cs lines with
      | none => rw [hc] at h; simpa using h
      | some q =>
        rw [hc] at h
        exact ih k _ _ r h

theorem pp_match_loop_last_line (bcs bce : List Char → Option (List Char)) (line : List Char)
    (n : Nat) :
    ∀ (p : List Char) (x : Option (List Char)),
      pp_match_loop bcs bce n p [line] = some (.ok x []) →
      ∃ t k, bce line = some t ∧ pp_match_loop bcs bce k t [] = some (.ok x []) := by
  induction n with
  | zero => intro p x h; simp [pp_match_loop] at h
  | succ m ih =>
    intro p x h
    simp only [pp_match_loop] at h
    cases hs : bcs p with
    | none => rw [hs] at h; simp at h
    | some cs =>
      rw [hs] at h
      simp only at h
      simp only [pp_match_comment] at h
      cases he : bce cs with
      | some q1 =>
        rw [he] at h
        exact ih q1 x h
      | none =>
        rw [he] at h
        simp only at h
        cases hl : bce line with
        | none => rw [hl] at h; simp at h
        | some t =>
          rw [hl] at h
          exact ⟨t, m, rfl, h⟩

/-- C22: `pp_match` gives `block_comment_end` the start of the comment itself,
as it gives it a line read from the stream; so whatever the two functions of the
lexer do, if `block_comment_start` returns the position of the `/*` of the text
`/*/ b`, `pp_match` is wrong on one of two inputs: the line `/*/ b` with nothing
after it, where the comment is not closed, and the lines `/* x` and `/*/ b`,
where the comment ends in the second line before ` b`. -/
theorem pp_match_comment_start_as_line (bcs bce : List Char → Option (List Char))
    (n1 n2 : Nat) (hstart : bcs slash_star_slash = some slash_star_slash) :
    ¬ (pp_match bcs bce n1 (some slash_star_slash) []
          = some (.error "Block comment not closed")
        ∧ pp_match bcs bce n2 (some "/* x".toList) [slash_star_slash]
          = some (.ok (some " b".toList) [])) := by
  rintro ⟨h1, h2⟩
  simp only [pp_match] at h1 h2
  obtain ⟨t, k, ht, hk⟩ := pp_match_loop_last_line bcs bce _ n2 _ _ h2
  cases n1 with
  | zero => simp [pp_match_loop] at h1
  | succ m =>
    simp only [pp_match_loop, hstart, pp_match_comment, ht] at h1
    have a := pp_match_loop_mono bcs bce m k _ _ _ h1
    have b := pp_match_loop_mono bcs bce k m _ _ _ hk
    rw [Nat.add_comm] at b
    rw [a] at b
    simp at b

theorem pp_match_comment_start_as_line_witness :
    ¬ (pp_match example_comment_start example_comment_end 3 (some slash_star_slash) []
          = some (.error "Block comment not closed")
        ∧ pp_match example_comment_start example_comment_end 3 (some "/* x".toList)
            [slash_star_slash]
          = some (.ok (some " b".toList) [])) :=
  pp_match_comment_start_as_line example_comment_start example_comment_end 3 3 (by decide!)

/-! ### The bounds of a fixed-length array -/

/-- C31: for `int a[3]` inside a function, the list `{[10] = 1}` passes
`fix_array_size`, `flatten_array_initializer` and `assign_initial_value` without
any message, and the statements built store the value 40 bytes past the start of
the 12-byte array; the list `{[-1] = 5}` is lowered in the same way to a store
4 bytes before the array. A designator inside the array, `[2] = 5`, is stored at
byte 8. -/
theorem assign_initial_value_designator_out_of_bounds :
    store_log spec_env (.ident 0) (.array tyInt 3) (single_designated 10 1) fixed_state 1000
      = some ([], [(1040, 1)])
    ∧ store_log spec_env (.ident 0) (.array tyInt 3) (single_designated (-1) 5) fixed_state 1000
      = some ([], [(996, 5)])
    ∧ store_log spec_env (.ident 0) (.array tyInt 3) (single_designated 2 5) fixed_state 1000
      = some ([], [(1008, 5)]) := by
  decide!

/-- C32: for an unsized array and the empty list `{}`, `fix_array_size`
returns the array type of length 0, and `assign_initial_value`, reached with that
type, stops at its assertion `arr_len > 0`. -/
theorem fix_array_size_empty_list (env : Env) (elem : CType) (name : Name) (fuel : Nat)
    (st : ParseState) :
    fix_array_size (.array elem (-1)) (.multi []) st = .ok (.array elem 0) st
    ∧ lower_local_array env (fuel + 1) name (.array elem (-1)) (.multi []) st = some .abort := by
  constructor
  · simp [fix_array_size, Initializer.is_single_str, Initializer.is_multi,
      Initializer.multi_data, fix_array_size_loop]
  · simp [lower_local_array, fix_array_size, Initializer.is_single_str, Initializer.is_multi,
      Initializer.multi_data, fix_array_size_loop, assign_initial_value, flatten_initializer,
      flatten_array_initializer, flatten_array_scan, Expr.type]

/-! ### var_find and var_add -/

theorem var_find_from_first (name : Name) :
    ∀ (vs : List VarInfo) (i : Int),
      (var_find_from vs name i = -1 ∧ ∀ v ∈ vs, v.name ≠ some name) ∨
      ∃ k : Nat, var_find_from vs name i = i + k ∧ k < vs.length ∧
        (∃ v, vs.get? k = some v ∧ v.name = some name) ∧
        ∀ (j : Nat) (v : VarInfo), j < k → vs.get? j = some v → v.name ≠ some name := by
  intro vs
  induction vs with
  | nil => intro i; left; simp [var_find_from]
  | cons w rest ih =>
    intro i
    by_cases hw : w.name = some name
    · right
      refine ⟨0, by simp [var_find_from, hw], by simp, ⟨w, by simp, hw⟩, ?_⟩
      intro j v hj
      omega
    · rcases ih (i + 1) with ⟨h1, h2⟩ | ⟨k, h1, h2, ⟨v, hv, hvn⟩, h4⟩
      · left
        refine ⟨by simp [var_find_from, hw, h1], ?_⟩
        intro v hv
        rcases List.mem_cons.mp hv with rfl | hv
        · exact hw
        · exact h2 v hv
      · right
        refine ⟨k + 1, ?_, by simp; omega, ⟨v, by simpa using hv, hvn⟩, ?_⟩
        · simp only [var_find_from, hw, if_false, h1]
          push_cast
          omega
        · intro j u hj hu
          cases j with
          | zero =>
            simp at hu
            rw [← hu]
            exact hw
          | succ j =>
            simp at hu
            exact h4 j u (by omega) (by simpa using hu)

theorem var_find_from_append (name : Name) (info : VarInfo) :
    ∀ (vs : List VarInfo) (i : Int),
      var_find_from (vs ++ [info]) name i =
        if (∃ v ∈ vs, v.name = some name) then var_find_from vs name i
        else if info.name = some name then i + vs.length else -1 := by
  intro vs
  induction vs with
  | nil => intro i; simp [var_find_from]
  | cons w rest ih =>
    intro i
    by_cases hw : w.name = some name
    · simp [var_find_from, hw]
    · rw [List.cons_append]
      simp only [var_find_from, hw, if_false]
      rw [ih (i + 1)]
      simp only [List.mem_cons, exists_eq_or_imp, hw, false_or, List.length_cons]
      split_ifs <;> first | rfl | (push_cast; omega)

/-- C34: for a non-NULL name, `var_add` ends with the fatal error "already
defined" exactly when `var_find` finds the name in the vector; otherwise it
returns with no message and the vector extended by one entry at its end, after
which `var_find` gives the old length for the name and the old result for every
other name. `var_find` gives the index of the first entry with the name and -1
when no entry has it; an entry with a NULL name is never the one. For a static
variable the label just allocated is taken to be new in the table of the
globals. -/
theorem var_add_var_find (vars : List VarInfo) (nm : Name) (type : CType) (flag : Nat)
    (st : ParseState)
    (hfresh : flag &&& VS_STATIC ≠ 0 → find_global st (.label st.label_count) = none) :
    ((∃ c st1, var_add vars (some nm) type flag st = .exit c st1) ↔ var_find vars nm ≥ 0) ∧
    (var_find vars nm ≥ 0 →
      var_add vars (some nm) type flag st = parse_error st "`%.*s' already defined") ∧
    (¬ var_find vars nm ≥ 0 →
      ∃ ret info st1, var_add vars (some nm) type flag st = .ok (ret, vars ++ [info]) st1 ∧
        st1.errors = st.errors ∧ info.name = some nm ∧
        var_find (vars ++ [info]) nm = vars.length ∧
        ∀ other, other ≠ nm → var_find (vars ++ [info]) other = var_find vars other) ∧
    (∀ name,
      (var_find vars name = -1 ∧ ∀ v ∈ vars, v.name ≠ some name) ∨
      ∃ k : Nat, var_find vars name = k ∧ k < vars.length ∧
        (∃ v, vars.get? k = some v ∧ v.name = some name) ∧
        ∀ (j : Nat) (v : VarInfo), j < k → vars.get? j = some v → v.name ≠ some name) := by
  have hspec : ∀ name,
      (var_find vars name = -1 ∧ ∀ v ∈ vars, v.name ≠ some name) ∨
      ∃ k : Nat, var_find vars name = k ∧ k < vars.length ∧
        (∃ v, vars.get? k = some v ∧ v.name = some name) ∧
        ∀ (j : Nat) (v : VarInfo), j < k → vars.get? j = some v → v.name ≠ some name := by
    intro name
    rcases var_find_from_first name vars 0 with h | ⟨k, h1, h2, h3, h4⟩
    · exact Or.inl h
    · exact Or.inr ⟨k, by simpa [var_find] using h1, h2, h3, h4⟩
  have hfound : var_find vars nm ≥ 0 →
      var_add vars (some nm) type flag st = parse_error st "`%.*s' already defined" := by
    intro h
    simp [var_add, h]
  have hnew : ¬ var_find vars nm ≥ 0 →
      ∃ ret info st1, var_add vars (some nm) type flag st = .ok (ret, vars ++ [info]) st1 ∧
        st1.errors = st.errors ∧ info.name = some nm ∧
        var_find (vars ++ [info]) nm = vars.length ∧
        ∀ other, other ≠ nm → var_find (vars ++ [info]) other = var_find vars other := by
    intro h
    have hno : ¬ ∃ v ∈ vars, v.name = some nm := by
      rintro ⟨v, hv, hvn⟩
      rcases hspec nm with ⟨h1, h2⟩ | ⟨k, h1, _⟩
      · exact h2 v hv hvn
      · rw [h1] at h
        omega
    have hafter : ∀ info : VarInfo, info.name = some nm →
        var_find (vars ++ [info]) nm = vars.length ∧
        ∀ other, other ≠ nm → var_find (vars ++ [info]) other = var_find vars other := by
      intro info hinfo
      refine ⟨?_, fun other hother => ?_⟩
      · simp [var_find, var_find_from_append, hno, hinfo]
      · have hne : ¬ info.name = some other := by
          rw [hinfo]
          intro e
          exact hother (Option.some.inj e).symm
        simp only [var_find, var_find_from_append, hne, if_false]
        split_ifs with hex
        · rfl
        · rcases var_find_from_first other vars 0 with ⟨h1, _⟩ | ⟨k, _, _, ⟨v, hv, hvn⟩, _⟩
          · exact h1.symm
          · exact absurd ⟨v, List.get?_mem hv, hvn⟩ hex
    by_cases hs : flag &&& VS_STATIC ≠ 0
    · have hf := hfresh hs
      have hfg : find_global (alloc_label st).2 (alloc_label st).1 = none := by
        simpa [alloc_label, find_global] using hf
      let info : VarInfo :=
        { name := some nm, type := type, storage := flag, label := some (alloc_label st).1 }
      let ginfo : VarInfo := { name := some (alloc_label st).1, type := type, storage := flag }
      let st2 : ParseState :=
        { (alloc_label st).2 with
          gvar_table := table_put (alloc_label st).2.gvar_table (alloc_label st).1 ginfo }
      refine ⟨ginfo, info, st2, ?_, ?_, rfl, hafter info rfl⟩
      · simp only [var_add, h, if_false, hs, if_true, ne_eq, not_false_eq_true, define_global,
          hfg]
      · simp [st2, alloc_label]
    · let info : VarInfo := { name := some nm, type := type, storage := flag }
      refine ⟨info, info, st, ?_, rfl, rfl, hafter info rfl⟩
      simp only [var_add, h, if_false, hs]
  refine ⟨⟨?_, ?_⟩, hfound, hnew, hspec⟩
  · rintro ⟨c, st1, hc⟩
    by_contra hn
    obtain ⟨ret, info, st2, hok, _⟩ := hnew hn
    rw [hok] at hc
    cases hc
  · intro h
    exact ⟨1, _, (hfound h).trans rfl⟩

/-- Witness for claim C34: `y` is added to a vector that holds `x`. -/
theorem var_add_var_find_witness :
    ∃ ret info st1,
      var_add [{ name := some (.ident 1), type := tyInt, storage := 0 }] (some (.ident 2)) tyInt
          0 init_state
        = .ok (ret, [{ name := some (.ident 1), type := tyInt, storage := 0 }] ++ [info]) st1 ∧
      info.name = some (.ident 2) ∧
      var_find ([{ name := some (.ident 1), type := tyInt, storage := 0 }] ++ [info]) (.ident 2)
        = 1 := by
  obtain ⟨ret, info, st1, h1, _, h3, h4, _⟩ :=
    (var_add_var_find [{ name := some (.ident 1), type := tyInt, storage := 0 }] (.ident 2)
      tyInt 0 init_state (fun h => absurd rfl h)).2.2.1 (by decide)
  exact ⟨ret, info, st1, h1, h3, by simpa using h4⟩

/-! ### define_global -/

theorem table_get_put (table : List (Name × VarInfo)) (name : Name) (v : VarInfo) :
    table_get (table_put table name v) name = some v := by
  induction table with
  | nil => simp [table_put, table_get]
  | cons p rest ih =>
    obtain ⟨k, w⟩ := p
    by_cases hk : k = name
    · simp [table_put, table_get, hk]
    · simp [table_put, table_get, hk, ih]

/-- C35: `define_global` ends with the fatal error "already defined" exactly
when the name is defined by an entry that is not `extern` and the new
declaration is not `extern` either; when an `extern` declaration follows a
definition that is not `extern`, the existing entry is returned and the state,
with the table and every entry in it, is as before; and whenever it returns,
`find_global` finds the returned entry under the name. -/
theorem define_global_spec (type : CType) (flag : Nat) (name : Name) (st : ParseState) :
    (define_global type flag name st = parse_error st "`%.*s' already defined" ↔
      ∃ v, find_global st name = some v ∧ v.storage &&& VS_EXTERN = 0 ∧
        flag &&& VS_EXTERN = 0) ∧
    (∀ v, find_global st name = some v → v.storage &&& VS_EXTERN = 0 →
      flag &&& VS_EXTERN ≠ 0 → define_global type flag name st = .ok v st) ∧
    (∀ r st1, define_global type flag name st = .ok r st1 → find_global st1 name = some r) := by
  refine ⟨?_, ?_, ?_⟩
  · cases hg : find_global st name with
    | none => simp [define_global, hg, parse_error]
    | some v =>
      by_cases h1 : v.storage &&& VS_EXTERN = 0 <;> by_cases h2 : flag &&& VS_EXTERN = 0 <;>
        simp [define_global, hg, h1, h2, parse_error]
  · intro v hg h1 h2
    simp [define_global, hg, h1, h2]
  · intro r st1 h
    cases hg : find_global st name with
    | none =>
      simp only [define_global, hg] at h
      injection h with h1 h2
      subst h1 h2
      simp [find_global, table_get_put]
    | some v =>
      by_cases h1 : v.storage &&& VS_EXTERN = 0 <;> by_cases h2 : flag &&& VS_EXTERN = 0
      · simp [define_global, hg, h1, h2, parse_error] at h
      · simp only [define_global, hg, h1, h2, if_true, if_false] at h
        injection h with h3 h4
        subst h3 h4
        exact hg
      · simp only [define_global, hg, h1, if_false] at h
        injection h with h3 h4
        subst h3 h4
        simp [find_global, table_get_put]
      · simp only [define_global, hg, h1, if_false] at h
        injection h with h3 h4
        subst h3 h4
        simp [find_global, table_get_put]

/-! ### parse_default -/

theorem default_count_append (cases : List Stmt) (s : Stmt) :
    default_count (cases ++ [s]) = default_count cases + (if is_default s then 1 else 0) := by
  unfold default_count
  rw [List.filter_append, List.length_append]
  by_cases h : is_default s = true <;> simp [List.filter, h]

/-- C36: inside a `switch` that has no `default` yet, `parse_default` sets
`default_` to the new statement and appends it to the case list, with no
message; inside a `switch` that has one, and outside any `switch`, it records
one error (non-fatal: it returns while the count is below the cap) and leaves
`curswitch`, with `default_` and the case list, as it was. So a case list that
holds as many `default` entries as `default_` tells (none, or one) still does
after the call, and never holds more than one. -/
theorem parse_default_once (st : ParseState) :
    (∀ sw, st.curswitch = some sw → sw.default_ = none →
      parse_default st = .ok (.case_ none)
        { st with
          curswitch := some { cases := sw.cases ++ [.case_ none], default_ := some (.case_ none) } })
    ∧ (∀ sw d, st.curswitch = some sw → sw.default_ = some d →
      ∃ st1, (parse_default st).state = some st1 ∧ st1.curswitch = some sw ∧
        st1.errors = st.errors ++ ["`default' already defined in `switch'"] ∧
        st1.compile_error_count = st.compile_error_count + 1 ∧
        (st.compile_error_count + 1 < MAX_ERROR_COUNT →
          parse_default st = .ok (.case_ none) st1))
    ∧ (st.curswitch = none →
      ∃ st1, (parse_default st).state = some st1 ∧ st1.curswitch = none ∧
        st1.errors = st.errors ++ ["`default' cannot use outside of `switch'"] ∧
        st1.compile_error_count = st.compile_error_count + 1 ∧
        (st.compile_error_count + 1 < MAX_ERROR_COUNT →
          parse_default st = .ok (.case_ none) st1))
    ∧ (∀ sw, st.curswitch = some sw →
      default_count sw.cases = (if sw.default_.isSome then 1 else 0) →
      ∀ st1 sw1, (parse_default st).state = some st1 → st1.curswitch = some sw1 →
        default_count sw1.cases = (if sw1.default_.isSome then 1 else 0) ∧
        default_count sw1.cases ≤ 1) := by
  have herr : ∀ (fmt : String) (stmt : Stmt),
      ∃ st1, ((parse_error_nofatal st fmt).bind fun _ st1 => Result.ok stmt st1).state = some st1 ∧
        st1.curswitch = st.curswitch ∧ st1.errors = st.errors ++ [fmt] ∧
        st1.compile_error_count = st.compile_error_count + 1 ∧
        (st.compile_error_count + 1 < MAX_ERROR_COUNT →
          ((parse_error_nofatal st fmt).bind fun _ st1 => Result.ok stmt st1) = .ok stmt st1) := by
    intro fmt stmt
    by_cases hc : st.compile_error_count + 1 ≥ MAX_ERROR_COUNT
    · rw [parse_error_nofatal_exit st fmt hc]
      exact ⟨st.record fmt, rfl, rfl, rfl, rfl, fun h => absurd hc (by omega)⟩
    · rw [parse_error_nofatal_ok st fmt hc]
      exact ⟨st.record fmt, rfl, rfl, rfl, rfl, fun _ => rfl⟩
  have hsome : ∀ sw d, st.curswitch = some sw → sw.default_ = some d →
      ∃ st1, (parse_default st).state = some st1 ∧ st1.curswitch = some sw ∧
        st1.errors = st.errors ++ ["`default' already defined in `switch'"] ∧
        st1.compile_error_count = st.compile_error_count + 1 ∧
        (st.compile_error_count + 1 < MAX_ERROR_COUNT →
          parse_default st = .ok (.case_ none) st1) := by
    intro sw d hsw hd
    obtain ⟨st1, h1, h2, h3, h4, h5⟩ := herr "`default' already defined in `switch'" (.case_ none)
    refine ⟨st1, ?_, by rw [h2, hsw], h3, h4, ?_⟩
    · simpa only [parse_default, hsw, hd] using h1
    · intro hlt
      simpa only [parse_default, hsw, hd] using h5 hlt
  refine ⟨?_, hsome, ?_, ?_⟩
  · intro sw hsw hd
    simp only [parse_default, hsw, hd]
  · intro hsw
    obtain ⟨st1, h1, h2, h3, h4, h5⟩ :=
      herr "`default' cannot use outside of `switch'" (.case_ none)
    refine ⟨st1, ?_, by rw [h2, hsw], h3, h4, ?_⟩
    · simpa only [parse_default, hsw] using h1
    · intro hlt
      simpa only [parse_default, hsw] using h5 hlt
  · intro sw hsw hinv st1 sw1 hst hsw1
    cases hd : sw.default_ with
    | none =>
      simp only [parse_default, hsw, hd, Result.state, Option.some.injEq] at hst
      rw [← hst] at hsw1
      simp only [Option.some.injEq] at hsw1
      rw [← hsw1]
      rw [hd] at hinv
      simp only [Option.isSome_none, Bool.false_eq_true, if_false] at hinv
      simp [default_count_append, hinv, is_default]
    | some d =>
      obtain ⟨st2, h1, h2, _⟩ := hsome sw d hsw hd
      rw [h1] at hst
      simp only [Option.some.injEq] at hst
      rw [← hst, h2] at hsw1
      simp only [Option.some.injEq] at hsw1
      rw [← hsw1]
      rw [hd] at hinv ⊢
      simp only [Option.isSome_some, if_true] at hinv ⊢
      exact ⟨hinv, by omega⟩

/-- Witness for claim C36: a second `default` in a `switch` that has `case 1:`,
`default:` and `case 2:` leaves the three entries and records the error. -/
theorem parse_default_once_witness :
    ∃ st1, (parse_default { init_state with curswitch := some switch_example }).state = some st1 ∧
      st1.curswitch = some switch_example ∧
      st1.errors = ["`default' already defined in `switch'"] :=
  match (parse_default_once { init_state with curswitch := some switch_example }).2.1
      switch_example (.case_ none) rfl rfl with
  | ⟨st1, h1, h2, h3, _⟩ => ⟨st1, h1, h2, h3⟩

/-! ### parse_return -/

/-- C37: once the value has been read, `parse_return` records an error of its
own in two cases only: a value is returned from a function whose return type is
`void` ("void function `return' a value"), or no value is returned from a
function whose return type is not `void` ("`return' required a value"); the
error is non-fatal. With no value in a `void` function it returns without a
message, and with a value in a function that is not `void` the statement holds
what `make_cast` gives for the return type of the function and the value. -/
theorem parse_return_error_iff (env : Env) (val : Option (Action Expr)) (st st1 : ParseState)
    (v : Option Expr) (func : Function) (rettype : CType) (params : List CType) (va : Bool)
    (hval : parse_return_value env val st = .ok v st1) (hfunc : st1.curfunc = some func)
    (hty : func.type = .func rettype params va) :
    (v = none → rettype.kind = .TY_VOID → parse_return env val st = .ok (.return_ none) st1)
    ∧ (v = none → rettype.kind ≠ .TY_VOID →
      ∃ st2, (parse_return env val st).state = some st2 ∧
        st2.errors = st1.errors ++ ["`return' required a value"] ∧
        st2.compile_error_count = st1.compile_error_count + 1 ∧
        (st1.compile_error_count + 1 < MAX_ERROR_COUNT →
          parse_return env val st = .ok (.return_ none) st2))
    ∧ (∀ e, v = some e → rettype.kind = .TY_VOID →
      ∃ st2, (parse_return env val st).state = some st2 ∧
        st2.errors = st1.errors ++ ["void function `return' a value"] ∧
        st2.compile_error_count = st1.compile_error_count + 1 ∧
        (st1.compile_error_count + 1 < MAX_ERROR_COUNT →
          parse_return env val st = .ok (.return_ (some e)) st2))
    ∧ (∀ e, v = some e → rettype.kind ≠ .TY_VOID →
      parse_return env val st
        = (env.make_cast rettype e false st1).bind fun e1 st2 =>
            .ok (.return_ (some e1)) st2) := by
  have herr : ∀ (fmt : String) (stmt : Stmt),
      ∃ st2, ((parse_error_nofatal st1 fmt).bind fun _ s => Result.ok stmt s).state = some st2 ∧
        st2.errors = st1.errors ++ [fmt] ∧
        st2.compile_error_count = st1.compile_error_count + 1 ∧
        (st1.compile_error_count + 1 < MAX_ERROR_COUNT →
          ((parse_error_nofatal st1 fmt).bind fun _ s => Result.ok stmt s) = .ok stmt st2) := by
    intro fmt stmt
    by_cases hc : st1.compile_error_count + 1 ≥ MAX_ERROR_COUNT
    · rw [parse_error_nofatal_exit st1 fmt hc]
      exact ⟨st1.record fmt, rfl, rfl, rfl, fun h => absurd hc (by omega)⟩
    · rw [parse_error_nofatal_ok st1 fmt hc]
      exact ⟨st1.record fmt, rfl, rfl, rfl, fun _ => rfl⟩
  refine ⟨?_, ?_, ?_, ?_⟩
  · intro hv hvoid
    subst hv
    simp only [parse_return, hval, Result.bind, hfunc, hty, hvoid, ne_eq, not_true_eq_false,
      if_false]
  · intro hv hvoid
    subst hv
    obtain ⟨st2, h1, h2, h3, h4⟩ := herr "`return' required a value" (.return_ none)
    refine ⟨st2, ?_, h2, h3, ?_⟩
    · simpa only [parse_return, hval, Result.bind, hfunc, hty, hvoid, ne_eq, not_false_eq_true,
        if_true] using h1
    · intro hlt
      simpa only [parse_return, hval, Result.bind, hfunc, hty, hvoid, ne_eq,
        not_false_eq_true, if_true] using h4 hlt
  · intro e hv hvoid
    subst hv
    obtain ⟨st2, h1, h2, h3, h4⟩ := herr "void function `return' a value" (.return_ (some e))
    refine ⟨st2, ?_, h2, h3, ?_⟩
    · simpa only [parse_return, hval, Result.bind, hfunc, hty, hvoid, if_true] using h1
    · intro hlt
      simpa only [parse_return, hval, Result.bind, hfunc, hty, hvoid, if_true] using h4 hlt
  · intro e hv hvoid
    subst hv
    simp only [parse_return, hval, Result.bind, hfunc, hty, hvoid, if_false]

/-- Witness for claim C37: `return 1;` in a function of type `void (int)`. -/
theorem parse_return_error_iff_witness :
    ∃ st2, (parse_return spec_env (some (read_expr (.fixnum tyInt 1))) in_void_func).state
        = some st2 ∧
      st2.errors = ["void function `return' a value"] :=
  match (parse_return_error_iff spec_env (some (read_expr (.fixnum tyInt 1))) in_void_func
      in_void_func (some (.fixnum tyInt 1)) _ .void [tyInt] false rfl rfl rfl).2.2.1
      (.fixnum tyInt 1) rfl rfl with
  | ⟨st2, h1, h2, _⟩ => ⟨st2, h1, h2⟩

/-! ### flatten_array_initializer on its own result -/

theorem logical_indices_from_append (A : List Initializer) :
    ∀ (c : Int) (B : List Initializer),
      logical_indices_from c (A ++ B)
        = logical_indices_from c A ++ logical_indices_from (next_cursor c A) B := by
  induction A with
  | nil => intro c B; simp [logical_indices_from, next_cursor]
  | cons e A ih =>
    intro c B
    rw [List.cons_append]
    simp only [logical_indices_from, next_cursor]
    rw [ih]
    rfl

theorem next_cursor_append (A : List Initializer) :
    ∀ (c : Int) (B : List Initializer),
      next_cursor c (A ++ B) = next_cursor (next_cursor c A) B := by
  induction A with
  | nil => intro c B; simp [next_cursor]
  | cons e A ih =>
    intro c B
    rw [List.cons_append]
    simp only [next_cursor]
    rw [ih]

theorem next_cursor_positional (pre : List Initializer) :
    ∀ (c : Int), (∀ e ∈ pre, e.is_arr = false) → next_cursor c pre = c + pre.length := by
  induction pre with
  | nil => intro c _; simp [next_cursor]
  | cons e pre ih =>
    intro c h
    have he := designator_of_not_arr (h e (List.mem_cons_self _ _))
    simp only [next_cursor, he, List.length_cons]
    rw [ih (c + 1) (fun x hx => h x (List.mem_cons_of_mem _ hx))]
    push_cast
    omega

theorem head_designated_cursor (blk : List Initializer) (c d : Int)
    (h : ∃ e k, blk.head? = some e ∧ e.designator = some k) :
    logical_indices_from c blk = logical_indices_from d blk ∧
      next_cursor c blk = next_cursor d blk := by
  obtain ⟨e, k, he, hk⟩ := h
  cases blk with
  | nil => simp at he
  | cons x rest =>
    simp only [List.head?_cons, Option.some.injEq] at he
    subst he
    simp [logical_indices_from, next_cursor, hk]

theorem pending_block_ok {l A P rest : List Initializer} (hl : l = A ++ P ++ rest)
    (lastStart : Nat)
    (h1 : lastStart = 0 ∨ ∃ e k, P.head? = some e ∧ e.designator = some k)
    (h2 : logical_indices_from (lastStart : Int) P = (List.range' lastStart P.length).map Int.ofNat)
    (h3 : next_cursor (lastStart : Int) P = ((lastStart + P.length : Nat) : Int)) :
    ∀ r ∈ pending_range lastStart A.length P.length, r.block_ok l := by
  intro r hr
  unfold pending_range at hr
  split_ifs at hr with h0
  · simp at hr
  · simp only [List.mem_singleton] at hr
    subst hr
    have hb : DesigRange.block l ⟨lastStart, A.length, P.length⟩ = P := block_eq_of_split hl
    refine ⟨?_, ?_, ?_⟩
    · rw [hb]
      exact h1
    · rw [hb]
      simpa [DesigRange.indices] using h2
    · rw [hb]
      exact h3

theorem flatten_array_enumerate_blocks (l : List Initializer) (hlen : l.length < 2 ^ 63)
    (st : ParseState) :
    ∀ (rest A P : List Initializer) (lastStart : Nat) (ranges R : List DesigRange),
      l = A ++ P ++ rest → (∀ e ∈ rest, is_array_elem e = true) → lastStart < 2 ^ 63 →
      (A.length = lastStart ∨ ∃ idx v, P.head? = some (Initializer.arr idx v)) →
      (lastStart = 0 ∨ ∃ e k, P.head? = some e ∧ e.designator = some k) →
      logical_indices_from (lastStart : Int) P
        = (List.range' lastStart P.length).map Int.ofNat →
      next_cursor (lastStart : Int) P = ((lastStart + P.length : Nat) : Int) →
      flatten_array_enumerate rest (A.length + P.length) (lastStart + P.length) lastStart
          A.length ranges st = .ok (ranges ++ R) st →
      ∀ r ∈ R, r.block_ok l := by
  intro rest
  induction rest with
  | nil =>
    intro A P lastStart ranges R hl _ hls _ h1 h2 h3 hrun
    have hPlen : P.length ≤ l.length := by subst hl; simp
    simp only [flatten_array_enumerate] at hrun
    rw [push_range_pending ranges A P lastStart (by omega)] at hrun
    injection hrun with hrun _
    have hR := List.append_cancel_left hrun
    rw [← hR]
    exact pending_block_ok hl lastStart h1 h2 h3
  | cons e rest ih =>
    intro A P lastStart ranges R hl hrest hls hP h1 h2 h3 hrun
    have hPlen : P.length + 1 ≤ l.length := by subst hl; simp; omega
    have he := hrest e (List.mem_cons_self _ _)
    have hrest' : ∀ x ∈ rest, is_array_elem x = true :=
      fun x hx => hrest x (List.mem_cons_of_mem _ hx)
    have hpos : ∀ (hd : e.designator = none)
        (hstep : flatten_array_enumerate (e :: rest) (A.length + P.length) (lastStart + P.length)
            lastStart A.length ranges st =
          flatten_array_enumerate rest (A.length + P.length + 1)
            (size_add (lastStart + P.length) 1) lastStart A.length ranges st),
        ∀ r ∈ R, r.block_ok l := by
      intro hd hstep
      have hl' : l = A ++ (P ++ [e]) ++ rest := by rw [hl]; simp
      have hP' : A.length = lastStart ∨
          ∃ idx v, (P ++ [e]).head? = some (Initializer.arr idx v) := by
        rcases hP with h | ⟨idx, v, h⟩
        · exact Or.inl h
        · refine Or.inr ⟨idx, v, ?_⟩
          cases P with
          | nil => simp at h
          | cons p P => simpa using h
      have h1' : lastStart = 0 ∨ ∃ x k, (P ++ [e]).head? = some x ∧ x.designator = some k := by
        rcases h1 with h | ⟨x, k, hx, hk⟩
        · exact Or.inl h
        · refine Or.inr ⟨x, k, ?_, hk⟩
          cases P with
          | nil => simp at hx
          | cons p P => simpa using hx
      have h2' : logical_indices_from (lastStart : Int) (P ++ [e])
          = (List.range' lastStart (P ++ [e]).length).map Int.ofNat := by
        rw [logical_indices_from_append, h2, h3, logical_indices_from_cons_none _ _ hd]
        simp only [logical_indices_from, List.length_append, List.length_singleton]
        rw [Nat.add_comm P.length 1, ← List.range'_append lastStart P.length 1 1, List.map_append]
        simp
      have h3' : next_cursor (lastStart : Int) (P ++ [e])
          = ((lastStart + (P ++ [e]).length : Nat) : Int) := by
        rw [next_cursor_append, h3]
        simp only [next_cursor, hd, List.length_append, List.length_singleton]
        push_cast
        omega
      refine ih A (P ++ [e]) lastStart ranges R hl' hrest' hls hP' h1' h2' h3' ?_
      rw [hstep, size_add_eq (by omega)] at hrun
      have e1 : A.length + (P ++ [e]).length = A.length + P.length + 1 := by simp; omega
      have e2 : lastStart + (P ++ [e]).length = lastStart + P.length + 1 := by simp; omega
      rw [e1, e2]
      exact hrun
    rcases is_array_elem_cases he with ⟨x, rfl⟩ | ⟨m, rfl⟩ | ⟨t, k, v, rfl, hk0, hk1⟩
    · exact hpos rfl rfl
    · exact hpos rfl rfl
    · have hkz : fixnum_to_size k = k.toNat := fixnum_to_size_eq hk0 hk1
      have hkn : k.toNat < 2 ^ 63 := by omega
      have hkk : ((k.toNat : Nat) : Int) = k := Int.toNat_of_nonneg hk0
      have hl' : l = (A ++ P) ++ [Initializer.arr (.fixnum t k) v] ++ rest := by rw [hl]; simp
      obtain ⟨R0, hR0, _, _, _⟩ := flatten_array_enumerate_spec l hlen st rest (A ++ P)
        [Initializer.arr (.fixnum t k) v] k.toNat
        (push_range ranges (A.length + P.length) (lastStart + P.length) lastStart A.length)
        hl' hrest' hkn (Or.inr ⟨_, _, rfl⟩)
      have hrun0 := hR0
      rw [push_range_pending ranges A P lastStart (by omega)] at hR0
      simp only [flatten_array_enumerate] at hrun
      rw [hkz, size_add_eq (by omega), push_range_pending ranges A P lastStart (by omega)] at hrun
      simp only [List.length_append, List.length_singleton, List.append_assoc] at hR0 hrun
      rw [hR0] at hrun
      injection hrun with hrun _
      have hR : pending_range lastStart A.length P.length ++ R0 = R :=
        List.append_cancel_left hrun
      have hblk0 := ih (A ++ P) [Initializer.arr (.fixnum t k) v] k.toNat
        (push_range ranges (A.length + P.length) (lastStart + P.length) lastStart A.length) R0
        hl' hrest' hkn (Or.inr ⟨_, _, rfl⟩) (Or.inr ⟨_, k, rfl, rfl⟩)
        (by simp [logical_indices_from, Initializer.designator, hkk])
        (by simp [next_cursor, Initializer.designator, hkk]) hrun0
      intro r hr
      rw [← hR] at hr
      rcases List.mem_append.mp hr with h | h
      · exact pending_block_ok hl lastStart h1 h2 h3 r h
      · exact hblk0 r h

theorem flatten_array_blocks (l : List Initializer) (st : ParseState)
    (hl : ∀ e ∈ l, is_array_elem e = true) (hlen : l.length < 2 ^ 63) :
    ∃ S : List DesigRange,
      (∀ r ∈ S, r.block_ok l ∧ 0 < r.count) ∧
      flatten_array_initializer (.multi l) st =
        if ranges_disjoint 0 S then .ok (.multi (S.flatMap (DesigRange.block l))) st
        else parse_error st "Initializer for array overlapped" := by
  obtain ⟨pre, suf, hsplit, hpre, hsuf, hscan⟩ := flatten_array_scan_spec l st hl 0
  have hpre2 : logical_indices_from ((0 : Nat) : Int) pre
      = (List.range' 0 pre.length).map Int.ofNat := by
    have := logical_indices_from_positional pre 0 [] hpre
    simpa [logical_indices_from] using this
  have hpre3 : next_cursor ((0 : Nat) : Int) pre = ((0 + pre.length : Nat) : Int) := by
    rw [next_cursor_positional pre _ hpre]
    push_cast
    rfl
  rcases hsuf with hnil | ⟨idx, v, s, hsuf⟩
  · subst hnil
    have hpl : pre = l := by rw [hsplit]; simp
    subst hpl
    have hl0 : pre = [] ++ pre ++ [] := by simp
    obtain ⟨h1, _, h3⟩ := @pending_props pre [] pre [] hl0 0 (by norm_num) (Or.inl rfl)
    refine ⟨pending_range 0 ([] : List Initializer).length pre.length, ?_, ?_⟩
    · intro r hr
      exact ⟨pending_block_ok hl0 0 (Or.inl rfl) hpre2 hpre3 r hr, (h3 r hr).1⟩
    · have hd : ranges_disjoint 0 (pending_range 0 ([] : List Initializer).length pre.length)
          = true := by
        unfold pending_range
        split_ifs <;> simp [ranges_disjoint]
      rw [if_pos hd, h1]
      simp only [flatten_array_initializer, hscan]
      simp
  · have hsufm : ∀ e ∈ suf, is_array_elem e = true := by
      intro e he
      exact hl e (by rw [hsplit]; exact List.mem_append_right _ he)
    have hl0 : l = [] ++ pre ++ suf := by simpa using hsplit
    obtain ⟨R, hR, _, _, hp⟩ := flatten_array_enumerate_spec l hlen st suf [] pre 0 []
      hl0 hsufm (by norm_num) (Or.inl rfl)
    have hblk := flatten_array_enumerate_blocks l hlen st suf [] pre 0 [] R hl0 hsufm
      (by norm_num) (Or.inl rfl) (Or.inl rfl) hpre2 hpre3 hR
    have hperm := myqsort_perm compare_desig_start R
    have hS : ∀ r ∈ myqsort compare_desig_start R,
        0 < r.count ∧ r.start < 2 ^ 63 ∧ r.index + r.count ≤ l.length ∧ r.head_ok l :=
      fun r hr => hp r (hperm.mem_iff.mp hr)
    refine ⟨myqsort compare_desig_start R,
      fun r hr => ⟨hblk r (hperm.mem_iff.mp hr), (hS r hr).1⟩, ?_⟩
    have hre := flatten_array_reorder_spec l hlen st (myqsort compare_desig_start R) none [] hS
      (by intro q hq; cases hq)
    have hlt : ¬ (pre.length ≥ l.length) := by
      rw [hsplit, hsuf]; simp
    have hdrop : l.drop pre.length = suf := by rw [hsplit]; simp
    simp only [List.length_nil, Nat.zero_add, List.nil_append] at hR
    simp only [flatten_array_initializer, hscan, Nat.zero_add, hlt, if_false, hdrop, hR, hre]
    split_ifs <;> simp [parse_error]

theorem blocks_logical_indices (l : List Initializer) (S : List DesigRange) :
    ∀ (lo : Nat) (c : Int), ranges_disjoint lo S = true →
      (∀ r ∈ S, r.block_ok l ∧ 0 < r.count) →
      (∀ p, S.head? = some p → p.start = 0 → c = 0) →
      logical_indices_from c (S.flatMap (DesigRange.block l)) = S.flatMap DesigRange.indices := by
  induction S with
  | nil => intro lo c _ _ _; simp [logical_indices_from]
  | cons p S ih =>
    intro lo c hd hS hc
    simp only [ranges_disjoint, Bool.and_eq_true, decide_eq_true_eq] at hd
    obtain ⟨⟨hhead, hidx, hnext⟩, hcount⟩ := hS p (List.mem_cons_self _ _)
    have hcur : logical_indices_from c (p.block l) = p.indices ∧
        next_cursor c (p.block l) = ((p.start + p.count : Nat) : Int) := by
      rcases hhead with h0 | hdes
      · have hc0 := hc p rfl h0
        have hz : (p.start : Int) = 0 := by rw [h0]; rfl
        rw [hc0]
        rw [hz] at hidx hnext
        exact ⟨hidx, hnext⟩
      · obtain ⟨e1, e2⟩ := head_designated_cursor (p.block l) c (p.start : Int) hdes
        exact ⟨e1.trans hidx, e2.trans hnext⟩
    rw [List.flatMap_cons, List.flatMap_cons, logical_indices_from_append, hcur.1, hcur.2]
    congr 1
    refine ih (p.start + p.count) _ hd.2 (fun r hr => hS r (List.mem_cons_of_mem _ hr)) ?_
    intro q hq hq0
    exfalso
    cases S with
    | nil => simp at hq
    | cons q' S' =>
      simp only [List.head?_cons, Option.some.injEq] at hq
      subst hq
      have := hd.2
      simp only [ranges_disjoint, Bool.and_eq_true, decide_eq_true_eq] at this
      omega

theorem block_subset (l : List Initializer) (r : DesigRange) :
    ∀ e ∈ r.block l, e ∈ l := by
  intro e he
  exact List.mem_of_mem_drop (List.mem_of_mem_take he)

theorem sorted_perm_unique (t u : List (Int × Initializer)) (hp : t.Perm u)
    (ht : (t.map Prod.fst).Pairwise (· < ·)) (hu : (u.map Prod.fst).Pairwise (· < ·)) :
    t = u := by
  have ht2 : t.Pairwise (fun a b => a.1 < b.1) := List.pairwise_map.mp ht
  have hu2 : u.Pairwise (fun a b => a.1 < b.1) := List.pairwise_map.mp hu
  haveI : IsAntisymm (Int × Initializer) (fun a b => a.1 < b.1) :=
    ⟨fun a b h1 h2 => absurd h1 (by omega)⟩
  exact List.eq_of_perm_of_sorted hp ht2 hu2

theorem flatten_array_fixed (l : List Initializer) (st : ParseState)
    (hl : ∀ e ∈ l, is_array_elem e = true) (hlen : l.length < 2 ^ 63)
    (hasc : (logical_indices l).Pairwise (· < ·)) :
    flatten_array_initializer (.multi l) st = .ok (.multi l) st := by
  obtain ⟨S, hperm, hiperm, hcount, hsorted, hmaps, hres⟩ := flatten_array_core l st hl hlen
  have hd : ranges_disjoint 0 S = true :=
    (ranges_disjoint_iff_nodup S hsorted hcount).mpr (hiperm.nodup_iff.mpr hasc.nodup)
  obtain ⟨hfst, hsnd⟩ := hmaps _ rfl
  have hlen2 : (logical_indices l).length = l.length := logical_indices_from_length l 0
  have heq : S.flatMap (DesigRange.tagged l) = List.zip (logical_indices l) l := by
    apply sorted_perm_unique _ _ hperm
    · rw [hfst]
      exact (ranges_disjoint_ascending S 0 hd).1
    · rw [List.map_fst_zip _ _ (le_of_eq hlen2)]
      exact hasc
  rw [hres, if_pos hd, ← hsnd, heq, List.map_snd_zip _ _ (le_of_eq hlen2.symm)]

theorem flatten_array_scan_positional (l : List Initializer) (st : ParseState) :
    ∀ i : Nat, (∀ e ∈ l, is_array_elem e = true ∧ e.is_arr = false) →
      flatten_array_scan l i st = .ok (i + l.length) st := by
  induction l with
  | nil => intro i _; rfl
  | cons e l ih =>
    intro i h
    obtain ⟨he, hna⟩ := h e (List.mem_cons_self _ _)
    have hrest := ih (i + 1) (fun x hx => h x (List.mem_cons_of_mem _ hx))
    have hlen : i + 1 + l.length = i + (e :: l).length := by simp; omega
    rcases is_array_elem_cases he with ⟨x, rfl⟩ | ⟨m, rfl⟩ | ⟨t, k, v, rfl, _, _⟩
    · simp only [flatten_array_scan, hrest, hlen]
    · simp only [flatten_array_scan, hrest, hlen]
    · simp [Initializer.is_arr] at hna

/-- C33: for an array brace list with constant non-negative designators,
whenever `flatten_array_initializer` succeeds, applying it to its result succeeds
and gives that result again; and a list in which no element is designated is
returned as it is. -/
theorem flatten_array_initializer_idempotent (l : List Initializer) (st : ParseState)
    (hl : ∀ e ∈ l, is_array_elem e = true) (hlen : l.length < 2 ^ 31) :
    (∀ r st1, flatten_array_initializer (.multi l) st = .ok r st1 →
      flatten_array_initializer r st1 = .ok r st1) ∧
    ((∀ e ∈ l, e.is_arr = false) →
      flatten_array_initializer (.multi l) st = .ok (.multi l) st) := by
  constructor
  · intro r st1 hok
    obtain ⟨S, hS, hres⟩ := flatten_array_blocks l st hl (by omega)
    obtain ⟨S0, hperm0, _, _, _, hmaps0, hres0⟩ := flatten_array_core l st hl (by omega)
    rw [hres] at hok
    by_cases hd : ranges_disjoint 0 S = true
    · rw [if_pos hd] at hok
      injection hok with h1 h2
      subst h1 h2
      have hidx := blocks_logical_indices l S 0 0 hd hS (fun _ _ _ => rfl)
      have hasc : (logical_indices (S.flatMap (DesigRange.block l))).Pairwise (· < ·) := by
        unfold logical_indices
        rw [hidx]
        exact (ranges_disjoint_ascending S 0 hd).1
      have hmem : ∀ e ∈ S.flatMap (DesigRange.block l), is_array_elem e = true := by
        intro e he
        obtain ⟨r, _, her⟩ := List.mem_flatMap.mp he
        exact hl e (block_subset l r e her)
      have hlen2 : (S.flatMap (DesigRange.block l)).length = l.length := by
        have hl1 : (S.flatMap (DesigRange.block l)).length
            = (logical_indices (S.flatMap (DesigRange.block l))).length :=
          (logical_indices_from_length _ 0).symm
        have hl2 : (S.flatMap DesigRange.indices).length = (S0.flatMap DesigRange.indices).length := by
          have e0 : Result.ok (Initializer.multi (S.flatMap (DesigRange.block l))) st
              = (if ranges_disjoint 0 S0 then .ok (.multi (S0.flatMap (DesigRange.block l))) st
                else parse_error st "Initializer for array overlapped") := by
            rw [← hres0, hres, if_pos hd]
          by_cases hd0 : ranges_disjoint 0 S0 = true
          · rw [if_pos hd0] at e0
            injection e0 with e1 _
            injection e1 with e2
            have a1 := (logical_indices_from_length (S.flatMap (DesigRange.block l)) 0)
            have a2 := (hmaps0 _ rfl)
            have a3 : (S0.flatMap (DesigRange.block l)).length
                = (S0.flatMap DesigRange.indices).length := by
              rw [← a2.1, ← a2.2]
              simp
            rw [← hidx, a1, e2, a3]
          · rw [if_neg hd0] at e0
            simp [parse_error] at e0
        have hl3 : (S0.flatMap DesigRange.indices).length = l.length := by
          have a2 := (hmaps0 _ rfl)
          have := hperm0.length_eq
          have hli : (logical_indices l).length = l.length := logical_indices_from_length l 0
          rw [← a2.1, List.length_map, this, List.length_zip, hli]
          simp
        unfold logical_indices at hl1
        rw [hl1, hidx, hl2, hl3]
      exact flatten_array_fixed _ st hmem (by omega) hasc
    · rw [if_neg hd] at hok
      simp [parse_error] at hok
  · intro hna
    have hscan := flatten_array_scan_positional l st 0 (fun e he => ⟨hl e he, hna e he⟩)
    simp only [flatten_array_initializer, hscan]
    simp

/-- Witness for claim C33: `{[2]=7, 1, 2, [0]=9}` is flattened, and the result
is flattened to itself. -/
theorem flatten_array_initializer_idempotent_witness :
    ∃ r st1, flatten_array_initializer (.multi desig_example) init_state = .ok r st1 ∧
      flatten_array_initializer r st1 = .ok r st1 := by
  obtain ⟨r, st1, hr⟩ := (Result.returned_iff
    (flatten_array_initializer (.multi desig_example) init_state)).mp (by decide!)
  exact ⟨r, st1, hr, (flatten_array_initializer_idempotent desig_example init_state
    (by simp [desig_example, is_array_elem]) (by decide)).1 r st1 hr⟩

end Xcc
